import Mathlib

/-!
IP Netblocks API client: the request, parse and error pipeline.

A shallow embedding of the Go package `ipnetblocks` (`ipnetblocks.go`, `options.go`,
`models.go`) together with the parts of the Go standard library the package calls
(`encoding/json` decoding into `apiResponse`, `net.IP.String`, `net.IPMask.Size`,
`url.Values`, `time.Parse` with the RFC 3339 layout).

Conventions:
* a Go `string` is a Lean `String`; a Go `[]byte` is a `List UInt8`;
* a Go `int` (64 bit) is an `Int`; where the decoder range-checks it, the bound is explicit;
* a Go pointer that may be nil is an `Option`;
* a Go `error` is an `Option Error` (nil is `none`).
-/

namespace IPNetblocks

/-! ## Bytes and text -/

/-- A Go byte slice. -/
abbrev Bytes := List UInt8

/-- The bytes of a Go string literal (UTF-8). -/
def bytesOf (s : String) : Bytes :=
  s.data.flatMap String.utf8EncodeChar

/-- The rune with the given code point; code points that are not scalar values become
U+FFFD, as Go's `utf8.EncodeRune` does. -/
def runeOf (n : Nat) : Char :=
  if n < 0xD800 ∨ (0xDFFF < n ∧ n < 0x110000) then Char.ofNat n else Char.ofNat 0xFFFD

/-- One lower-case hexadecimal digit. -/
def hexDigit (n : Nat) : Char :=
  if n < 10 then Char.ofNat (48 + n) else Char.ofNat (87 + n)

/-- Two lower-case hexadecimal digits of a byte. -/
def hex2 (n : Nat) : List Char :=
  [hexDigit (n / 16 % 16), hexDigit (n % 16)]

/-- Go's `utf8.DecodeRune` on the head of a byte sequence given as numbers: the rune and
its width; an invalid or short encoding is U+FFFD of width 1. The input is not empty. -/
def decodeRune (p : List Nat) : Nat × Nat :=
  match p with
  | [] => (0xFFFD, 0)
  | p0 :: rest =>
    if p0 < 0x80 then (p0, 1)
    else if p0 < 0xC2 ∨ 0xF4 < p0 then (0xFFFD, 1)
    else
      -- size and the accepted range of the second byte
      let sz : Nat := if p0 < 0xE0 then 2 else if p0 < 0xF0 then 3 else 4
      let lo : Nat := if p0 = 0xE0 then 0xA0 else if p0 = 0xF0 then 0x90 else 0x80
      let hi : Nat := if p0 = 0xED then 0x9F else if p0 = 0xF4 then 0x8F else 0xBF
      match rest with
      | [] => (0xFFFD, 1)
      | b1 :: rest1 =>
        if b1 < lo ∨ hi < b1 then (0xFFFD, 1)
        else if sz = 2 then ((p0 % 32) * 64 + b1 % 64, 2)
        else
          match rest1 with
          | [] => (0xFFFD, 1)
          | b2 :: rest2 =>
            if b2 < 0x80 ∨ 0xBF < b2 then (0xFFFD, 1)
            else if sz = 3 then ((p0 % 16) * 4096 + (b1 % 64) * 64 + b2 % 64, 3)
            else
              match rest2 with
              | [] => (0xFFFD, 1)
              | b3 :: _ =>
                if b3 < 0x80 ∨ 0xBF < b3 then (0xFFFD, 1)
                else ((p0 % 8) * 262144 + (b1 % 64) * 4096 + (b2 % 64) * 64 + b3 % 64, 4)

/-! ## JSON text: the scanner of `encoding/json` -/

/-- A JSON value as the decoder sees it: numbers keep their literal text, strings are
unquoted, object members keep their order (duplicates included). -/
inductive JSON where
  | null : JSON
  | bool (b : Bool) : JSON
  | number (lit : String) : JSON
  | string (s : String) : JSON
  | array (xs : List JSON) : JSON
  | object (ms : List (String × JSON)) : JSON

/-- The errors `json.Decoder.Decode` returns for `apiResponse`. -/
inductive DecodeError where
  /-- `*json.SyntaxError`: "invalid character <c> <context>". -/
  | invalidCharacter (c : Nat) (context : String)
  /-- `io.ErrUnexpectedEOF`: the input ends inside a value. -/
  | unexpectedEOF
  /-- `io.EOF`: the input holds no value at all. -/
  | EOF
  /-- `*json.SyntaxError` of `json.Unmarshal`: "unexpected end of JSON input". -/
  | unexpectedEnd
  /-- `*json.UnmarshalTypeError` with its error context. -/
  | unmarshalType (value : String) (type : String) (struct : String) (field : String)
  /-- `*time.ParseError` from `Time.UnmarshalJSON`; `message` is empty when the error
  names the layout element that did not match. -/
  | timeParse (value : String) (valueElem : String) (layoutElem : String) (message : String)
  deriving DecidableEq

/-- Go's `strconv.Quote` of a one-rune string without the outer quotes, for runes
below U+0100 (the only ones a byte converts to). -/
def quoteRuneBody (c : Nat) : List Char :=
  if c = 7 then ['\\', 'a']
  else if c = 8 then ['\\', 'b']
  else if c = 12 then ['\\', 'f']
  else if c = 10 then ['\\', 'n']
  else if c = 13 then ['\\', 'r']
  else if c = 9 then ['\\', 't']
  else if c = 11 then ['\\', 'v']
  else if c = 92 then ['\\', '\\']
  else if c = 34 then ['\\', '"']
  else if c < 32 ∨ c = 127 then ['\\', 'x'] ++ hex2 c
  else if c < 127 then [Char.ofNat c]
  else if c < 0xA1 ∨ c = 0xAD then ['\\', 'u', '0', '0'] ++ hex2 c
  else [Char.ofNat c]

/-- The scanner's `quoteChar`. -/
def quoteChar (c : Nat) : String :=
  if c = 39 then "'\\''"
  else if c = 34 then "'\"'"
  else String.mk (['\''] ++ quoteRuneBody c ++ ['\''])

/-- The `quote` of package `time`: printable ASCII is kept, the quote and the backslash
are escaped, and every byte of a control or non-ASCII character is written as a
hexadecimal escape. -/
def timeQuote (s : String) : String :=
  String.mk (['"'] ++ s.data.flatMap (fun c =>
    if 0x80 ≤ c.toNat ∨ c.toNat < 0x20 then
      (String.utf8EncodeChar c).flatMap (fun b => ['\\', 'x'] ++ hex2 b.toNat)
    else if c = '"' ∨ c = '\\' then ['\\', c]
    else [c]) ++ ['"'])

/-- The text of a decoding error (`Error()`). -/
def DecodeError.text : DecodeError → String
  | .invalidCharacter c context => "invalid character " ++ quoteChar c ++ " " ++ context
  | .unexpectedEOF => "unexpected EOF"
  | .EOF => "EOF"
  | .unexpectedEnd => "unexpected end of JSON input"
  | .unmarshalType value type struct field =>
    if struct ≠ "" ∨ field ≠ "" then
      "json: cannot unmarshal " ++ value ++ " into Go struct field " ++ struct ++ "." ++ field
        ++ " of type " ++ type
    else "json: cannot unmarshal " ++ value ++ " into Go value of type " ++ type
  | .timeParse value valueElem layoutElem message =>
    if message = "" then
      "parsing time " ++ timeQuote value ++ " as " ++ timeQuote "2006-01-02T15:04:05Z07:00"
        ++ ": cannot parse " ++ timeQuote valueElem ++ " as " ++ timeQuote layoutElem
    else "parsing time " ++ timeQuote value ++ message

/-- The step functions of the scanner (`stateBeginValue`, `stateInString`, ...). -/
inductive ScanState where
  | beginValue | beginValueOrEmpty | beginStringOrEmpty | beginString | endValue
  | inString | inStringEsc | inStringEscU (seen : Nat)
  | neg | digits1 | digit0 | dot | dot0 | exp | expSign | exp0
  | lit (rest : List Nat) (expecting : String) (value : JSON)
  deriving Inhabited

/-- One entry of the scanner's `parseState` stack, with the part of the composite value
read so far (latest first). -/
inductive Frame where
  /-- `parseObjectKey`: inside an object, a key is being read or was just read. -/
  | objectKey (ms : List (String × JSON)) (key : String) : Frame
  /-- `parseObjectValue`: inside an object, after the colon of `key`. -/
  | objectValue (ms : List (String × JSON)) (key : String) : Frame
  /-- `parseArrayValue`: inside an array. -/
  | arrayValue (xs : List JSON) : Frame

/-- The scanner's `maxNestingDepth`. -/
def maxNestingDepth : Nat := 10000

def isSpace (c : Nat) : Bool :=
  c = 32 ∨ c = 9 ∨ c = 13 ∨ c = 10

def isDigitByte (c : Nat) : Bool :=
  48 ≤ c ∧ c ≤ 57

def isHexByte (c : Nat) : Bool :=
  (48 ≤ c ∧ c ≤ 57) ∨ (97 ≤ c ∧ c ≤ 102) ∨ (65 ≤ c ∧ c ≤ 70)

def hexVal (c : Nat) : Nat :=
  if c ≤ 57 then c - 48 else if 97 ≤ c then c - 87 else c - 55

/-- The value of the four hexadecimal digits after a backslash-u, if `s` starts with such
an escape (`getu4`). -/
def getu4 (s : List Nat) : Option Nat :=
  match s with
  | 92 :: 117 :: a :: b :: c :: d :: _ =>
    if isHexByte a ∧ isHexByte b ∧ isHexByte c ∧ isHexByte d then
      some (hexVal a * 4096 + hexVal b * 256 + hexVal c * 16 + hexVal d)
    else none
  | _ => none

/-- The decoder's `unquote` on the bytes between the two quotes of a string literal the
scanner accepted: escapes are replaced, invalid UTF-8 and lone surrogates become U+FFFD.
The fuel is the number of bytes. -/
def unquoteAux : Nat → List Nat → List Char
  | 0, _ => []
  | _, [] => []
  | fuel + 1, c :: rest =>
    if c = 92 then
      match rest with
      | [] => []
      | 117 :: _ =>
        match getu4 (c :: rest) with
        | none => []
        | some rr =>
          let after := rest.drop 5
          if 0xD800 ≤ rr ∧ rr < 0xE000 then
            match getu4 after with
            | some rr1 =>
              if rr < 0xDC00 ∧ 0xDC00 ≤ rr1 ∧ rr1 < 0xE000 then
                runeOf ((rr - 0xD800) * 1024 + (rr1 - 0xDC00) + 0x10000)
                  :: unquoteAux fuel (after.drop 6)
              else runeOf 0xFFFD :: unquoteAux fuel after
            | none => runeOf 0xFFFD :: unquoteAux fuel after
          else runeOf rr :: unquoteAux fuel after
      | e :: rest1 =>
        let ch : Nat :=
          if e = 98 then 8 else if e = 102 then 12 else if e = 110 then 10
          else if e = 114 then 13 else if e = 116 then 9 else e
        runeOf ch :: unquoteAux fuel rest1
    else if c < 0x80 then runeOf c :: unquoteAux fuel rest
    else
      let r := decodeRune (c :: rest)
      runeOf r.1 :: unquoteAux fuel (rest.drop (r.2 - 1))

def unquote (body : List Nat) : String :=
  String.mk (unquoteAux body.length body)

/-- The text of a number literal. -/
def literalText (bs : List Nat) : String :=
  String.mk (bs.map Char.ofNat)

/-- What the scanner does with one byte. -/
inductive Step where
  /-- Keep scanning. -/
  | next (st : ScanState) (stack : List Frame) (tok : List Nat)
  /-- The top-level value is complete. -/
  | done (v : JSON)
  /-- `scanError`. -/
  | fail (e : DecodeError)

/-- A complete value `v` has been read (`stateEndValue` is the next step): hand it to the
enclosing composite value, or finish at the top level. -/
def endOfValue (v : JSON) (stack : List Frame) : Step :=
  match stack with
  | [] => .done v
  | .objectKey ms _ :: up =>
    match v with
    | .string k => .next .endValue (.objectKey ms k :: up) []
    | _ => .next .endValue (.objectKey ms "" :: up) []
  | .objectValue ms key :: up => .next .endValue (.objectValue ((key, v) :: ms) key :: up) []
  | .arrayValue xs :: up => .next .endValue (.arrayValue (v :: xs) :: up) []

/-- The scanner's `pushParseState`. -/
def pushParseState (c : Nat) (stack : List Frame) (f : Frame) (st : ScanState) : Step :=
  if (f :: stack).length ≤ maxNestingDepth then .next st (f :: stack) []
  else .fail (.invalidCharacter c "exceeded max depth")

/-- The scanner's `stateBeginValue`. -/
def stateBeginValue (c : Nat) (stack : List Frame) : Step :=
  if isSpace c then .next .beginValue stack []
  else if c = 123 then pushParseState c stack (.objectKey [] "") .beginStringOrEmpty
  else if c = 91 then pushParseState c stack (.arrayValue []) .beginValueOrEmpty
  else if c = 34 then .next .inString stack []
  else if c = 45 then .next .neg stack [c]
  else if c = 48 then .next .digit0 stack [c]
  else if c = 116 then .next (.lit [114, 117, 101] "in literal true (expecting " (.bool true)) stack []
  else if c = 102 then
    .next (.lit [97, 108, 115, 101] "in literal false (expecting " (.bool false)) stack []
  else if c = 110 then .next (.lit [117, 108, 108] "in literal null (expecting " .null) stack []
  else if 49 ≤ c ∧ c ≤ 57 then .next .digits1 stack [c]
  else .fail (.invalidCharacter c "looking for beginning of value")

/-- The scanner's `stateBeginString`. -/
def stateBeginString (c : Nat) (stack : List Frame) : Step :=
  if isSpace c then .next .beginString stack []
  else if c = 34 then .next .inString stack []
  else .fail (.invalidCharacter c "looking for beginning of object key string")

/-- The scanner's `stateEndValue`, on a byte that follows a complete value inside a
composite value (the stack is not empty). -/
def stateEndValue (c : Nat) (stack : List Frame) : Step :=
  if isSpace c then .next .endValue stack []
  else
    match stack with
    | [] => .fail (.invalidCharacter c "after top-level value")
    | .objectKey ms key :: up =>
      if c = 58 then .next .beginValue (.objectValue ms key :: up) []
      else .fail (.invalidCharacter c "after object key")
    | .objectValue ms key :: up =>
      if c = 44 then .next .beginString (.objectKey ms key :: up) []
      else if c = 125 then endOfValue (.object ms.reverse) up
      else .fail (.invalidCharacter c "after object key:value pair")
    | .arrayValue xs :: up =>
      if c = 44 then .next .beginValue (.arrayValue xs :: up) []
      else if c = 93 then endOfValue (.array xs.reverse) up
      else .fail (.invalidCharacter c "after array element")

/-- A number literal ends before the byte `c`: the value is handed over, then `c` is
read by `stateEndValue`. At the top level the value is complete and `c` is left unread. -/
def endNumber (c : Nat) (stack : List Frame) (tok : List Nat) : Step :=
  match endOfValue (.number (literalText tok.reverse)) stack with
  | .next _ stack1 _ => stateEndValue c stack1
  | other => other

/-- One step of the scanner on the byte `c`. -/
def step (st : ScanState) (stack : List Frame) (tok : List Nat) (c : Nat) : Step :=
  match st with
  | .beginValue => stateBeginValue c stack
  | .beginValueOrEmpty =>
    if isSpace c then .next .beginValueOrEmpty stack []
    else if c = 93 then
      match stack with
      | .arrayValue xs :: up => endOfValue (.array xs.reverse) up
      | _ => stateEndValue c stack
    else stateBeginValue c stack
  | .beginStringOrEmpty =>
    if isSpace c then .next .beginStringOrEmpty stack []
    else if c = 125 then
      match stack with
      | .objectKey ms _ :: up => endOfValue (.object ms.reverse) up
      | _ => stateEndValue c stack
    else stateBeginString c stack
  | .beginString => stateBeginString c stack
  | .endValue => stateEndValue c stack
  | .inString =>
    if c = 34 then endOfValue (.string (unquote tok.reverse)) stack
    else if c = 92 then .next .inStringEsc stack (c :: tok)
    else if c < 32 then .fail (.invalidCharacter c "in string literal")
    else .next .inString stack (c :: tok)
  | .inStringEsc =>
    if c = 98 ∨ c = 102 ∨ c = 110 ∨ c = 114 ∨ c = 116 ∨ c = 92 ∨ c = 47 ∨ c = 34 then
      .next .inString stack (c :: tok)
    else if c = 117 then .next (.inStringEscU 0) stack (c :: tok)
    else .fail (.invalidCharacter c "in string escape code")
  | .inStringEscU seen =>
    if isHexByte c then
      if seen < 3 then .next (.inStringEscU (seen + 1)) stack (c :: tok)
      else .next .inString stack (c :: tok)
    else .fail (.invalidCharacter c "in \\u hexadecimal character escape")
  | .neg =>
    if c = 48 then .next .digit0 stack (c :: tok)
    else if 49 ≤ c ∧ c ≤ 57 then .next .digits1 stack (c :: tok)
    else .fail (.invalidCharacter c "in numeric literal")
  | .digits1 =>
    if isDigitByte c then .next .digits1 stack (c :: tok)
    else if c = 46 then .next .dot stack (c :: tok)
    else if c = 101 ∨ c = 69 then .next .exp stack (c :: tok)
    else endNumber c stack tok
  | .digit0 =>
    if c = 46 then .next .dot stack (c :: tok)
    else if c = 101 ∨ c = 69 then .next .exp stack (c :: tok)
    else endNumber c stack tok
  | .dot =>
    if isDigitByte c then .next .dot0 stack (c :: tok)
    else .fail (.invalidCharacter c "after decimal point in numeric literal")
  | .dot0 =>
    if isDigitByte c then .next .dot0 stack (c :: tok)
    else if c = 101 ∨ c = 69 then .next .exp stack (c :: tok)
    else endNumber c stack tok
  | .exp =>
    if c = 43 ∨ c = 45 then .next .expSign stack (c :: tok)
    else if isDigitByte c then .next .exp0 stack (c :: tok)
    else .fail (.invalidCharacter c "in exponent of numeric literal")
  | .expSign =>
    if isDigitByte c then .next .exp0 stack (c :: tok)
    else .fail (.invalidCharacter c "in exponent of numeric literal")
  | .exp0 =>
    if isDigitByte c then .next .exp0 stack (c :: tok)
    else endNumber c stack tok
  | .lit rest expecting value =>
    match rest with
    | [] => endOfValue value stack
    | [r] =>
      if c = r then endOfValue value stack
      else .fail (.invalidCharacter c (expecting ++ quoteChar r ++ ")"))
    | r :: more =>
      if c = r then .next (.lit more expecting value) stack []
      else .fail (.invalidCharacter c (expecting ++ quoteChar r ++ ")"))

/-- The decoder's `readValue` followed by the value it delimits: the scanner is run over
the input until the first value is complete; what follows that value is not read.
At the end of the input a number at the top level is complete; any other unfinished value
is `unexpected EOF`, and an input of white space only is `EOF`. -/
def readValue (st : ScanState) (stack : List Frame) (tok : List Nat) :
    List Nat → Except DecodeError JSON
  | [] =>
    match st, stack with
    | .beginValue, [] => .error .EOF
    | .digits1, [] => .ok (.number (literalText tok.reverse))
    | .digit0, [] => .ok (.number (literalText tok.reverse))
    | .dot0, [] => .ok (.number (literalText tok.reverse))
    | .exp0, [] => .ok (.number (literalText tok.reverse))
    | _, _ => .error .unexpectedEOF
  | c :: rest =>
    match step st stack tok c with
    | .next st1 stack1 tok1 => readValue st1 stack1 tok1 rest
    | .done v => .ok v
    | .fail e => .error e

/-- The first JSON value of a body. -/
def scanBody (raw : Bytes) : Except DecodeError JSON :=
  readValue .beginValue [] [] (raw.map UInt8.toNat)

/-! ## Time: `time.Parse` with the layout `time.RFC3339` -/

/-- The location of a `time.Time`: `UTC` is the nil location of the zero Time; `zone` is
any other location (the local zone or a fixed zone) with its offset in seconds east of
UTC. -/
inductive Location where
  | UTC
  | zone (offset : Int)
  deriving DecidableEq

/-- The wrapper `Time` on `time.Time`: the seconds elapsed since January 1, year 1,
00:00:00 UTC, the nanoseconds within the second, and the location. -/
structure Time where
  sec : Int
  nsec : Nat
  loc : Location
  deriving DecidableEq

/-- The zero Time (`var emptyTime Time`). -/
def emptyTime : Time := ⟨0, 0, .UTC⟩

def isLeap (year : Nat) : Bool :=
  year % 4 = 0 ∧ (year % 100 ≠ 0 ∨ year % 400 = 0)

/-- The `daysIn` of package `time`. -/
def daysIn (month year : Nat) : Nat :=
  if month = 2 then (if isLeap year then 29 else 28)
  else if month = 4 ∨ month = 6 ∨ month = 9 ∨ month = 11 then 30
  else 31

/-- Days from January 1 of year 1 to January 1 of `year` (negative for year 0). -/
def daysBeforeYear (year : Nat) : Int :=
  if year = 0 then -366
  else
    let y := year - 1
    ((365 * y + y / 4 - y / 100 + y / 400 : Nat) : Int)

/-- Days from January 1 to the first day of `month` in `year`. -/
def daysBeforeMonth (month year : Nat) : Nat :=
  ((List.range (month - 1)).map (fun m => daysIn (m + 1) year)).sum

/-- The seconds since January 1, year 1, 00:00:00 UTC of a civil date and clock time
given in UTC (`time.Date` on values that are in range). -/
def dateSeconds (year month day hour min sec : Nat) : Int :=
  (daysBeforeYear year + ((daysBeforeMonth month year + (day - 1) : Nat) : Int)) * 86400
    + ((hour * 3600 + min * 60 + sec : Nat) : Int)

def isDigitChar (c : Char) : Bool :=
  48 ≤ c.toNat ∧ c.toNat ≤ 57

/-- The `isDigit(s, i)` of package `time`. -/
def isDigitAt (s : List Char) (i : Nat) : Bool :=
  match s.get? i with
  | some c => isDigitChar c
  | none => false

def digitVal (c : Char) : Nat := c.toNat - 48

/-- The `getnum` of package `time`: one or two digits (two when `fixed`); `none` is
`errBad`. -/
def getnum (s : List Char) (fixed : Bool) : Option (Nat × List Char) :=
  match s with
  | a :: rest =>
    if isDigitChar a then
      match rest with
      | b :: rest1 =>
        if isDigitChar b then some (digitVal a * 10 + digitVal b, rest1)
        else if fixed then none else some (digitVal a, rest)
      | [] => if fixed then none else some (digitVal a, rest)
    else none
  | [] => none

/-- The value of a run of decimal digits. -/
def digitsVal (ds : List Char) : Nat :=
  ds.foldl (fun n c => n * 10 + digitVal c) 0

/-- The `skip` of `time.Parse` for a one-character layout text. -/
def skipChar (value : List Char) (c : Char) : Option (List Char) :=
  match value with
  | a :: rest => if a = c then some rest else none
  | [] => none

/-- The `parseNanoseconds` of package `time` on a separator followed by `digits`: at most
nine digits count, scaled to nanoseconds. -/
def parseNanoseconds (digits : List Char) : Nat :=
  let ds := digits.take 9
  digitsVal ds * 10 ^ (9 - ds.length)

/-- The date and clock fields read by `time.Parse`. -/
structure Fields where
  year : Nat
  month : Nat
  day : Nat
  hour : Nat
  min : Nat
  sec : Nat
  nsec : Nat

/-- The part of `time.Parse(time.RFC3339, str)` that reads the time zone `Z07:00` and
what follows, and builds the time. -/
def parseZone (str : String) (f : Fields) (value : List Char) : Except DecodeError Time :=
  let bad (elem : String) (at_ : List Char) : DecodeError :=
    .timeParse str (String.mk at_) elem ""
  let range (what : String) (at_ : List Char) : DecodeError :=
    .timeParse str (String.mk at_) "Z07:00" (": " ++ what ++ " out of range")
  let finish (rest : List Char) (loc : Location) (offset : Int) : Except DecodeError Time :=
    if rest ≠ [] then
      .error (.timeParse str (String.mk rest) "" (": extra text: " ++ timeQuote (String.mk rest)))
    else if f.day < 1 ∨ daysIn f.month f.year < f.day then
      .error (.timeParse str (String.mk rest) "" ": day out of range")
    else
      .ok ⟨dateSeconds f.year f.month f.day f.hour f.min f.sec - offset, f.nsec, loc⟩
  match value with
  | 'Z' :: rest => finish rest .UTC 0
  | _ =>
    if value.length < 6 then .error (bad "Z07:00" value)
    else if value.get? 3 ≠ some ':' then .error (bad "Z07:00" value)
    else
      let sign := value.get? 0
      let rest := value.drop 6
      match getnum ((value.drop 1).take 2) true with
      | none => .error (bad "Z07:00" value)
      | some (hr, _) =>
        match getnum ((value.drop 4).take 2) true with
        | none =>
          if 24 < hr then .error (range "time zone offset hour" rest)
          else .error (bad "Z07:00" value)
        | some (mm, _) =>
          if 60 < mm then .error (range "time zone offset minute" rest)
          else if 24 < hr then .error (range "time zone offset hour" rest)
          else
            let offset : Int := (((hr * 60 + mm) * 60 : Nat) : Int)
            if sign = some '+' then finish rest (.zone offset) offset
            else if sign = some '-' then finish rest (.zone (-offset)) (-offset)
            else .error (bad "Z07:00" value)

/-- The part of `time.Parse(time.RFC3339, str)` after the year: `-01-02T15:04:05` with an
optional fractional second, then the zone. -/
def parseAfterYear (str : String) (year : Nat) (value : List Char) : Except DecodeError Time :=
  let bad (elem : String) (at_ : List Char) : DecodeError :=
    .timeParse str (String.mk at_) elem ""
  let range (elem what : String) (at_ : List Char) : DecodeError :=
    .timeParse str (String.mk at_) elem (": " ++ what ++ " out of range")
  match skipChar value '-' with
  | none => .error (bad "-" value)
  | some v1 =>
  match getnum v1 true with
  | none => .error (bad "01" v1)
  | some (month, v2) =>
  if month = 0 ∨ 12 < month then .error (range "01" "month" v2) else
  match skipChar v2 '-' with
  | none => .error (bad "-" v2)
  | some v3 =>
  match getnum v3 true with
  | none => .error (bad "02" v3)
  | some (day, v4) =>
  match skipChar v4 'T' with
  | none => .error (bad "T" v4)
  | some v5 =>
  match getnum v5 false with
  | none => .error (bad "15" v5)
  | some (hour, v6) =>
  if 24 ≤ hour then .error (range "15" "hour" v6) else
  match skipChar v6 ':' with
  | none => .error (bad ":" v6)
  | some v7 =>
  match getnum v7 true with
  | none => .error (bad "04" v7)
  | some (min, v8) =>
  if 60 ≤ min then .error (range "04" "minute" v8) else
  match skipChar v8 ':' with
  | none => .error (bad ":" v8)
  | some v9 =>
  match getnum v9 true with
  | none => .error (bad "05" v9)
  | some (sec, v10) =>
  if 60 ≤ sec then .error (range "05" "second" v10) else
  match v10 with
  | sep :: d :: more =>
    if (sep = '.' ∨ sep = ',') ∧ isDigitChar d then
      let digits := d :: more.takeWhile isDigitChar
      parseZone str ⟨year, month, day, hour, min, sec, parseNanoseconds digits⟩
        (more.dropWhile isDigitChar)
    else parseZone str ⟨year, month, day, hour, min, sec, 0⟩ v10
  | _ => parseZone str ⟨year, month, day, hour, min, sec, 0⟩ v10

/-- Go's `time.Parse(time.RFC3339, str)`. -/
def timeParseRFC3339 (str : String) : Except DecodeError Time :=
  let value := str.data
  if value.length < 4 ∨ ¬ isDigitAt value 0 then
    .error (.timeParse str str "2006" "")
  else if ¬ (value.take 4).all isDigitChar then
    .error (.timeParse str str "2006" "")
  else parseAfterYear str (digitsVal (value.take 4)) (value.drop 4)

/-! ## The models of `models.go` -/

/-- A Go `float64` that was decoded from JSON, kept as the number literal it was parsed
from (the value is the float64 nearest to that number); the zero value is `0`. -/
structure Float64 where
  lit : String
  deriving DecidableEq

/-- AS is the related autonomous system's data. -/
structure AS where
  ASN : Int
  Name : String
  Type_ : String
  Route : String
  Domain : String
  deriving DecidableEq

/-- Contact is the contact data. -/
structure Contact where
  ID : String
  Person : String
  Role : String
  Email : String
  Phone : String
  Country : String
  City : String
  Address : List String
  deriving DecidableEq

/-- Organization is the organization data. -/
structure Organization where
  Org : String
  Name : String
  Phone : String
  Email : String
  Country : String
  City : String
  PostalCode : String
  Address : List String
  deriving DecidableEq

/-- Maintainer is the maintainer data. -/
structure Maintainer where
  Mntner : String
  Email : String
  deriving DecidableEq

/-- Inetnum is the part of the response that holds the netblock data. -/
structure Inetnum where
  Inetnum : String
  InetnumFirst : Float64
  InetnumLast : Float64
  InetnumFirstString : String
  InetnumLastString : String
  Parent : String
  AS : AS
  Netname : String
  Nethandle : String
  Description : List String
  Modified : Time
  Country : String
  City : String
  Address : List String
  AbuseContact : List Contact
  AdminContact : List Contact
  TechContact : List Contact
  Org : Organization
  MntBy : List Maintainer
  MntDomains : List Maintainer
  MntLower : List Maintainer
  MntRoutes : List Maintainer
  Remarks : List String
  Source : String
  deriving DecidableEq

/-- Result is a part of the response. -/
structure Result where
  Count : Int
  Limit : Int
  From : Option String
  Next : Option String
  Inetnums : List Inetnum
  deriving DecidableEq

/-- IPNetblocksResponse is a response of IP Netblocks API. -/
structure IPNetblocksResponse where
  Search : String
  Result : Result
  Error : String
  deriving DecidableEq

/-- ErrorMessage is an error message. -/
structure ErrorMessage where
  Code : Int
  Message : String
  deriving DecidableEq

/-- The struct `apiResponse` of `ipnetblocks.go`, which embeds both models. -/
structure apiResponse where
  IPNetblocksResponse : IPNetblocksResponse
  ErrorMessage : ErrorMessage
  deriving DecidableEq

/-! The zero values. -/

def Float64.zero : Float64 := ⟨"0"⟩
def AS.zero : AS := ⟨0, "", "", "", ""⟩
def Contact.zero : Contact := ⟨"", "", "", "", "", "", "", []⟩
def Organization.zero : Organization := ⟨"", "", "", "", "", "", "", []⟩
def Maintainer.zero : Maintainer := ⟨"", ""⟩
def Inetnum.zero : IPNetblocks.Inetnum :=
  ⟨"", Float64.zero, Float64.zero, "", "", "", AS.zero, "", "", [], emptyTime, "", "", [], [], [],
    [], Organization.zero, [], [], [], [], [], ""⟩
def Result.zero : Result := ⟨0, 0, none, none, []⟩
def IPNetblocksResponse.zero : IPNetblocksResponse := ⟨"", Result.zero, ""⟩
def ErrorMessage.zero : ErrorMessage := ⟨0, ""⟩
def apiResponse.zero : apiResponse := ⟨IPNetblocksResponse.zero, ErrorMessage.zero⟩

/-! ## Decoding a JSON value into the models (`decodeState` of `encoding/json`) -/

/-- The decoder's `savedError`: the first type mismatch met; decoding goes on after it. -/
abbrev Saved := Option DecodeError

/-- The outcome of decoding into a value: an error that stops the decoder at once (one
returned by `Time.UnmarshalJSON`), or the value with the saved error. -/
abbrev Dec (α : Type) := Except DecodeError (α × Saved)

/-- The decoder's `errorContext`: the struct being decoded and the stack of field names. -/
structure Ctx where
  struct : String
  fields : List String

def Ctx.top : Ctx := ⟨"", []⟩

/-- The context inside the field `name` of the struct type `struct`. -/
def Ctx.field (ctx : Ctx) (struct name : String) : Ctx :=
  ⟨struct, ctx.fields ++ [name]⟩

/-- An `UnmarshalTypeError` in the context `ctx` (`addErrorContext`). -/
def Ctx.typeError (ctx : Ctx) (value type : String) : DecodeError :=
  .unmarshalType value type ctx.struct (".".intercalate ctx.fields)

/-- The decoder's `saveError`: only the first error is kept. -/
def save (s : Saved) (e : DecodeError) : Saved :=
  match s with
  | none => some e
  | some e0 => some e0

/-- The `Value` of an `UnmarshalTypeError` for a JSON value of the wrong kind. -/
def kindName : JSON → String
  | .null => "null"
  | .bool _ => "bool"
  | .number _ => "number"
  | .string _ => "string"
  | .array _ => "array"
  | .object _ => "object"

/-- The fold of one rune for the case-insensitive match of an object key with a field
name made of ASCII letters: lower case letters, the long s and the Kelvin sign fold to
the upper case letter. -/
def foldRune (c : Char) : Char :=
  if 97 ≤ c.toNat ∧ c.toNat ≤ 122 then Char.ofNat (c.toNat - 32)
  else if c.toNat = 0x17F then 'S'
  else if c.toNat = 0x212A then 'K'
  else c

def foldName (s : String) : String := String.mk (s.data.map foldRune)

/-- The field an object key selects: the field with exactly that name, or else the first
one that matches case-insensitively. -/
def lookupField (names : List String) (key : String) : Option String :=
  match names.find? (fun n => n = key) with
  | some n => some n
  | none => names.find? (fun n => foldName n = foldName key)

/-- Decoding into a Go `string`. -/
def decodeString (ctx : Ctx) (j : JSON) (cur : String) (s : Saved) : Dec String :=
  match j with
  | .null => .ok (cur, s)
  | .string v => .ok (v, s)
  | other => .ok (cur, save s (ctx.typeError (kindName other) "string"))

/-- Decoding into a Go `*string`: null makes the pointer nil. -/
def decodeStringPtr (ctx : Ctx) (j : JSON) (cur : Option String) (s : Saved) :
    Dec (Option String) :=
  match j with
  | .null => .ok (none, s)
  | .string v => .ok (some v, s)
  | other => .ok (some (cur.getD ""), save s (ctx.typeError (kindName other) "string"))

/-- `strconv.ParseInt(lit, 10, 64)` on a JSON number literal: the literal must be an
optional minus sign and digits, and the value must fit in 64 bits. -/
def parseInt64 (lit : String) : Option Int :=
  let digits := match lit.data with
    | '-' :: ds => ds
    | ds => ds
  if digits ≠ [] ∧ digits.all isDigitChar then
    let n : Int := match lit.data with
      | '-' :: _ => -((digitsVal digits : Nat) : Int)
      | _ => ((digitsVal digits : Nat) : Int)
    if -9223372036854775808 ≤ n ∧ n ≤ 9223372036854775807 then some n else none
  else none

/-- Decoding into a Go `int`. -/
def decodeInt (ctx : Ctx) (j : JSON) (cur : Int) (s : Saved) : Dec Int :=
  match j with
  | .null => .ok (cur, s)
  | .number lit =>
    match parseInt64 lit with
    | some n => .ok (n, s)
    | none => .ok (cur, save s (ctx.typeError ("number " ++ lit) "int"))
  | other => .ok (cur, save s (ctx.typeError (kindName other) "int"))

/-- The exponent part of a number literal: the characters after `e` or `E`. -/
def exponentVal (cs : List Char) : Int :=
  match cs with
  | '-' :: ds => -((digitsVal ds : Nat) : Int)
  | '+' :: ds => ((digitsVal ds : Nat) : Int)
  | ds => ((digitsVal ds : Nat) : Int)

/-- The least magnitude that rounds to infinity as a `float64`: `2^1024 - 2^970`. -/
def float64Limit : Nat :=
  179769313486231580793728971405303415079934132710037826936173778980444968292764750946649017977587207096330286416692887910946555547851940402630657488671505820681908902000708383676273854845817711531764475730270069855571366959622842914819860834936475292719074168444365510704342711559699508093042880177904174497792

/-- Whether the number a JSON literal writes is too large for a `float64`: its magnitude
rounds to infinity, that is, it is at least `2^1024 - 2^970`. -/
def overflowsFloat64 (lit : String) : Bool :=
  let body := match lit.data with
    | '-' :: cs => cs
    | cs => cs
  let mant := body.takeWhile (fun c => c ≠ 'e' ∧ c ≠ 'E')
  let expo := exponentVal ((body.dropWhile (fun c => c ≠ 'e' ∧ c ≠ 'E')).drop 1)
  let intDigits := mant.takeWhile (fun c => c ≠ '.')
  let fracDigits := (mant.dropWhile (fun c => c ≠ '.')).drop 1
  let d := digitsVal (intDigits ++ fracDigits)
  let e : Int := expo - (fracDigits.length : Int)
  let limit : Nat := float64Limit
  if 0 ≤ e then decide (limit ≤ d * 10 ^ e.toNat) else decide (limit * 10 ^ (-e).toNat ≤ d)

/-- Decoding into a Go `float64`. -/
def decodeFloat (ctx : Ctx) (j : JSON) (cur : Float64) (s : Saved) : Dec Float64 :=
  match j with
  | .null => .ok (cur, s)
  | .number lit =>
    if overflowsFloat64 lit then .ok (cur, save s (ctx.typeError ("number " ++ lit) "float64"))
    else .ok (⟨lit⟩, s)
  | other => .ok (cur, save s (ctx.typeError (kindName other) "float64"))

/-- The elements of a JSON array decoded one by one into a slice: the element at an
index the slice already has is decoded into that element, the others into a zero value. -/
def elements {α : Type} (zero : α) (elem : JSON → α → Saved → Dec α) :
    List JSON → List α → Saved → Dec (List α)
  | [], _, s => .ok ([], s)
  | x :: xs, cur, s =>
    match elem x (cur.headD zero) s with
    | .error e => .error e
    | .ok (v, s1) =>
      match elements zero elem xs cur.tail s1 with
      | .error e => .error e
      | .ok (vs, s2) => .ok (v :: vs, s2)

/-- Decoding into a Go slice whose type is written `type`: null empties the slice. -/
def decodeSlice {α : Type} (type : String) (zero : α) (elem : JSON → α → Saved → Dec α)
    (ctx : Ctx) (j : JSON) (cur : List α) (s : Saved) : Dec (List α) :=
  match j with
  | .null => .ok ([], s)
  | .array xs => elements zero elem xs cur s
  | other => .ok (cur, save s (ctx.typeError (kindName other) type))

/-- The members of a JSON object decoded in order into a struct: a key that selects no
field is skipped. -/
def members {α : Type} (names : List String) (setField : String → JSON → α → Saved → Dec α) :
    List (String × JSON) → α → Saved → Dec α
  | [], cur, s => .ok (cur, s)
  | (key, v) :: rest, cur, s =>
    match lookupField names key with
    | none => members names setField rest cur s
    | some name =>
      match setField name v cur s with
      | .error e => .error e
      | .ok (cur1, s1) => members names setField rest cur1 s1

/-- Decoding into a Go struct whose type is written `type`: null changes nothing. -/
def decodeStruct {α : Type} (type : String) (names : List String)
    (setField : String → JSON → α → Saved → Dec α)
    (ctx : Ctx) (j : JSON) (cur : α) (s : Saved) : Dec α :=
  match j with
  | .null => .ok (cur, s)
  | .object ms => members names setField ms cur s
  | other => .ok (cur, save s (ctx.typeError (kindName other) type))

/-- The decoded value with one field replaced. -/
def withField {α β : Type} (r : Dec β) (put : β → α) : Dec α :=
  match r with
  | .error e => .error e
  | .ok (v, s) => .ok (put v, s)

def decodeStrings (ctx : Ctx) (j : JSON) (cur : List String) (s : Saved) : Dec (List String) :=
  decodeSlice "[]string" "" (decodeString ctx) ctx j cur s

/-! ### `Time.UnmarshalJSON` -/

/-- The function `unmarshalString` of `models.go`: `json.Unmarshal` of one JSON value into
a string that starts empty. The error is an `UnmarshalTypeError` without context. -/
def unmarshalString (raw : JSON) : Except DecodeError String :=
  match raw with
  | .null => .ok ""
  | .string v => .ok v
  | other => .error (.unmarshalType (kindName other) "string" "" "")

/-- The method `Time.UnmarshalJSON` of `models.go`: the new value of the receiver `t`, or
the error, in which case the receiver keeps its value. -/
def Time.UnmarshalJSON (_t : Time) (b : JSON) : Except DecodeError Time :=
  match unmarshalString b with
  | .error err => .error err
  | .ok str =>
    if str = "" then .ok emptyTime
    else
      match timeParseRFC3339 str with
      | .error err => .error err
      | .ok v => .ok v

/-- Decoding into a `Time`: the decoder calls `UnmarshalJSON` for every JSON value and
stops at its error, to which `addErrorContext` adds the context when it is an
`UnmarshalTypeError`. -/
def decodeTime (ctx : Ctx) (j : JSON) (cur : Time) (s : Saved) : Dec Time :=
  match Time.UnmarshalJSON cur j with
  | .ok t => .ok (t, s)
  | .error (.unmarshalType value type _ _) => .error (ctx.typeError value type)
  | .error e => .error e

/-! ### The structs -/

def AS.names : List String := ["asn", "name", "type", "route", "domain"]

def AS.setField (ctx : Ctx) (name : String) (j : JSON) (cur : AS) (s : Saved) : Dec AS :=
  if name = "asn" then withField (decodeInt (ctx.field "AS" name) j cur.ASN s)
    (fun v => { cur with ASN := v })
  else if name = "name" then withField (decodeString (ctx.field "AS" name) j cur.Name s)
    (fun v => { cur with Name := v })
  else if name = "type" then withField (decodeString (ctx.field "AS" name) j cur.Type_ s)
    (fun v => { cur with Type_ := v })
  else if name = "route" then
    withField (decodeString (ctx.field "AS" name) j cur.Route s) (fun v => { cur with Route := v })
  else withField (decodeString (ctx.field "AS" name) j cur.Domain s)
    (fun v => { cur with Domain := v })

def decodeAS (ctx : Ctx) (j : JSON) (cur : AS) (s : Saved) : Dec AS :=
  decodeStruct "ipnetblocks.AS" AS.names (AS.setField ctx) ctx j cur s

def Contact.names : List String :=
  ["id", "person", "role", "email", "phone", "country", "city", "address"]

def Contact.setField (ctx : Ctx) (name : String) (j : JSON) (cur : Contact) (s : Saved) :
    Dec Contact :=
  if name = "id" then withField (decodeString (ctx.field "Contact" name) j cur.ID s)
    (fun v => { cur with ID := v })
  else if name = "person" then
    withField (decodeString (ctx.field "Contact" name) j cur.Person s)
      (fun v => { cur with Person := v })
  else if name = "role" then withField (decodeString (ctx.field "Contact" name) j cur.Role s)
    (fun v => { cur with Role := v })
  else if name = "email" then
    withField (decodeString (ctx.field "Contact" name) j cur.Email s)
      (fun v => { cur with Email := v })
  else if name = "phone" then
    withField (decodeString (ctx.field "Contact" name) j cur.Phone s)
      (fun v => { cur with Phone := v })
  else if name = "country" then
    withField (decodeString (ctx.field "Contact" name) j cur.Country s)
      (fun v => { cur with Country := v })
  else if name = "city" then withField (decodeString (ctx.field "Contact" name) j cur.City s)
    (fun v => { cur with City := v })
  else withField (decodeStrings (ctx.field "Contact" name) j cur.Address s)
    (fun v => { cur with Address := v })

def decodeContact (ctx : Ctx) (j : JSON) (cur : Contact) (s : Saved) : Dec Contact :=
  decodeStruct "ipnetblocks.Contact" Contact.names (Contact.setField ctx) ctx j cur s

def decodeContacts (ctx : Ctx) (j : JSON) (cur : List Contact) (s : Saved) : Dec (List Contact) :=
  decodeSlice "[]ipnetblocks.Contact" Contact.zero (decodeContact ctx) ctx j cur s

def Organization.names : List String :=
  ["org", "name", "phone", "email", "country", "city", "postalCode", "address"]

def Organization.setField (ctx : Ctx) (name : String) (j : JSON) (cur : Organization)
    (s : Saved) : Dec Organization :=
  if name = "org" then withField (decodeString (ctx.field "Organization" name) j cur.Org s)
    (fun v => { cur with Org := v })
  else if name = "name" then withField (decodeString (ctx.field "Organization" name) j cur.Name s)
    (fun v => { cur with Name := v })
  else if name = "phone" then
    withField (decodeString (ctx.field "Organization" name) j cur.Phone s)
      (fun v => { cur with Phone := v })
  else if name = "email" then
    withField (decodeString (ctx.field "Organization" name) j cur.Email s)
      (fun v => { cur with Email := v })
  else if name = "country" then
    withField (decodeString (ctx.field "Organization" name) j cur.Country s)
      (fun v => { cur with Country := v })
  else if name = "city" then withField (decodeString (ctx.field "Organization" name) j cur.City s)
    (fun v => { cur with City := v })
  else if name = "postalCode" then
    withField (decodeString (ctx.field "Organization" name) j cur.PostalCode s)
      (fun v => { cur with PostalCode := v })
  else withField (decodeStrings (ctx.field "Organization" name) j cur.Address s)
    (fun v => { cur with Address := v })

def decodeOrganization (ctx : Ctx) (j : JSON) (cur : Organization) (s : Saved) :
    Dec Organization :=
  decodeStruct "ipnetblocks.Organization" Organization.names (Organization.setField ctx) ctx j
    cur s

def Maintainer.names : List String := ["mntner", "email"]

def Maintainer.setField (ctx : Ctx) (name : String) (j : JSON) (cur : Maintainer) (s : Saved) :
    Dec Maintainer :=
  if name = "mntner" then
    withField (decodeString (ctx.field "Maintainer" name) j cur.Mntner s)
      (fun v => { cur with Mntner := v })
  else withField (decodeString (ctx.field "Maintainer" name) j cur.Email s)
    (fun v => { cur with Email := v })

def decodeMaintainer (ctx : Ctx) (j : JSON) (cur : Maintainer) (s : Saved) : Dec Maintainer :=
  decodeStruct "ipnetblocks.Maintainer" Maintainer.names (Maintainer.setField ctx) ctx j cur s

def decodeMaintainers (ctx : Ctx) (j : JSON) (cur : List Maintainer) (s : Saved) :
    Dec (List Maintainer) :=
  decodeSlice "[]ipnetblocks.Maintainer" Maintainer.zero (decodeMaintainer ctx) ctx j cur s

def Inetnum.names : List String :=
  ["inetnum", "inetnumFirst", "inetnumLast", "inetnumFirstString", "inetnumLastString", "parent",
    "as", "netname", "nethandle", "description", "modified", "country", "city", "address",
    "abuseContact", "adminContact", "techContact", "org", "mntBy", "mntDomains", "mntLower",
    "mntRoutes", "remarks", "source"]

def Inetnum.setField (ctx : Ctx) (name : String) (j : JSON) (cur : IPNetblocks.Inetnum)
    (s : Saved) : Dec IPNetblocks.Inetnum :=
  if name = "inetnum" then
    withField (decodeString (ctx.field "Inetnum" name) j cur.Inetnum s)
      (fun v => { cur with Inetnum := v })
  else if name = "inetnumFirst" then
    withField (decodeFloat (ctx.field "Inetnum" name) j cur.InetnumFirst s)
      (fun v => { cur with InetnumFirst := v })
  else if name = "inetnumLast" then
    withField (decodeFloat (ctx.field "Inetnum" name) j cur.InetnumLast s)
      (fun v => { cur with InetnumLast := v })
  else if name = "inetnumFirstString" then
    withField (decodeString (ctx.field "Inetnum" name) j cur.InetnumFirstString s)
      (fun v => { cur with InetnumFirstString := v })
  else if name = "inetnumLastString" then
    withField (decodeString (ctx.field "Inetnum" name) j cur.InetnumLastString s)
      (fun v => { cur with InetnumLastString := v })
  else if name = "parent" then
    withField (decodeString (ctx.field "Inetnum" name) j cur.Parent s)
      (fun v => { cur with Parent := v })
  else if name = "as" then withField (decodeAS (ctx.field "Inetnum" name) j cur.AS s)
    (fun v => { cur with AS := v })
  else if name = "netname" then
    withField (decodeString (ctx.field "Inetnum" name) j cur.Netname s)
      (fun v => { cur with Netname := v })
  else if name = "nethandle" then
    withField (decodeString (ctx.field "Inetnum" name) j cur.Nethandle s)
      (fun v => { cur with Nethandle := v })
  else if name = "description" then
    withField (decodeStrings (ctx.field "Inetnum" name) j cur.Description s)
      (fun v => { cur with Description := v })
  else if name = "modified" then
    withField (decodeTime (ctx.field "Inetnum" name) j cur.Modified s)
      (fun v => { cur with Modified := v })
  else if name = "country" then
    withField (decodeString (ctx.field "Inetnum" name) j cur.Country s)
      (fun v => { cur with Country := v })
  else if name = "city" then withField (decodeString (ctx.field "Inetnum" name) j cur.City s)
    (fun v => { cur with City := v })
  else if name = "address" then
    withField (decodeStrings (ctx.field "Inetnum" name) j cur.Address s)
      (fun v => { cur with Address := v })
  else if name = "abuseContact" then
    withField (decodeContacts (ctx.field "Inetnum" name) j cur.AbuseContact s)
      (fun v => { cur with AbuseContact := v })
  else if name = "adminContact" then
    withField (decodeContacts (ctx.field "Inetnum" name) j cur.AdminContact s)
      (fun v => { cur with AdminContact := v })
  else if name = "techContact" then
    withField (decodeContacts (ctx.field "Inetnum" name) j cur.TechContact s)
      (fun v => { cur with TechContact := v })
  else if name = "org" then
    withField (decodeOrganization (ctx.field "Inetnum" name) j cur.Org s)
      (fun v => { cur with Org := v })
  else if name = "mntBy" then
    withField (decodeMaintainers (ctx.field "Inetnum" name) j cur.MntBy s)
      (fun v => { cur with MntBy := v })
  else if name = "mntDomains" then
    withField (decodeMaintainers (ctx.field "Inetnum" name) j cur.MntDomains s)
      (fun v => { cur with MntDomains := v })
  else if name = "mntLower" then
    withField (decodeMaintainers (ctx.field "Inetnum" name) j cur.MntLower s)
      (fun v => { cur with MntLower := v })
  else if name = "mntRoutes" then
    withField (decodeMaintainers (ctx.field "Inetnum" name) j cur.MntRoutes s)
      (fun v => { cur with MntRoutes := v })
  else if name = "remarks" then
    withField (decodeStrings (ctx.field "Inetnum" name) j cur.Remarks s)
      (fun v => { cur with Remarks := v })
  else withField (decodeString (ctx.field "Inetnum" name) j cur.Source s)
    (fun v => { cur with Source := v })

def decodeInetnum (ctx : Ctx) (j : JSON) (cur : Inetnum) (s : Saved) : Dec Inetnum :=
  decodeStruct "ipnetblocks.Inetnum" Inetnum.names (Inetnum.setField ctx) ctx j cur s

def decodeInetnums (ctx : Ctx) (j : JSON) (cur : List Inetnum) (s : Saved) : Dec (List Inetnum) :=
  decodeSlice "[]ipnetblocks.Inetnum" Inetnum.zero (decodeInetnum ctx) ctx j cur s

def Result.names : List String := ["count", "limit", "from", "next", "inetnums"]

def Result.setField (ctx : Ctx) (name : String) (j : JSON) (cur : Result) (s : Saved) :
    Dec Result :=
  if name = "count" then withField (decodeInt (ctx.field "Result" name) j cur.Count s)
    (fun v => { cur with Count := v })
  else if name = "limit" then
    withField (decodeInt (ctx.field "Result" name) j cur.Limit s) (fun v => { cur with Limit := v })
  else if name = "from" then
    withField (decodeStringPtr (ctx.field "Result" name) j cur.From s)
      (fun v => { cur with From := v })
  else if name = "next" then
    withField (decodeStringPtr (ctx.field "Result" name) j cur.Next s)
      (fun v => { cur with Next := v })
  else withField (decodeInetnums (ctx.field "Result" name) j cur.Inetnums s)
    (fun v => { cur with Inetnums := v })

def decodeResult (ctx : Ctx) (j : JSON) (cur : Result) (s : Saved) : Dec Result :=
  decodeStruct "ipnetblocks.Result" Result.names (Result.setField ctx) ctx j cur s

/-- The fields of `apiResponse`: those promoted from the two embedded structs. -/
def apiResponse.names : List String := ["search", "result", "error", "code", "messages"]

def apiResponse.setField (ctx : Ctx) (name : String) (j : JSON) (cur : apiResponse)
    (s : Saved) : Dec apiResponse :=
  if name = "search" then
    withField (decodeString (ctx.field "apiResponse" name) j cur.IPNetblocksResponse.Search s)
      (fun v => { cur with IPNetblocksResponse := { cur.IPNetblocksResponse with Search := v } })
  else if name = "result" then
    withField (decodeResult (ctx.field "apiResponse" name) j cur.IPNetblocksResponse.Result s)
      (fun v => { cur with IPNetblocksResponse := { cur.IPNetblocksResponse with Result := v } })
  else if name = "error" then
    withField (decodeString (ctx.field "apiResponse" name) j cur.IPNetblocksResponse.Error s)
      (fun v => { cur with IPNetblocksResponse := { cur.IPNetblocksResponse with Error := v } })
  else if name = "code" then
    withField (decodeInt (ctx.field "apiResponse" name) j cur.ErrorMessage.Code s)
      (fun v => { cur with ErrorMessage := { cur.ErrorMessage with Code := v } })
  else
    withField (decodeString (ctx.field "apiResponse" name) j cur.ErrorMessage.Message s)
      (fun v => { cur with ErrorMessage := { cur.ErrorMessage with Message := v } })

/-- The decoder's `unmarshal` into a zero `apiResponse`: the error that stopped the
decoder, or else the saved error, or else the value. -/
def unmarshal (j : JSON) : Except DecodeError apiResponse :=
  match decodeStruct "ipnetblocks.apiResponse" apiResponse.names (apiResponse.setField Ctx.top)
      Ctx.top j apiResponse.zero none with
  | .error e => .error e
  | .ok (_, some e) => .error e
  | .ok (v, none) => .ok v

/-- The call `json.NewDecoder(bytes.NewReader(raw)).Decode(&response)` on a zero
`apiResponse`: the first JSON value of `raw` is read and decoded. -/
def jsonDecode (raw : Bytes) : Except DecodeError apiResponse :=
  match scanBody raw with
  | .error e => .error e
  | .ok j => unmarshal j

/-! ## Errors -/

/-- Go's `fmt.Sprintf("%d", n)` and `strconv.Itoa(n)`. -/
def formatInt (n : Int) : String :=
  match n with
  | .ofNat m => Nat.repr m
  | .negSucc m => "-" ++ Nat.repr (m + 1)

/-- ArgError is the argument error. -/
structure ArgError where
  Name : String
  Message : String
  deriving DecidableEq

/-- Error returns error message as a string. -/
def ArgError.Error (a : ArgError) : String :=
  "invalid argument: \"" ++ a.Name ++ "\" " ++ a.Message

/-- Error returns error message as a string. -/
def ErrorMessage.Error (e : ErrorMessage) : String :=
  "API error: [" ++ formatInt e.Code ++ "] " ++ e.Message

/-- The part of an `http.Response` the package reads: the status code, and the header. -/
structure HttpResponse where
  StatusCode : Int
  Header : List (String × List String)
  deriving DecidableEq

/-- The values of the Go interface `error` the operations return, by dynamic type. -/
inductive Error where
  /-- `*ArgError`. -/
  | arg (e : ArgError)
  /-- `*ErrorMessage`. -/
  | api (e : ErrorMessage)
  /-- The error `fmt.Errorf("cannot parse response: %w", err)` of `parse`, wrapping `err`. -/
  | parse (err : DecodeError)
  /-- The error of `checkResponse` for a response whose status is not 2xx. -/
  | status (r : HttpResponse)
  /-- An error returned by `Client.NewRequest` or `Client.Do`, with its text. -/
  | transport (text : String)
  deriving DecidableEq

/-- The text of an error (`Error()`). -/
def Error.text : Error → String
  | .arg e => e.Error
  | .api e => e.Error
  | .parse err => "cannot parse response: " ++ err.text
  | .status r => "API failed with status code: " ++ formatInt r.StatusCode
  | .transport text => text

/-- The error a wrapping error wraps (`errors.Unwrap`). -/
def Error.unwrap : Error → Option DecodeError
  | .parse err => some err
  | _ => none

/-! ## `url.Values` and the options of `options.go` -/

/-- Go's `url.Values`: a map from a key to its list of values, as an association list
with at most one entry per key once built with `Set`. -/
abbrev Values := List (String × List String)

/-- The entry of a key: `v[key]`. -/
def Values.find (v : Values) (key : String) : Option (List String) :=
  match v with
  | [] => none
  | (k, vs) :: rest => if k = key then some vs else Values.find rest key

/-- Go's `Values.Set`: the key gets the single value, replacing what it had. -/
def Values.Set (v : Values) (key value : String) : Values :=
  (key, [value]) :: v.filter (fun p => p.1 ≠ key)

/-- The runes above ASCII that have an upper case of their own, as the table `CaseRanges`
of package `unicode` holds them: the first and the last rune of a run, the step of the
run, and the upper case of the first rune; the runes of a run keep their distance to
their upper case. The runs are the simple upper-case mappings of the Unicode Character
Database (the versions 14.0.0 and 15.0.0 have the same ones). -/
def upperCaseRanges : List (Nat × Nat × Nat × Nat) :=
  [(0xB5, 0xB5, 1, 0x39C), (0xE0, 0xF6, 1, 0xC0), (0xF8, 0xFE, 1, 0xD8), (0xFF, 0xFF, 1, 0x178),
    (0x101, 0x12F, 2, 0x100), (0x131, 0x131, 1, 0x49), (0x133, 0x137, 2, 0x132),
    (0x13A, 0x148, 2, 0x139), (0x14B, 0x177, 2, 0x14A), (0x17A, 0x17E, 2, 0x179),
    (0x17F, 0x17F, 1, 0x53), (0x180, 0x180, 1, 0x243), (0x183, 0x185, 2, 0x182),
    (0x188, 0x188, 1, 0x187), (0x18C, 0x18C, 1, 0x18B), (0x192, 0x192, 1, 0x191),
    (0x195, 0x195, 1, 0x1F6), (0x199, 0x199, 1, 0x198), (0x19A, 0x19A, 1, 0x23D),
    (0x19E, 0x19E, 1, 0x220), (0x1A1, 0x1A5, 2, 0x1A0), (0x1A8, 0x1A8, 1, 0x1A7),
    (0x1AD, 0x1AD, 1, 0x1AC), (0x1B0, 0x1B0, 1, 0x1AF), (0x1B4, 0x1B6, 2, 0x1B3),
    (0x1B9, 0x1B9, 1, 0x1B8), (0x1BD, 0x1BD, 1, 0x1BC), (0x1BF, 0x1BF, 1, 0x1F7),
    (0x1C5, 0x1C5, 1, 0x1C4), (0x1C6, 0x1C6, 1, 0x1C4), (0x1C8, 0x1C8, 1, 0x1C7),
    (0x1C9, 0x1C9, 1, 0x1C7), (0x1CB, 0x1CB, 1, 0x1CA), (0x1CC, 0x1CC, 1, 0x1CA),
    (0x1CE, 0x1DC, 2, 0x1CD), (0x1DD, 0x1DD, 1, 0x18E), (0x1DF, 0x1EF, 2, 0x1DE),
    (0x1F2, 0x1F2, 1, 0x1F1), (0x1F3, 0x1F3, 1, 0x1F1), (0x1F5, 0x1F5, 1, 0x1F4),
    (0x1F9, 0x21F, 2, 0x1F8), (0x223, 0x233, 2, 0x222), (0x23C, 0x23C, 1, 0x23B),
    (0x23F, 0x240, 1, 0x2C7E), (0x242, 0x242, 1, 0x241), (0x247, 0x24F, 2, 0x246),
    (0x250, 0x250, 1, 0x2C6F), (0x251, 0x251, 1, 0x2C6D), (0x252, 0x252, 1, 0x2C70),
    (0x253, 0x253, 1, 0x181), (0x254, 0x254, 1, 0x186), (0x256, 0x257, 1, 0x189),
    (0x259, 0x259, 1, 0x18F), (0x25B, 0x25B, 1, 0x190), (0x25C, 0x25C, 1, 0xA7AB),
    (0x260, 0x260, 1, 0x193), (0x261, 0x261, 1, 0xA7AC), (0x263, 0x263, 1, 0x194),
    (0x265, 0x265, 1, 0xA78D), (0x266, 0x266, 1, 0xA7AA), (0x268, 0x268, 1, 0x197),
    (0x269, 0x269, 1, 0x196), (0x26A, 0x26A, 1, 0xA7AE), (0x26B, 0x26B, 1, 0x2C62),
    (0x26C, 0x26C, 1, 0xA7AD), (0x26F, 0x26F, 1, 0x19C), (0x271, 0x271, 1, 0x2C6E),
    (0x272, 0x272, 1, 0x19D), (0x275, 0x275, 1, 0x19F), (0x27D, 0x27D, 1, 0x2C64),
    (0x280, 0x280, 1, 0x1A6), (0x282, 0x282, 1, 0xA7C5), (0x283, 0x283, 1, 0x1A9),
    (0x287, 0x287, 1, 0xA7B1), (0x288, 0x288, 1, 0x1AE), (0x289, 0x289, 1, 0x244),
    (0x28A, 0x28B, 1, 0x1B1), (0x28C, 0x28C, 1, 0x245), (0x292, 0x292, 1, 0x1B7),
    (0x29D, 0x29D, 1, 0xA7B2), (0x29E, 0x29E, 1, 0xA7B0), (0x345, 0x345, 1, 0x399),
    (0x371, 0x373, 2, 0x370), (0x377, 0x377, 1, 0x376), (0x37B, 0x37D, 1, 0x3FD),
    (0x3AC, 0x3AC, 1, 0x386), (0x3AD, 0x3AF, 1, 0x388), (0x3B1, 0x3C1, 1, 0x391),
    (0x3C2, 0x3C2, 1, 0x3A3), (0x3C3, 0x3CB, 1, 0x3A3), (0x3CC, 0x3CC, 1, 0x38C),
    (0x3CD, 0x3CE, 1, 0x38E), (0x3D0, 0x3D0, 1, 0x392), (0x3D1, 0x3D1, 1, 0x398),
    (0x3D5, 0x3D5, 1, 0x3A6), (0x3D6, 0x3D6, 1, 0x3A0), (0x3D7, 0x3D7, 1, 0x3CF),
    (0x3D9, 0x3EF, 2, 0x3D8), (0x3F0, 0x3F0, 1, 0x39A), (0x3F1, 0x3F1, 1, 0x3A1),
    (0x3F2, 0x3F2, 1, 0x3F9), (0x3F3, 0x3F3, 1, 0x37F), (0x3F5, 0x3F5, 1, 0x395),
    (0x3F8, 0x3F8, 1, 0x3F7), (0x3FB, 0x3FB, 1, 0x3FA), (0x430, 0x44F, 1, 0x410),
    (0x450, 0x45F, 1, 0x400), (0x461, 0x481, 2, 0x460), (0x48B, 0x4BF, 2, 0x48A),
    (0x4C2, 0x4CE, 2, 0x4C1), (0x4CF, 0x4CF, 1, 0x4C0), (0x4D1, 0x52F, 2, 0x4D0),
    (0x561, 0x586, 1, 0x531), (0x10D0, 0x10FA, 1, 0x1C90), (0x10FD, 0x10FF, 1, 0x1CBD),
    (0x13F8, 0x13FD, 1, 0x13F0), (0x1C80, 0x1C80, 1, 0x412), (0x1C81, 0x1C81, 1, 0x414),
    (0x1C82, 0x1C82, 1, 0x41E), (0x1C83, 0x1C84, 1, 0x421), (0x1C85, 0x1C85, 1, 0x422),
    (0x1C86, 0x1C86, 1, 0x42A), (0x1C87, 0x1C87, 1, 0x462), (0x1C88, 0x1C88, 1, 0xA64A),
    (0x1D79, 0x1D79, 1, 0xA77D), (0x1D7D, 0x1D7D, 1, 0x2C63), (0x1D8E, 0x1D8E, 1, 0xA7C6),
    (0x1E01, 0x1E95, 2, 0x1E00), (0x1E9B, 0x1E9B, 1, 0x1E60), (0x1EA1, 0x1EFF, 2, 0x1EA0),
    (0x1F00, 0x1F07, 1, 0x1F08), (0x1F10, 0x1F15, 1, 0x1F18), (0x1F20, 0x1F27, 1, 0x1F28),
    (0x1F30, 0x1F37, 1, 0x1F38), (0x1F40, 0x1F45, 1, 0x1F48), (0x1F51, 0x1F57, 2, 0x1F59),
    (0x1F60, 0x1F67, 1, 0x1F68), (0x1F70, 0x1F71, 1, 0x1FBA), (0x1F72, 0x1F75, 1, 0x1FC8),
    (0x1F76, 0x1F77, 1, 0x1FDA), (0x1F78, 0x1F79, 1, 0x1FF8), (0x1F7A, 0x1F7B, 1, 0x1FEA),
    (0x1F7C, 0x1F7D, 1, 0x1FFA), (0x1F80, 0x1F87, 1, 0x1F88), (0x1F90, 0x1F97, 1, 0x1F98),
    (0x1FA0, 0x1FA7, 1, 0x1FA8), (0x1FB0, 0x1FB1, 1, 0x1FB8), (0x1FB3, 0x1FB3, 1, 0x1FBC),
    (0x1FBE, 0x1FBE, 1, 0x399), (0x1FC3, 0x1FC3, 1, 0x1FCC), (0x1FD0, 0x1FD1, 1, 0x1FD8),
    (0x1FE0, 0x1FE1, 1, 0x1FE8), (0x1FE5, 0x1FE5, 1, 0x1FEC), (0x1FF3, 0x1FF3, 1, 0x1FFC),
    (0x214E, 0x214E, 1, 0x2132), (0x2170, 0x217F, 1, 0x2160), (0x2184, 0x2184, 1, 0x2183),
    (0x24D0, 0x24E9, 1, 0x24B6), (0x2C30, 0x2C5F, 1, 0x2C00), (0x2C61, 0x2C61, 1, 0x2C60),
    (0x2C65, 0x2C65, 1, 0x23A), (0x2C66, 0x2C66, 1, 0x23E), (0x2C68, 0x2C6C, 2, 0x2C67),
    (0x2C73, 0x2C73, 1, 0x2C72), (0x2C76, 0x2C76, 1, 0x2C75), (0x2C81, 0x2CE3, 2, 0x2C80),
    (0x2CEC, 0x2CEE, 2, 0x2CEB), (0x2CF3, 0x2CF3, 1, 0x2CF2), (0x2D00, 0x2D25, 1, 0x10A0),
    (0x2D27, 0x2D27, 1, 0x10C7), (0x2D2D, 0x2D2D, 1, 0x10CD), (0xA641, 0xA66D, 2, 0xA640),
    (0xA681, 0xA69B, 2, 0xA680), (0xA723, 0xA72F, 2, 0xA722), (0xA733, 0xA76F, 2, 0xA732),
    (0xA77A, 0xA77C, 2, 0xA779), (0xA77F, 0xA787, 2, 0xA77E), (0xA78C, 0xA78C, 1, 0xA78B),
    (0xA791, 0xA793, 2, 0xA790), (0xA794, 0xA794, 1, 0xA7C4), (0xA797, 0xA7A9, 2, 0xA796),
    (0xA7B5, 0xA7C3, 2, 0xA7B4), (0xA7C8, 0xA7CA, 2, 0xA7C7), (0xA7D1, 0xA7D1, 1, 0xA7D0),
    (0xA7D7, 0xA7D9, 2, 0xA7D6), (0xA7F6, 0xA7F6, 1, 0xA7F5), (0xAB53, 0xAB53, 1, 0xA7B3),
    (0xAB70, 0xABBF, 1, 0x13A0), (0xFF41, 0xFF5A, 1, 0xFF21), (0x10428, 0x1044F, 1, 0x10400),
    (0x104D8, 0x104FB, 1, 0x104B0), (0x10597, 0x105A1, 1, 0x10570),
    (0x105A3, 0x105B1, 1, 0x1057C), (0x105B3, 0x105B9, 1, 0x1058C),
    (0x105BB, 0x105BC, 1, 0x10594), (0x10CC0, 0x10CF2, 1, 0x10C80),
    (0x118C0, 0x118DF, 1, 0x118A0), (0x16E60, 0x16E7F, 1, 0x16E40),
    (0x1E922, 0x1E943, 1, 0x1E900)]

/-- Go's `unicode.ToUpper`: an ASCII letter by arithmetic, any other rune by the table. -/
def unicodeToUpper (c : Char) : Char :=
  if c.toNat ≤ 0x7F then
    (if 97 ≤ c.toNat ∧ c.toNat ≤ 122 then Char.ofNat (c.toNat - 32) else c)
  else
    match upperCaseRanges.find?
        (fun r => r.1 ≤ c.toNat ∧ c.toNat ≤ r.2.1 ∧ (c.toNat - r.1) % r.2.2.1 = 0) with
    | some r => Char.ofNat (r.2.2.2 + (c.toNat - r.1))
    | none => c

/-- Go's `strings.ToUpper`: every rune of the string is mapped by `unicode.ToUpper` (for
a string of ASCII only, the fast path of the function gives the same). -/
def toUpper (s : String) : String :=
  String.mk (s.data.map unicodeToUpper)

/-- Option adds parameters to the query (the Go type `Option`): a function that mutates
the query map it is given. -/
abbrev Option_ := Values → Values

/-- OptionOutputFormat sets Response output format JSON | XML. Default: JSON. -/
def OptionOutputFormat (outputFormat : String) : Option_ :=
  fun v => v.Set "outputFormat" (toUpper outputFormat)

/-- OptionLimit sets max count of returned records. -/
def OptionLimit (value : Int) : Option_ :=
  fun v => v.Set "limit" (formatInt value)

/-- OptionFrom sets the IP netblock range that is used as an offset for the returned
results; `value` is a pointer that may be nil. -/
def OptionFrom (value : Option String) : Option_ :=
  fun v =>
    match value with
    | some s => v.Set "from" (toUpper s)
    | none => v

/-! ## `net.IP` and `net.IPMask` -/

/-- Go's `net.IP`: a slice of bytes. -/
abbrev IP := Bytes

/-- Go's `net.IPMask`. -/
abbrev IPMask := Bytes

/-- Go's `net.IPNet`. -/
structure IPNet where
  IP : IP
  Mask : IPMask

/-- The `hexString` of package `net`. -/
def hexString (b : Bytes) : List Char :=
  b.flatMap (fun x => hex2 x.toNat)

/-- Go's `IP.To4`: the four bytes of an IPv4 address, also when it is written in 16
bytes as an IPv4-mapped address; nil otherwise. -/
def IP.To4 (ip : IP) : Option Bytes :=
  if ip.length = 4 then some ip
  else if ip.length = 16 ∧ (ip.take 10).all (fun b => b = 0) ∧ ip.get? 10 = some 0xff
      ∧ ip.get? 11 = some 0xff then some (ip.drop 12)
  else none

/-- The dotted decimal form of four bytes. -/
def string4 (p : Bytes) : List Char :=
  ".".toList.intercalate (p.map (fun b => (Nat.repr b.toNat).data))

/-- The eight 16-bit groups of a 16-byte address. -/
def groups16 : List Nat → List Nat
  | a :: b :: rest => (a * 256 + b) :: groups16 rest
  | _ => []

/-- The `appendHex` of `netip`: a group in hexadecimal without leading zeros. -/
def appendHex (x : Nat) : List Char :=
  (if 0x1000 ≤ x then [hexDigit (x / 4096 % 16)] else [])
    ++ (if 0x100 ≤ x then [hexDigit (x / 256 % 16)] else [])
    ++ (if 0x10 ≤ x then [hexDigit (x / 16 % 16)] else [])
    ++ [hexDigit (x % 16)]

/-- The first loop of `appendTo6`: the first longest run of at least two zero groups,
as its start and its end; `(255, 255)` when there is none. -/
def zeroRun (g : List Nat) : Nat × Nat :=
  (List.range 8).foldl (fun (z : Nat × Nat) i =>
    let l := ((g.drop i).takeWhile (fun x => x = 0)).length
    if 2 ≤ l ∧ z.2 - z.1 < l then (i, i + l) else z) (255, 255)

/-- The second loop of `appendTo6`, from the group `i` on. -/
def appendTo6 (g : List Nat) (zeroStart zeroEnd : Nat) : Nat → Nat → List Char
  | 0, _ => []
  | fuel + 1, i =>
    if 8 ≤ i then []
    else if i = zeroStart then
      ':' :: ':' ::
        (if 8 ≤ zeroEnd then []
         else appendHex (g.getD zeroEnd 0) ++ appendTo6 g zeroStart zeroEnd fuel (zeroEnd + 1))
    else
      (if 0 < i then [':'] else []) ++ appendHex (g.getD i 0)
        ++ appendTo6 g zeroStart zeroEnd fuel (i + 1)

/-- The text of a 16-byte address that is not IPv4-mapped. -/
def string6 (ip : Bytes) : List Char :=
  let g := groups16 (ip.map UInt8.toNat)
  let z := zeroRun g
  appendTo6 g z.1 z.2 8 0

/-- Go's `IP.String`. -/
def IP.String (ip : IP) : String :=
  if ip.length = 0 then "<nil>"
  else if ip.length ≠ 4 ∧ ip.length ≠ 16 then String.mk ('?' :: hexString ip)
  else
    match ip.To4 with
    | some p4 => String.mk (string4 p4)
    | none => String.mk (string6 ip)

/-- The number of leading one bits of a byte (the loop `for v&0x80 != 0` of
`simpleMaskLength`) and the byte shifted left by that number. -/
def leadingOnes : Nat → Nat → Nat × Nat
  | 0, v => (0, v)
  | fuel + 1, v =>
    if 128 ≤ v % 256 then
      let r := leadingOnes fuel (v * 2 % 256)
      (r.1 + 1, r.2)
    else (0, v % 256)

/-- The `simpleMaskLength` of package `net`: the number of leading ones of a mask made of
ones followed by zeros; `none` is the result -1. -/
def simpleMaskLength : List Nat → Option Nat
  | [] => some 0
  | v :: rest =>
    if v = 0xff then (simpleMaskLength rest).map (fun n => n + 8)
    else
      let r := leadingOnes 8 v
      if r.2 ≠ 0 then none
      else if rest.all (fun b => b = 0) then some r.1 else none

/-- The first result of Go's `IPMask.Size`: the number of leading ones, 0 when the mask
is not in the canonical form. -/
def IPMask.Size (m : IPMask) : Int :=
  match simpleMaskLength (m.map UInt8.toNat) with
  | some n => (n : Int)
  | none => 0

/-! ## The client and the operations of `ipnetblocks.go` -/

/-- Response is the http.Response wrapper with Body saved as a byte slice. -/
structure Response where
  Response : Option HttpResponse
  Body : Bytes
  deriving DecidableEq

/-- The `*http.Request` the service builds: a GET to `URL` whose `URL.RawQuery` is the
encoding of `Query`. -/
structure Request where
  URL : String
  Query : Values
  deriving DecidableEq

/-- What `Client.Do(ctx, req, &b)` gives: on success the response, with the whole body
written to the buffer `b`; on failure the error, the response if there is one, and the
bytes written to the buffer before the failure. -/
inductive DoResult where
  | ok (resp : HttpResponse) (body : Bytes)
  | fail (resp : Option HttpResponse) (body : Bytes) (err : Error)

/-- The client of the absent `client.go`, as far as the service uses it: the API key,
`NewRequest` for a GET to a URL (its error, if any), and `Do`, which stands for the HTTP
round trip under the caller's context. -/
structure Client where
  apiKey : String
  NewRequest : String → Option Error
  Do : Request → DoResult

/-- ipNetblocksServiceOp is the type implementing the IPNetblocks interface. -/
structure ipNetblocksServiceOp where
  client : Client
  baseURL : String

/-- A call the service makes to its client. -/
inductive Call where
  | NewRequest (url : String)
  | Do (req : Request)
  deriving DecidableEq

/-- Modelled from the spec: `checkResponse` of the absent `client.go`, which checks that
the response status code is 2xx; any other status is the error "API failed with status
code: <status>". -/
def checkResponse (r : HttpResponse) : Option Error :=
  if 200 ≤ r.StatusCode ∧ r.StatusCode ≤ 299 then none else some (.status r)

/-- The returns of `request` and of a raw operation, with the calls made to the client. -/
structure RawReturn where
  resp : Option Response
  err : Option Error
  calls : List Call
  deriving DecidableEq

/-- The returns of a parsed operation, with the calls made to the client. -/
structure ParsedReturn where
  ipNetblocksResponse : Option IPNetblocksResponse
  resp : Option Response
  err : Option Error
  calls : List Call
  deriving DecidableEq

/-- newRequest creates the API request with default parameters and the specified apiKey.
The query it encodes is the one `request` reads back with `req.URL.Query()`. -/
def ipNetblocksServiceOp.newRequest (service : ipNetblocksServiceOp) : Except Error Request :=
  match service.client.NewRequest service.baseURL with
  | some err => .error err
  | none => .ok ⟨service.baseURL, Values.Set [] "apiKey" service.client.apiKey⟩

/-- request returns intermediate API response for further actions. -/
def ipNetblocksServiceOp.request (service : ipNetblocksServiceOp)
    (ip mask asn org : String) (opts : List Option_) : RawReturn :=
  match service.newRequest with
  | .error err => ⟨none, some err, [.NewRequest service.baseURL]⟩
  | .ok req =>
    let q := req.Query
    let q := if ip ≠ "" then q.Set "ip" ip else q
    let q := if mask ≠ "" then q.Set "mask" mask else q
    let q := if asn ≠ "" then q.Set "asn" asn else q
    let q := if org ≠ "" then q.Set "org" org else q
    let q := opts.foldl (fun q opt => opt q) q
    let req : Request := { req with Query := q }
    match service.client.Do req with
    | .fail resp b err => ⟨some ⟨resp, b⟩, some err, [.NewRequest service.baseURL, .Do req]⟩
    | .ok resp b => ⟨some ⟨some resp, b⟩, none, [.NewRequest service.baseURL, .Do req]⟩

/-- parse parses raw IP Netblocks API response. -/
def parse (raw : Bytes) : Option apiResponse × Option Error :=
  match jsonDecode raw with
  | .error err => (none, some (.parse err))
  | .ok response => (some response, none)

/-- validateASN validates autonomous system number. -/
def validateASN (asn : Int) : Option Error :=
  if asn < 0 ∨ asn > 4294967295 then
    some (.arg ⟨formatInt asn, "is invalid autonomous system number"⟩)
  else none

/-- The part shared by the four parsed operations after `request` returned: the lines
from `if err != nil` to the final return. When `request` returns no error it returns a
Response; the case without one stands for the nil dereference that cannot happen. -/
def parsedReturn (r : RawReturn) : ParsedReturn :=
  match r.err with
  | some err => ⟨none, r.resp, some err, r.calls⟩
  | none =>
    match r.resp with
    | none => ⟨none, none, none, r.calls⟩
    | some resp =>
      match parse resp.Body with
      | (_, some err) => ⟨none, some resp, some err, r.calls⟩
      | (none, none) => ⟨none, some resp, none, r.calls⟩
      | (some ipNetblocksResp, none) =>
        if ipNetblocksResp.ErrorMessage.Message ≠ "" ∨ ipNetblocksResp.ErrorMessage.Code ≠ 0 then
          ⟨none, none, some (.api ⟨ipNetblocksResp.ErrorMessage.Code,
            ipNetblocksResp.ErrorMessage.Message⟩), r.calls⟩
        else ⟨some ipNetblocksResp.IPNetblocksResponse, some resp, none, r.calls⟩

/-- The part shared by the four raw operations after `request` returned. -/
def rawReturn (r : RawReturn) : RawReturn :=
  match r.err with
  | some err => ⟨r.resp, some err, r.calls⟩
  | none =>
    match r.resp with
    | some ⟨some httpResp, body⟩ =>
      match checkResponse httpResp with
      | some respErr => ⟨some ⟨some httpResp, body⟩, some respErr, r.calls⟩
      | none => ⟨some ⟨some httpResp, body⟩, none, r.calls⟩
    | other => ⟨other, none, r.calls⟩

/-- GetByIP returns parsed IP Netblocks API response by IP address. -/
def ipNetblocksServiceOp.GetByIP (service : ipNetblocksServiceOp) (ip : IP)
    (opts : List Option_) : ParsedReturn :=
  let ipString := ip.String
  if ipString = "<nil>" then ⟨none, none, some (.arg ⟨"ip", "can not be empty"⟩), []⟩
  else
    let optsJSON := opts ++ [OptionOutputFormat "JSON"]
    parsedReturn (service.request ipString "" "" "" optsJSON)

/-- GetByCIDR returns parsed IP Netblocks API response by CIDR. -/
def ipNetblocksServiceOp.GetByCIDR (service : ipNetblocksServiceOp) (ip : IPNet)
    (opts : List Option_) : ParsedReturn :=
  let ipString := ip.IP.String
  if ipString = "<nil>" then ⟨none, none, some (.arg ⟨"ip", "can not be empty"⟩), []⟩
  else
    let maskSize := ip.Mask.Size
    let optsJSON := opts ++ [OptionOutputFormat "JSON"]
    parsedReturn (service.request ipString (formatInt maskSize) "" "" optsJSON)

/-- GetByASN returns parsed IP Netblocks API response by autonomous system number. -/
def ipNetblocksServiceOp.GetByASN (service : ipNetblocksServiceOp) (asn : Int)
    (opts : List Option_) : ParsedReturn :=
  match validateASN asn with
  | some err => ⟨none, none, some err, []⟩
  | none =>
    let optsJSON := opts ++ [OptionOutputFormat "JSON"]
    parsedReturn (service.request "" "" (formatInt asn) "" optsJSON)

/-- GetByOrg returns parsed IP Netblocks API response by organization. -/
def ipNetblocksServiceOp.GetByOrg (service : ipNetblocksServiceOp) (org : String)
    (opts : List Option_) : ParsedReturn :=
  if org = "" then ⟨none, none, some (.arg ⟨"org", "can not be empty"⟩), []⟩
  else
    let optsJSON := opts ++ [OptionOutputFormat "JSON"]
    parsedReturn (service.request "" "" "" org optsJSON)

/-- GetRawByIP returns raw IP Netblocks API response by IP address as Response struct
with Body saved as a byte slice. -/
def ipNetblocksServiceOp.GetRawByIP (service : ipNetblocksServiceOp) (ip : IP)
    (opts : List Option_) : RawReturn :=
  let ipString := ip.String
  if ipString = "<nil>" then ⟨none, some (.arg ⟨"ip", "can not be empty"⟩), []⟩
  else rawReturn (service.request ipString "" "" "" opts)

/-- GetRawByCIDR returns raw IP Netblocks API response by CIDR as Response struct with
Body saved as a byte slice. -/
def ipNetblocksServiceOp.GetRawByCIDR (service : ipNetblocksServiceOp) (ip : IPNet)
    (opts : List Option_) : RawReturn :=
  let ipString := ip.IP.String
  if ipString = "<nil>" then ⟨none, some (.arg ⟨"ip", "can not be empty"⟩), []⟩
  else
    let maskSize := ip.Mask.Size
    rawReturn (service.request ipString (formatInt maskSize) "" "" opts)

/-- GetRawByASN returns raw IP Netblocks API response by ASN as Response struct with Body
saved as a byte slice. -/
def ipNetblocksServiceOp.GetRawByASN (service : ipNetblocksServiceOp) (asn : Int)
    (opts : List Option_) : RawReturn :=
  match validateASN asn with
  | some err => ⟨none, some err, []⟩
  | none => rawReturn (service.request "" "" (formatInt asn) "" opts)

/-- GetRawByOrg returns raw IP Netblocks API response by organization as Response struct
with Body saved as a byte slice. -/
def ipNetblocksServiceOp.GetRawByOrg (service : ipNetblocksServiceOp) (org : String)
    (opts : List Option_) : RawReturn :=
  if org = "" then ⟨none, some (.arg ⟨"org", "can not be empty"⟩), []⟩
  else rawReturn (service.request "" "" "" org opts)

/-! ## `json.Unmarshal` of one value, and the methods of `Time` on bytes -/

/-- Whether the scanner is in a number that may end here (`state1`, `state0`, `stateDot0`,
`stateE0`). -/
def ScanState.endsNumber : ScanState → Bool
  | .digits1 => true
  | .digit0 => true
  | .dot0 => true
  | .exp0 => true
  | _ => false

/-- The scanner's `stateEndTop` over what follows the top-level value: only white space
may follow. -/
def trailing (v : JSON) : List Nat → Except DecodeError JSON
  | [] => .ok v
  | c :: rest =>
    if isSpace c then trailing v rest
    else .error (.invalidCharacter c "after top-level value")

/-- The `checkValid` of `json.Unmarshal` with the value read: the input must be one JSON
value, with white space around it at most. A number at the top level ends at the byte
that follows it, which is then read as what follows the value. -/
def readAll (st : ScanState) (stack : List Frame) (tok : List Nat) :
    List Nat → Except DecodeError JSON
  | [] =>
    match st, stack with
    | .digits1, [] => .ok (.number (literalText tok.reverse))
    | .digit0, [] => .ok (.number (literalText tok.reverse))
    | .dot0, [] => .ok (.number (literalText tok.reverse))
    | .exp0, [] => .ok (.number (literalText tok.reverse))
    | _, _ => .error .unexpectedEnd
  | c :: rest =>
    match step st stack tok c with
    | .next st1 stack1 tok1 => readAll st1 stack1 tok1 rest
    | .done v => if st.endsNumber then trailing v (c :: rest) else trailing v rest
    | .fail e => .error e

/-- The JSON value `json.Unmarshal` reads from its input. -/
def jsonValue (data : Bytes) : Except DecodeError JSON :=
  readAll .beginValue [] [] (data.map UInt8.toNat)

/-- The function `unmarshalString` of `models.go` on its input bytes: `json.Unmarshal`
into a string. -/
def unmarshalStringBytes (raw : Bytes) : Except DecodeError String :=
  match jsonValue raw with
  | .error err => .error err
  | .ok j => unmarshalString j

/-- The method `Time.UnmarshalJSON` of `models.go` on its input bytes: the new value of
the receiver, or the error, in which case the receiver keeps its value. -/
def Time.UnmarshalJSONBytes (t : Time) (b : Bytes) : Except DecodeError Time :=
  match jsonValue b with
  | .error err => .error err
  | .ok j => Time.UnmarshalJSON t j

/-! ## `Time.Format` with the layout `time.RFC3339` and `Time.MarshalJSON` -/

/-- Days from January 1 of year 1 to January 1 of the year `y`, for every year of the
proleptic Gregorian calendar. -/
def daysBeforeYearInt (y : Int) : Int :=
  365 * (y - 1) + (y - 1) / 4 - (y - 1) / 100 + (y - 1) / 400

def isLeapInt (y : Int) : Bool :=
  y % 4 = 0 ∧ (y % 100 ≠ 0 ∨ y % 400 = 0)

/-- The year that holds the day `d`, counted from January 1 of year 1: an estimate from
the mean length of a year, corrected by one year at most. -/
def yearOfDays (d : Int) : Int :=
  let e := (400 * (d + 366)) / 146097
  if daysBeforeYearInt (e + 1) ≤ d then e + 1
  else if daysBeforeYearInt e ≤ d then e
  else e - 1

/-- The length of a month of a leap or common year. -/
def daysInL (leap : Bool) (month : Nat) : Nat :=
  if month = 2 then (if leap then 29 else 28)
  else if month = 4 ∨ month = 6 ∨ month = 9 ∨ month = 11 then 30
  else 31

/-- The month and the day of the month of the day `doy` of a year (0 is January 1),
found by going through the months from `m` on. -/
def monthDayAux (leap : Bool) : Nat → Nat → Nat → Nat × Nat
  | 0, m, doy => (m, doy + 1)
  | fuel + 1, m, doy =>
    if doy < daysInL leap m then (m, doy + 1)
    else monthDayAux leap fuel (m + 1) (doy - daysInL leap m)

def monthDay (leap : Bool) (doy : Nat) : Nat × Nat :=
  monthDayAux leap 11 1 doy

/-- The date and the clock a time shows in its location. -/
structure Clock where
  year : Int
  month : Nat
  day : Nat
  hour : Nat
  min : Nat
  sec : Nat
  deriving DecidableEq

/-- The offset of the location of a time, in seconds east of UTC. -/
def Time.offset (t : Time) : Int :=
  match t.loc with
  | .UTC => 0
  | .zone o => o

/-- The date and the clock of the second `l`, counted from January 1, year 1, 00:00:00
(the `absDate` and `absClock` of package `time`). -/
def clockOfSeconds (l : Int) : Clock :=
  ⟨yearOfDays (l / 86400),
    (monthDay (isLeapInt (yearOfDays (l / 86400)))
      (l / 86400 - daysBeforeYearInt (yearOfDays (l / 86400))).toNat).1,
    (monthDay (isLeapInt (yearOfDays (l / 86400)))
      (l / 86400 - daysBeforeYearInt (yearOfDays (l / 86400))).toNat).2,
    (l % 86400).toNat / 3600, (l % 86400).toNat % 3600 / 60, (l % 86400).toNat % 60⟩

/-- The date and the clock of a time in its location (`Time.Date` and `Time.Clock`). -/
def Time.clock (t : Time) : Clock :=
  clockOfSeconds (t.sec + t.offset)

/-- One decimal digit. -/
def digitChar (n : Nat) : Char := Char.ofNat (48 + n % 10)

/-- The `appendInt` of package `time`: the number in decimal, padded with zeros to the
width, after a minus sign when it is negative. -/
def appendInt (x : Int) (width : Nat) : List Char :=
  let u := x.natAbs
  (if x < 0 then ['-'] else []) ++
    (if width = 2 ∧ u < 100 then [digitChar (u / 10), digitChar u]
     else if width = 4 ∧ u < 10000 then
       [digitChar (u / 1000), digitChar (u / 100), digitChar (u / 10), digitChar u]
     else List.replicate (width - (Nat.repr u).length) '0' ++ (Nat.repr u).data)

/-- The zone of the layout `Z07:00`: `Z` for the offset 0, else the sign, the hours and
the minutes of the offset. -/
def zoneText (offset : Int) : List Char :=
  if offset = 0 then ['Z']
  else
    let zone := offset.natAbs / 60
    (if offset ≤ -60 then '-' else '+') ::
      (appendInt (zone / 60 : Nat) 2 ++ ':' :: appendInt (zone % 60 : Nat) 2)

/-- The text `Format` writes for the layout `2006-01-02T15:04:05Z07:00` from the date and
the clock of the time and the offset of its zone. -/
def formatFields (c : Clock) (offset : Int) : List Char :=
  appendInt c.year 4 ++ '-' :: (appendInt c.month 2 ++ '-' :: (appendInt c.day 2 ++ 'T' ::
    (appendInt c.hour 2 ++ ':' :: (appendInt c.min 2 ++ ':' :: (appendInt c.sec 2 ++
      zoneText offset)))))

/-- Go's `t.Format(time.RFC3339)`. -/
def formatRFC3339 (t : Time) : List Char :=
  formatFields t.clock t.offset

/-- MarshalJSON encodes time as IP Netblocks API does. The error is always nil. -/
def Time.MarshalJSON (t : Time) : Bytes × Option Error :=
  if t = emptyTime then (bytesOf "\"\"", none)
  else (bytesOf (String.mk ('"' :: (formatRFC3339 t ++ ['"']))), none)

/-! ## The fixtures of `client_test.go` -/

/-- The constant `apiKey` of the tests. -/
def apiKey : String := "at_LoremIpsumDolorSitAmetConsect"

/-- The constant `resp` of the tests: the success body for 8.8.8.8. -/
def respOK : Bytes := bytesOf
  "\x7b\"search\":\"8.8.8.8\",\"result\":\x7b\"count\":1,\"limit\":1,\"from\":\"\",\"next\":\"8.8.8.0-8.8.8.255\",\n\"inetnums\":[\x7b\"inetnum\":\"8.8.8.0 - 8.8.8.255\",\"inetnumFirst\":281470816487424,\"inetnumLast\":281470816487679,\n\"inetnumFirstString\":\"281470816487424\",\"inetnumLastString\":\"281470816487679\",\"as\":\x7b\"asn\":15169,\"name\":\"GOOGLE\",\n\"type\":\"Content\",\"route\":\"8.8.8.0\\/24\",\"domain\":\"https:\\/\\/about.google\\/intl\\/en\\/\"\x7d,\"netname\":\"LVLT-GOGL-8-8-8\",\n\"nethandle\":\"NET-8-8-8-0-1\",\"description\":[],\"modified\":\"2014-03-14T00:00:00Z\",\"country\":\"US\",\"city\":\"Mountain View\",\n\"address\":[\"1600 Amphitheatre Parkway\"],\"abuseContact\":[],\"adminContact\":[],\"techContact\":[],\"org\":\x7b\"org\":\"GOGL\",\n\"name\":\"Google LLC\",\"email\":\"arin-contact@google.com\\nnetwork-abuse@google.com\",\"phone\":\"+1-650-253-0000\",\n\"country\":\"US\",\"city\":\"Mountain View\",\"postalCode\":\"94043\",\"address\":[\"1600 Amphitheatre Parkway\"]\x7d,\"mntBy\":[],\n\"mntDomains\":[],\"mntLower\":[],\"mntRoutes\":[],\"remarks\":[],\"source\":\"ARIN\"\x7d]\x7d\x7d"

/-- The constant `respUnparsable` of the tests. -/
def respUnparsable : Bytes := bytesOf "<?xml version=\"1.0\" encoding=\"utf-8\"?><>"

/-- The constant `errResp` of the tests. -/
def errResp : Bytes := bytesOf "\x7b\"code\":499,\"messages\":\"Test error message.\"\x7d"

/-- The success body cut ten bytes short (the path `/IPNetblocks/partial`). -/
def respPartial : Bytes := respOK.take (respOK.length - 10)

/-- The `newAPI` of the tests against a `dummyServer` path that answers every request
with the given status and body. -/
def newAPI (status : Int) (body : Bytes) : ipNetblocksServiceOp :=
  ⟨⟨apiKey, fun _ => none, fun _ => .ok ⟨status, []⟩ body⟩, "http://127.0.0.1/IPNetblocks"⟩

/-! ## Definitions used to state the theorems -/

/-- The query map `request` encodes into the URL of the request it sends. -/
def ipNetblocksServiceOp.query (service : ipNetblocksServiceOp) (ip mask asn org : String)
    (opts : List Option_) : Values :=
  let q := Values.Set [] "apiKey" service.client.apiKey
  let q := if ip ≠ "" then q.Set "ip" ip else q
  let q := if mask ≠ "" then q.Set "mask" mask else q
  let q := if asn ≠ "" then q.Set "asn" asn else q
  let q := if org ≠ "" then q.Set "org" org else q
  opts.foldl (fun q opt => opt q) q

/-- The transport of `service` succeeds: `NewRequest` builds the request and `Do`
answers whatever request it is given with the response `resp` and the body `body`. -/
def Delivers (service : ipNetblocksServiceOp) (resp : HttpResponse) (body : Bytes) : Prop :=
  service.client.NewRequest service.baseURL = none ∧
    ∀ req, service.client.Do req = .ok resp body

/-- A text that starts with a character other than `<`. -/
def startsOK (l : List Char) : Bool :=
  match l with
  | c :: _ => c != '<'
  | [] => false

/-- The options the library builds: `OptionOutputFormat`, `OptionLimit`, `OptionFrom`. -/
inductive BuiltinOption where
  | outputFormat (outputFormat : String)
  | limit (value : Int)
  | from_ (value : Option String)

/-- The `Option` a built-in option is. -/
def BuiltinOption.toOption : BuiltinOption → Option_
  | .outputFormat f => OptionOutputFormat f
  | .limit n => OptionLimit n
  | .from_ p => OptionFrom p

/-- The queries of the requests handed to `Client.Do`, in order. -/
def sentQueries : List Call → List Values
  | [] => []
  | .Do req :: rest => req.Query :: sentQueries rest
  | .NewRequest _ :: rest => sentQueries rest

/-- The API key and the four lookup parameters of a query: the entries of `apiKey`,
`ip`, `mask`, `asn` and `org`. -/
def lookupParams (q : Values) : List (Option (List String)) :=
  [q.find "apiKey", q.find "ip", q.find "mask", q.find "asn", q.find "org"]

deriving instance DecidableEq for Except

/-- A decoding step never clears the saved error: if none is saved after it, none was saved
before it. -/
def Mono {α : Type} (f : Saved → Dec α) : Prop :=
  ∀ s v s2, f s = .ok (v, s2) → s2 = none → s = none

/-- The value `j` belongs to the only member of the object `ms` whose key selects the
field `name`. -/
def OnlyMember (names : List String) (ms : List (String × JSON)) (name : String) (j : JSON) :
    Prop :=
  ∃ pre k post, ms = pre ++ (k, j) :: post ∧ lookupField names k = some name ∧
    ∀ p ∈ pre ++ post, lookupField names p.1 ≠ some name

/-- No member of the object `ms` has a key that selects one of the fields `touched`. -/
def NoMember (names : List String) (ms : List (String × JSON)) (touched : List String) : Prop :=
  ∀ p ∈ ms, ∀ n ∈ touched, lookupField names p.1 ≠ some n

/-- The context of the decoder inside the field `result`. -/
def resultCtx : Ctx := Ctx.top.field "apiResponse" "result"

/-- The context of the decoder inside the field `inetnums` of `result`. -/
def inetnumsCtx : Ctx := resultCtx.field "Result" "inetnums"

/-- The pointer a JSON string or null is decoded into. -/
def pointerOf : JSON → Option (Option String)
  | .string x => some (some x)
  | .null => some none
  | _ => none

/-- The members of the object a body starts with; empty when it starts with no object. -/
def bodyMembers (b : Bytes) : List (String × JSON) :=
  match scanBody b with
  | .ok (.object ms) => ms
  | _ => []

/-- Whether the first JSON value of a body is an object. -/
def isObjectBody (b : Bytes) : Bool :=
  match scanBody b with
  | .ok (.object _) => true
  | _ => false

/-- The value the success body of the tests decodes to. -/
def respOKDecoded : apiResponse :=
  { IPNetblocksResponse :=
      { Search := "8.8.8.8"
        Result :=
          { Count := 1
            Limit := 1
            From := some ""
            Next := some "8.8.8.0-8.8.8.255"
            Inetnums :=
              [{ Inetnum := "8.8.8.0 - 8.8.8.255"
                 InetnumFirst := ⟨"281470816487424"⟩
                 InetnumLast := ⟨"281470816487679"⟩
                 InetnumFirstString := "281470816487424"
                 InetnumLastString := "281470816487679"
                 Parent := ""
                 AS := ⟨15169, "GOOGLE", "Content", "8.8.8.0/24", "https://about.google/intl/en/"⟩
                 Netname := "LVLT-GOGL-8-8-8"
                 Nethandle := "NET-8-8-8-0-1"
                 Description := []
                 Modified := ⟨63530352000, 0, .UTC⟩
                 Country := "US"
                 City := "Mountain View"
                 Address := ["1600 Amphitheatre Parkway"]
                 AbuseContact := []
                 AdminContact := []
                 TechContact := []
                 Org := ⟨"GOGL", "Google LLC", "+1-650-253-0000",
                   "arin-contact@google.com\nnetwork-abuse@google.com", "US", "Mountain View",
                   "94043", ["1600 Amphitheatre Parkway"]⟩
                 MntBy := []
                 MntDomains := []
                 MntLower := []
                 MntRoutes := []
                 Remarks := []
                 Source := "ARIN" }] }
        Error := "" }
    ErrorMessage := ⟨0, ""⟩ }

/-- The transport of `service` fails with the error `e`: either `NewRequest` returns `e`,
or the request is built and `Do` answers whatever request it is given with `e`, after
having received the response `resp` (if any) and buffered the bytes `body`. -/
def FailsWith (service : ipNetblocksServiceOp) (resp : Option HttpResponse) (body : Bytes)
    (e : Error) : Prop :=
  service.client.NewRequest service.baseURL = some e ∨
    (service.client.NewRequest service.baseURL = none ∧
      ∀ req, service.client.Do req = .fail resp body e)

/-- A service like `newAPI` whose transport fails in `Do` with the error `e` after the
response `resp` and the bytes `body`. -/
def failingAPI (resp : Option HttpResponse) (body : Bytes) (e : Error) : ipNetblocksServiceOp :=
  ⟨⟨apiKey, fun _ => none, fun _ => .fail resp body e⟩, "http://127.0.0.1/IPNetblocks"⟩

/-- One upper-case hexadecimal digit (`upperhex` of `net/url`). -/
def upperHexDigit (n : Nat) : Char :=
  if n < 10 then Char.ofNat (48 + n) else Char.ofNat (55 + n)

/-- The `shouldEscape` of `net/url` in the mode of a query component: only letters,
digits and the marks `-`, `_`, `.`, `~` are kept. -/
def shouldEscape (c : Nat) : Bool :=
  ¬ ((97 ≤ c ∧ c ≤ 122) ∨ (65 ≤ c ∧ c ≤ 90) ∨ (48 ≤ c ∧ c ≤ 57)
    ∨ c = 45 ∨ c = 95 ∨ c = 46 ∨ c = 126)

/-- Go's `url.QueryEscape`: a space becomes `+`, every other byte that must be escaped
becomes `%XX`. -/
def QueryEscape (s : String) : List Char :=
  (bytesOf s).flatMap (fun b =>
    if b.toNat = 32 then ['+']
    else if shouldEscape b.toNat then
      ['%', upperHexDigit (b.toNat / 16), upperHexDigit (b.toNat % 16)]
    else [Char.ofNat b.toNat])

/-- The order of Go strings: byte by byte, which for UTF-8 is code point by code point. -/
def ltChars : List Char → List Char → Bool
  | _, [] => false
  | [], _ :: _ => true
  | a :: as, b :: bs => a.toNat < b.toNat ∨ (a.toNat = b.toNat ∧ ltChars as bs)

/-- Insertion of a key into a list of keys sorted in increasing order. -/
def insertKey (k : String) : List String → List String
  | [] => [k]
  | a :: rest => if ltChars k.data a.data then k :: a :: rest else a :: insertKey k rest

/-- The keys of a list, each once. -/
def distinctKeys : List String → List String
  | [] => []
  | a :: rest => a :: (distinctKeys rest).filter (fun k => k ≠ a)

/-- The keys of a query map, each once, in increasing order (`slices.Sort`). -/
def sortedKeys (v : Values) : List String :=
  (distinctKeys (v.map (fun p => p.1))).foldr insertKey []

/-- Go's `Values.Encode`: the pairs `key=value` with both sides escaped, sorted by key and
joined by `&`. -/
def Values.Encode (v : Values) : String :=
  String.mk ("&".toList.intercalate ((sortedKeys v).flatMap (fun k =>
    ((Values.find v k).getD []).map (fun x => QueryEscape k ++ '=' :: QueryEscape x))))

/-- Go's `Values.Del`: the key is removed. -/
def Values.Del (v : Values) (key : String) : Values :=
  v.filter (fun p => p.1 ≠ key)

/-- Go's `Time.Equal`: the two times are the same instant; the locations do not count. -/
def Time.Equal (t u : Time) : Bool :=
  t.sec = u.sec ∧ t.nsec = u.nsec

/-- A date that exists in a year from 0 to 9999, with a time of day. -/
def Clock.valid (c : Clock) : Bool :=
  0 ≤ c.year ∧ c.year ≤ 9999 ∧ 1 ≤ c.month ∧ c.month ≤ 12 ∧ 1 ≤ c.day ∧
    c.day ≤ daysIn c.month c.year.toNat ∧ c.hour < 24 ∧ c.min < 60 ∧ c.sec < 60

/-- A zone offset the layout element `Z07:00` holds in full: a whole number of minutes,
less than 25 hours to either side. -/
def wholeMinutes (offset : Int) : Bool :=
  offset % 60 = 0 ∧ -90000 < offset ∧ offset < 90000

/-- The JSON string literal that holds the RFC 3339 text of a date, a clock and a zone
offset: four digits of the year, two digits of every other field, no fraction of a
second, and the zone as `Z` or as a sign with hours and minutes. -/
def quotedText (c : Clock) (offset : Int) : Bytes :=
  bytesOf (String.mk ('"' :: (formatFields c offset ++ ['"'])))

/-- A character that stands for itself in a JSON string literal and is one byte. -/
def plainChar (c : Char) : Bool :=
  32 ≤ c.toNat ∧ c.toNat < 128 ∧ c.toNat ≠ 34 ∧ c.toNat ≠ 92

/-- The value given to the last `OptionOutputFormat` of a list of built-in options, if the
list has one. -/
def lastOutputFormat : List BuiltinOption → Option String
  | [] => none
  | .outputFormat f :: rest =>
    match lastOutputFormat rest with
    | some g => some g
    | none => some f
  | .limit _ :: rest => lastOutputFormat rest
  | .from_ _ :: rest => lastOutputFormat rest

/-- Whether a JSON value is a number. -/
def JSON.isNumber : JSON → Bool
  | .number _ => true
  | _ => false

/-- The bytes of a mask of `len` bytes whose first `ones` bits are one and whose other
bits are zero. -/
def prefixBytes : Nat → Nat → List Nat
  | _, 0 => []
  | ones, len + 1 =>
    if 8 ≤ ones then 0xff :: prefixBytes (ones - 8) len
    else (256 - 2 ^ (8 - ones)) :: prefixBytes 0 len

/-- The canonical mask of `len` bytes with the prefix length `ones`, as Go's
`net.CIDRMask(ones, 8 * len)` builds it. -/
def prefixMask (ones len : Nat) : IPMask :=
  (prefixBytes ones len).map UInt8.ofNat

/-- The arrays of `Option` values in memory, each with its slots; a slot that was never
written holds the nil function. -/
abbrev Heap := List (List (Option Option_))

/-- A Go slice `[]Option`: the array it points into, where it starts in that array, its
length and its capacity. -/
structure Slice where
  array : Nat
  off : Nat
  len : Nat
  cap : Nat

/-- The elements of a slice. -/
def Heap.read (h : Heap) (s : Slice) : List (Option Option_) :=
  ((h.getD s.array []).drop s.off).take s.len

/-- Go's `make([]Option, 0, cap)`: a new array of nil slots and the empty slice at its
start. -/
def Heap.make (h : Heap) (cap : Nat) : Heap × Slice :=
  (h ++ [List.replicate cap none], ⟨h.length, 0, 0, cap⟩)

/-- Go's `append(s, xs...)`: when the capacity suffices the elements are written into the
array of `s` after its last element, and that array is shared with every other slice that
points into it; otherwise a new array is allocated for the old and the new elements (its
capacity is left to the implementation; the model takes the length). -/
def Heap.append (h : Heap) (s : Slice) (xs : List (Option Option_)) : Heap × Slice :=
  if s.len + xs.length ≤ s.cap then
    (h.modify (fun arr => arr.take (s.off + s.len) ++ xs ++ arr.drop (s.off + s.len + xs.length))
        s.array,
      ⟨s.array, s.off, s.len + xs.length, s.cap⟩)
  else
    (h ++ [h.read s ++ xs], ⟨h.length, 0, s.len + xs.length, s.len + xs.length⟩)

/-- The three lines of each parsed operation that build `optsJSON` from the caller's
`opts`: a new array of `len(opts)+1` slots, the copy of `opts` into it, and the option
`OptionOutputFormat("JSON")` after them. -/
def buildOptsJSON (h : Heap) (opts : Slice) : Heap × Slice :=
  let m := h.make (opts.len + 1)
  let a := m.1.append m.2 (m.1.read opts)
  a.1.append a.2 [some (OptionOutputFormat "JSON")]

/-- The method `Time.UnmarshalJSON` of `models.go` with its receiver: the value of `*t`
after the call and the error returned. The method assigns to `*t` on the two paths that
return nil and on no other. -/
def Time.afterUnmarshalJSON (t : Time) (b : Bytes) : Time × Option DecodeError :=
  match unmarshalStringBytes b with
  | .error err => (t, some err)
  | .ok str =>
    if str = "" then (emptyTime, none)
    else
      match timeParseRFC3339 str with
      | .error err => (t, some err)
      | .ok v => (v, none)

/-- The `2DIGIT` of the grammar of RFC 3339: exactly two digits, with their value. -/
def rfcTwoDigits : List Char → Option (Nat × List Char)
  | a :: b :: rest =>
    if isDigitChar a ∧ isDigitChar b then some (digitVal a * 10 + digitVal b, rest) else none
  | _ => none

/-- The `time-hour` of RFC 3339: two digits; in the lax reading one digit is enough. -/
def rfcHour (lax : Bool) (l : List Char) : Option (Nat × List Char) :=
  match l with
  | a :: b :: rest =>
    if isDigitChar a ∧ isDigitChar b then some (digitVal a * 10 + digitVal b, rest)
    else if lax ∧ isDigitChar a then some (digitVal a, b :: rest)
    else none
  | [a] => if lax ∧ isDigitChar a then some (digitVal a, []) else none
  | [] => none

/-- What follows the optional `time-secfrac` of RFC 3339 (a period and one digit or more);
in the lax reading a comma may stand for the period. -/
def rfcAfterFraction (lax : Bool) : List Char → List Char
  | sep :: d :: rest =>
    if (sep = '.' ∨ (lax ∧ sep = ',')) ∧ isDigitChar d then rest.dropWhile isDigitChar
    else sep :: d :: rest
  | l => l

/-- The `time-offset` of RFC 3339: `Z` (or `z`), or a sign, an hour from 00 to 23, a colon
and a minute from 00 to 59; in the lax reading the hour 24 and the minute 60 pass. -/
def rfcOffset (lax : Bool) : List Char → Bool
  | [z] => z = 'Z' ∨ z = 'z'
  | sign :: rest =>
    match rfcTwoDigits rest with
    | some (hh, ':' :: rest1) =>
      match rfcTwoDigits rest1 with
      | some (mm, []) =>
        (sign = '+' ∨ sign = '-') ∧ hh ≤ (if lax then 24 else 23) ∧ mm ≤ (if lax then 60 else 59)
      | _ => false
    | _ => false
  | [] => false

/-- The `partial-time` and `time-offset` of RFC 3339 after the `T`. -/
def rfcTime (lax : Bool) (l : List Char) : Bool :=
  match rfcHour lax l with
  | some (hour, ':' :: r1) =>
    match rfcTwoDigits r1 with
    | some (min, ':' :: r2) =>
      match rfcTwoDigits r2 with
      | some (sec, r3) =>
        hour ≤ 23 ∧ min ≤ 59 ∧ sec ≤ 60 ∧ rfcOffset lax (rfcAfterFraction lax r3)
      | none => false
    | _ => false
  | _ => false

/-- The grammar `date-time` of section 5.6 of RFC 3339: `full-date "T" full-time` with
four digits of the year, two digits of every other field, a month from 01 to 12, a day of
that month, an hour up to 23, a minute up to 59, a second up to 60, an optional fraction,
and the offset. The lax reading allows four things more: an hour of one digit, a comma
before the fraction, the offset hour 24 and the offset minute 60. -/
def rfc3339 (lax : Bool) (s : String) : Bool :=
  match s.data.drop 4 with
  | '-' :: r1 =>
    match rfcTwoDigits r1 with
    | some (month, '-' :: r2) =>
      match rfcTwoDigits r2 with
      | some (day, t :: r3) =>
        (s.data.take 4).length = 4 ∧ (s.data.take 4).all isDigitChar ∧
          1 ≤ month ∧ month ≤ 12 ∧ 1 ≤ day ∧ day ≤ daysIn month (digitsVal (s.data.take 4)) ∧
          (t = 'T' ∨ t = 't') ∧ rfcTime lax r3
      | _ => false
    | _ => false
  | _ => false

/-- A valid RFC 3339 timestamp. -/
def isRFC3339 (s : String) : Bool :=
  rfc3339 false s

/-- A valid RFC 3339 timestamp but for an hour of one digit, a comma before the fraction
of a second, the offset hour 24 or the offset minute 60. -/
def isRFC3339Lax (s : String) : Bool :=
  rfc3339 true s

/-! ### The result read from the JSON under the json tags

What the specification says the result holds: every field is the value of the member of
the JSON object whose key is the json tag `models.go` declares for the field. These
readers look the tags up letter for letter and do not go through the decoder. -/

/-- The value of the member of a JSON object whose key is `tag`: that of the first such
member, null when there is none. -/
def memberOf (ms : List (String × JSON)) (tag : String) : JSON :=
  match ms with
  | [] => .null
  | (k, j) :: rest => if k = tag then j else memberOf rest tag

/-- The Go `string` a JSON value stands for: the string itself, empty for null. -/
def textOf : JSON → String
  | .string x => x
  | _ => ""

/-- The Go `int` a JSON value stands for: the integer its number literal writes, zero for
null. -/
def intOf : JSON → Int
  | .number lit => (parseInt64 lit).getD 0
  | _ => 0

/-- The Go `float64` a JSON value stands for: the number of its literal, zero for null. -/
def floatOf : JSON → Float64
  | .number lit => ⟨lit⟩
  | _ => Float64.zero

/-- The Go `*string` a JSON value stands for: a pointer to the string, nil for null. -/
def textPointerOf : JSON → Option String
  | .string x => some x
  | _ => none

/-- The elements of a JSON array; none for null. -/
def itemsOf : JSON → List JSON
  | .array xs => xs
  | _ => []

/-- The members of a JSON object; none for null. -/
def membersOf : JSON → List (String × JSON)
  | .object ms => ms
  | _ => []

/-- The Go `[]string` a JSON value stands for: the strings of the array, in order. -/
def textsOf (j : JSON) : List String := (itemsOf j).map textOf

/-- The `Time` a JSON value stands for: the instant its string writes in the layout
`time.RFC3339`, the zero time for the empty string and for null. -/
def timeOf : JSON → Time
  | .string x =>
    if x = "" then emptyTime
    else
      match timeParseRFC3339 x with
      | .ok t => t
      | .error _ => emptyTime
  | _ => emptyTime

/-- Whether no string occurs twice in a list. -/
def noRepeat : List String → Bool
  | [] => true
  | k :: rest => !rest.contains k && noRepeat rest

/-- Whether the keys of a JSON object are plain for a struct with the json tags `tags`: no
key occurs twice, and a key that selects a field is the tag of that field letter for
letter (a key that differs from a tag only in the case of its letters is not plain). -/
def plainKeys (tags : List String) (ms : List (String × JSON)) : Bool :=
  ms.all (fun p => decide (p.1 ∈ tags) || (lookupField tags p.1).isNone) &&
    noRepeat (ms.map Prod.fst)

/-- The fields of an autonomous system read from the members of a JSON object, each from the member
whose key is its json tag. -/
def AS.ofMembers (ms : List (String × JSON)) : AS :=
  { ASN := intOf (memberOf ms "asn")
    Name := textOf (memberOf ms "name")
    Type_ := textOf (memberOf ms "type")
    Route := textOf (memberOf ms "route")
    Domain := textOf (memberOf ms "domain") }

/-- The value of an autonomous system read from a JSON value: an object gives its members, any other
value the zero value. -/
def AS.ofJSON (j : JSON) : AS := AS.ofMembers (membersOf j)

/-- The json tags of `AS`, as `models.go` declares them. -/
def AS.tags : List String :=
  ["asn", "name", "type", "route", "domain"]

/-- Whether a JSON value for an autonomous system is plain: its keys are. -/
def AS.plain (j : JSON) : Bool := plainKeys AS.tags (membersOf j)

/-- The fields of a contact read from the members of a JSON object, each from the member
whose key is its json tag. -/
def Contact.ofMembers (ms : List (String × JSON)) : Contact :=
  { ID := textOf (memberOf ms "id")
    Person := textOf (memberOf ms "person")
    Role := textOf (memberOf ms "role")
    Email := textOf (memberOf ms "email")
    Phone := textOf (memberOf ms "phone")
    Country := textOf (memberOf ms "country")
    City := textOf (memberOf ms "city")
    Address := textsOf (memberOf ms "address") }

/-- The value of a contact read from a JSON value: an object gives its members, any other
value the zero value. -/
def Contact.ofJSON (j : JSON) : Contact := Contact.ofMembers (membersOf j)

/-- The json tags of `Contact`, as `models.go` declares them. -/
def Contact.tags : List String :=
  ["id", "person", "role", "email", "phone", "country", "city", "address"]

/-- Whether a JSON value for a contact is plain: its keys are. -/
def Contact.plain (j : JSON) : Bool := plainKeys Contact.tags (membersOf j)

/-- The fields of an organization read from the members of a JSON object, each from the member
whose key is its json tag. -/
def Organization.ofMembers (ms : List (String × JSON)) : Organization :=
  { Org := textOf (memberOf ms "org")
    Name := textOf (memberOf ms "name")
    Phone := textOf (memberOf ms "phone")
    Email := textOf (memberOf ms "email")
    Country := textOf (memberOf ms "country")
    City := textOf (memberOf ms "city")
    PostalCode := textOf (memberOf ms "postalCode")
    Address := textsOf (memberOf ms "address") }

/-- The value of an organization read from a JSON value: an object gives its members, any other
value the zero value. -/
def Organization.ofJSON (j : JSON) : Organization := Organization.ofMembers (membersOf j)

/-- The json tags of `Organization`, as `models.go` declares them. -/
def Organization.tags : List String :=
  ["org", "name", "phone", "email", "country", "city", "postalCode", "address"]

/-- Whether a JSON value for an organization is plain: its keys are. -/
def Organization.plain (j : JSON) : Bool := plainKeys Organization.tags (membersOf j)

/-- The fields of a maintainer read from the members of a JSON object, each from the member
whose key is its json tag. -/
def Maintainer.ofMembers (ms : List (String × JSON)) : Maintainer :=
  { Mntner := textOf (memberOf ms "mntner")
    Email := textOf (memberOf ms "email") }

/-- The value of a maintainer read from a JSON value: an object gives its members, any other
value the zero value. -/
def Maintainer.ofJSON (j : JSON) : Maintainer := Maintainer.ofMembers (membersOf j)

/-- The json tags of `Maintainer`, as `models.go` declares them. -/
def Maintainer.tags : List String :=
  ["mntner", "email"]

/-- Whether a JSON value for a maintainer is plain: its keys are. -/
def Maintainer.plain (j : JSON) : Bool := plainKeys Maintainer.tags (membersOf j)

/-- The fields of a netblock read from the members of a JSON object, each from the member
whose key is its json tag. -/
def Inetnum.ofMembers (ms : List (String × JSON)) : IPNetblocks.Inetnum :=
  { Inetnum := textOf (memberOf ms "inetnum")
    InetnumFirst := floatOf (memberOf ms "inetnumFirst")
    InetnumLast := floatOf (memberOf ms "inetnumLast")
    InetnumFirstString := textOf (memberOf ms "inetnumFirstString")
    InetnumLastString := textOf (memberOf ms "inetnumLastString")
    Parent := textOf (memberOf ms "parent")
    AS := AS.ofJSON (memberOf ms "as")
    Netname := textOf (memberOf ms "netname")
    Nethandle := textOf (memberOf ms "nethandle")
    Description := textsOf (memberOf ms "description")
    Modified := timeOf (memberOf ms "modified")
    Country := textOf (memberOf ms "country")
    City := textOf (memberOf ms "city")
    Address := textsOf (memberOf ms "address")
    AbuseContact := (itemsOf (memberOf ms "abuseContact")).map Contact.ofJSON
    AdminContact := (itemsOf (memberOf ms "adminContact")).map Contact.ofJSON
    TechContact := (itemsOf (memberOf ms "techContact")).map Contact.ofJSON
    Org := Organization.ofJSON (memberOf ms "org")
    MntBy := (itemsOf (memberOf ms "mntBy")).map Maintainer.ofJSON
    MntDomains := (itemsOf (memberOf ms "mntDomains")).map Maintainer.ofJSON
    MntLower := (itemsOf (memberOf ms "mntLower")).map Maintainer.ofJSON
    MntRoutes := (itemsOf (memberOf ms "mntRoutes")).map Maintainer.ofJSON
    Remarks := textsOf (memberOf ms "remarks")
    Source := textOf (memberOf ms "source") }

/-- The value of a netblock read from a JSON value: an object gives its members, any other
value the zero value. -/
def Inetnum.ofJSON (j : JSON) : IPNetblocks.Inetnum := Inetnum.ofMembers (membersOf j)

/-- The json tags of `Inetnum`, as `models.go` declares them. -/
def Inetnum.tags : List String :=
  ["inetnum", "inetnumFirst", "inetnumLast", "inetnumFirstString", "inetnumLastString",
    "parent", "as", "netname", "nethandle", "description", "modified", "country", "city",
    "address", "abuseContact", "adminContact", "techContact", "org", "mntBy", "mntDomains",
    "mntLower", "mntRoutes", "remarks", "source"]

/-- Whether the value of the member `k` of a netblock is plain, when it holds structs. -/
def Inetnum.plainMember (k : String) (j : JSON) : Bool :=
  if k = "as" then AS.plain j
  else if k = "abuseContact" then (itemsOf j).all Contact.plain
  else if k = "adminContact" then (itemsOf j).all Contact.plain
  else if k = "techContact" then (itemsOf j).all Contact.plain
  else if k = "org" then Organization.plain j
  else if k = "mntBy" then (itemsOf j).all Maintainer.plain
  else if k = "mntDomains" then (itemsOf j).all Maintainer.plain
  else if k = "mntLower" then (itemsOf j).all Maintainer.plain
  else if k = "mntRoutes" then (itemsOf j).all Maintainer.plain
  else true

/-- Whether a JSON value for a netblock is plain: its keys are, and so are the structs in it. -/
def Inetnum.plain (j : JSON) : Bool :=
  plainKeys Inetnum.tags (membersOf j) &&
    (membersOf j).all (fun p => Inetnum.plainMember p.1 p.2)

/-- The fields of the result read from the members of a JSON object, each from the member
whose key is its json tag. -/
def Result.ofMembers (ms : List (String × JSON)) : Result :=
  { Count := intOf (memberOf ms "count")
    Limit := intOf (memberOf ms "limit")
    From := textPointerOf (memberOf ms "from")
    Next := textPointerOf (memberOf ms "next")
    Inetnums := (itemsOf (memberOf ms "inetnums")).map Inetnum.ofJSON }

/-- The value of the result read from a JSON value: an object gives its members, any other
value the zero value. -/
def Result.ofJSON (j : JSON) : Result := Result.ofMembers (membersOf j)

/-- The json tags of `Result`, as `models.go` declares them. -/
def Result.tags : List String :=
  ["count", "limit", "from", "next", "inetnums"]

/-- Whether the value of the member `k` of the result is plain, when it holds structs. -/
def Result.plainMember (k : String) (j : JSON) : Bool :=
  if k = "inetnums" then (itemsOf j).all Inetnum.plain
  else true

/-- Whether a JSON value for the result is plain: its keys are, and so are the structs in it. -/
def Result.plain (j : JSON) : Bool :=
  plainKeys Result.tags (membersOf j) &&
    (membersOf j).all (fun p => Result.plainMember p.1 p.2)

/-- The fields of the response read from the members of the JSON object of a body, each
from the member whose key is its json tag. -/
def IPNetblocksResponse.ofMembers (ms : List (String × JSON)) : IPNetblocksResponse :=
  { Search := textOf (memberOf ms "search")
    Result := Result.ofJSON (memberOf ms "result")
    Error := textOf (memberOf ms "error") }

/-- The fields of the error message read from the members of the JSON object of a body. -/
def ErrorMessage.ofMembers (ms : List (String × JSON)) : ErrorMessage :=
  { Code := intOf (memberOf ms "code")
    Message := textOf (memberOf ms "messages") }

/-- Both embedded structs of `apiResponse` read from the members of a JSON object. -/
def apiResponse.ofMembers (ms : List (String × JSON)) : apiResponse :=
  { IPNetblocksResponse := IPNetblocksResponse.ofMembers ms
    ErrorMessage := ErrorMessage.ofMembers ms }

/-- The json tags of `apiResponse`: those of `IPNetblocksResponse` and of `ErrorMessage`. -/
def apiResponse.tags : List String := ["search", "result", "error", "code", "messages"]

/-- Whether the value of the member `k` of a body is plain, when it holds structs. -/
def apiResponse.plainMember (k : String) (j : JSON) : Bool :=
  if k = "result" then Result.plain j
  else true

/-- Whether the object of a body is plain: at every level, no key occurs twice and a key
that selects a field is the json tag of the field, letter for letter. -/
def plainBody (ms : List (String × JSON)) : Bool :=
  plainKeys apiResponse.tags ms && ms.all (fun p => apiResponse.plainMember p.1 p.2)

/-- A success body whose netblock has contacts and maintainers. -/
def respContacts : Bytes := bytesOf
  "\x7b\"search\":\"1.1.1.1\",\"result\":\x7b\"count\":1,\"limit\":1,\"from\":null,\"next\":null,\"inetnums\":[\x7b\"inetnum\":\"1.1.1.0 - 1.1.1.255\",\"as\":\x7b\"asn\":13335,\"name\":\"CLOUDFLARENET\"\x7d,\"modified\":\"2020-07-15T00:00:00Z\",\"abuseContact\":[\x7b\"id\":\"IRT-APNICRANDNET-AU\",\"role\":\"IRT\",\"email\":\"helpdesk@apnic.net\",\"address\":[\"PO Box 3646\"]\x7d],\"adminContact\":[\x7b\"id\":\"AR302-AP\",\"person\":\"APNIC RESEARCH\"\x7d],\"org\":\x7b\"org\":\"ORG-ARAD1-AP\",\"country\":\"AU\"\x7d,\"mntBy\":[\x7b\"mntner\":\"APNIC-HM\",\"email\":\"helpdesk@apnic.net\"\x7d],\"source\":\"APNIC\"\x7d]\x7d\x7d"

/-- The netblock of the body with contacts. -/
def inetnumContacts : Inetnum :=
  { Inetnum.zero with
    Inetnum := "1.1.1.0 - 1.1.1.255"
    AS := ⟨13335, "CLOUDFLARENET", "", "", ""⟩
    Modified := ⟨63730368000, 0, .UTC⟩
    AbuseContact := [⟨"IRT-APNICRANDNET-AU", "", "IRT", "helpdesk@apnic.net", "", "", "",
      ["PO Box 3646"]⟩]
    AdminContact := [⟨"AR302-AP", "APNIC RESEARCH", "", "", "", "", "", []⟩]
    Org := ⟨"ORG-ARAD1-AP", "", "", "", "AU", "", "", []⟩
    MntBy := [⟨"APNIC-HM", "helpdesk@apnic.net"⟩]
    Source := "APNIC" }

/-- The value the body with contacts decodes to. -/
def respContactsDecoded : apiResponse :=
  { IPNetblocksResponse := ⟨"1.1.1.1", ⟨1, 1, none, none, [inetnumContacts]⟩, ""⟩
    ErrorMessage := ⟨0, ""⟩ }

/-! ## Theorems -/

/-- When `request` returns no error it returns a Response. -/
theorem request_resp_of_no_err (service : ipNetblocksServiceOp) (ip mask asn org : String)
    (opts : List Option_) :
    (service.request ip mask asn org opts).err = none →
      ∃ resp, (service.request ip mask asn org opts).resp = some resp := by
  unfold ipNetblocksServiceOp.request
  cases service.newRequest with
  | error e => simp
  | ok req =>
    simp only
    split <;> simp

/-- The two returns of `parse`: an error without a response, or a response without an
error. -/
theorem parse_cases (raw : Bytes) :
    (∃ d, jsonDecode raw = .error d ∧ parse raw = (none, some (.parse d))) ∨
      (∃ v, jsonDecode raw = .ok v ∧ parse raw = (some v, none)) := by
  unfold parse
  cases jsonDecode raw with
  | error d => exact Or.inl ⟨d, rfl, rfl⟩
  | ok v => exact Or.inr ⟨v, rfl, rfl⟩

/-- The tail of a parsed operation returns a result exactly when it returns no error. -/
theorem parsedReturn_result_iff (r : RawReturn)
    (h : r.err = none → ∃ resp, r.resp = some resp) :
    ((parsedReturn r).ipNetblocksResponse.isSome = true ↔ (parsedReturn r).err = none) := by
  unfold parsedReturn
  cases herr : r.err with
  | some err => simp
  | none =>
    obtain ⟨resp, hresp⟩ := h herr
    simp only [hresp]
    rcases parse_cases resp.Body with ⟨d, _, hp⟩ | ⟨v, _, hp⟩
    · simp [hp]
    · simp only [hp]
      split <;> simp

/-! The operations, unfolded. -/

theorem GetByIP_eq (service : ipNetblocksServiceOp) (ip : IP) (opts : List Option_) :
    service.GetByIP ip opts =
      if ip.String = "<nil>" then ⟨none, none, some (.arg ⟨"ip", "can not be empty"⟩), []⟩
      else parsedReturn (service.request ip.String "" "" "" (opts ++ [OptionOutputFormat "JSON"])) :=
  rfl

theorem GetByCIDR_eq (service : ipNetblocksServiceOp) (ip : IPNet) (opts : List Option_) :
    service.GetByCIDR ip opts =
      if ip.IP.String = "<nil>" then ⟨none, none, some (.arg ⟨"ip", "can not be empty"⟩), []⟩
      else parsedReturn (service.request ip.IP.String (formatInt ip.Mask.Size) "" ""
        (opts ++ [OptionOutputFormat "JSON"])) :=
  rfl

theorem GetByASN_eq (service : ipNetblocksServiceOp) (asn : Int) (opts : List Option_) :
    service.GetByASN asn opts =
      match validateASN asn with
      | some err => ⟨none, none, some err, []⟩
      | none => parsedReturn (service.request "" "" (formatInt asn) ""
          (opts ++ [OptionOutputFormat "JSON"])) :=
  rfl

theorem GetByOrg_eq (service : ipNetblocksServiceOp) (org : String) (opts : List Option_) :
    service.GetByOrg org opts =
      if org = "" then ⟨none, none, some (.arg ⟨"org", "can not be empty"⟩), []⟩
      else parsedReturn (service.request "" "" "" org (opts ++ [OptionOutputFormat "JSON"])) :=
  rfl

theorem GetRawByIP_eq (service : ipNetblocksServiceOp) (ip : IP) (opts : List Option_) :
    service.GetRawByIP ip opts =
      if ip.String = "<nil>" then ⟨none, some (.arg ⟨"ip", "can not be empty"⟩), []⟩
      else rawReturn (service.request ip.String "" "" "" opts) :=
  rfl

theorem GetRawByCIDR_eq (service : ipNetblocksServiceOp) (ip : IPNet) (opts : List Option_) :
    service.GetRawByCIDR ip opts =
      if ip.IP.String = "<nil>" then ⟨none, some (.arg ⟨"ip", "can not be empty"⟩), []⟩
      else rawReturn (service.request ip.IP.String (formatInt ip.Mask.Size) "" "" opts) :=
  rfl

theorem GetRawByASN_eq (service : ipNetblocksServiceOp) (asn : Int) (opts : List Option_) :
    service.GetRawByASN asn opts =
      match validateASN asn with
      | some err => ⟨none, some err, []⟩
      | none => rawReturn (service.request "" "" (formatInt asn) "" opts) :=
  rfl

theorem GetRawByOrg_eq (service : ipNetblocksServiceOp) (org : String) (opts : List Option_) :
    service.GetRawByOrg org opts =
      if org = "" then ⟨none, some (.arg ⟨"org", "can not be empty"⟩), []⟩
      else rawReturn (service.request "" "" "" org opts) :=
  rfl

/-- C1: each parsed operation (GetByIP, GetByCIDR, GetByASN, GetByOrg) returns a non-nil
result exactly when it returns a nil error, for every input and every transport. -/
theorem parsed_result_iff_no_error (service : ipNetblocksServiceOp) (ip : IP) (net : IPNet)
    (asn : Int) (org : String) (opts : List Option_) :
    ((service.GetByIP ip opts).ipNetblocksResponse.isSome = true
        ↔ (service.GetByIP ip opts).err = none) ∧
    ((service.GetByCIDR net opts).ipNetblocksResponse.isSome = true
        ↔ (service.GetByCIDR net opts).err = none) ∧
    ((service.GetByASN asn opts).ipNetblocksResponse.isSome = true
        ↔ (service.GetByASN asn opts).err = none) ∧
    ((service.GetByOrg org opts).ipNetblocksResponse.isSome = true
        ↔ (service.GetByOrg org opts).err = none) := by
  refine ⟨?_, ?_, ?_, ?_⟩
  · rw [GetByIP_eq]
    split
    · simp
    · exact parsedReturn_result_iff _ (request_resp_of_no_err _ _ _ _ _ _)
  · rw [GetByCIDR_eq]
    split
    · simp
    · exact parsedReturn_result_iff _ (request_resp_of_no_err _ _ _ _ _ _)
  · rw [GetByASN_eq]
    split
    · simp
    · exact parsedReturn_result_iff _ (request_resp_of_no_err _ _ _ _ _ _)
  · rw [GetByOrg_eq]
    split
    · simp
    · exact parsedReturn_result_iff _ (request_resp_of_no_err _ _ _ _ _ _)

/-! The request that is sent. -/

theorem request_eq (service : ipNetblocksServiceOp) (ip mask asn org : String)
    (opts : List Option_) :
    service.request ip mask asn org opts =
      match service.client.NewRequest service.baseURL with
      | some err => ⟨none, some err, [.NewRequest service.baseURL]⟩
      | none =>
        match service.client.Do ⟨service.baseURL, service.query ip mask asn org opts⟩ with
        | .fail resp b err =>
          ⟨some ⟨resp, b⟩, some err, [.NewRequest service.baseURL,
            .Do ⟨service.baseURL, service.query ip mask asn org opts⟩]⟩
        | .ok resp b =>
          ⟨some ⟨some resp, b⟩, none, [.NewRequest service.baseURL,
            .Do ⟨service.baseURL, service.query ip mask asn org opts⟩]⟩ := by
  unfold ipNetblocksServiceOp.request ipNetblocksServiceOp.newRequest
  cases service.client.NewRequest service.baseURL <;> rfl

theorem request_of_delivers (service : ipNetblocksServiceOp) (resp : HttpResponse) (b : Bytes)
    (h : Delivers service resp b) (ip mask asn org : String) (opts : List Option_) :
    service.request ip mask asn org opts =
      ⟨some ⟨some resp, b⟩, none, [.NewRequest service.baseURL,
        .Do ⟨service.baseURL, service.query ip mask asn org opts⟩]⟩ := by
  rw [request_eq, h.1]
  simp only [h.2]

/-! The text of an IP address. -/

theorem startsOK_append (l m : List Char) (h : startsOK l = true) :
    startsOK (l ++ m) = true := by
  cases l with
  | nil => simp [startsOK] at h
  | cons c cs => simpa [startsOK] using h

theorem startsOK_ne (l : List Char) (h : startsOK l = true) :
    String.mk l ≠ "<nil>" ∧ String.mk l ≠ "" := by
  cases l with
  | nil => simp [startsOK] at h
  | cons c cs =>
    simp only [startsOK, bne_iff_ne, ne_eq] at h
    constructor
    · intro hc
      have := congrArg String.data hc
      simp at this
      exact h this.1
    · intro hc
      have := congrArg String.data hc
      simp at this

set_option maxRecDepth 100000 in
theorem repr_byte_startsOK : ∀ n, n < 256 → startsOK (Nat.repr n).data = true := by
  decide

theorem hexDigit_ne : ∀ n, n < 16 → (hexDigit n != '<') = true := by
  decide

theorem appendHex_startsOK (x : Nat) : startsOK (appendHex x) = true := by
  unfold appendHex
  have h := fun k => hexDigit_ne (k % 16) (Nat.mod_lt _ (by decide))
  split <;> split <;> split <;> simp [startsOK, h]

theorem string4_startsOK (p : Bytes) (h : p ≠ []) : startsOK (string4 p) = true := by
  cases p with
  | nil => exact absurd rfl h
  | cons a rest =>
    unfold string4
    cases rest with
    | nil => simpa [List.intercalate] using repr_byte_startsOK a.toNat (UInt8.toNat_lt a)
    | cons b rest2 =>
      simp only [List.map_cons, List.intercalate, List.intersperse, List.flatten_cons]
      exact startsOK_append _ _ (repr_byte_startsOK a.toNat (UInt8.toNat_lt a))

theorem appendTo6_startsOK (g : List Nat) (zs ze : Nat) :
    startsOK (appendTo6 g zs ze 8 0) = true := by
  unfold appendTo6
  simp only [Nat.le_zero_eq, OfNat.ofNat_ne_zero, ↓reduceIte, Nat.lt_irrefl, List.nil_append]
  split
  · simp [startsOK]
  · exact startsOK_append _ _ (appendHex_startsOK _)

theorem To4_ne_nil (ip : IP) (p4 : Bytes) (h : ip.To4 = some p4) : p4 ≠ [] := by
  unfold IP.To4 at h
  split at h
  · next h4 =>
    simp only [Option.some.injEq] at h
    subst h
    intro hc
    simp [hc] at h4
  · split at h
    · next h16 =>
      simp only [Option.some.injEq] at h
      subst h
      intro hc
      have := congrArg List.length hc
      simp [h16.1] at this
    · simp at h

theorem IP_String_startsOK (ip : IP) (h : ip ≠ []) : startsOK ip.String.data = true := by
  unfold IP.String
  have hlen : ip.length ≠ 0 := by
    intro hc
    exact h (List.length_eq_zero.mp hc)
  rw [if_neg hlen]
  split
  · simp [startsOK]
  · split
    · next p4 hp4 => exact string4_startsOK p4 (To4_ne_nil ip p4 hp4)
    · exact appendTo6_startsOK _ _ _

/-- `IP.String` is the text of the nil address exactly for the empty slice. -/
theorem IP_String_eq_nil_iff (ip : IP) : ip.String = "<nil>" ↔ ip = [] := by
  constructor
  · intro h
    by_contra hne
    exact (startsOK_ne _ (IP_String_startsOK ip hne)).1 h
  · intro h
    subst h
    rfl

theorem IP_String_ne_empty (ip : IP) (h : ip ≠ []) : ip.String ≠ "" :=
  (startsOK_ne _ (IP_String_startsOK ip h)).2

/-- The tail of a parsed operation on a transport success whose body decodes. -/
theorem parsedReturn_of_decoded (resp : Response) (calls : List Call) (v : apiResponse)
    (hdec : jsonDecode resp.Body = .ok v) :
    parsedReturn ⟨some resp, none, calls⟩ =
      if v.ErrorMessage.Message ≠ "" ∨ v.ErrorMessage.Code ≠ 0 then
        ⟨none, none, some (.api ⟨v.ErrorMessage.Code, v.ErrorMessage.Message⟩), calls⟩
      else ⟨some v.IPNetblocksResponse, some resp, none, calls⟩ := by
  simp only [parsedReturn, parse, hdec]

/-- The tail of a parsed operation on a transport success whose body does not decode. -/
theorem parsedReturn_of_undecoded (resp : Response) (calls : List Call) (d : DecodeError)
    (hdec : jsonDecode resp.Body = .error d) :
    parsedReturn ⟨some resp, none, calls⟩ = ⟨none, some resp, some (.parse d), calls⟩ := by
  simp only [parsedReturn, parse, hdec]

/-- C2: when the transport succeeds and the body decodes to `v`, each parsed operation on
a valid key returns the error `ErrorMessage` with the decoded code and messages, and no
result, exactly when messages is not empty or code is not zero; otherwise it returns the
decoded result and no error. The text of the error is "API error: [<code>] <message>"
with the code in decimal. -/
theorem api_error_iff_code_or_message (service : ipNetblocksServiceOp) (resp : HttpResponse)
    (b : Bytes) (v : apiResponse) (ip : IP) (net : IPNet) (asn : Int) (org : String)
    (opts : List Option_) (hT : Delivers service resp b) (hdec : jsonDecode b = .ok v)
    (hip : ip ≠ []) (hnet : net.IP ≠ []) (hasn : 0 ≤ asn ∧ asn ≤ 4294967295)
    (horg : org ≠ "") :
    (∀ r ∈ [service.GetByIP ip opts, service.GetByCIDR net opts, service.GetByASN asn opts,
        service.GetByOrg org opts],
      (r.ipNetblocksResponse, r.err) =
        if v.ErrorMessage.Message ≠ "" ∨ v.ErrorMessage.Code ≠ 0 then
          (none, some (.api ⟨v.ErrorMessage.Code, v.ErrorMessage.Message⟩))
        else (some v.IPNetblocksResponse, none)) ∧
    (Error.api ⟨v.ErrorMessage.Code, v.ErrorMessage.Message⟩).text =
      "API error: [" ++ formatInt v.ErrorMessage.Code ++ "] " ++ v.ErrorMessage.Message := by
  have hipS : ¬ ip.String = "<nil>" := fun h => hip ((IP_String_eq_nil_iff ip).mp h)
  have hnetS : ¬ net.IP.String = "<nil>" := fun h => hnet ((IP_String_eq_nil_iff net.IP).mp h)
  have hv : validateASN asn = none := by
    unfold validateASN
    rw [if_neg]
    omega
  have key : ∀ calls, (fun r : ParsedReturn => (r.ipNetblocksResponse, r.err))
      (parsedReturn ⟨some ⟨some resp, b⟩, none, calls⟩) =
        if v.ErrorMessage.Message ≠ "" ∨ v.ErrorMessage.Code ≠ 0 then
          (none, some (.api ⟨v.ErrorMessage.Code, v.ErrorMessage.Message⟩))
        else (some v.IPNetblocksResponse, none) := by
    intro calls
    rw [parsedReturn_of_decoded ⟨some resp, b⟩ calls v hdec]
    split <;> rfl
  refine ⟨?_, rfl⟩
  intro r hr
  simp only [List.mem_cons, List.mem_singleton, List.not_mem_nil, or_false] at hr
  rcases hr with rfl | rfl | rfl | rfl
  · rw [GetByIP_eq, if_neg hipS, request_of_delivers service resp b hT]
    exact key _
  · rw [GetByCIDR_eq, if_neg hnetS, request_of_delivers service resp b hT]
    exact key _
  · rw [GetByASN_eq, hv]
    simp only
    rw [request_of_delivers service resp b hT]
    exact key _
  · rw [GetByOrg_eq, if_neg horg, request_of_delivers service resp b hT]
    exact key _

theorem newAPI_delivers (status : Int) (body : Bytes) :
    Delivers (newAPI status body) ⟨status, []⟩ body :=
  ⟨rfl, fun _ => rfl⟩

set_option maxRecDepth 100000 in
/-- Witness of C2: the test body with code 499 gives the error text of the test. -/
theorem api_error_iff_code_or_message_witness :
    ((newAPI 499 errResp).GetByIP [8, 8, 8, 8] [OptionLimit 100]).err.map Error.text
      = some "API error: [499] Test error message." := by
  have h := (api_error_iff_code_or_message (newAPI 499 errResp) ⟨499, []⟩ errResp
    ⟨IPNetblocksResponse.zero, ⟨499, "Test error message."⟩⟩ [8, 8, 8, 8]
    ⟨[8, 8, 8, 8], [255, 255, 255, 0]⟩ 1234 "Amazon" [OptionLimit 100]
    (newAPI_delivers _ _) (by decide) (by decide) (by decide) (by decide) (by decide)).1
    _ (List.mem_cons_self _ _)
  have h2 := congrArg Prod.snd h
  simp only at h2
  rw [h2]
  decide

/-- C3: when the JSON decoder fails on a body with the error `d`, `parse` returns no
response and an error that wraps `d` and reads "cannot parse response: " followed by the
text of `d`; `parse` returns a response exactly when it returns no error, for every body;
and each parsed operation on a valid key, when the transport succeeds with that body,
returns no result, the raw Response and that error. -/
theorem parse_failure_wraps_decoder_error (service : ipNetblocksServiceOp)
    (resp : HttpResponse) (raw : Bytes) (d : DecodeError) (ip : IP) (net : IPNet) (asn : Int)
    (org : String) (opts : List Option_) (hd : jsonDecode raw = .error d)
    (hT : Delivers service resp raw) (hip : ip ≠ []) (hnet : net.IP ≠ [])
    (hasn : 0 ≤ asn ∧ asn ≤ 4294967295) (horg : org ≠ "") :
    parse raw = (none, some (.parse d)) ∧
    (Error.parse d).unwrap = some d ∧
    (Error.parse d).text = "cannot parse response: " ++ d.text ∧
    (∀ body, ((parse body).1.isSome = true ↔ (parse body).2 = none)) ∧
    (∀ r ∈ [service.GetByIP ip opts, service.GetByCIDR net opts, service.GetByASN asn opts,
        service.GetByOrg org opts],
      (r.ipNetblocksResponse, r.resp, r.err) =
        (none, some ⟨some resp, raw⟩, some (.parse d))) := by
  have hipS : ¬ ip.String = "<nil>" := fun h => hip ((IP_String_eq_nil_iff ip).mp h)
  have hnetS : ¬ net.IP.String = "<nil>" := fun h => hnet ((IP_String_eq_nil_iff net.IP).mp h)
  have hv : validateASN asn = none := by
    unfold validateASN
    rw [if_neg]
    omega
  refine ⟨?_, rfl, rfl, ?_, ?_⟩
  · simp only [parse, hd]
  · intro body
    rcases parse_cases body with ⟨d, _, hp⟩ | ⟨v, _, hp⟩ <;> simp [hp]
  · intro r hr
    simp only [List.mem_cons, List.mem_singleton, List.not_mem_nil, or_false] at hr
    rcases hr with rfl | rfl | rfl | rfl
    · rw [GetByIP_eq, if_neg hipS, request_of_delivers service resp raw hT,
        parsedReturn_of_undecoded ⟨some resp, raw⟩ _ d hd]
    · rw [GetByCIDR_eq, if_neg hnetS, request_of_delivers service resp raw hT,
        parsedReturn_of_undecoded ⟨some resp, raw⟩ _ d hd]
    · rw [GetByASN_eq, hv]
      simp only
      rw [request_of_delivers service resp raw hT,
        parsedReturn_of_undecoded ⟨some resp, raw⟩ _ d hd]
    · rw [GetByOrg_eq, if_neg horg, request_of_delivers service resp raw hT,
        parsedReturn_of_undecoded ⟨some resp, raw⟩ _ d hd]

set_option maxRecDepth 100000 in
/-- Witness of C3: the XML body and the success body cut ten bytes short give the two
error texts of the tests. -/
theorem parse_failure_wraps_decoder_error_witness :
    ((newAPI 200 respUnparsable).GetByIP [8, 8, 8, 8] [OptionLimit 100]).err.map Error.text
      = some "cannot parse response: invalid character '<' looking for beginning of value" ∧
    ((newAPI 200 respPartial).GetByIP [8, 8, 8, 8] [OptionLimit 100]).err.map Error.text
      = some "cannot parse response: unexpected EOF" := by
  have h1 := (parse_failure_wraps_decoder_error (newAPI 200 respUnparsable) ⟨200, []⟩
    respUnparsable (.invalidCharacter 60 "looking for beginning of value") [8, 8, 8, 8]
    ⟨[8, 8, 8, 8], [255, 255, 255, 0]⟩ 1234 "Amazon" [OptionLimit 100]
    (by decide) (newAPI_delivers _ _) (by decide) (by decide) (by decide) (by decide)).2.2.2.2
    _ (List.mem_cons_self _ _)
  have h2 := (parse_failure_wraps_decoder_error (newAPI 200 respPartial) ⟨200, []⟩
    respPartial .unexpectedEOF [8, 8, 8, 8]
    ⟨[8, 8, 8, 8], [255, 255, 255, 0]⟩ 1234 "Amazon" [OptionLimit 100]
    (by decide) (newAPI_delivers _ _) (by decide) (by decide) (by decide) (by decide)).2.2.2.2
    _ (List.mem_cons_self _ _)
  have e1 := congrArg (fun t => t.2.2) h1
  have e2 := congrArg (fun t => t.2.2) h2
  simp only at e1 e2
  rw [e1, e2]
  exact ⟨by decide, by decide⟩

/-! The query map. -/

theorem find_filter_of_ne (v : Values) (k k2 : String) (h : k2 ≠ k) :
    Values.find (v.filter (fun p => p.1 ≠ k)) k2 = Values.find v k2 := by
  induction v with
  | nil => rfl
  | cons p rest ih =>
    obtain ⟨a, vs⟩ := p
    by_cases ha : a = k
    · rw [List.filter_cons_of_neg (by simp [ha]), ih]
      have : ¬ a = k2 := fun hc => h (hc ▸ ha)
      simp [Values.find, this]
    · rw [List.filter_cons_of_pos (by simp [ha])]
      by_cases hk : a = k2
      · simp [Values.find, hk]
      · simp only [Values.find, hk, ↓reduceIte]
        exact ih

theorem find_Set_same (v : Values) (k x : String) : (v.Set k x).find k = some [x] := by
  simp [Values.Set, Values.find]

theorem find_Set_of_ne (v : Values) (k x k2 : String) (h : k2 ≠ k) :
    (v.Set k x).find k2 = v.find k2 := by
  have : ¬ k = k2 := fun hc => h hc.symm
  simp only [Values.Set, Values.find, this, ↓reduceIte]
  exact find_filter_of_ne v k k2 h

theorem Set_Set (v : Values) (k x y : String) : (v.Set k x).Set k y = v.Set k y := by
  simp [Values.Set, List.filter_filter]

/-! Decimal text. -/

theorem toDigitsCore_ne_nil (fuel n : Nat) (ds : List Char) (h : ds ≠ [] ∨ fuel ≠ 0) :
    Nat.toDigitsCore 10 fuel n ds ≠ [] := by
  induction fuel generalizing n ds with
  | zero =>
    rcases h with h | h
    · simpa [Nat.toDigitsCore] using h
    · exact absurd rfl h
  | succ f ih =>
    simp only [Nat.toDigitsCore]
    split
    · simp
    · exact ih _ _ (Or.inl (by simp))

theorem repr_ne_empty (n : Nat) : Nat.repr n ≠ "" := by
  intro h
  have := congrArg String.data h
  simp only [Nat.repr, List.asString] at this
  exact toDigitsCore_ne_nil _ _ _ (Or.inr (by simp)) this

theorem formatInt_ne_empty (n : Int) : formatInt n ≠ "" := by
  cases n with
  | ofNat m => exact repr_ne_empty m
  | negSucc m =>
    intro h
    have := congrArg String.data h
    simp [formatInt] at this

/-! Validation. -/

theorem validateASN_eq (asn : Int) :
    validateASN asn =
      if 0 ≤ asn ∧ asn ≤ 4294967295 then none
      else some (.arg ⟨formatInt asn, "is invalid autonomous system number"⟩) := by
  unfold validateASN
  by_cases h : 0 ≤ asn ∧ asn ≤ 4294967295
  · rw [if_pos h, if_neg]
    omega
  · rw [if_neg h, if_pos]
    omega

theorem parsedReturn_calls (r : RawReturn) : (parsedReturn r).calls = r.calls := by
  unfold parsedReturn
  split
  · rfl
  · split
    · rfl
    · split
      · rfl
      · rfl
      · split <;> rfl

theorem rawReturn_calls (r : RawReturn) : (rawReturn r).calls = r.calls := by
  unfold rawReturn
  split
  · rfl
  · split
    · split <;> rfl
    · rfl

theorem request_calls_ne_nil (service : ipNetblocksServiceOp) (ip mask asn org : String)
    (opts : List Option_) : (service.request ip mask asn org opts).calls ≠ [] := by
  rw [request_eq]
  split
  · simp
  · split <;> simp

/-- C5: `validateASN` returns nil exactly for the numbers from 0 to 4294967295, both
included; for every other number it returns the ArgError whose text is `invalid argument:
"<asn in decimal>" is invalid autonomous system number`, and GetByASN and GetRawByASN
return that error. 9876543210 and -1 are rejected with the texts of the tests, 1234 is
accepted. -/
theorem validateASN_accepts_uint32_range (service : ipNetblocksServiceOp) (asn : Int)
    (opts : List Option_) :
    (validateASN asn = none ↔ 0 ≤ asn ∧ asn ≤ 4294967295) ∧
    (¬ (0 ≤ asn ∧ asn ≤ 4294967295) →
      validateASN asn = some (.arg ⟨formatInt asn, "is invalid autonomous system number"⟩) ∧
      (Error.arg ⟨formatInt asn, "is invalid autonomous system number"⟩).text =
        "invalid argument: \"" ++ formatInt asn ++ "\" is invalid autonomous system number" ∧
      (service.GetByASN asn opts).err =
        some (.arg ⟨formatInt asn, "is invalid autonomous system number"⟩) ∧
      (service.GetRawByASN asn opts).err =
        some (.arg ⟨formatInt asn, "is invalid autonomous system number"⟩)) ∧
    (validateASN 9876543210).map Error.text =
      some "invalid argument: \"9876543210\" is invalid autonomous system number" ∧
    (validateASN (-1)).map Error.text =
      some "invalid argument: \"-1\" is invalid autonomous system number" ∧
    validateASN 1234 = none ∧ validateASN 0 = none ∧ validateASN 4294967295 = none := by
  refine ⟨?_, ?_, by decide, by decide, by decide, by decide, by decide⟩
  · rw [validateASN_eq]
    constructor
    · intro h
      by_contra hc
      rw [if_neg hc] at h
      exact absurd h (by simp)
    · intro h
      rw [if_pos h]
  · intro h
    have hv := validateASN_eq asn
    rw [if_neg h] at hv
    refine ⟨hv, ?_, ?_, ?_⟩
    · show "invalid argument: \"" ++ formatInt asn ++ "\" " ++ "is invalid autonomous system number"
        = "invalid argument: \"" ++ formatInt asn ++ "\" is invalid autonomous system number"
      rw [String.append_assoc _ "\" " _]
      rfl
    · rw [GetByASN_eq, hv]
    · rw [GetRawByASN_eq, hv]

/-- Witness of C5: GetByASN and GetRawByASN reject 9876543210 with the text of the test. -/
theorem validateASN_accepts_uint32_range_witness :
    ((newAPI 200 respOK).GetByASN 9876543210 [OptionLimit 100]).err.map Error.text =
      some "invalid argument: \"9876543210\" is invalid autonomous system number" ∧
    ((newAPI 200 respOK).GetRawByASN 9876543210 [OptionLimit 100]).err.map Error.text =
      some "invalid argument: \"9876543210\" is invalid autonomous system number" := by
  have h := (validateASN_accepts_uint32_range (newAPI 200 respOK) 9876543210
    [OptionLimit 100]).2.1 (by decide)
  rw [h.2.2.1, h.2.2.2]
  exact ⟨by decide, by decide⟩

/-- C6: the four operations by IP and by CIDR return the error `invalid argument: "ip"
can not be empty`, without calling the client, exactly when the IP byte slice has length
zero, and the two operations by organization return `invalid argument: "org" can not be
empty`, without calling the client, exactly when org is the empty string. Every other
key goes on to the request: `net.IP{8,8,8}` is sent as `?080808`, `net.IP{}` is rejected. -/
theorem empty_key_rejected_iff (service : ipNetblocksServiceOp) (ip : IP) (net : IPNet)
    (org : String) (opts : List Option_) :
    (service.GetByIP ip opts = ⟨none, none, some (.arg ⟨"ip", "can not be empty"⟩), []⟩
      ↔ ip.length = 0) ∧
    (service.GetRawByIP ip opts = ⟨none, some (.arg ⟨"ip", "can not be empty"⟩), []⟩
      ↔ ip.length = 0) ∧
    (service.GetByCIDR net opts = ⟨none, none, some (.arg ⟨"ip", "can not be empty"⟩), []⟩
      ↔ net.IP.length = 0) ∧
    (service.GetRawByCIDR net opts = ⟨none, some (.arg ⟨"ip", "can not be empty"⟩), []⟩
      ↔ net.IP.length = 0) ∧
    (service.GetByOrg org opts = ⟨none, none, some (.arg ⟨"org", "can not be empty"⟩), []⟩
      ↔ org = "") ∧
    (service.GetRawByOrg org opts = ⟨none, some (.arg ⟨"org", "can not be empty"⟩), []⟩
      ↔ org = "") ∧
    (Error.arg ⟨"ip", "can not be empty"⟩).text = "invalid argument: \"ip\" can not be empty" ∧
    (Error.arg ⟨"org", "can not be empty"⟩).text = "invalid argument: \"org\" can not be empty" ∧
    (sentQueries ((newAPI 499 errResp).GetByIP [8, 8, 8] [OptionLimit 100]).calls).map
      (fun q => q.find "ip") = [some ["?080808"]] ∧
    ((newAPI 200 respOK).GetByIP [] [OptionLimit 10]).calls = [] := by
  have hlen : ∀ l : IP, l.length = 0 ↔ l.String = "<nil>" := fun l =>
    (List.length_eq_zero.trans (IP_String_eq_nil_iff l).symm)
  refine ⟨?_, ?_, ?_, ?_, ?_, ?_, by decide, by decide, by decide, by decide⟩
  · rw [GetByIP_eq, hlen]
    constructor
    · intro h
      by_contra hc
      rw [if_neg hc] at h
      have := congrArg ParsedReturn.calls h
      rw [parsedReturn_calls] at this
      exact request_calls_ne_nil _ _ _ _ _ _ this
    · intro h
      rw [if_pos h]
  · rw [GetRawByIP_eq, hlen]
    constructor
    · intro h
      by_contra hc
      rw [if_neg hc] at h
      have := congrArg RawReturn.calls h
      rw [rawReturn_calls] at this
      exact request_calls_ne_nil _ _ _ _ _ _ this
    · intro h
      rw [if_pos h]
  · rw [GetByCIDR_eq, hlen]
    constructor
    · intro h
      by_contra hc
      rw [if_neg hc] at h
      have := congrArg ParsedReturn.calls h
      rw [parsedReturn_calls] at this
      exact request_calls_ne_nil _ _ _ _ _ _ this
    · intro h
      rw [if_pos h]
  · rw [GetRawByCIDR_eq, hlen]
    constructor
    · intro h
      by_contra hc
      rw [if_neg hc] at h
      have := congrArg RawReturn.calls h
      rw [rawReturn_calls] at this
      exact request_calls_ne_nil _ _ _ _ _ _ this
    · intro h
      rw [if_pos h]
  · rw [GetByOrg_eq]
    constructor
    · intro h
      by_contra hc
      rw [if_neg hc] at h
      have := congrArg ParsedReturn.calls h
      rw [parsedReturn_calls] at this
      exact request_calls_ne_nil _ _ _ _ _ _ this
    · intro h
      rw [if_pos h]
  · rw [GetRawByOrg_eq]
    constructor
    · intro h
      by_contra hc
      rw [if_neg hc] at h
      have := congrArg RawReturn.calls h
      rw [rawReturn_calls] at this
      exact request_calls_ne_nil _ _ _ _ _ _ this
    · intro h
      rw [if_pos h]

/-- C7: when the validation of the argument fails (empty IP, empty org, ASN out of
range), each of the eight operations makes no call to the client, neither to build a
request nor to send one, and returns nil for every output but the error. -/
theorem validation_failure_makes_no_call (service : ipNetblocksServiceOp) (ip : IP)
    (net : IPNet) (asn : Int) (org : String) (opts : List Option_)
    (hip : ip.length = 0) (hnet : net.IP.length = 0) (hasn : asn < 0 ∨ 4294967295 < asn)
    (horg : org = "") :
    service.GetByIP ip opts = ⟨none, none, some (.arg ⟨"ip", "can not be empty"⟩), []⟩ ∧
    service.GetByCIDR net opts = ⟨none, none, some (.arg ⟨"ip", "can not be empty"⟩), []⟩ ∧
    service.GetByASN asn opts =
      ⟨none, none, some (.arg ⟨formatInt asn, "is invalid autonomous system number"⟩), []⟩ ∧
    service.GetByOrg org opts = ⟨none, none, some (.arg ⟨"org", "can not be empty"⟩), []⟩ ∧
    service.GetRawByIP ip opts = ⟨none, some (.arg ⟨"ip", "can not be empty"⟩), []⟩ ∧
    service.GetRawByCIDR net opts = ⟨none, some (.arg ⟨"ip", "can not be empty"⟩), []⟩ ∧
    service.GetRawByASN asn opts =
      ⟨none, some (.arg ⟨formatInt asn, "is invalid autonomous system number"⟩), []⟩ ∧
    service.GetRawByOrg org opts = ⟨none, some (.arg ⟨"org", "can not be empty"⟩), []⟩ := by
  have hipS : ip.String = "<nil>" := (IP_String_eq_nil_iff ip).mpr (List.length_eq_zero.mp hip)
  have hnetS : net.IP.String = "<nil>" :=
    (IP_String_eq_nil_iff net.IP).mpr (List.length_eq_zero.mp hnet)
  have hv := validateASN_eq asn
  rw [if_neg (by omega)] at hv
  refine ⟨?_, ?_, ?_, ?_, ?_, ?_, ?_, ?_⟩
  · rw [GetByIP_eq, if_pos hipS]
  · rw [GetByCIDR_eq, if_pos hnetS]
  · rw [GetByASN_eq, hv]
  · rw [GetByOrg_eq, if_pos horg]
  · rw [GetRawByIP_eq, if_pos hipS]
  · rw [GetRawByCIDR_eq, if_pos hnetS]
  · rw [GetRawByASN_eq, hv]
  · rw [GetRawByOrg_eq, if_pos horg]

/-- Witness of C7: the invalid arguments of the tests. -/
theorem validation_failure_makes_no_call_witness :
    ((newAPI 200 respOK).GetByIP [] [OptionLimit 10]).calls = [] ∧
    ((newAPI 200 respOK).GetRawByASN (-1) [OptionLimit 10]).calls = [] ∧
    ((newAPI 200 respOK).GetByOrg "" [OptionLimit 10]).resp = none := by
  have h := validation_failure_makes_no_call (newAPI 200 respOK) [] ⟨[], []⟩ (-1) ""
    [OptionLimit 10] (by decide) (by decide) (by decide) (by decide)
  rw [h.1, h.2.2.2.2.2.2.1, h.2.2.2.1]
  exact ⟨rfl, rfl, rfl⟩

/-! The query a parsed operation sends. -/

theorem query_append (service : ipNetblocksServiceOp) (ip mask asn org : String)
    (opts : List Option_) (opt : Option_) :
    service.query ip mask asn org (opts ++ [opt]) = opt (service.query ip mask asn org opts) := by
  simp only [ipNetblocksServiceOp.query, List.foldl_append, List.foldl_cons, List.foldl_nil]

theorem query_forced_format (service : ipNetblocksServiceOp) (ip mask asn org : String)
    (opts : List Option_) :
    (service.query ip mask asn org (opts ++ [OptionOutputFormat "JSON"])).find "outputFormat"
      = some ["JSON"] := by
  rw [query_append]
  exact find_Set_same _ _ _

theorem query_format_overridden (service : ipNetblocksServiceOp) (ip mask asn org : String)
    (opts : List Option_) (f : String) :
    service.query ip mask asn org ((opts ++ [OptionOutputFormat f]) ++ [OptionOutputFormat "JSON"])
      = service.query ip mask asn org (opts ++ [OptionOutputFormat "JSON"]) := by
  rw [query_append, query_append, query_append]
  exact Set_Set _ _ _ _

theorem request_format_overridden (service : ipNetblocksServiceOp) (ip mask asn org : String)
    (opts : List Option_) (f : String) :
    service.request ip mask asn org ((opts ++ [OptionOutputFormat f]) ++ [OptionOutputFormat "JSON"])
      = service.request ip mask asn org (opts ++ [OptionOutputFormat "JSON"]) := by
  rw [request_eq, request_eq, query_format_overridden]

theorem sentQueries_request (service : ipNetblocksServiceOp) (ip mask asn org : String)
    (opts : List Option_) :
    sentQueries (service.request ip mask asn org opts).calls =
      match service.client.NewRequest service.baseURL with
      | some _ => []
      | none => [service.query ip mask asn org opts] := by
  rw [request_eq]
  split
  · rfl
  · split <;> rfl

/-- C8: for every valid lookup key and every list of caller options (any functions on
the query map), the query a parsed operation sends has `outputFormat` equal to the single
value `JSON`: exactly one query is sent when the request can be built, none otherwise. A
caller's `OptionOutputFormat` at the end of the options changes nothing in what the
operation sends and returns, so no error is signalled for it. -/
theorem parsed_query_forces_json (service : ipNetblocksServiceOp) (ip : IP) (net : IPNet)
    (asn : Int) (org : String) (opts : List Option_) (f : String)
    (hip : ip ≠ []) (hnet : net.IP ≠ []) (hasn : 0 ≤ asn ∧ asn ≤ 4294967295)
    (horg : org ≠ "") :
    (∀ r ∈ [service.GetByIP ip opts, service.GetByCIDR net opts, service.GetByASN asn opts,
        service.GetByOrg org opts],
      (sentQueries r.calls).map (fun q => q.find "outputFormat") =
        match service.client.NewRequest service.baseURL with
        | some _ => []
        | none => [some ["JSON"]]) ∧
    service.GetByIP ip (opts ++ [OptionOutputFormat f]) = service.GetByIP ip opts ∧
    service.GetByCIDR net (opts ++ [OptionOutputFormat f]) = service.GetByCIDR net opts ∧
    service.GetByASN asn (opts ++ [OptionOutputFormat f]) = service.GetByASN asn opts ∧
    service.GetByOrg org (opts ++ [OptionOutputFormat f]) = service.GetByOrg org opts := by
  have hipS : ¬ ip.String = "<nil>" := fun h => hip ((IP_String_eq_nil_iff ip).mp h)
  have hnetS : ¬ net.IP.String = "<nil>" := fun h => hnet ((IP_String_eq_nil_iff net.IP).mp h)
  have hv : validateASN asn = none := by
    rw [validateASN_eq, if_pos hasn]
  have key : ∀ a b c d : String,
      (sentQueries (parsedReturn (service.request a b c d
        (opts ++ [OptionOutputFormat "JSON"]))).calls).map (fun q => q.find "outputFormat") =
        match service.client.NewRequest service.baseURL with
        | some _ => []
        | none => [some ["JSON"]] := by
    intro a b c d
    rw [parsedReturn_calls, sentQueries_request]
    split
    · rfl
    · simp only [List.map_cons, List.map_nil, query_forced_format]
  refine ⟨?_, ?_, ?_, ?_, ?_⟩
  · intro r hr
    simp only [List.mem_cons, List.mem_singleton, List.not_mem_nil, or_false] at hr
    rcases hr with rfl | rfl | rfl | rfl
    · rw [GetByIP_eq, if_neg hipS]
      exact key _ _ _ _
    · rw [GetByCIDR_eq, if_neg hnetS]
      exact key _ _ _ _
    · rw [GetByASN_eq, hv]
      exact key _ _ _ _
    · rw [GetByOrg_eq, if_neg horg]
      exact key _ _ _ _
  · rw [GetByIP_eq, GetByIP_eq, request_format_overridden]
  · rw [GetByCIDR_eq, GetByCIDR_eq, request_format_overridden]
  · rw [GetByASN_eq, GetByASN_eq, request_format_overridden]
  · rw [GetByOrg_eq, GetByOrg_eq, request_format_overridden]

/-- Witness of C8: the call of `example.go`, GetByIP for 8.8.8.8 with
`OptionOutputFormat("XML")`, sends `outputFormat=JSON`. -/
theorem parsed_query_forces_json_witness :
    (sentQueries ((newAPI 200 respOK).GetByIP [8, 8, 8, 8] [OptionOutputFormat "XML"]).calls).map
      (fun q => q.find "outputFormat") = [some ["JSON"]] := by
  have h := (parsed_query_forces_json (newAPI 200 respOK) [8, 8, 8, 8]
    ⟨[8, 8, 8, 8], [255, 255, 255, 0]⟩ 15169 "Amazon" [OptionOutputFormat "XML"] "XML"
    (by decide) (by decide) (by decide) (by decide)).1 _ (List.mem_cons_self _ _)
  rw [h]
  rfl

/-! The API key and the lookup parameters of the query. -/

theorem builtin_find (b : BuiltinOption) (v : Values) (k : String)
    (h1 : k ≠ "outputFormat") (h2 : k ≠ "limit") (h3 : k ≠ "from") :
    (b.toOption v).find k = v.find k := by
  cases b with
  | outputFormat f => exact find_Set_of_ne _ _ _ _ h1
  | limit n => exact find_Set_of_ne _ _ _ _ h2
  | from_ p =>
    cases p with
    | none => rfl
    | some s => exact find_Set_of_ne _ _ _ _ h3

theorem builtin_foldl_find (bs : List BuiltinOption) (v : Values) (k : String)
    (h1 : k ≠ "outputFormat") (h2 : k ≠ "limit") (h3 : k ≠ "from") :
    ((bs.map BuiltinOption.toOption).foldl (fun q opt => opt q) v).find k = v.find k := by
  induction bs generalizing v with
  | nil => rfl
  | cons b rest ih =>
    simp only [List.map_cons, List.foldl_cons]
    rw [ih, builtin_find b v k h1 h2 h3]

theorem query_eq_foldl (service : ipNetblocksServiceOp) (ip mask asn org : String)
    (opts : List Option_) :
    service.query ip mask asn org opts =
      opts.foldl (fun q opt => opt q) (service.query ip mask asn org []) := rfl

theorem lookupParams_builtin (service : ipNetblocksServiceOp) (ip mask asn org : String)
    (bs : List BuiltinOption) :
    lookupParams (service.query ip mask asn org (bs.map BuiltinOption.toOption)) =
      lookupParams (service.query ip mask asn org []) := by
  rw [query_eq_foldl]
  simp only [lookupParams]
  rw [builtin_foldl_find bs _ "apiKey" (by decide) (by decide) (by decide),
    builtin_foldl_find bs _ "ip" (by decide) (by decide) (by decide),
    builtin_foldl_find bs _ "mask" (by decide) (by decide) (by decide),
    builtin_foldl_find bs _ "asn" (by decide) (by decide) (by decide),
    builtin_foldl_find bs _ "org" (by decide) (by decide) (by decide)]

theorem lookupParams_ip (service : ipNetblocksServiceOp) (ip : String) (h : ip ≠ "") :
    lookupParams (service.query ip "" "" "" []) =
      [some [service.client.apiKey], some [ip], none, none, none] := by
  simp only [lookupParams, ipNetblocksServiceOp.query, List.foldl_nil, ne_eq, h, not_false_eq_true,
    ↓reduceIte, not_true_eq_false]
  rw [find_Set_of_ne _ _ _ "apiKey" (by decide), find_Set_same, find_Set_same,
    find_Set_of_ne _ _ _ "mask" (by decide), find_Set_of_ne _ _ _ "mask" (by decide),
    find_Set_of_ne _ _ _ "asn" (by decide), find_Set_of_ne _ _ _ "asn" (by decide),
    find_Set_of_ne _ _ _ "org" (by decide), find_Set_of_ne _ _ _ "org" (by decide)]
  rfl

theorem lookupParams_cidr (service : ipNetblocksServiceOp) (ip mask : String) (h : ip ≠ "")
    (hm : mask ≠ "") :
    lookupParams (service.query ip mask "" "" []) =
      [some [service.client.apiKey], some [ip], some [mask], none, none] := by
  simp only [lookupParams, ipNetblocksServiceOp.query, List.foldl_nil, ne_eq, h, hm,
    not_false_eq_true, ↓reduceIte, not_true_eq_false]
  rw [find_Set_of_ne _ _ _ "apiKey" (by decide), find_Set_of_ne _ _ _ "apiKey" (by decide),
    find_Set_same, find_Set_of_ne _ _ _ "ip" (by decide), find_Set_same, find_Set_same,
    find_Set_of_ne _ _ _ "asn" (by decide), find_Set_of_ne _ _ _ "asn" (by decide),
    find_Set_of_ne _ _ _ "asn" (by decide),
    find_Set_of_ne _ _ _ "org" (by decide), find_Set_of_ne _ _ _ "org" (by decide),
    find_Set_of_ne _ _ _ "org" (by decide)]
  rfl

theorem lookupParams_asn (service : ipNetblocksServiceOp) (asn : String) (h : asn ≠ "") :
    lookupParams (service.query "" "" asn "" []) =
      [some [service.client.apiKey], none, none, some [asn], none] := by
  simp only [lookupParams, ipNetblocksServiceOp.query, List.foldl_nil, ne_eq, h, not_false_eq_true,
    ↓reduceIte, not_true_eq_false]
  rw [find_Set_of_ne _ _ _ "apiKey" (by decide), find_Set_same, find_Set_same,
    find_Set_of_ne _ _ _ "ip" (by decide), find_Set_of_ne _ _ _ "ip" (by decide),
    find_Set_of_ne _ _ _ "mask" (by decide), find_Set_of_ne _ _ _ "mask" (by decide),
    find_Set_of_ne _ _ _ "org" (by decide), find_Set_of_ne _ _ _ "org" (by decide)]
  rfl

theorem lookupParams_org (service : ipNetblocksServiceOp) (org : String) (h : org ≠ "") :
    lookupParams (service.query "" "" "" org []) =
      [some [service.client.apiKey], none, none, none, some [org]] := by
  simp only [lookupParams, ipNetblocksServiceOp.query, List.foldl_nil, ne_eq, h, not_false_eq_true,
    ↓reduceIte, not_true_eq_false]
  rw [find_Set_of_ne _ _ _ "apiKey" (by decide), find_Set_same, find_Set_same,
    find_Set_of_ne _ _ _ "ip" (by decide), find_Set_of_ne _ _ _ "ip" (by decide),
    find_Set_of_ne _ _ _ "mask" (by decide), find_Set_of_ne _ _ _ "mask" (by decide),
    find_Set_of_ne _ _ _ "asn" (by decide), find_Set_of_ne _ _ _ "asn" (by decide)]
  rfl

theorem lookupParams_parsed (service : ipNetblocksServiceOp) (ip mask asn org : String)
    (bs : List BuiltinOption) :
    lookupParams (service.query ip mask asn org
        (bs.map BuiltinOption.toOption ++ [OptionOutputFormat "JSON"])) =
      lookupParams (service.query ip mask asn org []) := by
  have : bs.map BuiltinOption.toOption ++ [OptionOutputFormat "JSON"] =
      (bs ++ [BuiltinOption.outputFormat "JSON"]).map BuiltinOption.toOption := by
    simp [BuiltinOption.toOption]
  rw [this, lookupParams_builtin]

theorem sent_of_built (service : ipNetblocksServiceOp) (ip mask asn org : String)
    (opts : List Option_) (hNew : service.client.NewRequest service.baseURL = none) :
    sentQueries (service.request ip mask asn org opts).calls =
      [service.query ip mask asn org opts] := by
  rw [sentQueries_request, hNew]

/-- C9: for every non-empty IP, every CIDR with a non-empty IP, every ASN from 0 to
4294967295 and every non-empty org, and for every list of built-in options, each of the
eight operations sends one query, in which `apiKey` is the API key of the client and
the lookup parameters present are exactly those of the operation: `ip` alone, `ip` and
`mask`, `asn` alone, or `org` alone. -/
theorem query_has_key_and_one_lookup (service : ipNetblocksServiceOp) (ip : IP) (net : IPNet)
    (asn : Int) (org : String) (bs : List BuiltinOption)
    (hNew : service.client.NewRequest service.baseURL = none)
    (hip : ip ≠ []) (hnet : net.IP ≠ []) (hasn : 0 ≤ asn ∧ asn ≤ 4294967295)
    (horg : org ≠ "") :
    (∀ calls ∈ [(service.GetByIP ip (bs.map BuiltinOption.toOption)).calls,
        (service.GetRawByIP ip (bs.map BuiltinOption.toOption)).calls],
      (sentQueries calls).map lookupParams =
        [[some [service.client.apiKey], some [ip.String], none, none, none]]) ∧
    (∀ calls ∈ [(service.GetByCIDR net (bs.map BuiltinOption.toOption)).calls,
        (service.GetRawByCIDR net (bs.map BuiltinOption.toOption)).calls],
      (sentQueries calls).map lookupParams =
        [[some [service.client.apiKey], some [net.IP.String],
          some [formatInt net.Mask.Size], none, none]]) ∧
    (∀ calls ∈ [(service.GetByASN asn (bs.map BuiltinOption.toOption)).calls,
        (service.GetRawByASN asn (bs.map BuiltinOption.toOption)).calls],
      (sentQueries calls).map lookupParams =
        [[some [service.client.apiKey], none, none, some [formatInt asn], none]]) ∧
    (∀ calls ∈ [(service.GetByOrg org (bs.map BuiltinOption.toOption)).calls,
        (service.GetRawByOrg org (bs.map BuiltinOption.toOption)).calls],
      (sentQueries calls).map lookupParams =
        [[some [service.client.apiKey], none, none, none, some [org]]]) := by
  have hipS : ¬ ip.String = "<nil>" := fun h => hip ((IP_String_eq_nil_iff ip).mp h)
  have hnetS : ¬ net.IP.String = "<nil>" := fun h => hnet ((IP_String_eq_nil_iff net.IP).mp h)
  have hipE := IP_String_ne_empty ip hip
  have hnetE := IP_String_ne_empty net.IP hnet
  have hv : validateASN asn = none := by
    rw [validateASN_eq, if_pos hasn]
  refine ⟨?_, ?_, ?_, ?_⟩
  · intro calls hc
    simp only [List.mem_cons, List.mem_singleton, List.not_mem_nil, or_false] at hc
    rcases hc with rfl | rfl
    · rw [GetByIP_eq, if_neg hipS, parsedReturn_calls, sent_of_built _ _ _ _ _ _ hNew]
      simp only [List.map_cons, List.map_nil]
      rw [lookupParams_parsed, lookupParams_ip _ _ hipE]
    · rw [GetRawByIP_eq, if_neg hipS, rawReturn_calls, sent_of_built _ _ _ _ _ _ hNew]
      simp only [List.map_cons, List.map_nil]
      rw [lookupParams_builtin, lookupParams_ip _ _ hipE]
  · intro calls hc
    simp only [List.mem_cons, List.mem_singleton, List.not_mem_nil, or_false] at hc
    rcases hc with rfl | rfl
    · rw [GetByCIDR_eq, if_neg hnetS, parsedReturn_calls, sent_of_built _ _ _ _ _ _ hNew]
      simp only [List.map_cons, List.map_nil]
      rw [lookupParams_parsed, lookupParams_cidr _ _ _ hnetE (formatInt_ne_empty _)]
    · rw [GetRawByCIDR_eq, if_neg hnetS, rawReturn_calls, sent_of_built _ _ _ _ _ _ hNew]
      simp only [List.map_cons, List.map_nil]
      rw [lookupParams_builtin, lookupParams_cidr _ _ _ hnetE (formatInt_ne_empty _)]
  · intro calls hc
    simp only [List.mem_cons, List.mem_singleton, List.not_mem_nil, or_false] at hc
    rcases hc with rfl | rfl
    · rw [GetByASN_eq, hv]
      simp only
      rw [parsedReturn_calls, sent_of_built _ _ _ _ _ _ hNew]
      simp only [List.map_cons, List.map_nil]
      rw [lookupParams_parsed, lookupParams_asn _ _ (formatInt_ne_empty _)]
    · rw [GetRawByASN_eq, hv]
      simp only
      rw [rawReturn_calls, sent_of_built _ _ _ _ _ _ hNew]
      simp only [List.map_cons, List.map_nil]
      rw [lookupParams_builtin, lookupParams_asn _ _ (formatInt_ne_empty _)]
  · intro calls hc
    simp only [List.mem_cons, List.mem_singleton, List.not_mem_nil, or_false] at hc
    rcases hc with rfl | rfl
    · rw [GetByOrg_eq, if_neg horg, parsedReturn_calls, sent_of_built _ _ _ _ _ _ hNew]
      simp only [List.map_cons, List.map_nil]
      rw [lookupParams_parsed, lookupParams_org _ _ horg]
    · rw [GetRawByOrg_eq, if_neg horg, rawReturn_calls, sent_of_built _ _ _ _ _ _ hNew]
      simp only [List.map_cons, List.map_nil]
      rw [lookupParams_builtin, lookupParams_org _ _ horg]

/-- Witness of C9: the lookups of the tests, with ASN 0 and the options of `example.go`. -/
theorem query_has_key_and_one_lookup_witness :
    (sentQueries ((newAPI 200 respOK).GetByCIDR ⟨[8, 8, 8, 8], [255, 255, 255, 0]⟩
      [OptionLimit 1000, OptionFrom none]).calls).map lookupParams =
        [[some ["at_LoremIpsumDolorSitAmetConsect"], some ["8.8.8.8"], some ["24"], none, none]] ∧
    (sentQueries ((newAPI 200 respOK).GetRawByASN 0
      [OptionLimit 1000, OptionFrom none]).calls).map lookupParams =
        [[some ["at_LoremIpsumDolorSitAmetConsect"], none, none, some ["0"], none]] := by
  have h := query_has_key_and_one_lookup (newAPI 200 respOK) [8, 8, 8, 8]
    ⟨[8, 8, 8, 8], [255, 255, 255, 0]⟩ 0 "Amazon" [.limit 1000, .from_ none] rfl
    (by decide) (by decide) (by decide) (by decide)
  have h1 := h.2.1 _ (List.mem_cons_self _ _)
  have h2 := h.2.2.1 _ (List.mem_cons_of_mem _ (List.mem_cons_self _ _))
  refine ⟨h1.trans ?_, h2.trans ?_⟩
  · decide
  · decide

/-- The tail of a raw operation on a transport success whose status check passes. -/
theorem rawReturn_of_checked (resp : HttpResponse) (b : Bytes) (calls : List Call)
    (h : checkResponse resp = none) :
    rawReturn ⟨some ⟨some resp, b⟩, none, calls⟩ = ⟨some ⟨some resp, b⟩, none, calls⟩ := by
  simp only [rawReturn, h]

/-- C10: when the transport succeeds with the body `b` and the status check passes, each
raw operation on a valid key returns a nil error and a Response whose Body is `b`,
whatever `b` is: there is no condition on `b` being JSON. -/
theorem raw_returns_body_unparsed (service : ipNetblocksServiceOp) (resp : HttpResponse)
    (b : Bytes) (ip : IP) (net : IPNet) (asn : Int) (org : String) (opts : List Option_)
    (hT : Delivers service resp b) (hcheck : checkResponse resp = none)
    (hip : ip ≠ []) (hnet : net.IP ≠ []) (hasn : 0 ≤ asn ∧ asn ≤ 4294967295)
    (horg : org ≠ "") :
    ∀ r ∈ [service.GetRawByIP ip opts, service.GetRawByCIDR net opts,
        service.GetRawByASN asn opts, service.GetRawByOrg org opts],
      r.err = none ∧ r.resp = some ⟨some resp, b⟩ := by
  have hipS : ¬ ip.String = "<nil>" := fun h => hip ((IP_String_eq_nil_iff ip).mp h)
  have hnetS : ¬ net.IP.String = "<nil>" := fun h => hnet ((IP_String_eq_nil_iff net.IP).mp h)
  have hv : validateASN asn = none := by
    rw [validateASN_eq, if_pos hasn]
  intro r hr
  simp only [List.mem_cons, List.mem_singleton, List.not_mem_nil, or_false] at hr
  rcases hr with rfl | rfl | rfl | rfl
  · rw [GetRawByIP_eq, if_neg hipS, request_of_delivers service resp b hT,
      rawReturn_of_checked resp b _ hcheck]
    exact ⟨rfl, rfl⟩
  · rw [GetRawByCIDR_eq, if_neg hnetS, request_of_delivers service resp b hT,
      rawReturn_of_checked resp b _ hcheck]
    exact ⟨rfl, rfl⟩
  · rw [GetRawByASN_eq, hv]
    simp only
    rw [request_of_delivers service resp b hT, rawReturn_of_checked resp b _ hcheck]
    exact ⟨rfl, rfl⟩
  · rw [GetRawByOrg_eq, if_neg horg, request_of_delivers service resp b hT,
      rawReturn_of_checked resp b _ hcheck]
    exact ⟨rfl, rfl⟩

set_option maxRecDepth 100000 in
/-- Witness of C10: the XML body and the truncated body of the tests, which the decoder
rejects, are returned as they are by GetRawByIP with a nil error. -/
theorem raw_returns_body_unparsed_witness :
    ((newAPI 200 respUnparsable).GetRawByIP [8, 8, 8, 8] []).err = none ∧
    ((newAPI 200 respUnparsable).GetRawByIP [8, 8, 8, 8] []).resp
      = some ⟨some ⟨200, []⟩, respUnparsable⟩ ∧
    ((newAPI 200 respPartial).GetRawByIP [8, 8, 8, 8] []).resp
      = some ⟨some ⟨200, []⟩, respPartial⟩ ∧
    (jsonDecode respUnparsable).toOption = none ∧ (jsonDecode respPartial).toOption = none := by
  have h1 := raw_returns_body_unparsed (newAPI 200 respUnparsable) ⟨200, []⟩ respUnparsable
    [8, 8, 8, 8] ⟨[8, 8, 8, 8], [255, 255, 255, 0]⟩ 15169 "Amazon" []
    (newAPI_delivers _ _) (by decide) (by decide) (by decide) (by decide) (by decide)
    _ (List.mem_cons_self _ _)
  have h2 := raw_returns_body_unparsed (newAPI 200 respPartial) ⟨200, []⟩ respPartial
    [8, 8, 8, 8] ⟨[8, 8, 8, 8], [255, 255, 255, 0]⟩ 15169 "Amazon" []
    (newAPI_delivers _ _) (by decide) (by decide) (by decide) (by decide) (by decide)
    _ (List.mem_cons_self _ _)
  exact ⟨h1.1, h1.2, h2.2, by decide, by decide⟩

/-! The fields of a decoded success body. -/

theorem save_ne_none (s : Saved) (e : DecodeError) : save s e ≠ none := by
  cases s <;> simp [save]

theorem decodeString_mono (ctx : Ctx) (j : JSON) (cur : String) : Mono (decodeString ctx j cur) := by
  intro s v s2 h hs
  cases j <;> simp only [decodeString, Except.ok.injEq, Prod.mk.injEq] at h <;>
    first
    | (rw [← h.2] at hs; exact hs)
    | (rw [← h.2] at hs; exact absurd hs (save_ne_none _ _))

theorem decodeStringPtr_mono (ctx : Ctx) (j : JSON) (cur : Option String) :
    Mono (decodeStringPtr ctx j cur) := by
  intro s v s2 h hs
  cases j <;> simp only [decodeStringPtr, Except.ok.injEq, Prod.mk.injEq] at h <;>
    first
    | (rw [← h.2] at hs; exact hs)
    | (rw [← h.2] at hs; exact absurd hs (save_ne_none _ _))

theorem decodeInt_mono (ctx : Ctx) (j : JSON) (cur : Int) : Mono (decodeInt ctx j cur) := by
  intro s v s2 h hs
  cases j with
  | number lit =>
    simp only [decodeInt] at h
    split at h <;> simp only [Except.ok.injEq, Prod.mk.injEq] at h
    · rw [← h.2] at hs; exact hs
    · rw [← h.2] at hs; exact absurd hs (save_ne_none _ _)
  | _ =>
    simp only [decodeInt, Except.ok.injEq, Prod.mk.injEq] at h
    first
    | (rw [← h.2] at hs; exact hs)
    | (rw [← h.2] at hs; exact absurd hs (save_ne_none _ _))

theorem decodeFloat_mono (ctx : Ctx) (j : JSON) (cur : Float64) : Mono (decodeFloat ctx j cur) := by
  intro s v s2 h hs
  cases j with
  | number lit =>
    simp only [decodeFloat] at h
    split at h <;> simp only [Except.ok.injEq, Prod.mk.injEq] at h
    · rw [← h.2] at hs; exact absurd hs (save_ne_none _ _)
    · rw [← h.2] at hs; exact hs
  | _ =>
    simp only [decodeFloat, Except.ok.injEq, Prod.mk.injEq] at h
    first
    | (rw [← h.2] at hs; exact hs)
    | (rw [← h.2] at hs; exact absurd hs (save_ne_none _ _))

theorem decodeTime_mono (ctx : Ctx) (j : JSON) (cur : Time) : Mono (decodeTime ctx j cur) := by
  intro s v s2 h hs
  simp only [decodeTime] at h
  split at h
  · simp only [Except.ok.injEq, Prod.mk.injEq] at h
    rw [← h.2] at hs; exact hs
  · exact absurd h (by simp)
  · exact absurd h (by simp)

theorem withField_ok {α β : Type} (r : Dec β) (put : β → α) (v : α) (s : Saved)
    (h : withField r put = .ok (v, s)) : ∃ w, r = .ok (w, s) ∧ v = put w := by
  unfold withField at h
  split at h
  · exact absurd h (by simp)
  · next w s1 =>
    simp only [Except.ok.injEq, Prod.mk.injEq] at h
    exact ⟨w, by rw [h.2], h.1.symm⟩

theorem withField_mono {α β : Type} (f : Saved → Dec β) (put : β → α) (h : Mono f) :
    Mono (fun s => withField (f s) put) := by
  intro s v s2 hv hs
  obtain ⟨w, hw, _⟩ := withField_ok _ _ _ _ hv
  exact h s w s2 hw hs

theorem elements_mono {α : Type} (zero : α) (elem : JSON → α → Saved → Dec α)
    (h : ∀ x cur, Mono (elem x cur)) (xs : List JSON) :
    ∀ cur, Mono (elements zero elem xs cur) := by
  induction xs with
  | nil =>
    intro cur s v s2 hv hs
    simp only [elements, Except.ok.injEq, Prod.mk.injEq] at hv
    rw [← hv.2] at hs; exact hs
  | cons x rest ih =>
    intro cur s v s2 hv hs
    simp only [elements] at hv
    split at hv
    · exact absurd hv (by simp)
    · next w s1 hw =>
      split at hv
      · exact absurd hv (by simp)
      · next vs s3 hvs =>
        simp only [Except.ok.injEq, Prod.mk.injEq] at hv
        rw [← hv.2] at hs
        exact h x _ s w s1 hw (ih _ s1 vs s3 hvs hs)

theorem decodeSlice_mono {α : Type} (type : String) (zero : α) (elem : JSON → α → Saved → Dec α)
    (h : ∀ x cur, Mono (elem x cur)) (ctx : Ctx) (j : JSON) (cur : List α) :
    Mono (decodeSlice type zero elem ctx j cur) := by
  intro s v s2 hv hs
  cases j with
  | array xs => exact elements_mono zero elem h xs cur s v s2 hv hs
  | _ =>
    simp only [decodeSlice, Except.ok.injEq, Prod.mk.injEq] at hv
    first
    | (rw [← hv.2] at hs; exact hs)
    | (rw [← hv.2] at hs; exact absurd hs (save_ne_none _ _))

theorem members_mono {α : Type} (names : List String)
    (setField : String → JSON → α → Saved → Dec α)
    (h : ∀ name j cur, Mono (setField name j cur)) (ms : List (String × JSON)) :
    ∀ cur, Mono (members names setField ms cur) := by
  induction ms with
  | nil =>
    intro cur s v s2 hv hs
    simp only [members, Except.ok.injEq, Prod.mk.injEq] at hv
    rw [← hv.2] at hs; exact hs
  | cons p rest ih =>
    obtain ⟨key, j⟩ := p
    intro cur s v s2 hv hs
    simp only [members] at hv
    split at hv
    · exact ih cur s v s2 hv hs
    · next name _ =>
      split at hv
      · exact absurd hv (by simp)
      · next cur1 s1 h1 => exact h name j cur s cur1 s1 h1 (ih cur1 s1 v s2 hv hs)

theorem decodeStruct_mono {α : Type} (type : String) (names : List String)
    (setField : String → JSON → α → Saved → Dec α)
    (h : ∀ name j cur, Mono (setField name j cur)) (ctx : Ctx) (j : JSON) (cur : α) :
    Mono (decodeStruct type names setField ctx j cur) := by
  intro s v s2 hv hs
  cases j with
  | object ms => exact members_mono names setField h ms cur s v s2 hv hs
  | _ =>
    simp only [decodeStruct, Except.ok.injEq, Prod.mk.injEq] at hv
    first
    | (rw [← hv.2] at hs; exact hs)
    | (rw [← hv.2] at hs; exact absurd hs (save_ne_none _ _))

theorem decodeStrings_mono (ctx : Ctx) (j : JSON) (cur : List String) :
    Mono (decodeStrings ctx j cur) :=
  decodeSlice_mono _ _ _ (fun x c => decodeString_mono ctx x c) ctx j cur

theorem ite_mono {α : Type} (c : Prop) [Decidable c] (f g : Saved → Dec α) (hf : Mono f)
    (hg : Mono g) : Mono (fun s => if c then f s else g s) := by
  intro s v s2 hv hs
  have hv2 : (if c then f s else g s) = .ok (v, s2) := hv
  by_cases hc : c
  · rw [if_pos hc] at hv2
    exact hf s v s2 hv2 hs
  · rw [if_neg hc] at hv2
    exact hg s v s2 hv2 hs

theorem AS_setField_mono (ctx : Ctx) (name : String) (j : JSON) (cur : AS) :
    Mono (AS.setField ctx name j cur) := by
  show Mono (fun s => AS.setField ctx name j cur s)
  unfold AS.setField
  repeat' first
    | apply ite_mono
    | apply withField_mono
    | exact decodeInt_mono _ _ _
    | exact decodeString_mono _ _ _

theorem decodeAS_mono (ctx : Ctx) (j : JSON) (cur : AS) : Mono (decodeAS ctx j cur) :=
  decodeStruct_mono _ _ _ (AS_setField_mono ctx) ctx j cur

theorem Contact_setField_mono (ctx : Ctx) (name : String) (j : JSON) (cur : Contact) :
    Mono (Contact.setField ctx name j cur) := by
  show Mono (fun s => Contact.setField ctx name j cur s)
  unfold Contact.setField
  repeat' first
    | apply ite_mono
    | apply withField_mono
    | exact decodeString_mono _ _ _
    | exact decodeStrings_mono _ _ _

theorem decodeContacts_mono (ctx : Ctx) (j : JSON) (cur : List Contact) :
    Mono (decodeContacts ctx j cur) :=
  decodeSlice_mono _ _ _
    (fun x c => decodeStruct_mono _ _ _ (Contact_setField_mono ctx) ctx x c) ctx j cur

theorem Organization_setField_mono (ctx : Ctx) (name : String) (j : JSON) (cur : Organization) :
    Mono (Organization.setField ctx name j cur) := by
  show Mono (fun s => Organization.setField ctx name j cur s)
  unfold Organization.setField
  repeat' first
    | apply ite_mono
    | apply withField_mono
    | exact decodeString_mono _ _ _
    | exact decodeStrings_mono _ _ _

theorem decodeOrganization_mono (ctx : Ctx) (j : JSON) (cur : Organization) :
    Mono (decodeOrganization ctx j cur) :=
  decodeStruct_mono _ _ _ (Organization_setField_mono ctx) ctx j cur

theorem Maintainer_setField_mono (ctx : Ctx) (name : String) (j : JSON) (cur : Maintainer) :
    Mono (Maintainer.setField ctx name j cur) := by
  show Mono (fun s => Maintainer.setField ctx name j cur s)
  unfold Maintainer.setField
  repeat' first
    | apply ite_mono
    | apply withField_mono
    | exact decodeString_mono _ _ _

theorem decodeMaintainers_mono (ctx : Ctx) (j : JSON) (cur : List Maintainer) :
    Mono (decodeMaintainers ctx j cur) :=
  decodeSlice_mono _ _ _
    (fun x c => decodeStruct_mono _ _ _ (Maintainer_setField_mono ctx) ctx x c) ctx j cur

theorem Inetnum_setField_mono (ctx : Ctx) (name : String) (j : JSON) (cur : Inetnum) :
    Mono (Inetnum.setField ctx name j cur) := by
  show Mono (fun s => Inetnum.setField ctx name j cur s)
  unfold Inetnum.setField
  repeat' first
    | apply ite_mono
    | apply withField_mono
    | exact decodeString_mono _ _ _
    | exact decodeStrings_mono _ _ _
    | exact decodeFloat_mono _ _ _
    | exact decodeTime_mono _ _ _
    | exact decodeAS_mono _ _ _
    | exact decodeContacts_mono _ _ _
    | exact decodeOrganization_mono _ _ _
    | exact decodeMaintainers_mono _ _ _

theorem decodeInetnum_mono (ctx : Ctx) (j : JSON) (cur : Inetnum) :
    Mono (decodeInetnum ctx j cur) :=
  decodeStruct_mono _ _ _ (Inetnum_setField_mono ctx) ctx j cur

theorem decodeInetnums_mono (ctx : Ctx) (j : JSON) (cur : List Inetnum) :
    Mono (decodeInetnums ctx j cur) :=
  decodeSlice_mono _ _ _ (fun x c => decodeInetnum_mono ctx x c) ctx j cur

theorem Result_setField_mono (ctx : Ctx) (name : String) (j : JSON) (cur : Result) :
    Mono (Result.setField ctx name j cur) := by
  show Mono (fun s => Result.setField ctx name j cur s)
  unfold Result.setField
  repeat' first
    | apply ite_mono
    | apply withField_mono
    | exact decodeInt_mono _ _ _
    | exact decodeStringPtr_mono _ _ _
    | exact decodeInetnums_mono _ _ _

theorem decodeResult_mono (ctx : Ctx) (j : JSON) (cur : Result) :
    Mono (decodeResult ctx j cur) :=
  decodeStruct_mono _ _ _ (Result_setField_mono ctx) ctx j cur

theorem apiResponse_setField_mono (ctx : Ctx) (name : String) (j : JSON) (cur : apiResponse) :
    Mono (apiResponse.setField ctx name j cur) := by
  show Mono (fun s => apiResponse.setField ctx name j cur s)
  unfold apiResponse.setField
  repeat' first
    | apply ite_mono
    | apply withField_mono
    | exact decodeString_mono _ _ _
    | exact decodeInt_mono _ _ _
    | exact decodeResult_mono _ _ _

theorem lookupField_mem (names : List String) (key name : String)
    (h : lookupField names key = some name) : name ∈ names := by
  unfold lookupField at h
  split at h
  · next n hn =>
    simp only [Option.some.injEq] at h
    subst h
    exact List.mem_of_find?_eq_some hn
  · exact List.mem_of_find?_eq_some h

theorem members_append {α : Type} (names : List String)
    (setField : String → JSON → α → Saved → Dec α) (a b : List (String × JSON)) :
    ∀ (cur : α) (s : Saved), members names setField (a ++ b) cur s =
      match members names setField a cur s with
      | .error e => .error e
      | .ok (c, s1) => members names setField b c s1 := by
  induction a with
  | nil => intro cur s; rfl
  | cons p rest ih =>
    obtain ⟨key, j⟩ := p
    intro cur s
    simp only [List.cons_append, members]
    split
    · exact ih cur s
    · split
      · rfl
      · exact ih _ _

/-- Members that select none of the fields that write the part `g` of a struct leave that
part as it was. -/
theorem members_frame {α β : Type} (names : List String)
    (setField : String → JSON → α → Saved → Dec α) (g : α → β) (touched : List String)
    (hframe : ∀ name ∈ names, name ∉ touched → ∀ j cur s v s2,
      setField name j cur s = .ok (v, s2) → g v = g cur)
    (ms : List (String × JSON)) (hms : NoMember names ms touched) :
    ∀ cur s v s2, members names setField ms cur s = .ok (v, s2) → g v = g cur := by
  induction ms with
  | nil =>
    intro cur s v s2 h
    simp only [members, Except.ok.injEq, Prod.mk.injEq] at h
    rw [h.1]
  | cons p rest ih =>
    obtain ⟨key, j⟩ := p
    have hrest : NoMember names rest touched := fun q hq => hms q (List.mem_cons_of_mem _ hq)
    intro cur s v s2 h
    simp only [members] at h
    split at h
    · exact ih hrest cur s v s2 h
    · next name hname =>
      split at h
      · exact absurd h (by simp)
      · next cur1 s1 h1 =>
        have hnt : name ∉ touched := fun hc => hms (key, j) (List.mem_cons_self _ _) name hc hname
        rw [ih hrest cur1 s1 v s2 h,
          hframe name (lookupField_mem names key name hname) hnt j cur s cur1 s1 h1]

/-- The only member that selects a field: the members before it leave the part `g` as it
was, the field is then set from the value of that member, and the members after it leave
`g` as that made it. When no error is saved at the end, none is saved on the way. -/
theorem members_only {α β : Type} (names : List String)
    (setField : String → JSON → α → Saved → Dec α) (g : α → β) (name : String)
    (hmono : ∀ n j cur, Mono (setField n j cur))
    (hframe : ∀ n ∈ names, n ∉ [name] → ∀ j cur s v s2,
      setField n j cur s = .ok (v, s2) → g v = g cur)
    (ms : List (String × JSON)) (j : JSON) (hj : OnlyMember names ms name j)
    (cur v : α) (h : members names setField ms cur none = .ok (v, none)) :
    ∃ cur1 cur2, g cur1 = g cur ∧ setField name j cur1 none = .ok (cur2, none) ∧
      g v = g cur2 := by
  obtain ⟨pre, k, post, hms, hk, hno⟩ := hj
  subst hms
  rw [members_append] at h
  split at h
  · exact absurd h (by simp)
  · next cur1 s1 h1 =>
    simp only [members, hk] at h
    split at h
    · exact absurd h (by simp)
    · next cur2 s2 h2 =>
      have hs2 : s2 = none := members_mono names setField hmono post cur2 s2 v none h rfl
      subst hs2
      have hs1 : s1 = none := hmono name j cur1 s1 cur2 none h2 rfl
      subst hs1
      have hpre : NoMember names pre [name] := by
        intro p hp n hn
        simp only [List.mem_singleton] at hn
        subst hn
        exact hno p (List.mem_append_left _ hp)
      have hpost : NoMember names post [name] := by
        intro p hp n hn
        simp only [List.mem_singleton] at hn
        subst hn
        exact hno p (List.mem_append_right _ hp)
      exact ⟨cur1, cur2, members_frame names setField g [name] hframe pre hpre cur none cur1 none h1,
        h2, members_frame names setField g [name] hframe post hpost cur2 none v none h⟩

/-- The elements of an array decoded into an empty slice: each element is decoded into a
zero value, in order. -/
theorem elements_forall2 {α : Type} (zero : α) (elem : JSON → α → Saved → Dec α)
    (hmono : ∀ x cur, Mono (elem x cur)) (xs : List JSON) :
    ∀ vs, elements zero elem xs [] none = .ok (vs, none) →
      List.Forall₂ (fun x v => elem x zero none = .ok (v, none)) xs vs := by
  induction xs with
  | nil =>
    intro vs h
    simp only [elements, Except.ok.injEq, Prod.mk.injEq] at h
    rw [← h.1]
    exact List.Forall₂.nil
  | cons x rest ih =>
    intro vs h
    simp only [elements, List.headD_nil, List.tail_nil] at h
    split at h
    · exact absurd h (by simp)
    · next w s1 hw =>
      split at h
      · exact absurd h (by simp)
      · next ws s3 hws =>
        simp only [Except.ok.injEq, Prod.mk.injEq] at h
        obtain ⟨hvs, hs3⟩ := h
        subst hs3
        have hs1 : s1 = none := elements_mono zero elem hmono rest [] s1 ws none hws rfl
        subst hs1
        rw [← hvs]
        exact List.Forall₂.cons hw (ih ws hws)

theorem apiResponse_frame_search (ctx : Ctx) :
    ∀ n ∈ apiResponse.names, n ∉ ["search"] → ∀ j cur s v s2,
      apiResponse.setField ctx n j cur s = .ok (v, s2) → v.IPNetblocksResponse.Search = cur.IPNetblocksResponse.Search := by
  intro n hn hnt j cur s v s2 h
  simp only [apiResponse.names, List.mem_cons, List.mem_singleton, List.not_mem_nil,
    or_false, not_or] at hn hnt
  rcases hn with rfl | rfl | rfl | rfl | rfl
  · exact absurd rfl hnt
  · unfold apiResponse.setField at h
    simp only [String.reduceEq, ↓reduceIte] at h
    obtain ⟨w, _, hv⟩ := withField_ok _ _ _ _ h
    rw [hv]
  · unfold apiResponse.setField at h
    simp only [String.reduceEq, ↓reduceIte] at h
    obtain ⟨w, _, hv⟩ := withField_ok _ _ _ _ h
    rw [hv]
  · unfold apiResponse.setField at h
    simp only [String.reduceEq, ↓reduceIte] at h
    obtain ⟨w, _, hv⟩ := withField_ok _ _ _ _ h
    rw [hv]
  · unfold apiResponse.setField at h
    simp only [String.reduceEq, ↓reduceIte] at h
    obtain ⟨w, _, hv⟩ := withField_ok _ _ _ _ h
    rw [hv]

theorem apiResponse_frame_result (ctx : Ctx) :
    ∀ n ∈ apiResponse.names, n ∉ ["result"] → ∀ j cur s v s2,
      apiResponse.setField ctx n j cur s = .ok (v, s2) → v.IPNetblocksResponse.Result = cur.IPNetblocksResponse.Result := by
  intro n hn hnt j cur s v s2 h
  simp only [apiResponse.names, List.mem_cons, List.mem_singleton, List.not_mem_nil,
    or_false, not_or] at hn hnt
  rcases hn with rfl | rfl | rfl | rfl | rfl
  · unfold apiResponse.setField at h
    simp only [String.reduceEq, ↓reduceIte] at h
    obtain ⟨w, _, hv⟩ := withField_ok _ _ _ _ h
    rw [hv]
  · exact absurd rfl hnt
  · unfold apiResponse.setField at h
    simp only [String.reduceEq, ↓reduceIte] at h
    obtain ⟨w, _, hv⟩ := withField_ok _ _ _ _ h
    rw [hv]
  · unfold apiResponse.setField at h
    simp only [String.reduceEq, ↓reduceIte] at h
    obtain ⟨w, _, hv⟩ := withField_ok _ _ _ _ h
    rw [hv]
  · unfold apiResponse.setField at h
    simp only [String.reduceEq, ↓reduceIte] at h
    obtain ⟨w, _, hv⟩ := withField_ok _ _ _ _ h
    rw [hv]

theorem apiResponse_frame_error (ctx : Ctx) :
    ∀ n ∈ apiResponse.names, n ∉ ["code", "messages"] → ∀ j cur s v s2,
      apiResponse.setField ctx n j cur s = .ok (v, s2) → v.ErrorMessage = cur.ErrorMessage := by
  intro n hn hnt j cur s v s2 h
  simp only [apiResponse.names, List.mem_cons, List.mem_singleton, List.not_mem_nil,
    or_false, not_or] at hn hnt
  rcases hn with rfl | rfl | rfl | rfl | rfl
  · unfold apiResponse.setField at h
    simp only [String.reduceEq, ↓reduceIte] at h
    obtain ⟨w, _, hv⟩ := withField_ok _ _ _ _ h
    rw [hv]
  · unfold apiResponse.setField at h
    simp only [String.reduceEq, ↓reduceIte] at h
    obtain ⟨w, _, hv⟩ := withField_ok _ _ _ _ h
    rw [hv]
  · unfold apiResponse.setField at h
    simp only [String.reduceEq, ↓reduceIte] at h
    obtain ⟨w, _, hv⟩ := withField_ok _ _ _ _ h
    rw [hv]
  · exact absurd rfl hnt.1
  · exact absurd rfl hnt.2

theorem Result_frame_count (ctx : Ctx) :
    ∀ n ∈ Result.names, n ∉ ["count"] → ∀ j cur s v s2,
      Result.setField ctx n j cur s = .ok (v, s2) → v.Count = cur.Count := by
  intro n hn hnt j cur s v s2 h
  simp only [Result.names, List.mem_cons, List.mem_singleton, List.not_mem_nil,
    or_false, not_or] at hn hnt
  rcases hn with rfl | rfl | rfl | rfl | rfl
  · exact absurd rfl hnt
  · unfold Result.setField at h
    simp only [String.reduceEq, ↓reduceIte] at h
    obtain ⟨w, _, hv⟩ := withField_ok _ _ _ _ h
    rw [hv]
  · unfold Result.setField at h
    simp only [String.reduceEq, ↓reduceIte] at h
    obtain ⟨w, _, hv⟩ := withField_ok _ _ _ _ h
    rw [hv]
  · unfold Result.setField at h
    simp only [String.reduceEq, ↓reduceIte] at h
    obtain ⟨w, _, hv⟩ := withField_ok _ _ _ _ h
    rw [hv]
  · unfold Result.setField at h
    simp only [String.reduceEq, ↓reduceIte] at h
    obtain ⟨w, _, hv⟩ := withField_ok _ _ _ _ h
    rw [hv]

theorem Result_frame_limit (ctx : Ctx) :
    ∀ n ∈ Result.names, n ∉ ["limit"] → ∀ j cur s v s2,
      Result.setField ctx n j cur s = .ok (v, s2) → v.Limit = cur.Limit := by
  intro n hn hnt j cur s v s2 h
  simp only [Result.names, List.mem_cons, List.mem_singleton, List.not_mem_nil,
    or_false, not_or] at hn hnt
  rcases hn with rfl | rfl | rfl | rfl | rfl
  · unfold Result.setField at h
    simp only [String.reduceEq, ↓reduceIte] at h
    obtain ⟨w, _, hv⟩ := withField_ok _ _ _ _ h
    rw [hv]
  · exact absurd rfl hnt
  · unfold Result.setField at h
    simp only [String.reduceEq, ↓reduceIte] at h
    obtain ⟨w, _, hv⟩ := withField_ok _ _ _ _ h
    rw [hv]
  · unfold Result.setField at h
    simp only [String.reduceEq, ↓reduceIte] at h
    obtain ⟨w, _, hv⟩ := withField_ok _ _ _ _ h
    rw [hv]
  · unfold Result.setField at h
    simp only [String.reduceEq, ↓reduceIte] at h
    obtain ⟨w, _, hv⟩ := withField_ok _ _ _ _ h
    rw [hv]

theorem Result_frame_from (ctx : Ctx) :
    ∀ n ∈ Result.names, n ∉ ["from"] → ∀ j cur s v s2,
      Result.setField ctx n j cur s = .ok (v, s2) → v.From = cur.From := by
  intro n hn hnt j cur s v s2 h
  simp only [Result.names, List.mem_cons, List.mem_singleton, List.not_mem_nil,
    or_false, not_or] at hn hnt
  rcases hn with rfl | rfl | rfl | rfl | rfl
  · unfold Result.setField at h
    simp only [String.reduceEq, ↓reduceIte] at h
    obtain ⟨w, _, hv⟩ := withField_ok _ _ _ _ h
    rw [hv]
  · unfold Result.setField at h
    simp only [String.reduceEq, ↓reduceIte] at h
    obtain ⟨w, _, hv⟩ := withField_ok _ _ _ _ h
    rw [hv]
  · exact absurd rfl hnt
  · unfold Result.setField at h
    simp only [String.reduceEq, ↓reduceIte] at h
    obtain ⟨w, _, hv⟩ := withField_ok _ _ _ _ h
    rw [hv]
  · unfold Result.setField at h
    simp only [String.reduceEq, ↓reduceIte] at h
    obtain ⟨w, _, hv⟩ := withField_ok _ _ _ _ h
    rw [hv]

theorem Result_frame_next (ctx : Ctx) :
    ∀ n ∈ Result.names, n ∉ ["next"] → ∀ j cur s v s2,
      Result.setField ctx n j cur s = .ok (v, s2) → v.Next = cur.Next := by
  intro n hn hnt j cur s v s2 h
  simp only [Result.names, List.mem_cons, List.mem_singleton, List.not_mem_nil,
    or_false, not_or] at hn hnt
  rcases hn with rfl | rfl | rfl | rfl | rfl
  · unfold Result.setField at h
    simp only [String.reduceEq, ↓reduceIte] at h
    obtain ⟨w, _, hv⟩ := withField_ok _ _ _ _ h
    rw [hv]
  · unfold Result.setField at h
    simp only [String.reduceEq, ↓reduceIte] at h
    obtain ⟨w, _, hv⟩ := withField_ok _ _ _ _ h
    rw [hv]
  · unfold Result.setField at h
    simp only [String.reduceEq, ↓reduceIte] at h
    obtain ⟨w, _, hv⟩ := withField_ok _ _ _ _ h
    rw [hv]
  · exact absurd rfl hnt
  · unfold Result.setField at h
    simp only [String.reduceEq, ↓reduceIte] at h
    obtain ⟨w, _, hv⟩ := withField_ok _ _ _ _ h
    rw [hv]

theorem Result_frame_inetnums (ctx : Ctx) :
    ∀ n ∈ Result.names, n ∉ ["inetnums"] → ∀ j cur s v s2,
      Result.setField ctx n j cur s = .ok (v, s2) → v.Inetnums = cur.Inetnums := by
  intro n hn hnt j cur s v s2 h
  simp only [Result.names, List.mem_cons, List.mem_singleton, List.not_mem_nil,
    or_false, not_or] at hn hnt
  rcases hn with rfl | rfl | rfl | rfl | rfl
  · unfold Result.setField at h
    simp only [String.reduceEq, ↓reduceIte] at h
    obtain ⟨w, _, hv⟩ := withField_ok _ _ _ _ h
    rw [hv]
  · unfold Result.setField at h
    simp only [String.reduceEq, ↓reduceIte] at h
    obtain ⟨w, _, hv⟩ := withField_ok _ _ _ _ h
    rw [hv]
  · unfold Result.setField at h
    simp only [String.reduceEq, ↓reduceIte] at h
    obtain ⟨w, _, hv⟩ := withField_ok _ _ _ _ h
    rw [hv]
  · unfold Result.setField at h
    simp only [String.reduceEq, ↓reduceIte] at h
    obtain ⟨w, _, hv⟩ := withField_ok _ _ _ _ h
    rw [hv]
  · exact absurd rfl hnt

theorem unmarshal_object (ms : List (String × JSON)) (v : apiResponse)
    (h : unmarshal (.object ms) = .ok v) :
    members apiResponse.names (apiResponse.setField Ctx.top) ms apiResponse.zero none
      = .ok (v, none) := by
  unfold unmarshal decodeStruct at h
  simp only at h
  split at h
  · exact absurd h (by simp)
  · exact absurd h (by simp)
  · next w hw =>
    simp only [Except.ok.injEq] at h
    subst h
    exact hw

theorem jsonDecode_object (b : Bytes) (ms : List (String × JSON)) (v : apiResponse)
    (hscan : scanBody b = .ok (.object ms)) (hdec : jsonDecode b = .ok v) :
    members apiResponse.names (apiResponse.setField Ctx.top) ms apiResponse.zero none
      = .ok (v, none) := by
  unfold jsonDecode at hdec
  rw [hscan] at hdec
  exact unmarshal_object ms v hdec

theorem search_of_member (ms : List (String × JSON)) (v : apiResponse) (x : String)
    (h : members apiResponse.names (apiResponse.setField Ctx.top) ms apiResponse.zero none
      = .ok (v, none))
    (hx : OnlyMember apiResponse.names ms "search" (.string x)) :
    v.IPNetblocksResponse.Search = x := by
  obtain ⟨cur1, cur2, _, hset, hv⟩ := members_only apiResponse.names
    (apiResponse.setField Ctx.top) (fun a => a.IPNetblocksResponse.Search) "search"
    (apiResponse_setField_mono Ctx.top) (apiResponse_frame_search Ctx.top) ms _ hx _ v h
  rw [hv]
  unfold apiResponse.setField at hset
  simp only [↓reduceIte] at hset
  obtain ⟨w, hw, hc⟩ := withField_ok _ _ _ _ hset
  simp only [decodeString, Except.ok.injEq, Prod.mk.injEq] at hw
  rw [hc, ← hw.1]

theorem result_of_member (ms rs : List (String × JSON)) (v : apiResponse)
    (h : members apiResponse.names (apiResponse.setField Ctx.top) ms apiResponse.zero none
      = .ok (v, none))
    (hx : OnlyMember apiResponse.names ms "result" (.object rs)) :
    members Result.names (Result.setField resultCtx) rs Result.zero none
      = .ok (v.IPNetblocksResponse.Result, none) := by
  obtain ⟨cur1, cur2, h1, hset, hv⟩ := members_only apiResponse.names
    (apiResponse.setField Ctx.top) (fun a => a.IPNetblocksResponse.Result) "result"
    (apiResponse_setField_mono Ctx.top) (apiResponse_frame_result Ctx.top) ms _ hx _ v h
  rw [hv]
  unfold apiResponse.setField at hset
  simp only [String.reduceEq, ↓reduceIte] at hset
  obtain ⟨w, hw, hc⟩ := withField_ok _ _ _ _ hset
  rw [hc, h1] at *
  exact hw

theorem count_of_member (c : Ctx) (rs : List (String × JSON)) (res : Result) (lit : String)
    (h : members Result.names (Result.setField c) rs Result.zero none = .ok (res, none))
    (hx : OnlyMember Result.names rs "count" (.number lit)) :
    parseInt64 lit = some res.Count := by
  obtain ⟨cur1, cur2, _, hset, hv⟩ := members_only Result.names
    (Result.setField c) (fun a => a.Count) "count"
    (Result_setField_mono c) (Result_frame_count c) rs _ hx _ res h
  rw [hv]
  unfold Result.setField at hset
  simp only [↓reduceIte] at hset
  obtain ⟨w, hw, hc⟩ := withField_ok _ _ _ _ hset
  simp only [decodeInt] at hw
  split at hw
  · next n hn =>
    simp only [Except.ok.injEq, Prod.mk.injEq] at hw
    rw [hc, hn, ← hw.1]
  · simp only [Except.ok.injEq, Prod.mk.injEq] at hw
    exact absurd hw.2 (save_ne_none _ _)

theorem limit_of_member (c : Ctx) (rs : List (String × JSON)) (res : Result) (lit : String)
    (h : members Result.names (Result.setField c) rs Result.zero none = .ok (res, none))
    (hx : OnlyMember Result.names rs "limit" (.number lit)) :
    parseInt64 lit = some res.Limit := by
  obtain ⟨cur1, cur2, _, hset, hv⟩ := members_only Result.names
    (Result.setField c) (fun a => a.Limit) "limit"
    (Result_setField_mono c) (Result_frame_limit c) rs _ hx _ res h
  rw [hv]
  unfold Result.setField at hset
  simp only [String.reduceEq, ↓reduceIte] at hset
  obtain ⟨w, hw, hc⟩ := withField_ok _ _ _ _ hset
  simp only [decodeInt] at hw
  split at hw
  · next n hn =>
    simp only [Except.ok.injEq, Prod.mk.injEq] at hw
    rw [hc, hn, ← hw.1]
  · simp only [Except.ok.injEq, Prod.mk.injEq] at hw
    exact absurd hw.2 (save_ne_none _ _)

theorem decodeStringPtr_value (c : Ctx) (j : JSON) (cur w : Option String)
    (h : decodeStringPtr c j cur none = .ok (w, none)) : pointerOf j = some w := by
  cases j <;> simp only [decodeStringPtr, Except.ok.injEq, Prod.mk.injEq] at h <;>
    first
    | (rw [← h.1]; rfl)
    | exact absurd h.2 (save_ne_none _ _)

theorem from_of_member (c : Ctx) (rs : List (String × JSON)) (res : Result) (j : JSON)
    (h : members Result.names (Result.setField c) rs Result.zero none = .ok (res, none))
    (hx : OnlyMember Result.names rs "from" j) :
    pointerOf j = some res.From := by
  obtain ⟨cur1, cur2, _, hset, hv⟩ := members_only Result.names
    (Result.setField c) (fun a => a.From) "from"
    (Result_setField_mono c) (Result_frame_from c) rs _ hx _ res h
  rw [hv]
  unfold Result.setField at hset
  simp only [String.reduceEq, ↓reduceIte] at hset
  obtain ⟨w, hw, hc⟩ := withField_ok _ _ _ _ hset
  rw [hc]
  exact decodeStringPtr_value _ _ _ _ hw

theorem next_of_member (c : Ctx) (rs : List (String × JSON)) (res : Result) (j : JSON)
    (h : members Result.names (Result.setField c) rs Result.zero none = .ok (res, none))
    (hx : OnlyMember Result.names rs "next" j) :
    pointerOf j = some res.Next := by
  obtain ⟨cur1, cur2, _, hset, hv⟩ := members_only Result.names
    (Result.setField c) (fun a => a.Next) "next"
    (Result_setField_mono c) (Result_frame_next c) rs _ hx _ res h
  rw [hv]
  unfold Result.setField at hset
  simp only [String.reduceEq, ↓reduceIte] at hset
  obtain ⟨w, hw, hc⟩ := withField_ok _ _ _ _ hset
  rw [hc]
  exact decodeStringPtr_value _ _ _ _ hw

theorem inetnums_of_member (c : Ctx) (rs : List (String × JSON)) (res : Result)
    (xs : List JSON)
    (h : members Result.names (Result.setField c) rs Result.zero none = .ok (res, none))
    (hx : OnlyMember Result.names rs "inetnums" (.array xs)) :
    List.Forall₂ (fun x i => decodeInetnum (c.field "Result" "inetnums") x Inetnum.zero none
      = .ok (i, none)) xs res.Inetnums := by
  obtain ⟨cur1, cur2, h1, hset, hv⟩ := members_only Result.names
    (Result.setField c) (fun a => a.Inetnums) "inetnums"
    (Result_setField_mono c) (Result_frame_inetnums c) rs _ hx _ res h
  rw [hv]
  unfold Result.setField at hset
  simp only [String.reduceEq, ↓reduceIte] at hset
  obtain ⟨w, hw, hc⟩ := withField_ok _ _ _ _ hset
  rw [hc]
  rw [h1] at hw
  exact elements_forall2 Inetnum.zero _ (fun x cur => decodeInetnum_mono _ x cur) xs w hw

theorem scanBody_of_isObjectBody (b : Bytes) (h : isObjectBody b = true) :
    scanBody b = .ok (.object (bodyMembers b)) := by
  unfold isObjectBody at h
  unfold bodyMembers
  split at h
  · next ms hms => rw [hms]
  · exact absurd h (by simp)

set_option maxRecDepth 100000 in
theorem respOK_decodes : jsonDecode respOK = .ok respOKDecoded := by
  decide

set_option maxRecDepth 100000 in
theorem respOK_isObject : isObjectBody respOK = true := by
  decide

set_option maxRecDepth 100000 in
theorem respOK_noError : NoMember apiResponse.names (bodyMembers respOK) ["code", "messages"] := by
  unfold NoMember
  decide

set_option maxRecDepth 100000 in
theorem respOK_search : OnlyMember apiResponse.names (bodyMembers respOK) "search" (.string "8.8.8.8") := by
  refine ⟨[], "search", (bodyMembers respOK).drop 1, ?_, by decide, ?_⟩
  · rfl
  · decide

/-! The decoder refines the reading of a plain body under the json tags. -/

theorem memberOf_snoc_ne (pre : List (String × JSON)) (k : String) (j : JSON) (tag : String)
    (h : k ≠ tag) : memberOf (pre ++ [(k, j)]) tag = memberOf pre tag := by
  induction pre with
  | nil => simp only [List.nil_append, memberOf, if_neg h]
  | cons p rest ih =>
    obtain ⟨k1, j1⟩ := p
    rw [List.cons_append]
    show (if k1 = tag then j1 else memberOf (rest ++ [(k, j)]) tag)
      = (if k1 = tag then j1 else memberOf rest tag)
    rw [ih]

theorem memberOf_snoc_self (pre : List (String × JSON)) (k : String) (j : JSON)
    (h : ∀ p ∈ pre, p.1 ≠ k) : memberOf (pre ++ [(k, j)]) k = j := by
  induction pre with
  | nil => simp only [List.nil_append, memberOf, if_true]
  | cons p rest ih =>
    obtain ⟨k1, j1⟩ := p
    have h1 : k1 ≠ k := h (k1, j1) (List.mem_cons_self _ _)
    simp only [List.cons_append, memberOf, if_neg h1]
    exact ih (fun p hp => h p (List.mem_cons_of_mem _ hp))

theorem memberOf_absent (pre : List (String × JSON)) (k : String)
    (h : ∀ p ∈ pre, p.1 ≠ k) : memberOf pre k = .null := by
  induction pre with
  | nil => rfl
  | cons p rest ih =>
    obtain ⟨k1, j1⟩ := p
    have h1 : k1 ≠ k := h (k1, j1) (List.mem_cons_self _ _)
    simp only [memberOf, if_neg h1]
    exact ih (fun p hp => h p (List.mem_cons_of_mem _ hp))

theorem lookupField_self (names : List String) (k : String) (h : k ∈ names) :
    lookupField names k = some k := by
  unfold lookupField
  cases hf : names.find? (fun n => n = k) with
  | none =>
    rw [List.find?_eq_none] at hf
    exact absurd (hf k h) (by simp)
  | some n =>
    have := List.find?_some hf
    simp only [decide_eq_true_eq] at this
    rw [this]

theorem noRepeat_middle (a : List String) (k : String) (b : List String)
    (h : noRepeat (a ++ k :: b) = true) : k ∉ a := by
  induction a with
  | nil => simp
  | cons x rest ih =>
    simp only [List.cons_append, noRepeat, Bool.and_eq_true, Bool.not_eq_true',
      List.contains_eq_any_beq, List.any_eq_false, beq_iff_eq] at h
    intro hk
    rcases List.mem_cons.mp hk with rfl | hk
    · exact h.1 k (by simp) rfl
    · exact ih (by simpa [noRepeat] using h.2) hk

theorem plainKeys_middle (tags : List String) (pre : List (String × JSON)) (k : String)
    (j : JSON) (post : List (String × JSON)) (h : plainKeys tags (pre ++ (k, j) :: post) = true) :
    (k ∈ tags ∨ lookupField tags k = none) ∧ ∀ p ∈ pre, p.1 ≠ k := by
  unfold plainKeys at h
  simp only [Bool.and_eq_true, List.all_eq_true, Bool.or_eq_true, decide_eq_true_eq,
    Option.isNone_iff_eq_none] at h
  refine ⟨?_, ?_⟩
  · have := h.1 (k, j) (by simp)
    simpa using this
  · intro p hp hk
    have h2 := h.2
    rw [List.map_append, List.map_cons] at h2
    have hm : p.1 ∈ pre.map Prod.fst := List.mem_map_of_mem _ hp
    rw [hk] at hm
    exact noRepeat_middle _ _ _ h2 hm

theorem members_read {α : Type} (names : List String)
    (setField : String → JSON → α → Saved → Dec α) (read : List (String × JSON) → α)
    (good : String → JSON → Prop)
    (hmono : ∀ n j cur, Mono (setField n j cur))
    (hskip : ∀ pre k j, k ∉ names → read (pre ++ [(k, j)]) = read pre)
    (hset : ∀ pre k j s cur1, k ∈ names → (∀ p ∈ pre, p.1 ≠ k) → good k j →
      setField k j (read pre) s = .ok (cur1, none) → cur1 = read (pre ++ [(k, j)])) :
    ∀ post pre s v, plainKeys names (pre ++ post) = true → (∀ p ∈ post, good p.1 p.2) →
      members names setField post (read pre) s = .ok (v, none) → v = read (pre ++ post) := by
  intro post
  induction post with
  | nil =>
    intro pre s v _ _ h
    simp only [members, Except.ok.injEq, Prod.mk.injEq] at h
    rw [List.append_nil, h.1]
  | cons p rest ih =>
    obtain ⟨k, j⟩ := p
    intro pre s v hp hg h
    obtain ⟨hk, hpre⟩ := plainKeys_middle names pre k j rest hp
    have hp2 : plainKeys names ((pre ++ [(k, j)]) ++ rest) = true := by
      rw [List.append_assoc]; exact hp
    have hg2 : ∀ p ∈ rest, good p.1 p.2 := fun p hp => hg p (List.mem_cons_of_mem _ hp)
    have hgoal : pre ++ (k, j) :: rest = (pre ++ [(k, j)]) ++ rest := by
      rw [List.append_assoc]; rfl
    rw [hgoal]
    simp only [members] at h
    rcases hk with hin | hnone
    · rw [lookupField_self names k hin] at h
      simp only at h
      split at h
      · exact absurd h (by simp)
      · next cur1 s1 h1 =>
        have hs1 : s1 = none := members_mono names setField hmono rest cur1 s1 v none h rfl
        subst hs1
        have hc := hset pre k j s cur1 hin hpre (hg (k, j) (List.mem_cons_self _ _)) h1
        subst hc
        exact ih (pre ++ [(k, j)]) none v hp2 hg2 h
    · rw [hnone] at h
      simp only at h
      have hk : k ∉ names := fun hin => by
        rw [lookupField_self _ _ hin] at hnone
        cases hnone
      rw [← hskip pre k j hk] at h
      exact ih (pre ++ [(k, j)]) s v hp2 hg2 h

theorem decodeString_read (ctx : Ctx) (j : JSON) (s : Saved) (w : String)
    (h : decodeString ctx j "" s = .ok (w, none)) : w = textOf j := by
  cases j <;> simp only [decodeString, Except.ok.injEq, Prod.mk.injEq] at h <;>
    exact h.1.symm

theorem decodeInt_read (ctx : Ctx) (j : JSON) (s : Saved) (w : Int)
    (h : decodeInt ctx j 0 s = .ok (w, none)) : w = intOf j := by
  cases j with
  | number lit =>
    simp only [decodeInt] at h
    split at h <;> simp only [Except.ok.injEq, Prod.mk.injEq] at h
    · next n hn => simp only [intOf, hn, Option.getD_some]; exact h.1.symm
    · exact absurd h.2 (save_ne_none _ _)
  | _ =>
    simp only [decodeInt, Except.ok.injEq, Prod.mk.injEq] at h
    exact h.1.symm

theorem decodeFloat_read (ctx : Ctx) (j : JSON) (s : Saved) (w : Float64)
    (h : decodeFloat ctx j Float64.zero s = .ok (w, none)) : w = floatOf j := by
  cases j with
  | number lit =>
    simp only [decodeFloat] at h
    split at h <;> simp only [Except.ok.injEq, Prod.mk.injEq] at h
    · exact absurd h.2 (save_ne_none _ _)
    · exact h.1.symm
  | _ =>
    simp only [decodeFloat, Except.ok.injEq, Prod.mk.injEq] at h
    exact h.1.symm

theorem decodeStringPtr_read (ctx : Ctx) (j : JSON) (s : Saved) (w : Option String)
    (h : decodeStringPtr ctx j none s = .ok (w, none)) : w = textPointerOf j := by
  cases j <;> simp only [decodeStringPtr, Except.ok.injEq, Prod.mk.injEq] at h <;>
    first
    | exact h.1.symm
    | exact absurd h.2 (save_ne_none _ _)

theorem decodeTime_read (ctx : Ctx) (j : JSON) (cur : Time) (s : Saved) (w : Time)
    (h : decodeTime ctx j cur s = .ok (w, none)) : w = timeOf j := by
  cases j with
  | string x =>
    simp only [decodeTime, Time.UnmarshalJSON, unmarshalString] at h
    by_cases hx : x = ""
    · simp only [hx, if_true, Except.ok.injEq, Prod.mk.injEq] at h
      simp only [timeOf, hx, if_true]
      exact h.1.symm
    · simp only [if_neg hx] at h
      simp only [timeOf, if_neg hx]
      cases hp : timeParseRFC3339 x with
      | ok t =>
        rw [hp] at h
        simp only [Except.ok.injEq, Prod.mk.injEq] at h
        exact h.1.symm
      | error e =>
        rw [hp] at h
        cases e <;> simp at h
  | null =>
    simp only [decodeTime, Time.UnmarshalJSON, unmarshalString, if_true, Except.ok.injEq,
      Prod.mk.injEq] at h
    exact h.1.symm
  | _ =>
    simp only [decodeTime, Time.UnmarshalJSON, unmarshalString, kindName] at h
    exact absurd h (by simp)

theorem elements_read {α : Type} (zero : α) (elem : JSON → α → Saved → Dec α)
    (f : JSON → α) (p : JSON → Bool) (hmono : ∀ x cur, Mono (elem x cur))
    (helem : ∀ x s w, p x = true → elem x zero s = .ok (w, none) → w = f x) :
    ∀ xs s ws, xs.all p = true → elements zero elem xs [] s = .ok (ws, none) →
      ws = xs.map f := by
  intro xs
  induction xs with
  | nil =>
    intro s ws _ h
    simp only [elements, Except.ok.injEq, Prod.mk.injEq] at h
    rw [← h.1]; rfl
  | cons x rest ih =>
    intro s ws hp h
    simp only [List.all_cons, Bool.and_eq_true] at hp
    simp only [elements, List.headD_nil, List.tail_nil] at h
    split at h
    · exact absurd h (by simp)
    · next w s1 hw =>
      split at h
      · exact absurd h (by simp)
      · next vs s2 hvs =>
        simp only [Except.ok.injEq, Prod.mk.injEq] at h
        have hs2 : s2 = none := h.2
        subst hs2
        have hs1 : s1 = none := elements_mono zero elem hmono rest [] s1 vs none hvs rfl
        subst hs1
        rw [← h.1, List.map_cons, ← helem x s w hp.1 hw, ← ih none vs hp.2 hvs]

theorem decodeSlice_read {α : Type} (type : String) (zero : α)
    (elem : JSON → α → Saved → Dec α) (f : JSON → α) (p : JSON → Bool)
    (hmono : ∀ x cur, Mono (elem x cur))
    (helem : ∀ x s w, p x = true → elem x zero s = .ok (w, none) → w = f x)
    (ctx : Ctx) (j : JSON) (s : Saved) (ws : List α) (hp : (itemsOf j).all p = true)
    (h : decodeSlice type zero elem ctx j [] s = .ok (ws, none)) :
    ws = (itemsOf j).map f := by
  cases j with
  | array xs => exact elements_read zero elem f p hmono helem xs s ws hp h
  | _ =>
    simp only [decodeSlice, Except.ok.injEq, Prod.mk.injEq] at h
    rw [← h.1]; rfl

theorem decodeStrings_read (ctx : Ctx) (j : JSON) (s : Saved) (w : List String)
    (h : decodeStrings ctx j [] s = .ok (w, none)) : w = textsOf j :=
  decodeSlice_read _ _ _ textOf (fun _ => true) (fun x c => decodeString_mono ctx x c)
    (fun x s w _ hw => decodeString_read ctx x s w hw) ctx j s w (by simp) h

theorem decodeStruct_read {α : Type} (type : String) (names : List String)
    (setField : String → JSON → α → Saved → Dec α) (read : List (String × JSON) → α)
    (good : String → JSON → Prop)
    (hmono : ∀ n j cur, Mono (setField n j cur))
    (hskip : ∀ pre k j, k ∉ names → read (pre ++ [(k, j)]) = read pre)
    (hset : ∀ pre k j s cur1, k ∈ names → (∀ p ∈ pre, p.1 ≠ k) → good k j →
      setField k j (read pre) s = .ok (cur1, none) → cur1 = read (pre ++ [(k, j)]))
    (ctx : Ctx) (j : JSON) (s : Saved) (w : α)
    (hp : plainKeys names (membersOf j) = true) (hg : ∀ p ∈ membersOf j, good p.1 p.2)
    (h : decodeStruct type names setField ctx j (read []) s = .ok (w, none)) :
    w = read (membersOf j) := by
  cases j with
  | object ms =>
    exact members_read names setField read good hmono hskip hset ms [] s w hp hg h
  | _ =>
    simp only [decodeStruct, Except.ok.injEq, Prod.mk.injEq] at h
    rw [← h.1]; rfl

theorem AS_skip (pre : List (String × JSON)) (k : String) (j : JSON)
    (hk : k ∉ AS.names) :
    AS.ofMembers (pre ++ [(k, j)]) = AS.ofMembers pre := by
  simp only [AS.names, List.mem_cons, List.mem_singleton, List.not_mem_nil, or_false,
    not_or] at hk
  simp only [AS.ofMembers, memberOf_snoc_ne, hk, ne_eq, not_false_eq_true]

theorem AS_set (ctx : Ctx) (pre : List (String × JSON)) (k : String) (j : JSON)
    (s : Saved) (cur1 : AS) (hin : k ∈ AS.names)
    (hpre : ∀ p ∈ pre, p.1 ≠ k)
    (h : AS.setField ctx k j (AS.ofMembers pre) s = .ok (cur1, none)) :
    cur1 = AS.ofMembers (pre ++ [(k, j)]) := by
  simp only [AS.names, List.mem_cons, List.mem_singleton, List.not_mem_nil, or_false]
    at hin
  rcases hin with rfl | rfl | rfl | rfl | rfl
  · simp only [AS.setField, String.reduceEq, ↓reduceIte] at h
    obtain ⟨w, hw, hc⟩ := withField_ok _ _ _ _ h
    have h0 : (AS.ofMembers pre).ASN = intOf (JSON.null) := by
      simp only [AS.ofMembers, memberOf_absent pre _ hpre]
    rw [h0] at hw
    rw [hc, decodeInt_read _ _ _ _ hw]
    simp (disch := decide) only [AS.ofMembers, memberOf_snoc_self pre _ j hpre,
      memberOf_snoc_ne]
  · simp only [AS.setField, String.reduceEq, ↓reduceIte] at h
    obtain ⟨w, hw, hc⟩ := withField_ok _ _ _ _ h
    have h0 : (AS.ofMembers pre).Name = textOf (JSON.null) := by
      simp only [AS.ofMembers, memberOf_absent pre _ hpre]
    rw [h0] at hw
    rw [hc, decodeString_read _ _ _ _ hw]
    simp (disch := decide) only [AS.ofMembers, memberOf_snoc_self pre _ j hpre,
      memberOf_snoc_ne]
  · simp only [AS.setField, String.reduceEq, ↓reduceIte] at h
    obtain ⟨w, hw, hc⟩ := withField_ok _ _ _ _ h
    have h0 : (AS.ofMembers pre).Type_ = textOf (JSON.null) := by
      simp only [AS.ofMembers, memberOf_absent pre _ hpre]
    rw [h0] at hw
    rw [hc, decodeString_read _ _ _ _ hw]
    simp (disch := decide) only [AS.ofMembers, memberOf_snoc_self pre _ j hpre,
      memberOf_snoc_ne]
  · simp only [AS.setField, String.reduceEq, ↓reduceIte] at h
    obtain ⟨w, hw, hc⟩ := withField_ok _ _ _ _ h
    have h0 : (AS.ofMembers pre).Route = textOf (JSON.null) := by
      simp only [AS.ofMembers, memberOf_absent pre _ hpre]
    rw [h0] at hw
    rw [hc, decodeString_read _ _ _ _ hw]
    simp (disch := decide) only [AS.ofMembers, memberOf_snoc_self pre _ j hpre,
      memberOf_snoc_ne]
  · simp only [AS.setField, String.reduceEq, ↓reduceIte] at h
    obtain ⟨w, hw, hc⟩ := withField_ok _ _ _ _ h
    have h0 : (AS.ofMembers pre).Domain = textOf (JSON.null) := by
      simp only [AS.ofMembers, memberOf_absent pre _ hpre]
    rw [h0] at hw
    rw [hc, decodeString_read _ _ _ _ hw]
    simp (disch := decide) only [AS.ofMembers, memberOf_snoc_self pre _ j hpre,
      memberOf_snoc_ne]

theorem decodeAS_read (ctx : Ctx) (j : JSON) (s : Saved) (w : AS)
    (hp : AS.plain j = true)
    (h : decodeAS ctx j AS.zero s = .ok (w, none)) :
    w = AS.ofJSON j := by
  exact decodeStruct_read _ AS.names (AS.setField ctx) AS.ofMembers
    (fun _ _ => True) (AS_setField_mono ctx) AS_skip
    (fun pre k j s cur1 hin hpre _ h => AS_set ctx pre k j s cur1 hin hpre h)
    ctx j s w hp (fun _ _ => trivial) h

theorem Contact_skip (pre : List (String × JSON)) (k : String) (j : JSON)
    (hk : k ∉ Contact.names) :
    Contact.ofMembers (pre ++ [(k, j)]) = Contact.ofMembers pre := by
  simp only [Contact.names, List.mem_cons, List.mem_singleton, List.not_mem_nil, or_false,
    not_or] at hk
  simp only [Contact.ofMembers, memberOf_snoc_ne, hk, ne_eq, not_false_eq_true]

theorem Contact_set (ctx : Ctx) (pre : List (String × JSON)) (k : String) (j : JSON)
    (s : Saved) (cur1 : Contact) (hin : k ∈ Contact.names)
    (hpre : ∀ p ∈ pre, p.1 ≠ k)
    (h : Contact.setField ctx k j (Contact.ofMembers pre) s = .ok (cur1, none)) :
    cur1 = Contact.ofMembers (pre ++ [(k, j)]) := by
  simp only [Contact.names, List.mem_cons, List.mem_singleton, List.not_mem_nil, or_false]
    at hin
  rcases hin with rfl | rfl | rfl | rfl | rfl | rfl | rfl | rfl
  · simp only [Contact.setField, String.reduceEq, ↓reduceIte] at h
    obtain ⟨w, hw, hc⟩ := withField_ok _ _ _ _ h
    have h0 : (Contact.ofMembers pre).ID = textOf (JSON.null) := by
      simp only [Contact.ofMembers, memberOf_absent pre _ hpre]
    rw [h0] at hw
    rw [hc, decodeString_read _ _ _ _ hw]
    simp (disch := decide) only [Contact.ofMembers, memberOf_snoc_self pre _ j hpre,
      memberOf_snoc_ne]
  · simp only [Contact.setField, String.reduceEq, ↓reduceIte] at h
    obtain ⟨w, hw, hc⟩ := withField_ok _ _ _ _ h
    have h0 : (Contact.ofMembers pre).Person = textOf (JSON.null) := by
      simp only [Contact.ofMembers, memberOf_absent pre _ hpre]
    rw [h0] at hw
    rw [hc, decodeString_read _ _ _ _ hw]
    simp (disch := decide) only [Contact.ofMembers, memberOf_snoc_self pre _ j hpre,
      memberOf_snoc_ne]
  · simp only [Contact.setField, String.reduceEq, ↓reduceIte] at h
    obtain ⟨w, hw, hc⟩ := withField_ok _ _ _ _ h
    have h0 : (Contact.ofMembers pre).Role = textOf (JSON.null) := by
      simp only [Contact.ofMembers, memberOf_absent pre _ hpre]
    rw [h0] at hw
    rw [hc, decodeString_read _ _ _ _ hw]
    simp (disch := decide) only [Contact.ofMembers, memberOf_snoc_self pre _ j hpre,
      memberOf_snoc_ne]
  · simp only [Contact.setField, String.reduceEq, ↓reduceIte] at h
    obtain ⟨w, hw, hc⟩ := withField_ok _ _ _ _ h
    have h0 : (Contact.ofMembers pre).Email = textOf (JSON.null) := by
      simp only [Contact.ofMembers, memberOf_absent pre _ hpre]
    rw [h0] at hw
    rw [hc, decodeString_read _ _ _ _ hw]
    simp (disch := decide) only [Contact.ofMembers, memberOf_snoc_self pre _ j hpre,
      memberOf_snoc_ne]
  · simp only [Contact.setField, String.reduceEq, ↓reduceIte] at h
    obtain ⟨w, hw, hc⟩ := withField_ok _ _ _ _ h
    have h0 : (Contact.ofMembers pre).Phone = textOf (JSON.null) := by
      simp only [Contact.ofMembers, memberOf_absent pre _ hpre]
    rw [h0] at hw
    rw [hc, decodeString_read _ _ _ _ hw]
    simp (disch := decide) only [Contact.ofMembers, memberOf_snoc_self pre _ j hpre,
      memberOf_snoc_ne]
  · simp only [Contact.setField, String.reduceEq, ↓reduceIte] at h
    obtain ⟨w, hw, hc⟩ := withField_ok _ _ _ _ h
    have h0 : (Contact.ofMembers pre).Country = textOf (JSON.null) := by
      simp only [Contact.ofMembers, memberOf_absent pre _ hpre]
    rw [h0] at hw
    rw [hc, decodeString_read _ _ _ _ hw]
    simp (disch := decide) only [Contact.ofMembers, memberOf_snoc_self pre _ j hpre,
      memberOf_snoc_ne]
  · simp only [Contact.setField, String.reduceEq, ↓reduceIte] at h
    obtain ⟨w, hw, hc⟩ := withField_ok _ _ _ _ h
    have h0 : (Contact.ofMembers pre).City = textOf (JSON.null) := by
      simp only [Contact.ofMembers, memberOf_absent pre _ hpre]
    rw [h0] at hw
    rw [hc, decodeString_read _ _ _ _ hw]
    simp (disch := decide) only [Contact.ofMembers, memberOf_snoc_self pre _ j hpre,
      memberOf_snoc_ne]
  · simp only [Contact.setField, String.reduceEq, ↓reduceIte] at h
    obtain ⟨w, hw, hc⟩ := withField_ok _ _ _ _ h
    have h0 : (Contact.ofMembers pre).Address = textsOf (JSON.null) := by
      simp only [Contact.ofMembers, memberOf_absent pre _ hpre]
    rw [h0] at hw
    rw [hc, decodeStrings_read _ _ _ _ hw]
    simp (disch := decide) only [Contact.ofMembers, memberOf_snoc_self pre _ j hpre,
      memberOf_snoc_ne]

theorem decodeContact_read (ctx : Ctx) (j : JSON) (s : Saved) (w : Contact)
    (hp : Contact.plain j = true)
    (h : decodeContact ctx j Contact.zero s = .ok (w, none)) :
    w = Contact.ofJSON j := by
  exact decodeStruct_read _ Contact.names (Contact.setField ctx) Contact.ofMembers
    (fun _ _ => True) (Contact_setField_mono ctx) Contact_skip
    (fun pre k j s cur1 hin hpre _ h => Contact_set ctx pre k j s cur1 hin hpre h)
    ctx j s w hp (fun _ _ => trivial) h

theorem decodeContacts_read (ctx : Ctx) (j : JSON) (s : Saved) (w : List Contact)
    (hp : (itemsOf j).all Contact.plain = true)
    (h : decodeContacts ctx j [] s = .ok (w, none)) :
    w = (itemsOf j).map Contact.ofJSON :=
  decodeSlice_read _ _ _ Contact.ofJSON Contact.plain
    (fun x c => decodeStruct_mono _ _ _ (Contact_setField_mono ctx) ctx x c)
    (fun x s w hx hw => decodeContact_read ctx x s w hx hw) ctx j s w hp h

theorem Organization_skip (pre : List (String × JSON)) (k : String) (j : JSON)
    (hk : k ∉ Organization.names) :
    Organization.ofMembers (pre ++ [(k, j)]) = Organization.ofMembers pre := by
  simp only [Organization.names, List.mem_cons, List.mem_singleton, List.not_mem_nil, or_false,
    not_or] at hk
  simp only [Organization.ofMembers, memberOf_snoc_ne, hk, ne_eq, not_false_eq_true]

theorem Organization_set (ctx : Ctx) (pre : List (String × JSON)) (k : String) (j : JSON)
    (s : Saved) (cur1 : Organization) (hin : k ∈ Organization.names)
    (hpre : ∀ p ∈ pre, p.1 ≠ k)
    (h : Organization.setField ctx k j (Organization.ofMembers pre) s = .ok (cur1, none)) :
    cur1 = Organization.ofMembers (pre ++ [(k, j)]) := by
  simp only [Organization.names, List.mem_cons, List.mem_singleton, List.not_mem_nil, or_false]
    at hin
  rcases hin with rfl | rfl | rfl | rfl | rfl | rfl | rfl | rfl
  · simp only [Organization.setField, String.reduceEq, ↓reduceIte] at h
    obtain ⟨w, hw, hc⟩ := withField_ok _ _ _ _ h
    have h0 : (Organization.ofMembers pre).Org = textOf (JSON.null) := by
      simp only [Organization.ofMembers, memberOf_absent pre _ hpre]
    rw [h0] at hw
    rw [hc, decodeString_read _ _ _ _ hw]
    simp (disch := decide) only [Organization.ofMembers, memberOf_snoc_self pre _ j hpre,
      memberOf_snoc_ne]
  · simp only [Organization.setField, String.reduceEq, ↓reduceIte] at h
    obtain ⟨w, hw, hc⟩ := withField_ok _ _ _ _ h
    have h0 : (Organization.ofMembers pre).Name = textOf (JSON.null) := by
      simp only [Organization.ofMembers, memberOf_absent pre _ hpre]
    rw [h0] at hw
    rw [hc, decodeString_read _ _ _ _ hw]
    simp (disch := decide) only [Organization.ofMembers, memberOf_snoc_self pre _ j hpre,
      memberOf_snoc_ne]
  · simp only [Organization.setField, String.reduceEq, ↓reduceIte] at h
    obtain ⟨w, hw, hc⟩ := withField_ok _ _ _ _ h
    have h0 : (Organization.ofMembers pre).Phone = textOf (JSON.null) := by
      simp only [Organization.ofMembers, memberOf_absent pre _ hpre]
    rw [h0] at hw
    rw [hc, decodeString_read _ _ _ _ hw]
    simp (disch := decide) only [Organization.ofMembers, memberOf_snoc_self pre _ j hpre,
      memberOf_snoc_ne]
  · simp only [Organization.setField, String.reduceEq, ↓reduceIte] at h
    obtain ⟨w, hw, hc⟩ := withField_ok _ _ _ _ h
    have h0 : (Organization.ofMembers pre).Email = textOf (JSON.null) := by
      simp only [Organization.ofMembers, memberOf_absent pre _ hpre]
    rw [h0] at hw
    rw [hc, decodeString_read _ _ _ _ hw]
    simp (disch := decide) only [Organization.ofMembers, memberOf_snoc_self pre _ j hpre,
      memberOf_snoc_ne]
  · simp only [Organization.setField, String.reduceEq, ↓reduceIte] at h
    obtain ⟨w, hw, hc⟩ := withField_ok _ _ _ _ h
    have h0 : (Organization.ofMembers pre).Country = textOf (JSON.null) := by
      simp only [Organization.ofMembers, memberOf_absent pre _ hpre]
    rw [h0] at hw
    rw [hc, decodeString_read _ _ _ _ hw]
    simp (disch := decide) only [Organization.ofMembers, memberOf_snoc_self pre _ j hpre,
      memberOf_snoc_ne]
  · simp only [Organization.setField, String.reduceEq, ↓reduceIte] at h
    obtain ⟨w, hw, hc⟩ := withField_ok _ _ _ _ h
    have h0 : (Organization.ofMembers pre).City = textOf (JSON.null) := by
      simp only [Organization.ofMembers, memberOf_absent pre _ hpre]
    rw [h0] at hw
    rw [hc, decodeString_read _ _ _ _ hw]
    simp (disch := decide) only [Organization.ofMembers, memberOf_snoc_self pre _ j hpre,
      memberOf_snoc_ne]
  · simp only [Organization.setField, String.reduceEq, ↓reduceIte] at h
    obtain ⟨w, hw, hc⟩ := withField_ok _ _ _ _ h
    have h0 : (Organization.ofMembers pre).PostalCode = textOf (JSON.null) := by
      simp only [Organization.ofMembers, memberOf_absent pre _ hpre]
    rw [h0] at hw
    rw [hc, decodeString_read _ _ _ _ hw]
    simp (disch := decide) only [Organization.ofMembers, memberOf_snoc_self pre _ j hpre,
      memberOf_snoc_ne]
  · simp only [Organization.setField, String.reduceEq, ↓reduceIte] at h
    obtain ⟨w, hw, hc⟩ := withField_ok _ _ _ _ h
    have h0 : (Organization.ofMembers pre).Address = textsOf (JSON.null) := by
      simp only [Organization.ofMembers, memberOf_absent pre _ hpre]
    rw [h0] at hw
    rw [hc, decodeStrings_read _ _ _ _ hw]
    simp (disch := decide) only [Organization.ofMembers, memberOf_snoc_self pre _ j hpre,
      memberOf_snoc_ne]

theorem decodeOrganization_read (ctx : Ctx) (j : JSON) (s : Saved) (w : Organization)
    (hp : Organization.plain j = true)
    (h : decodeOrganization ctx j Organization.zero s = .ok (w, none)) :
    w = Organization.ofJSON j := by
  exact decodeStruct_read _ Organization.names (Organization.setField ctx) Organization.ofMembers
    (fun _ _ => True) (Organization_setField_mono ctx) Organization_skip
    (fun pre k j s cur1 hin hpre _ h => Organization_set ctx pre k j s cur1 hin hpre h)
    ctx j s w hp (fun _ _ => trivial) h

theorem Maintainer_skip (pre : List (String × JSON)) (k : String) (j : JSON)
    (hk : k ∉ Maintainer.names) :
    Maintainer.ofMembers (pre ++ [(k, j)]) = Maintainer.ofMembers pre := by
  simp only [Maintainer.names, List.mem_cons, List.mem_singleton, List.not_mem_nil, or_false,
    not_or] at hk
  simp only [Maintainer.ofMembers, memberOf_snoc_ne, hk, ne_eq, not_false_eq_true]

theorem Maintainer_set (ctx : Ctx) (pre : List (String × JSON)) (k : String) (j : JSON)
    (s : Saved) (cur1 : Maintainer) (hin : k ∈ Maintainer.names)
    (hpre : ∀ p ∈ pre, p.1 ≠ k)
    (h : Maintainer.setField ctx k j (Maintainer.ofMembers pre) s = .ok (cur1, none)) :
    cur1 = Maintainer.ofMembers (pre ++ [(k, j)]) := by
  simp only [Maintainer.names, List.mem_cons, List.mem_singleton, List.not_mem_nil, or_false]
    at hin
  rcases hin with rfl | rfl
  · simp only [Maintainer.setField, String.reduceEq, ↓reduceIte] at h
    obtain ⟨w, hw, hc⟩ := withField_ok _ _ _ _ h
    have h0 : (Maintainer.ofMembers pre).Mntner = textOf (JSON.null) := by
      simp only [Maintainer.ofMembers, memberOf_absent pre _ hpre]
    rw [h0] at hw
    rw [hc, decodeString_read _ _ _ _ hw]
    simp (disch := decide) only [Maintainer.ofMembers, memberOf_snoc_self pre _ j hpre,
      memberOf_snoc_ne]
  · simp only [Maintainer.setField, String.reduceEq, ↓reduceIte] at h
    obtain ⟨w, hw, hc⟩ := withField_ok _ _ _ _ h
    have h0 : (Maintainer.ofMembers pre).Email = textOf (JSON.null) := by
      simp only [Maintainer.ofMembers, memberOf_absent pre _ hpre]
    rw [h0] at hw
    rw [hc, decodeString_read _ _ _ _ hw]
    simp (disch := decide) only [Maintainer.ofMembers, memberOf_snoc_self pre _ j hpre,
      memberOf_snoc_ne]

theorem decodeMaintainer_read (ctx : Ctx) (j : JSON) (s : Saved) (w : Maintainer)
    (hp : Maintainer.plain j = true)
    (h : decodeMaintainer ctx j Maintainer.zero s = .ok (w, none)) :
    w = Maintainer.ofJSON j := by
  exact decodeStruct_read _ Maintainer.names (Maintainer.setField ctx) Maintainer.ofMembers
    (fun _ _ => True) (Maintainer_setField_mono ctx) Maintainer_skip
    (fun pre k j s cur1 hin hpre _ h => Maintainer_set ctx pre k j s cur1 hin hpre h)
    ctx j s w hp (fun _ _ => trivial) h

theorem decodeMaintainers_read (ctx : Ctx) (j : JSON) (s : Saved) (w : List Maintainer)
    (hp : (itemsOf j).all Maintainer.plain = true)
    (h : decodeMaintainers ctx j [] s = .ok (w, none)) :
    w = (itemsOf j).map Maintainer.ofJSON :=
  decodeSlice_read _ _ _ Maintainer.ofJSON Maintainer.plain
    (fun x c => decodeStruct_mono _ _ _ (Maintainer_setField_mono ctx) ctx x c)
    (fun x s w hx hw => decodeMaintainer_read ctx x s w hx hw) ctx j s w hp h

theorem Inetnum_skip (pre : List (String × JSON)) (k : String) (j : JSON)
    (hk : k ∉ Inetnum.names) :
    Inetnum.ofMembers (pre ++ [(k, j)]) = Inetnum.ofMembers pre := by
  simp only [Inetnum.names, List.mem_cons, List.mem_singleton, List.not_mem_nil, or_false,
    not_or] at hk
  simp only [Inetnum.ofMembers, memberOf_snoc_ne, hk, ne_eq, not_false_eq_true]

theorem Inetnum_set (ctx : Ctx) (pre : List (String × JSON)) (k : String) (j : JSON)
    (s : Saved) (cur1 : IPNetblocks.Inetnum) (hin : k ∈ Inetnum.names)
    (hpre : ∀ p ∈ pre, p.1 ≠ k)
    (hgood : Inetnum.plainMember k j = true)
    (h : Inetnum.setField ctx k j (Inetnum.ofMembers pre) s = .ok (cur1, none)) :
    cur1 = Inetnum.ofMembers (pre ++ [(k, j)]) := by
  simp only [Inetnum.names, List.mem_cons, List.mem_singleton, List.not_mem_nil, or_false]
    at hin
  rcases hin with rfl | rfl | rfl | rfl | rfl | rfl | rfl | rfl | rfl | rfl | rfl | rfl | rfl |
    rfl | rfl | rfl | rfl | rfl | rfl | rfl | rfl | rfl | rfl | rfl
  · simp only [Inetnum.setField, String.reduceEq, ↓reduceIte] at h
    obtain ⟨w, hw, hc⟩ := withField_ok _ _ _ _ h
    have h0 : (Inetnum.ofMembers pre).Inetnum = textOf (JSON.null) := by
      simp only [Inetnum.ofMembers, memberOf_absent pre _ hpre]
    rw [h0] at hw
    rw [hc, decodeString_read _ _ _ _ hw]
    simp (disch := decide) only [Inetnum.ofMembers, memberOf_snoc_self pre _ j hpre,
      memberOf_snoc_ne]
  · simp only [Inetnum.setField, String.reduceEq, ↓reduceIte] at h
    obtain ⟨w, hw, hc⟩ := withField_ok _ _ _ _ h
    have h0 : (Inetnum.ofMembers pre).InetnumFirst = floatOf (JSON.null) := by
      simp only [Inetnum.ofMembers, memberOf_absent pre _ hpre]
    rw [h0] at hw
    rw [hc, decodeFloat_read _ _ _ _ hw]
    simp (disch := decide) only [Inetnum.ofMembers, memberOf_snoc_self pre _ j hpre,
      memberOf_snoc_ne]
  · simp only [Inetnum.setField, String.reduceEq, ↓reduceIte] at h
    obtain ⟨w, hw, hc⟩ := withField_ok _ _ _ _ h
    have h0 : (Inetnum.ofMembers pre).InetnumLast = floatOf (JSON.null) := by
      simp only [Inetnum.ofMembers, memberOf_absent pre _ hpre]
    rw [h0] at hw
    rw [hc, decodeFloat_read _ _ _ _ hw]
    simp (disch := decide) only [Inetnum.ofMembers, memberOf_snoc_self pre _ j hpre,
      memberOf_snoc_ne]
  · simp only [Inetnum.setField, String.reduceEq, ↓reduceIte] at h
    obtain ⟨w, hw, hc⟩ := withField_ok _ _ _ _ h
    have h0 : (Inetnum.ofMembers pre).InetnumFirstString = textOf (JSON.null) := by
      simp only [Inetnum.ofMembers, memberOf_absent pre _ hpre]
    rw [h0] at hw
    rw [hc, decodeString_read _ _ _ _ hw]
    simp (disch := decide) only [Inetnum.ofMembers, memberOf_snoc_self pre _ j hpre,
      memberOf_snoc_ne]
  · simp only [Inetnum.setField, String.reduceEq, ↓reduceIte] at h
    obtain ⟨w, hw, hc⟩ := withField_ok _ _ _ _ h
    have h0 : (Inetnum.ofMembers pre).InetnumLastString = textOf (JSON.null) := by
      simp only [Inetnum.ofMembers, memberOf_absent pre _ hpre]
    rw [h0] at hw
    rw [hc, decodeString_read _ _ _ _ hw]
    simp (disch := decide) only [Inetnum.ofMembers, memberOf_snoc_self pre _ j hpre,
      memberOf_snoc_ne]
  · simp only [Inetnum.setField, String.reduceEq, ↓reduceIte] at h
    obtain ⟨w, hw, hc⟩ := withField_ok _ _ _ _ h
    have h0 : (Inetnum.ofMembers pre).Parent = textOf (JSON.null) := by
      simp only [Inetnum.ofMembers, memberOf_absent pre _ hpre]
    rw [h0] at hw
    rw [hc, decodeString_read _ _ _ _ hw]
    simp (disch := decide) only [Inetnum.ofMembers, memberOf_snoc_self pre _ j hpre,
      memberOf_snoc_ne]
  · simp only [Inetnum.setField, String.reduceEq, ↓reduceIte] at h
    obtain ⟨w, hw, hc⟩ := withField_ok _ _ _ _ h
    have h0 : (Inetnum.ofMembers pre).AS = AS.ofJSON (JSON.null) := by
      simp only [Inetnum.ofMembers, memberOf_absent pre _ hpre]
    rw [h0] at hw
    simp only [Inetnum.plainMember, String.reduceEq, ↓reduceIte] at hgood
    rw [hc, decodeAS_read _ _ _ _ hgood hw]
    simp (disch := decide) only [Inetnum.ofMembers, memberOf_snoc_self pre _ j hpre,
      memberOf_snoc_ne]
  · simp only [Inetnum.setField, String.reduceEq, ↓reduceIte] at h
    obtain ⟨w, hw, hc⟩ := withField_ok _ _ _ _ h
    have h0 : (Inetnum.ofMembers pre).Netname = textOf (JSON.null) := by
      simp only [Inetnum.ofMembers, memberOf_absent pre _ hpre]
    rw [h0] at hw
    rw [hc, decodeString_read _ _ _ _ hw]
    simp (disch := decide) only [Inetnum.ofMembers, memberOf_snoc_self pre _ j hpre,
      memberOf_snoc_ne]
  · simp only [Inetnum.setField, String.reduceEq, ↓reduceIte] at h
    obtain ⟨w, hw, hc⟩ := withField_ok _ _ _ _ h
    have h0 : (Inetnum.ofMembers pre).Nethandle = textOf (JSON.null) := by
      simp only [Inetnum.ofMembers, memberOf_absent pre _ hpre]
    rw [h0] at hw
    rw [hc, decodeString_read _ _ _ _ hw]
    simp (disch := decide) only [Inetnum.ofMembers, memberOf_snoc_self pre _ j hpre,
      memberOf_snoc_ne]
  · simp only [Inetnum.setField, String.reduceEq, ↓reduceIte] at h
    obtain ⟨w, hw, hc⟩ := withField_ok _ _ _ _ h
    have h0 : (Inetnum.ofMembers pre).Description = textsOf (JSON.null) := by
      simp only [Inetnum.ofMembers, memberOf_absent pre _ hpre]
    rw [h0] at hw
    rw [hc, decodeStrings_read _ _ _ _ hw]
    simp (disch := decide) only [Inetnum.ofMembers, memberOf_snoc_self pre _ j hpre,
      memberOf_snoc_ne]
  · simp only [Inetnum.setField, String.reduceEq, ↓reduceIte] at h
    obtain ⟨w, hw, hc⟩ := withField_ok _ _ _ _ h
    rw [hc, decodeTime_read _ _ _ _ _ hw]
    simp (disch := decide) only [Inetnum.ofMembers, memberOf_snoc_self pre _ j hpre,
      memberOf_snoc_ne]
  · simp only [Inetnum.setField, String.reduceEq, ↓reduceIte] at h
    obtain ⟨w, hw, hc⟩ := withField_ok _ _ _ _ h
    have h0 : (Inetnum.ofMembers pre).Country = textOf (JSON.null) := by
      simp only [Inetnum.ofMembers, memberOf_absent pre _ hpre]
    rw [h0] at hw
    rw [hc, decodeString_read _ _ _ _ hw]
    simp (disch := decide) only [Inetnum.ofMembers, memberOf_snoc_self pre _ j hpre,
      memberOf_snoc_ne]
  · simp only [Inetnum.setField, String.reduceEq, ↓reduceIte] at h
    obtain ⟨w, hw, hc⟩ := withField_ok _ _ _ _ h
    have h0 : (Inetnum.ofMembers pre).City = textOf (JSON.null) := by
      simp only [Inetnum.ofMembers, memberOf_absent pre _ hpre]
    rw [h0] at hw
    rw [hc, decodeString_read _ _ _ _ hw]
    simp (disch := decide) only [Inetnum.ofMembers, memberOf_snoc_self pre _ j hpre,
      memberOf_snoc_ne]
  · simp only [Inetnum.setField, String.reduceEq, ↓reduceIte] at h
    obtain ⟨w, hw, hc⟩ := withField_ok _ _ _ _ h
    have h0 : (Inetnum.ofMembers pre).Address = textsOf (JSON.null) := by
      simp only [Inetnum.ofMembers, memberOf_absent pre _ hpre]
    rw [h0] at hw
    rw [hc, decodeStrings_read _ _ _ _ hw]
    simp (disch := decide) only [Inetnum.ofMembers, memberOf_snoc_self pre _ j hpre,
      memberOf_snoc_ne]
  · simp only [Inetnum.setField, String.reduceEq, ↓reduceIte] at h
    obtain ⟨w, hw, hc⟩ := withField_ok _ _ _ _ h
    have h0 : (Inetnum.ofMembers pre).AbuseContact = (itemsOf (JSON.null)).map Contact.ofJSON := by
      simp only [Inetnum.ofMembers, memberOf_absent pre _ hpre]
    rw [h0] at hw
    simp only [Inetnum.plainMember, String.reduceEq, ↓reduceIte] at hgood
    rw [hc, decodeContacts_read _ _ _ _ hgood hw]
    simp (disch := decide) only [Inetnum.ofMembers, memberOf_snoc_self pre _ j hpre,
      memberOf_snoc_ne]
  · simp only [Inetnum.setField, String.reduceEq, ↓reduceIte] at h
    obtain ⟨w, hw, hc⟩ := withField_ok _ _ _ _ h
    have h0 : (Inetnum.ofMembers pre).AdminContact = (itemsOf (JSON.null)).map Contact.ofJSON := by
      simp only [Inetnum.ofMembers, memberOf_absent pre _ hpre]
    rw [h0] at hw
    simp only [Inetnum.plainMember, String.reduceEq, ↓reduceIte] at hgood
    rw [hc, decodeContacts_read _ _ _ _ hgood hw]
    simp (disch := decide) only [Inetnum.ofMembers, memberOf_snoc_self pre _ j hpre,
      memberOf_snoc_ne]
  · simp only [Inetnum.setField, String.reduceEq, ↓reduceIte] at h
    obtain ⟨w, hw, hc⟩ := withField_ok _ _ _ _ h
    have h0 : (Inetnum.ofMembers pre).TechContact = (itemsOf (JSON.null)).map Contact.ofJSON := by
      simp only [Inetnum.ofMembers, memberOf_absent pre _ hpre]
    rw [h0] at hw
    simp only [Inetnum.plainMember, String.reduceEq, ↓reduceIte] at hgood
    rw [hc, decodeContacts_read _ _ _ _ hgood hw]
    simp (disch := decide) only [Inetnum.ofMembers, memberOf_snoc_self pre _ j hpre,
      memberOf_snoc_ne]
  · simp only [Inetnum.setField, String.reduceEq, ↓reduceIte] at h
    obtain ⟨w, hw, hc⟩ := withField_ok _ _ _ _ h
    have h0 : (Inetnum.ofMembers pre).Org = Organization.ofJSON (JSON.null) := by
      simp only [Inetnum.ofMembers, memberOf_absent pre _ hpre]
    rw [h0] at hw
    simp only [Inetnum.plainMember, String.reduceEq, ↓reduceIte] at hgood
    rw [hc, decodeOrganization_read _ _ _ _ hgood hw]
    simp (disch := decide) only [Inetnum.ofMembers, memberOf_snoc_self pre _ j hpre,
      memberOf_snoc_ne]
  · simp only [Inetnum.setField, String.reduceEq, ↓reduceIte] at h
    obtain ⟨w, hw, hc⟩ := withField_ok _ _ _ _ h
    have h0 : (Inetnum.ofMembers pre).MntBy = (itemsOf (JSON.null)).map Maintainer.ofJSON := by
      simp only [Inetnum.ofMembers, memberOf_absent pre _ hpre]
    rw [h0] at hw
    simp only [Inetnum.plainMember, String.reduceEq, ↓reduceIte] at hgood
    rw [hc, decodeMaintainers_read _ _ _ _ hgood hw]
    simp (disch := decide) only [Inetnum.ofMembers, memberOf_snoc_self pre _ j hpre,
      memberOf_snoc_ne]
  · simp only [Inetnum.setField, String.reduceEq, ↓reduceIte] at h
    obtain ⟨w, hw, hc⟩ := withField_ok _ _ _ _ h
    have h0 : (Inetnum.ofMembers pre).MntDomains = (itemsOf (JSON.null)).map Maintainer.ofJSON := by
      simp only [Inetnum.ofMembers, memberOf_absent pre _ hpre]
    rw [h0] at hw
    simp only [Inetnum.plainMember, String.reduceEq, ↓reduceIte] at hgood
    rw [hc, decodeMaintainers_read _ _ _ _ hgood hw]
    simp (disch := decide) only [Inetnum.ofMembers, memberOf_snoc_self pre _ j hpre,
      memberOf_snoc_ne]
  · simp only [Inetnum.setField, String.reduceEq, ↓reduceIte] at h
    obtain ⟨w, hw, hc⟩ := withField_ok _ _ _ _ h
    have h0 : (Inetnum.ofMembers pre).MntLower = (itemsOf (JSON.null)).map Maintainer.ofJSON := by
      simp only [Inetnum.ofMembers, memberOf_absent pre _ hpre]
    rw [h0] at hw
    simp only [Inetnum.plainMember, String.reduceEq, ↓reduceIte] at hgood
    rw [hc, decodeMaintainers_read _ _ _ _ hgood hw]
    simp (disch := decide) only [Inetnum.ofMembers, memberOf_snoc_self pre _ j hpre,
      memberOf_snoc_ne]
  · simp only [Inetnum.setField, String.reduceEq, ↓reduceIte] at h
    obtain ⟨w, hw, hc⟩ := withField_ok _ _ _ _ h
    have h0 : (Inetnum.ofMembers pre).MntRoutes = (itemsOf (JSON.null)).map Maintainer.ofJSON := by
      simp only [Inetnum.ofMembers, memberOf_absent pre _ hpre]
    rw [h0] at hw
    simp only [Inetnum.plainMember, String.reduceEq, ↓reduceIte] at hgood
    rw [hc, decodeMaintainers_read _ _ _ _ hgood hw]
    simp (disch := decide) only [Inetnum.ofMembers, memberOf_snoc_self pre _ j hpre,
      memberOf_snoc_ne]
  · simp only [Inetnum.setField, String.reduceEq, ↓reduceIte] at h
    obtain ⟨w, hw, hc⟩ := withField_ok _ _ _ _ h
    have h0 : (Inetnum.ofMembers pre).Remarks = textsOf (JSON.null) := by
      simp only [Inetnum.ofMembers, memberOf_absent pre _ hpre]
    rw [h0] at hw
    rw [hc, decodeStrings_read _ _ _ _ hw]
    simp (disch := decide) only [Inetnum.ofMembers, memberOf_snoc_self pre _ j hpre,
      memberOf_snoc_ne]
  · simp only [Inetnum.setField, String.reduceEq, ↓reduceIte] at h
    obtain ⟨w, hw, hc⟩ := withField_ok _ _ _ _ h
    have h0 : (Inetnum.ofMembers pre).Source = textOf (JSON.null) := by
      simp only [Inetnum.ofMembers, memberOf_absent pre _ hpre]
    rw [h0] at hw
    rw [hc, decodeString_read _ _ _ _ hw]
    simp (disch := decide) only [Inetnum.ofMembers, memberOf_snoc_self pre _ j hpre,
      memberOf_snoc_ne]

theorem decodeInetnum_read (ctx : Ctx) (j : JSON) (s : Saved) (w : IPNetblocks.Inetnum)
    (hp : Inetnum.plain j = true)
    (h : decodeInetnum ctx j Inetnum.zero s = .ok (w, none)) :
    w = Inetnum.ofJSON j := by
  have hp2 : plainKeys Inetnum.tags (membersOf j) = true ∧
      (membersOf j).all (fun p => Inetnum.plainMember p.1 p.2) = true := by
    simpa only [Inetnum.plain, Bool.and_eq_true] using hp
  exact decodeStruct_read _ Inetnum.names (Inetnum.setField ctx) Inetnum.ofMembers
    (fun k j => Inetnum.plainMember k j = true) (Inetnum_setField_mono ctx) Inetnum_skip
    (fun pre k j s cur1 hin hpre hg h => Inetnum_set ctx pre k j s cur1 hin hpre hg h)
    ctx j s w hp2.1 (fun p hp => List.all_eq_true.mp hp2.2 p hp) h

theorem decodeInetnums_read (ctx : Ctx) (j : JSON) (s : Saved) (w : List IPNetblocks.Inetnum)
    (hp : (itemsOf j).all Inetnum.plain = true)
    (h : decodeInetnums ctx j [] s = .ok (w, none)) :
    w = (itemsOf j).map Inetnum.ofJSON :=
  decodeSlice_read _ _ _ Inetnum.ofJSON Inetnum.plain
    (fun x c => decodeStruct_mono _ _ _ (Inetnum_setField_mono ctx) ctx x c)
    (fun x s w hx hw => decodeInetnum_read ctx x s w hx hw) ctx j s w hp h

theorem Result_skip (pre : List (String × JSON)) (k : String) (j : JSON)
    (hk : k ∉ Result.names) :
    Result.ofMembers (pre ++ [(k, j)]) = Result.ofMembers pre := by
  simp only [Result.names, List.mem_cons, List.mem_singleton, List.not_mem_nil, or_false,
    not_or] at hk
  simp only [Result.ofMembers, memberOf_snoc_ne, hk, ne_eq, not_false_eq_true]

theorem Result_set (ctx : Ctx) (pre : List (String × JSON)) (k : String) (j : JSON)
    (s : Saved) (cur1 : Result) (hin : k ∈ Result.names)
    (hpre : ∀ p ∈ pre, p.1 ≠ k)
    (hgood : Result.plainMember k j = true)
    (h : Result.setField ctx k j (Result.ofMembers pre) s = .ok (cur1, none)) :
    cur1 = Result.ofMembers (pre ++ [(k, j)]) := by
  simp only [Result.names, List.mem_cons, List.mem_singleton, List.not_mem_nil, or_false]
    at hin
  rcases hin with rfl | rfl | rfl | rfl | rfl
  · simp only [Result.setField, String.reduceEq, ↓reduceIte] at h
    obtain ⟨w, hw, hc⟩ := withField_ok _ _ _ _ h
    have h0 : (Result.ofMembers pre).Count = intOf (JSON.null) := by
      simp only [Result.ofMembers, memberOf_absent pre _ hpre]
    rw [h0] at hw
    rw [hc, decodeInt_read _ _ _ _ hw]
    simp (disch := decide) only [Result.ofMembers, memberOf_snoc_self pre _ j hpre,
      memberOf_snoc_ne]
  · simp only [Result.setField, String.reduceEq, ↓reduceIte] at h
    obtain ⟨w, hw, hc⟩ := withField_ok _ _ _ _ h
    have h0 : (Result.ofMembers pre).Limit = intOf (JSON.null) := by
      simp only [Result.ofMembers, memberOf_absent pre _ hpre]
    rw [h0] at hw
    rw [hc, decodeInt_read _ _ _ _ hw]
    simp (disch := decide) only [Result.ofMembers, memberOf_snoc_self pre _ j hpre,
      memberOf_snoc_ne]
  · simp only [Result.setField, String.reduceEq, ↓reduceIte] at h
    obtain ⟨w, hw, hc⟩ := withField_ok _ _ _ _ h
    have h0 : (Result.ofMembers pre).From = textPointerOf (JSON.null) := by
      simp only [Result.ofMembers, memberOf_absent pre _ hpre]
    rw [h0] at hw
    rw [hc, decodeStringPtr_read _ _ _ _ hw]
    simp (disch := decide) only [Result.ofMembers, memberOf_snoc_self pre _ j hpre,
      memberOf_snoc_ne]
  · simp only [Result.setField, String.reduceEq, ↓reduceIte] at h
    obtain ⟨w, hw, hc⟩ := withField_ok _ _ _ _ h
    have h0 : (Result.ofMembers pre).Next = textPointerOf (JSON.null) := by
      simp only [Result.ofMembers, memberOf_absent pre _ hpre]
    rw [h0] at hw
    rw [hc, decodeStringPtr_read _ _ _ _ hw]
    simp (disch := decide) only [Result.ofMembers, memberOf_snoc_self pre _ j hpre,
      memberOf_snoc_ne]
  · simp only [Result.setField, String.reduceEq, ↓reduceIte] at h
    obtain ⟨w, hw, hc⟩ := withField_ok _ _ _ _ h
    have h0 : (Result.ofMembers pre).Inetnums = (itemsOf (JSON.null)).map Inetnum.ofJSON := by
      simp only [Result.ofMembers, memberOf_absent pre _ hpre]
    rw [h0] at hw
    simp only [Result.plainMember, String.reduceEq, ↓reduceIte] at hgood
    rw [hc, decodeInetnums_read _ _ _ _ hgood hw]
    simp (disch := decide) only [Result.ofMembers, memberOf_snoc_self pre _ j hpre,
      memberOf_snoc_ne]

theorem decodeResult_read (ctx : Ctx) (j : JSON) (s : Saved) (w : Result)
    (hp : Result.plain j = true)
    (h : decodeResult ctx j Result.zero s = .ok (w, none)) :
    w = Result.ofJSON j := by
  have hp2 : plainKeys Result.tags (membersOf j) = true ∧
      (membersOf j).all (fun p => Result.plainMember p.1 p.2) = true := by
    simpa only [Result.plain, Bool.and_eq_true] using hp
  exact decodeStruct_read _ Result.names (Result.setField ctx) Result.ofMembers
    (fun k j => Result.plainMember k j = true) (Result_setField_mono ctx) Result_skip
    (fun pre k j s cur1 hin hpre hg h => Result_set ctx pre k j s cur1 hin hpre hg h)
    ctx j s w hp2.1 (fun p hp => List.all_eq_true.mp hp2.2 p hp) h

theorem apiResponse_skip (pre : List (String × JSON)) (k : String) (j : JSON)
    (hk : k ∉ apiResponse.names) :
    apiResponse.ofMembers (pre ++ [(k, j)]) = apiResponse.ofMembers pre := by
  simp only [apiResponse.names, List.mem_cons, List.mem_singleton, List.not_mem_nil, or_false,
    not_or] at hk
  simp only [apiResponse.ofMembers, IPNetblocksResponse.ofMembers, ErrorMessage.ofMembers,
    memberOf_snoc_ne, hk, ne_eq, not_false_eq_true]

theorem apiResponse_set (ctx : Ctx) (pre : List (String × JSON)) (k : String) (j : JSON)
    (s : Saved) (cur1 : apiResponse) (hin : k ∈ apiResponse.names)
    (hpre : ∀ p ∈ pre, p.1 ≠ k) (hgood : apiResponse.plainMember k j = true)
    (h : apiResponse.setField ctx k j (apiResponse.ofMembers pre) s = .ok (cur1, none)) :
    cur1 = apiResponse.ofMembers (pre ++ [(k, j)]) := by
  simp only [apiResponse.names, List.mem_cons, List.mem_singleton, List.not_mem_nil, or_false]
    at hin
  rcases hin with rfl | rfl | rfl | rfl | rfl
  · simp only [apiResponse.setField, String.reduceEq, ↓reduceIte] at h
    obtain ⟨w, hw, hc⟩ := withField_ok _ _ _ _ h
    have h0 : (apiResponse.ofMembers pre).IPNetblocksResponse.Search = textOf JSON.null := by
      simp only [apiResponse.ofMembers, IPNetblocksResponse.ofMembers,
        memberOf_absent pre _ hpre]
    rw [h0] at hw
    rw [hc, decodeString_read _ _ _ _ hw]
    simp (disch := decide) only [apiResponse.ofMembers, IPNetblocksResponse.ofMembers,
      ErrorMessage.ofMembers, memberOf_snoc_self pre _ j hpre, memberOf_snoc_ne]
  · simp only [apiResponse.setField, String.reduceEq, ↓reduceIte] at h
    obtain ⟨w, hw, hc⟩ := withField_ok _ _ _ _ h
    have h0 : (apiResponse.ofMembers pre).IPNetblocksResponse.Result
        = Result.ofJSON JSON.null := by
      simp only [apiResponse.ofMembers, IPNetblocksResponse.ofMembers,
        memberOf_absent pre _ hpre]
    rw [h0] at hw
    simp only [apiResponse.plainMember, String.reduceEq, ↓reduceIte] at hgood
    rw [hc, decodeResult_read _ _ _ _ hgood hw]
    simp (disch := decide) only [apiResponse.ofMembers, IPNetblocksResponse.ofMembers,
      ErrorMessage.ofMembers, memberOf_snoc_self pre _ j hpre, memberOf_snoc_ne]
  · simp only [apiResponse.setField, String.reduceEq, ↓reduceIte] at h
    obtain ⟨w, hw, hc⟩ := withField_ok _ _ _ _ h
    have h0 : (apiResponse.ofMembers pre).IPNetblocksResponse.Error = textOf JSON.null := by
      simp only [apiResponse.ofMembers, IPNetblocksResponse.ofMembers,
        memberOf_absent pre _ hpre]
    rw [h0] at hw
    rw [hc, decodeString_read _ _ _ _ hw]
    simp (disch := decide) only [apiResponse.ofMembers, IPNetblocksResponse.ofMembers,
      ErrorMessage.ofMembers, memberOf_snoc_self pre _ j hpre, memberOf_snoc_ne]
  · simp only [apiResponse.setField, String.reduceEq, ↓reduceIte] at h
    obtain ⟨w, hw, hc⟩ := withField_ok _ _ _ _ h
    have h0 : (apiResponse.ofMembers pre).ErrorMessage.Code = intOf JSON.null := by
      simp only [apiResponse.ofMembers, ErrorMessage.ofMembers, memberOf_absent pre _ hpre]
    rw [h0] at hw
    rw [hc, decodeInt_read _ _ _ _ hw]
    simp (disch := decide) only [apiResponse.ofMembers, IPNetblocksResponse.ofMembers,
      ErrorMessage.ofMembers, memberOf_snoc_self pre _ j hpre, memberOf_snoc_ne]
  · simp only [apiResponse.setField, String.reduceEq, ↓reduceIte] at h
    obtain ⟨w, hw, hc⟩ := withField_ok _ _ _ _ h
    have h0 : (apiResponse.ofMembers pre).ErrorMessage.Message = textOf JSON.null := by
      simp only [apiResponse.ofMembers, ErrorMessage.ofMembers, memberOf_absent pre _ hpre]
    rw [h0] at hw
    rw [hc, decodeString_read _ _ _ _ hw]
    simp (disch := decide) only [apiResponse.ofMembers, IPNetblocksResponse.ofMembers,
      ErrorMessage.ofMembers, memberOf_snoc_self pre _ j hpre, memberOf_snoc_ne]

/-- The decoder gives a plain body the value read from its members under the json tags. -/
theorem members_plainBody (ms : List (String × JSON)) (v : apiResponse)
    (hp : plainBody ms = true)
    (h : members apiResponse.names (apiResponse.setField Ctx.top) ms apiResponse.zero none
      = .ok (v, none)) : v = apiResponse.ofMembers ms := by
  have hp2 : plainKeys apiResponse.tags ms = true ∧
      ms.all (fun p => apiResponse.plainMember p.1 p.2) = true := by
    simpa only [plainBody, Bool.and_eq_true] using hp
  exact members_read apiResponse.names (apiResponse.setField Ctx.top) apiResponse.ofMembers
    (fun k j => apiResponse.plainMember k j = true) (apiResponse_setField_mono Ctx.top)
    apiResponse_skip
    (fun pre k j s cur1 hin hpre hg h => apiResponse_set Ctx.top pre k j s cur1 hin hpre hg h)
    ms [] none v hp2.1 (fun p hp => List.all_eq_true.mp hp2.2 p hp) h

set_option maxRecDepth 100000 in
theorem respOK_plain : plainBody (bodyMembers respOK) = true := by
  decide

set_option maxRecDepth 100000 in
theorem respContacts_isObject : isObjectBody respContacts = true := by
  decide

set_option maxRecDepth 100000 in
theorem respContacts_plain : plainBody (bodyMembers respContacts) = true := by
  decide

set_option maxRecDepth 100000 in
theorem respContacts_decodes : jsonDecode respContacts = .ok respContactsDecoded := by
  decide

set_option maxRecDepth 100000 in
theorem respContacts_noError :
    NoMember apiResponse.names (bodyMembers respContacts) ["code", "messages"] := by
  unfold NoMember
  decide

/-- C4: when the transport succeeds with a body whose first JSON value is an object
without a `code` or `messages` member and the body decodes to `v`, each parsed operation
on a valid key returns a nil error, the raw Response and the result `v`. When the object
is plain (at every level no key occurs twice and a key that selects a field is the json
tag of the field), the result is the one read from the JSON under the declared json tags:
`search`, `result.count`, `result.limit`, `result.from`, `result.next` and, for
`result.inetnums`, one Inetnum per element of the array, in order, each of its fields
(the autonomous system, the contacts, the organization and the maintainers included)
read from the member with its tag. For any object, the fields of the result are the
members under the json tags when one member selects the tag: `search` is the string of
that member; in the object of `result`, `count` and `limit` are the integers of their
number literals, `from` and `next` point to the string of their member or are nil for
null, and `inetnums` holds the decoded elements of the array, one per element and in the
same order. -/
theorem success_body_fields (service : ipNetblocksServiceOp) (resp : HttpResponse)
    (b : Bytes) (ms : List (String × JSON)) (v : apiResponse) (ip : IP) (net : IPNet)
    (asn : Int) (org : String) (opts : List Option_)
    (hT : Delivers service resp b) (hscan : scanBody b = .ok (.object ms))
    (hdec : jsonDecode b = .ok v)
    (hno : NoMember apiResponse.names ms ["code", "messages"])
    (hip : ip ≠ []) (hnet : net.IP ≠ []) (hasn : 0 ≤ asn ∧ asn ≤ 4294967295)
    (horg : org ≠ "") :
    (∀ r ∈ [service.GetByIP ip opts, service.GetByCIDR net opts, service.GetByASN asn opts,
        service.GetByOrg org opts],
      r.err = none ∧ r.resp = some ⟨some resp, b⟩ ∧
        r.ipNetblocksResponse = some v.IPNetblocksResponse) ∧
    (plainBody ms = true →
      v.IPNetblocksResponse =
        { Search := textOf (memberOf ms "search")
          Result :=
            { Count := intOf (memberOf (membersOf (memberOf ms "result")) "count")
              Limit := intOf (memberOf (membersOf (memberOf ms "result")) "limit")
              From := textPointerOf (memberOf (membersOf (memberOf ms "result")) "from")
              Next := textPointerOf (memberOf (membersOf (memberOf ms "result")) "next")
              Inetnums :=
                (itemsOf (memberOf (membersOf (memberOf ms "result")) "inetnums")).map
                  Inetnum.ofJSON }
          Error := textOf (memberOf ms "error") }) ∧
    (∀ x, OnlyMember apiResponse.names ms "search" (.string x) →
      v.IPNetblocksResponse.Search = x) ∧
    (∀ rs, OnlyMember apiResponse.names ms "result" (.object rs) →
      (∀ lit, OnlyMember Result.names rs "count" (.number lit) →
        parseInt64 lit = some v.IPNetblocksResponse.Result.Count) ∧
      (∀ lit, OnlyMember Result.names rs "limit" (.number lit) →
        parseInt64 lit = some v.IPNetblocksResponse.Result.Limit) ∧
      (∀ j, OnlyMember Result.names rs "from" j →
        pointerOf j = some v.IPNetblocksResponse.Result.From) ∧
      (∀ j, OnlyMember Result.names rs "next" j →
        pointerOf j = some v.IPNetblocksResponse.Result.Next) ∧
      (∀ xs, OnlyMember Result.names rs "inetnums" (.array xs) →
        List.Forall₂ (fun x i => decodeInetnum inetnumsCtx x Inetnum.zero none = .ok (i, none))
          xs v.IPNetblocksResponse.Result.Inetnums)) := by
  have hm := jsonDecode_object b ms v hscan hdec
  have herr : v.ErrorMessage = ⟨0, ""⟩ :=
    members_frame apiResponse.names (apiResponse.setField Ctx.top) (fun a => a.ErrorMessage)
      ["code", "messages"] (apiResponse_frame_error Ctx.top) ms hno _ _ _ _ hm
  have hipS : ¬ ip.String = "<nil>" := fun h => hip ((IP_String_eq_nil_iff ip).mp h)
  have hnetS : ¬ net.IP.String = "<nil>" := fun h => hnet ((IP_String_eq_nil_iff net.IP).mp h)
  have hv : validateASN asn = none := by
    rw [validateASN_eq, if_pos hasn]
  have hcond : ¬ (v.ErrorMessage.Message ≠ "" ∨ v.ErrorMessage.Code ≠ 0) := by
    rw [herr]
    simp
  have key : ∀ calls, (fun r : ParsedReturn => r.err = none ∧ r.resp = some ⟨some resp, b⟩ ∧
      r.ipNetblocksResponse = some v.IPNetblocksResponse)
      (parsedReturn ⟨some ⟨some resp, b⟩, none, calls⟩) := by
    intro calls
    rw [parsedReturn_of_decoded ⟨some resp, b⟩ calls v hdec, if_neg hcond]
    exact ⟨rfl, rfl, rfl⟩
  refine ⟨?_, ?_, ?_, ?_⟩
  · intro r hr
    simp only [List.mem_cons, List.mem_singleton, List.not_mem_nil, or_false] at hr
    rcases hr with rfl | rfl | rfl | rfl
    · rw [GetByIP_eq, if_neg hipS, request_of_delivers service resp b hT]
      exact key _
    · rw [GetByCIDR_eq, if_neg hnetS, request_of_delivers service resp b hT]
      exact key _
    · rw [GetByASN_eq, hv]
      simp only
      rw [request_of_delivers service resp b hT]
      exact key _
    · rw [GetByOrg_eq, if_neg horg, request_of_delivers service resp b hT]
      exact key _
  · intro hp
    rw [members_plainBody ms v hp hm]
    rfl
  · intro x hx
    exact search_of_member ms v x hm hx
  · intro rs hrs
    have hr := result_of_member ms rs v hm hrs
    exact ⟨fun lit h => count_of_member _ rs _ lit hr h,
      fun lit h => limit_of_member _ rs _ lit hr h,
      fun j h => from_of_member _ rs _ j hr h,
      fun j h => next_of_member _ rs _ j hr h,
      fun xs h => inetnums_of_member _ rs _ xs hr h⟩

set_option maxRecDepth 100000 in
/-- Witness of C4: the success body of the tests for 8.8.8.8 is plain and gives a nil
error, the raw Response and the result read from its JSON: one Inetnum, with the network
`8.8.8.0 - 8.8.8.255`, the ASN 15169 and every other field as the body writes it; its
`search` member is the string `8.8.8.8`. A plain body whose netblock has contacts, an
organization and a maintainer gives them field by field. -/
theorem success_body_fields_witness :
    ((newAPI 200 respOK).GetByIP [8, 8, 8, 8] [OptionLimit 100]).err = none ∧
    ((newAPI 200 respOK).GetByIP [8, 8, 8, 8] [OptionLimit 100]).resp
      = some ⟨some ⟨200, []⟩, respOK⟩ ∧
    ((newAPI 200 respOK).GetByIP [8, 8, 8, 8] [OptionLimit 100]).ipNetblocksResponse
      = some respOKDecoded.IPNetblocksResponse ∧
    ((newAPI 200 respOK).GetByIP [8, 8, 8, 8] [OptionLimit 100]).ipNetblocksResponse.map
      (fun r => r.Result.Inetnums.map (fun i => (i.Inetnum, i.AS.ASN)))
      = some [("8.8.8.0 - 8.8.8.255", 15169)] ∧
    respOKDecoded.IPNetblocksResponse.Search = "8.8.8.8" ∧
    ((newAPI 200 respContacts).GetByIP [1, 1, 1, 1] []).ipNetblocksResponse
      = some ⟨"1.1.1.1", ⟨1, 1, none, none, [inetnumContacts]⟩, ""⟩ ∧
    (itemsOf (memberOf (membersOf (memberOf (bodyMembers respContacts) "result"))
      "inetnums")).map Inetnum.ofJSON = [inetnumContacts] ∧
    (itemsOf (memberOf (membersOf (memberOf (bodyMembers respOK) "result"))
      "inetnums")).map Inetnum.ofJSON = respOKDecoded.IPNetblocksResponse.Result.Inetnums := by
  have h := success_body_fields (newAPI 200 respOK) ⟨200, []⟩ respOK (bodyMembers respOK)
    respOKDecoded [8, 8, 8, 8] ⟨[8, 8, 8, 8], [255, 255, 255, 0]⟩ 15169 "Amazon"
    [OptionLimit 100] (newAPI_delivers _ _) (scanBody_of_isObjectBody _ respOK_isObject)
    respOK_decodes respOK_noError (by decide) (by decide) (by decide) (by decide)
  have g := success_body_fields (newAPI 200 respContacts) ⟨200, []⟩ respContacts
    (bodyMembers respContacts) respContactsDecoded [1, 1, 1, 1]
    ⟨[1, 1, 1, 1], [255, 255, 255, 0]⟩ 13335 "Cloudflare" []
    (newAPI_delivers _ _) (scanBody_of_isObjectBody _ respContacts_isObject)
    respContacts_decodes respContacts_noError (by decide) (by decide) (by decide) (by decide)
  have h1 := h.1 _ (List.mem_cons_self _ _)
  have g1 := g.1 _ (List.mem_cons_self _ _)
  have h2 := h.2.1 respOK_plain
  have g2 := g.2.1 respContacts_plain
  refine ⟨h1.1, h1.2.1, h1.2.2, ?_, h.2.2.1 "8.8.8.8" respOK_search, g1.2.2, ?_, ?_⟩
  · rw [h1.2.2]
    decide
  · exact (congrArg (fun r => r.Result.Inetnums) g2).symm
  · exact (congrArg (fun r => r.Result.Inetnums) h2).symm

/-! The HTTP status and the errors of the transport. -/

/-- The tail of a raw operation on a transport success whose status check fails. -/
theorem rawReturn_of_status (resp : HttpResponse) (b : Bytes) (calls : List Call)
    (h : ¬ (200 ≤ resp.StatusCode ∧ resp.StatusCode ≤ 299)) :
    rawReturn ⟨some ⟨some resp, b⟩, none, calls⟩ =
      ⟨some ⟨some resp, b⟩, some (.status resp), calls⟩ := by
  simp only [rawReturn, checkResponse, if_neg h]

/-- C11: when the transport succeeds with a response whose status is not 2xx, each raw
operation on a valid key returns the error of `checkResponse`, whose text is "API failed
with status code: <status>", together with the Response that holds the response and the
whole body that was read. -/
theorem raw_status_error_keeps_body (service : ipNetblocksServiceOp) (resp : HttpResponse)
    (b : Bytes) (ip : IP) (net : IPNet) (asn : Int) (org : String) (opts : List Option_)
    (hT : Delivers service resp b)
    (hstatus : ¬ (200 ≤ resp.StatusCode ∧ resp.StatusCode ≤ 299))
    (hip : ip ≠ []) (hnet : net.IP ≠ []) (hasn : 0 ≤ asn ∧ asn ≤ 4294967295)
    (horg : org ≠ "") :
    (∀ r ∈ [service.GetRawByIP ip opts, service.GetRawByCIDR net opts,
        service.GetRawByASN asn opts, service.GetRawByOrg org opts],
      r.err = some (.status resp) ∧ r.resp = some ⟨some resp, b⟩) ∧
    (Error.status resp).text = "API failed with status code: " ++ formatInt resp.StatusCode := by
  have hipS : ¬ ip.String = "<nil>" := fun h => hip ((IP_String_eq_nil_iff ip).mp h)
  have hnetS : ¬ net.IP.String = "<nil>" := fun h => hnet ((IP_String_eq_nil_iff net.IP).mp h)
  have hv : validateASN asn = none := by
    rw [validateASN_eq, if_pos hasn]
  refine ⟨?_, rfl⟩
  intro r hr
  simp only [List.mem_cons, List.mem_singleton, List.not_mem_nil, or_false] at hr
  rcases hr with rfl | rfl | rfl | rfl
  · rw [GetRawByIP_eq, if_neg hipS, request_of_delivers service resp b hT,
      rawReturn_of_status resp b _ hstatus]
    exact ⟨rfl, rfl⟩
  · rw [GetRawByCIDR_eq, if_neg hnetS, request_of_delivers service resp b hT,
      rawReturn_of_status resp b _ hstatus]
    exact ⟨rfl, rfl⟩
  · rw [GetRawByASN_eq, hv]
    simp only
    rw [request_of_delivers service resp b hT, rawReturn_of_status resp b _ hstatus]
    exact ⟨rfl, rfl⟩
  · rw [GetRawByOrg_eq, if_neg horg, request_of_delivers service resp b hT,
      rawReturn_of_status resp b _ hstatus]
    exact ⟨rfl, rfl⟩

/-- Witness of C11: the statuses 500 and 499 of the tests give the two texts, and the
body is returned. -/
theorem raw_status_error_keeps_body_witness :
    ((newAPI 500 respUnparsable).GetRawByIP [8, 8, 8, 8] []).err.map Error.text
      = some "API failed with status code: 500" ∧
    ((newAPI 500 respUnparsable).GetRawByIP [8, 8, 8, 8] []).resp
      = some ⟨some ⟨500, []⟩, respUnparsable⟩ ∧
    ((newAPI 499 errResp).GetRawByIP [8, 8, 8, 8] []).err.map Error.text
      = some "API failed with status code: 499" := by
  have h1 := (raw_status_error_keeps_body (newAPI 500 respUnparsable) ⟨500, []⟩ respUnparsable
    [8, 8, 8, 8] ⟨[8, 8, 8, 8], [255, 255, 255, 0]⟩ 15169 "Amazon" []
    (newAPI_delivers _ _) (by decide) (by decide) (by decide) (by decide) (by decide)).1
    _ (List.mem_cons_self _ _)
  have h2 := (raw_status_error_keeps_body (newAPI 499 errResp) ⟨499, []⟩ errResp
    [8, 8, 8, 8] ⟨[8, 8, 8, 8], [255, 255, 255, 0]⟩ 15169 "Amazon" []
    (newAPI_delivers _ _) (by decide) (by decide) (by decide) (by decide) (by decide)).1
    _ (List.mem_cons_self _ _)
  rw [h1.1, h1.2, h2.1]
  exact ⟨by decide, rfl, by decide⟩

/-- The result and the error of the tail of a parsed operation on a transport success
depend on the body alone. -/
theorem parsedReturn_status_free (r1 r2 : HttpResponse) (b : Bytes) (c1 c2 : List Call) :
    (parsedReturn ⟨some ⟨some r1, b⟩, none, c1⟩).ipNetblocksResponse =
      (parsedReturn ⟨some ⟨some r2, b⟩, none, c2⟩).ipNetblocksResponse ∧
    (parsedReturn ⟨some ⟨some r1, b⟩, none, c1⟩).err =
      (parsedReturn ⟨some ⟨some r2, b⟩, none, c2⟩).err ∧
    ∀ h, (parsedReturn ⟨some ⟨some r1, b⟩, none, c1⟩).err ≠ some (.status h) := by
  rcases parse_cases b with ⟨d, hd, _⟩ | ⟨v, hv, _⟩
  · rw [parsedReturn_of_undecoded ⟨some r1, b⟩ c1 d hd,
      parsedReturn_of_undecoded ⟨some r2, b⟩ c2 d hd]
    exact ⟨rfl, rfl, fun h => by simp⟩
  · rw [parsedReturn_of_decoded ⟨some r1, b⟩ c1 v hv,
      parsedReturn_of_decoded ⟨some r2, b⟩ c2 v hv]
    split
    · exact ⟨rfl, rfl, fun h => by simp⟩
    · exact ⟨rfl, rfl, fun h => by simp⟩

/-- C12: two transports that succeed with the same body, whatever the two responses and
their status codes, make each parsed operation on a valid key return the same result and
the same error, and that error is never the status error: the status is not inspected. -/
theorem parsed_ignores_status (s1 s2 : ipNetblocksServiceOp) (r1 r2 : HttpResponse)
    (b : Bytes) (ip : IP) (net : IPNet) (asn : Int) (org : String) (opts : List Option_)
    (h1 : Delivers s1 r1 b) (h2 : Delivers s2 r2 b)
    (hip : ip ≠ []) (hnet : net.IP ≠ []) (hasn : 0 ≤ asn ∧ asn ≤ 4294967295)
    (horg : org ≠ "") :
    ∀ p ∈ [(s1.GetByIP ip opts, s2.GetByIP ip opts),
        (s1.GetByCIDR net opts, s2.GetByCIDR net opts),
        (s1.GetByASN asn opts, s2.GetByASN asn opts),
        (s1.GetByOrg org opts, s2.GetByOrg org opts)],
      p.1.ipNetblocksResponse = p.2.ipNetblocksResponse ∧ p.1.err = p.2.err ∧
        ∀ h, p.1.err ≠ some (.status h) := by
  have hipS : ¬ ip.String = "<nil>" := fun h => hip ((IP_String_eq_nil_iff ip).mp h)
  have hnetS : ¬ net.IP.String = "<nil>" := fun h => hnet ((IP_String_eq_nil_iff net.IP).mp h)
  have hv : validateASN asn = none := by
    rw [validateASN_eq, if_pos hasn]
  intro p hp
  simp only [List.mem_cons, List.mem_singleton, List.not_mem_nil, or_false] at hp
  rcases hp with rfl | rfl | rfl | rfl
  · simp only [GetByIP_eq, if_neg hipS, request_of_delivers s1 r1 b h1,
      request_of_delivers s2 r2 b h2]
    exact parsedReturn_status_free r1 r2 b _ _
  · simp only [GetByCIDR_eq, if_neg hnetS, request_of_delivers s1 r1 b h1,
      request_of_delivers s2 r2 b h2]
    exact parsedReturn_status_free r1 r2 b _ _
  · simp only [GetByASN_eq, hv, request_of_delivers s1 r1 b h1,
      request_of_delivers s2 r2 b h2]
    exact parsedReturn_status_free r1 r2 b _ _
  · simp only [GetByOrg_eq, if_neg horg, request_of_delivers s1 r1 b h1,
      request_of_delivers s2 r2 b h2]
    exact parsedReturn_status_free r1 r2 b _ _

set_option maxRecDepth 100000 in
/-- Witness of C12: the XML body with status 500 and with status 200 gives GetByIP the
same parse error, the one of the test "non 200 status code". -/
theorem parsed_ignores_status_witness :
    ((newAPI 500 respUnparsable).GetByIP [8, 8, 8, 8] [OptionLimit 100]).err =
      ((newAPI 200 respUnparsable).GetByIP [8, 8, 8, 8] [OptionLimit 100]).err ∧
    ((newAPI 500 respUnparsable).GetByIP [8, 8, 8, 8] [OptionLimit 100]).err.map Error.text =
      some "cannot parse response: invalid character '<' looking for beginning of value" := by
  have h := parsed_ignores_status (newAPI 500 respUnparsable) (newAPI 200 respUnparsable)
    ⟨500, []⟩ ⟨200, []⟩ respUnparsable [8, 8, 8, 8] ⟨[8, 8, 8, 8], [255, 255, 255, 0]⟩ 15169
    "Amazon" [OptionLimit 100] (newAPI_delivers _ _) (newAPI_delivers _ _)
    (by decide) (by decide) (by decide) (by decide) _ (List.mem_cons_self _ _)
  exact ⟨h.2.1, by decide⟩

theorem request_of_failure (service : ipNetblocksServiceOp) (resp : Option HttpResponse)
    (b : Bytes) (e : Error) (h : FailsWith service resp b e) (ip mask asn org : String)
    (opts : List Option_) : (service.request ip mask asn org opts).err = some e := by
  rw [request_eq]
  rcases h with h | ⟨h1, h2⟩
  · rw [h]
  · rw [h1]
    simp only [h2]

theorem parsedReturn_of_error (r : RawReturn) (e : Error) (h : r.err = some e) :
    (parsedReturn r).err = some e ∧ (parsedReturn r).ipNetblocksResponse = none := by
  simp only [parsedReturn, h, and_self]

theorem rawReturn_of_error (r : RawReturn) (e : Error) (h : r.err = some e) :
    (rawReturn r).err = some e := by
  simp only [rawReturn, h]

/-- C13: when the transport fails with an error `e`, in `NewRequest` or in `Do`, each of
the eight operations on a valid key returns exactly `e` as its error, and the parsed
operations return no result, whatever response and bytes came with the failure: neither
the body nor the status is looked at. The parsed and the raw operation so return the same
error. -/
theorem transport_error_returned_as_is (service : ipNetblocksServiceOp)
    (resp : Option HttpResponse) (b : Bytes) (e : Error) (ip : IP) (net : IPNet) (asn : Int)
    (org : String) (opts : List Option_) (hF : FailsWith service resp b e)
    (hip : ip ≠ []) (hnet : net.IP ≠ []) (hasn : 0 ≤ asn ∧ asn ≤ 4294967295)
    (horg : org ≠ "") :
    (∀ r ∈ [service.GetByIP ip opts, service.GetByCIDR net opts, service.GetByASN asn opts,
        service.GetByOrg org opts], r.err = some e ∧ r.ipNetblocksResponse = none) ∧
    (∀ r ∈ [service.GetRawByIP ip opts, service.GetRawByCIDR net opts,
        service.GetRawByASN asn opts, service.GetRawByOrg org opts], r.err = some e) := by
  have hipS : ¬ ip.String = "<nil>" := fun h => hip ((IP_String_eq_nil_iff ip).mp h)
  have hnetS : ¬ net.IP.String = "<nil>" := fun h => hnet ((IP_String_eq_nil_iff net.IP).mp h)
  have hv : validateASN asn = none := by
    rw [validateASN_eq, if_pos hasn]
  constructor
  · intro r hr
    simp only [List.mem_cons, List.mem_singleton, List.not_mem_nil, or_false] at hr
    rcases hr with rfl | rfl | rfl | rfl
    · rw [GetByIP_eq, if_neg hipS]
      exact parsedReturn_of_error _ e (request_of_failure service resp b e hF _ _ _ _ _)
    · rw [GetByCIDR_eq, if_neg hnetS]
      exact parsedReturn_of_error _ e (request_of_failure service resp b e hF _ _ _ _ _)
    · rw [GetByASN_eq, hv]
      exact parsedReturn_of_error _ e (request_of_failure service resp b e hF _ _ _ _ _)
    · rw [GetByOrg_eq, if_neg horg]
      exact parsedReturn_of_error _ e (request_of_failure service resp b e hF _ _ _ _ _)
  · intro r hr
    simp only [List.mem_cons, List.mem_singleton, List.not_mem_nil, or_false] at hr
    rcases hr with rfl | rfl | rfl | rfl
    · rw [GetRawByIP_eq, if_neg hipS]
      exact rawReturn_of_error _ e (request_of_failure service resp b e hF _ _ _ _ _)
    · rw [GetRawByCIDR_eq, if_neg hnetS]
      exact rawReturn_of_error _ e (request_of_failure service resp b e hF _ _ _ _ _)
    · rw [GetRawByASN_eq, hv]
      exact rawReturn_of_error _ e (request_of_failure service resp b e hF _ _ _ _ _)
    · rw [GetRawByOrg_eq, if_neg horg]
      exact rawReturn_of_error _ e (request_of_failure service resp b e hF _ _ _ _ _)

/-- Witness of C13: a body cut short under a larger Content-Length (the test "partial
response 2"), where `Do` fails with "cannot read response: unexpected EOF" after the
status 200 and the bytes received, gives that text from GetByIP and from GetRawByIP. -/
theorem transport_error_returned_as_is_witness :
    ((failingAPI (some ⟨200, []⟩) respPartial
        (.transport "cannot read response: unexpected EOF")).GetByIP
      [8, 8, 8, 8] [OptionLimit 100]).err.map Error.text
      = some "cannot read response: unexpected EOF" ∧
    ((failingAPI (some ⟨200, []⟩) respPartial
        (.transport "cannot read response: unexpected EOF")).GetRawByIP
      [8, 8, 8, 8] []).err.map Error.text
      = some "cannot read response: unexpected EOF" := by
  have h := transport_error_returned_as_is (failingAPI (some ⟨200, []⟩) respPartial
    (.transport "cannot read response: unexpected EOF")) (some ⟨200, []⟩) respPartial
    (.transport "cannot read response: unexpected EOF") [8, 8, 8, 8]
    ⟨[8, 8, 8, 8], [255, 255, 255, 0]⟩ 15169 "Amazon" [OptionLimit 100]
    (Or.inr ⟨rfl, fun _ => rfl⟩) (by decide) (by decide) (by decide) (by decide)
  have h2 := transport_error_returned_as_is (failingAPI (some ⟨200, []⟩) respPartial
    (.transport "cannot read response: unexpected EOF")) (some ⟨200, []⟩) respPartial
    (.transport "cannot read response: unexpected EOF") [8, 8, 8, 8]
    ⟨[8, 8, 8, 8], [255, 255, 255, 0]⟩ 15169 "Amazon" []
    (Or.inr ⟨rfl, fun _ => rfl⟩) (by decide) (by decide) (by decide) (by decide)
  rw [(h.1 _ (List.mem_cons_self _ _)).1, h2.2 _ (List.mem_cons_self _ _)]
  exact ⟨rfl, rfl⟩

/-! The options. -/

/-- The upper case of `strings.ToUpper` on examples: ASCII letters, letters with an
upper case elsewhere in Unicode, and runes that have none (`ß` has no single upper-case
rune and is kept). -/
theorem toUpper_examples :
    toUpper "json" = "JSON" ∧ toUpper "8.2.17.0-8.2.17.255" = "8.2.17.0-8.2.17.255" ∧
    toUpper "é" = "É" ∧ toUpper "straße" = "STRAßE" ∧ toUpper "ÿ ǆ ſ ı µ я ω" = "Ÿ Ǆ S I Μ Я Ω" := by
  decide

/-- C17 as stated fails: `OptionFrom(nil)` applied after `OptionFrom` of a string leaves
`from` set, while applied alone it leaves the map without it. -/
theorem later_same_option_wins_counterexample :
    ¬ ∀ (p q : Option String) (v : Values), OptionFrom q (OptionFrom p v) = OptionFrom q v := by
  intro h
  exact absurd (h (some "8.2.17.0-8.2.17.255") none []) (by decide)

/-- C17, amended: for any starting query map, two `OptionOutputFormat` values, two
`OptionLimit` values, or two `OptionFrom` values of which the second has a non-nil
pointer, applied one after the other give the same query map as the second alone;
`OptionFrom(nil)` applied second changes nothing, so the first keeps its effect. -/
theorem later_same_option_wins (v : Values) (a b : String) (m n : Int) (p : Option String)
    (x : String) :
    OptionOutputFormat b (OptionOutputFormat a v) = OptionOutputFormat b v ∧
    OptionLimit n (OptionLimit m v) = OptionLimit n v ∧
    OptionFrom (some x) (OptionFrom p v) = OptionFrom (some x) v ∧
    OptionFrom none (OptionFrom p v) = OptionFrom p v := by
  refine ⟨Set_Set _ _ _ _, Set_Set _ _ _ _, ?_, rfl⟩
  cases p with
  | none => rfl
  | some y => exact Set_Set _ _ _ _

/-- C18 as stated fails: an Option is any function on the query map, and one that
deletes `apiKey` makes `request` send a query without it. -/
theorem option_keeps_mandatory_counterexample :
    ¬ ∀ (opt : Option_) (service : ipNetblocksServiceOp) (ip mask asn org : String),
      lookupParams (service.query ip mask asn org [opt]) =
        lookupParams (service.query ip mask asn org []) := by
  intro h
  exact absurd (h (fun v => v.Del "apiKey") (newAPI 200 respOK) "8.8.8.8" "" "" "") (by decide)

/-- C18, amended: for every list of built-in options (`OptionOutputFormat`,
`OptionLimit`, `OptionFrom`) and every lookup, the query `request` sends has `apiKey` and
the lookup parameters `ip`, `mask`, `asn`, `org` exactly as they were set before the
options ran: present with the same value, or absent. -/
theorem builtin_options_keep_mandatory (service : ipNetblocksServiceOp)
    (ip mask asn org : String) (bs : List BuiltinOption) :
    ∀ q ∈ sentQueries (service.request ip mask asn org (bs.map BuiltinOption.toOption)).calls,
      lookupParams q = lookupParams (service.query ip mask asn org []) := by
  intro q hq
  rw [sentQueries_request] at hq
  split at hq
  · simp at hq
  · simp only [List.mem_singleton] at hq
    rw [hq, lookupParams_builtin]

/-- Witness of C18, amended: a lookup by CIDR with the three built-in options. -/
theorem builtin_options_keep_mandatory_witness :
    (sentQueries ((newAPI 200 respOK).request "8.8.8.8" "24" "" ""
      [OptionOutputFormat "xml", OptionLimit 1000, OptionFrom (some "8.8.8.0-8.8.8.255")]).calls).map
        lookupParams =
      [[some ["at_LoremIpsumDolorSitAmetConsect"], some ["8.8.8.8"], some ["24"], none, none]] := by
  have h := builtin_options_keep_mandatory (newAPI 200 respOK) "8.8.8.8" "24" "" ""
    [.outputFormat "xml", .limit 1000, .from_ (some "8.8.8.0-8.8.8.255")]
    ((newAPI 200 respOK).query "8.8.8.8" "24" "" ""
      [OptionOutputFormat "xml", OptionLimit 1000, OptionFrom (some "8.8.8.0-8.8.8.255")])
    (by decide)
  show [lookupParams ((newAPI 200 respOK).query "8.8.8.8" "24" "" ""
      [OptionOutputFormat "xml", OptionLimit 1000, OptionFrom (some "8.8.8.0-8.8.8.255")])] = _
  rw [h]
  decide

/-- C19: for every string `s` and every query map `v`, `OptionOutputFormat(s)` applied to
`v` gives a map in which `outputFormat` has the single value `s` in upper case and every
other key has what it had in `v`; no value is refused, `yaml` included. The upper case
is that of `strings.ToUpper`, for letters outside ASCII too: `é` is set as `É`.
`OptionOutputFormat("JSON")` on an empty map encodes to `outputFormat=JSON`. -/
theorem option_output_format_sets_upper (s : String) (v : Values) :
    (∀ k, (OptionOutputFormat s v).find k =
      if k = "outputFormat" then some [toUpper s] else v.find k) ∧
    (OptionOutputFormat "JSON" []).Encode = "outputFormat=JSON" ∧
    (OptionOutputFormat "xml" [("outputFormat", ["JSON", "CSV"]), ("limit", ["5"])]).Encode
      = "limit=5&outputFormat=XML" ∧
    (OptionOutputFormat "yaml" []).Encode = "outputFormat=YAML" ∧
    (OptionOutputFormat "é" []).find "outputFormat" = some ["É"] ∧
    (OptionOutputFormat "é" []).Encode = "outputFormat=%C3%89" := by
  refine ⟨?_, by decide, by decide, by decide, by decide, by decide⟩
  intro k
  by_cases hk : k = "outputFormat"
  · rw [if_pos hk, hk]
    exact find_Set_same _ _ _
  · rw [if_neg hk]
    exact find_Set_of_ne _ _ _ _ hk

/-- C20: for every integer `n` and every query map `v`, `OptionLimit(n)` applied to `v`
gives a map in which `limit` has the single value `n` in decimal and every other key has
what it had in `v`; no value is refused: 0, -5 and 5000 are set as they are.
`OptionLimit(150)` on an empty map encodes to `limit=150`. -/
theorem option_limit_sets_decimal (n : Int) (v : Values) :
    (∀ k, (OptionLimit n v).find k = if k = "limit" then some [formatInt n] else v.find k) ∧
    (OptionLimit 150 []).Encode = "limit=150" ∧
    (OptionLimit 0 []).Encode = "limit=0" ∧
    (OptionLimit (-5) []).Encode = "limit=-5" ∧
    (OptionLimit 5000 [("limit", ["1", "2"])]).Encode = "limit=5000" := by
  refine ⟨?_, by decide, by decide, by decide, by decide⟩
  intro k
  by_cases hk : k = "limit"
  · rw [if_pos hk, hk]
    exact find_Set_same _ _ _
  · rw [if_neg hk]
    exact find_Set_of_ne _ _ _ _ hk


/-! ### The round trip of `Time`: calendar, text and JSON lemmas -/

theorem dby_mono (a b : Int) (h : a ≤ b) : daysBeforeYearInt a ≤ daysBeforeYearInt b := by
  unfold daysBeforeYearInt; omega

theorem dby_succ (y : Int) :
    daysBeforeYearInt (y + 1) = daysBeforeYearInt y + (if isLeapInt y then 366 else 365) := by
  unfold daysBeforeYearInt isLeapInt
  split <;> simp at * <;> omega

theorem estimate_low (d : Int) :
    daysBeforeYearInt ((400 * (d + 366)) / 146097 - 1) ≤ d := by
  unfold daysBeforeYearInt; omega

theorem estimate_high (d : Int) :
    d < daysBeforeYearInt ((400 * (d + 366)) / 146097 + 1 + 1) := by
  unfold daysBeforeYearInt; omega

theorem yearOfDays_spec (d : Int) :
    daysBeforeYearInt (yearOfDays d) ≤ d ∧ d < daysBeforeYearInt (yearOfDays d + 1) := by
  unfold yearOfDays
  simp only
  split
  · exact ⟨by assumption, estimate_high d⟩
  · split
    · refine ⟨by assumption, by omega⟩
    · rename_i h1 h2
      refine ⟨estimate_low d, ?_⟩
      rw [Int.sub_add_cancel]; omega

theorem yearOfDays_unique (d y : Int) (h1 : daysBeforeYearInt y ≤ d)
    (h2 : d < daysBeforeYearInt (y + 1)) : yearOfDays d = y := by
  have hs := yearOfDays_spec d
  by_contra hne
  rcases lt_or_gt_of_ne hne with h | h
  · have := dby_mono (yearOfDays d + 1) y (by omega); omega
  · have := dby_mono (y + 1) (yearOfDays d) (by omega); omega

theorem daysIn_eq (m y : Nat) : daysIn m y = daysInL (isLeap y) m := rfl

theorem daysBeforeMonth_congr (m y z : Nat) (h : isLeap y = isLeap z) :
    daysBeforeMonth m y = daysBeforeMonth m z := by
  unfold daysBeforeMonth
  simp only [daysIn_eq, h]

theorem isLeap_cast (n : Nat) : isLeapInt (n : Int) = isLeap n := by
  unfold isLeapInt isLeap
  congr 1
  apply propext
  omega

theorem daysBeforeYear_cast (n : Nat) : daysBeforeYear n = daysBeforeYearInt (n : Int) := by
  unfold daysBeforeYear daysBeforeYearInt
  split
  · subst_vars; rfl
  · simp only; omega

set_option maxRecDepth 100000 in
theorem monthDay_common : ∀ doy, doy < 365 →
    1 ≤ (monthDay false doy).1 ∧ (monthDay false doy).1 ≤ 12 ∧ 1 ≤ (monthDay false doy).2 ∧
    (monthDay false doy).2 ≤ daysIn (monthDay false doy).1 1 ∧
    daysBeforeMonth (monthDay false doy).1 1 + ((monthDay false doy).2 - 1) = doy := by
  decide

set_option maxRecDepth 100000 in
theorem monthDay_leap : ∀ doy, doy < 366 →
    1 ≤ (monthDay true doy).1 ∧ (monthDay true doy).1 ≤ 12 ∧ 1 ≤ (monthDay true doy).2 ∧
    (monthDay true doy).2 ≤ daysIn (monthDay true doy).1 4 ∧
    daysBeforeMonth (monthDay true doy).1 4 + ((monthDay true doy).2 - 1) = doy := by
  decide

set_option maxRecDepth 100000 in
theorem monthDay_inv_common : ∀ m, m < 13 → ∀ d, d < 32 → ¬ (1 ≤ m ∧ 1 ≤ d ∧ d ≤ daysIn m 1) ∨
    monthDay false (daysBeforeMonth m 1 + (d - 1)) = (m, d) ∧
      daysBeforeMonth m 1 + (d - 1) < 365 := by
  decide

set_option maxRecDepth 100000 in
theorem monthDay_inv_leap : ∀ m, m < 13 → ∀ d, d < 32 → ¬ (1 ≤ m ∧ 1 ≤ d ∧ d ≤ daysIn m 4) ∨
    monthDay true (daysBeforeMonth m 4 + (d - 1)) = (m, d) ∧
      daysBeforeMonth m 4 + (d - 1) < 366 := by
  decide


theorem monthDay_valid (y : Nat) (doy : Nat) (h : doy < (if isLeap y then 366 else 365)) :
    1 ≤ (monthDay (isLeap y) doy).1 ∧ (monthDay (isLeap y) doy).1 ≤ 12 ∧
    1 ≤ (monthDay (isLeap y) doy).2 ∧
    (monthDay (isLeap y) doy).2 ≤ daysIn (monthDay (isLeap y) doy).1 y ∧
    daysBeforeMonth (monthDay (isLeap y) doy).1 y + ((monthDay (isLeap y) doy).2 - 1) = doy := by
  cases hl : isLeap y
  · rw [hl] at h
    have e : ∀ m, daysBeforeMonth m y = daysBeforeMonth m 1 :=
      fun m => daysBeforeMonth_congr m y 1 (by rw [hl]; rfl)
    have e2 : ∀ m, daysIn m y = daysIn m 1 := fun m => by rw [daysIn_eq, daysIn_eq, hl]; rfl
    simp only [e, e2]
    exact monthDay_common doy h
  · rw [hl] at h
    have e : ∀ m, daysBeforeMonth m y = daysBeforeMonth m 4 :=
      fun m => daysBeforeMonth_congr m y 4 (by rw [hl]; rfl)
    have e2 : ∀ m, daysIn m y = daysIn m 4 := fun m => by rw [daysIn_eq, daysIn_eq, hl]; rfl
    simp only [e, e2]
    exact monthDay_leap doy h

theorem daysIn_le (m y : Nat) : daysIn m y ≤ 31 := by
  unfold daysIn; split <;> [split; split] <;> omega

theorem monthDay_inverse (y m d : Nat) (hm1 : 1 ≤ m) (hm : m ≤ 12) (hd1 : 1 ≤ d)
    (hd : d ≤ daysIn m y) :
    monthDay (isLeap y) (daysBeforeMonth m y + (d - 1)) = (m, d) ∧
      daysBeforeMonth m y + (d - 1) < (if isLeap y then 366 else 365) := by
  cases hl : isLeap y
  · have e : ∀ m, daysBeforeMonth m y = daysBeforeMonth m 1 :=
      fun m => daysBeforeMonth_congr m y 1 (by rw [hl]; rfl)
    have e2 : ∀ m, daysIn m y = daysIn m 1 := fun m => by rw [daysIn_eq, daysIn_eq, hl]; rfl
    rw [e2] at hd
    have hd31 := daysIn_le m 1
    rw [e]
    rcases monthDay_inv_common m (by omega) d (by omega) with h | h
    · exact absurd ⟨hm1, hd1, hd⟩ h
    · exact h
  · have e : ∀ m, daysBeforeMonth m y = daysBeforeMonth m 4 :=
      fun m => daysBeforeMonth_congr m y 4 (by rw [hl]; rfl)
    have e2 : ∀ m, daysIn m y = daysIn m 4 := fun m => by rw [daysIn_eq, daysIn_eq, hl]; rfl
    rw [e2] at hd
    have hd31 := daysIn_le m 4
    rw [e]
    rcases monthDay_inv_leap m (by omega) d (by omega) with h | h
    · exact absurd ⟨hm1, hd1, hd⟩ h
    · exact h

theorem isDigitChar_digitChar (n : Nat) : isDigitChar (digitChar n) = true := by
  have h : ∀ k, k < 10 → isDigitChar (Char.ofNat (48 + k)) = true := by decide
  exact h (n % 10) (Nat.mod_lt _ (by decide))

theorem digitVal_digitChar (n : Nat) : digitVal (digitChar n) = n % 10 := by
  have h : ∀ k, k < 10 → digitVal (Char.ofNat (48 + k)) = k := by decide
  exact h (n % 10) (Nat.mod_lt _ (by decide))

theorem digitChar_ne (n : Nat) (c : Char) (h : isDigitChar c = false) : digitChar n ≠ c := by
  intro e; rw [← e, isDigitChar_digitChar] at h; exact Bool.noConfusion h

theorem appendInt_two (n : Nat) (h : n < 100) :
    appendInt (n : Int) 2 = [digitChar (n / 10), digitChar n] := by
  unfold appendInt
  have h0 : ¬ ((n : Int) < 0) := by omega
  simp only [h0, if_false, Int.natAbs_ofNat, List.nil_append, h, and_self, if_true]

theorem appendInt_four (y : Int) (h0 : 0 ≤ y) (h : y ≤ 9999) :
    appendInt y 4 = [digitChar (y.toNat / 1000), digitChar (y.toNat / 100),
      digitChar (y.toNat / 10), digitChar y.toNat] := by
  obtain ⟨n, rfl⟩ := Int.eq_ofNat_of_zero_le h0
  unfold appendInt
  have h1 : ¬ ((n : Int) < 0) := by omega
  have h2 : n < 10000 := by omega
  have h3 : ¬ ((4 : Nat) = 2 ∧ n < 100) := by omega
  simp only [h1, if_false, Int.natAbs_ofNat, List.nil_append, h2, h3, and_self, if_true,
    Int.toNat_ofNat]

theorem getnum_two (a b : Nat) (rest : List Char) (fixed : Bool) :
    getnum (digitChar a :: digitChar b :: rest) fixed
      = some (a % 10 * 10 + b % 10, rest) := by
  simp only [getnum, isDigitChar_digitChar, if_true, digitVal_digitChar]

/-- The text of the date and clock part. -/
theorem formatFields_eq (c : Clock) (off : Int) (hy0 : 0 ≤ c.year) (hy : c.year ≤ 9999)
    (hM : c.month < 100) (hD : c.day < 100) (hh : c.hour < 100) (hm : c.min < 100)
    (hs : c.sec < 100) :
    formatFields c off =
      digitChar (c.year.toNat / 1000) :: digitChar (c.year.toNat / 100) ::
      digitChar (c.year.toNat / 10) :: digitChar c.year.toNat :: '-' ::
      digitChar (c.month / 10) :: digitChar c.month :: '-' ::
      digitChar (c.day / 10) :: digitChar c.day :: 'T' ::
      digitChar (c.hour / 10) :: digitChar c.hour :: ':' ::
      digitChar (c.min / 10) :: digitChar c.min :: ':' ::
      digitChar (c.sec / 10) :: digitChar c.sec :: zoneText off := by
  unfold formatFields
  rw [appendInt_four _ hy0 hy, appendInt_two _ hM, appendInt_two _ hD, appendInt_two _ hh,
    appendInt_two _ hm, appendInt_two _ hs]
  rfl

theorem parseAfterYear_canonical (str : String) (Y M D h m s : Nat) (zone : List Char)
    (hM1 : 1 ≤ M) (hM : M ≤ 12) (hD : D < 100) (hh : h < 24) (hm : m < 60) (hs : s < 60)
    (hz : ∀ a rest, zone = a :: rest → a ≠ '.' ∧ a ≠ ',') :
    parseAfterYear str Y ('-' :: digitChar (M / 10) :: digitChar M :: '-' ::
      digitChar (D / 10) :: digitChar D :: 'T' ::
      digitChar (h / 10) :: digitChar h :: ':' ::
      digitChar (m / 10) :: digitChar m :: ':' ::
      digitChar (s / 10) :: digitChar s :: zone)
    = parseZone str ⟨Y, M, D, h, m, s, 0⟩ zone := by
  have e1 : M / 10 % 10 * 10 + M % 10 = M := by omega
  have e2 : D / 10 % 10 * 10 + D % 10 = D := by omega
  have e3 : h / 10 % 10 * 10 + h % 10 = h := by omega
  have e4 : m / 10 % 10 * 10 + m % 10 = m := by omega
  have e5 : s / 10 % 10 * 10 + s % 10 = s := by omega
  have c1 : ¬ (M = 0 ∨ 12 < M) := by omega
  have c2 : ¬ (24 ≤ h) := by omega
  have c3 : ¬ (60 ≤ m) := by omega
  have c4 : ¬ (60 ≤ s) := by omega
  unfold parseAfterYear
  simp only [skipChar, if_true, getnum_two, e1, e2, e3, e4, e5, c1, c2, c3, c4, if_false]
  match zone, hz with
  | [], _ => rfl
  | [a], _ => rfl
  | a :: b :: rest, hz =>
    have := hz a (b :: rest) rfl
    simp only [this.1, this.2, or_self, false_and, if_false]


theorem digitsVal_four (a b c d : Nat) :
    digitsVal [digitChar a, digitChar b, digitChar c, digitChar d]
      = ((a % 10 * 10 + b % 10) * 10 + c % 10) * 10 + d % 10 := by
  simp only [digitsVal, List.foldl, digitVal_digitChar, Nat.zero_mul, Nat.zero_add]

theorem timeParse_canonical (Y : Nat) (rest : List Char) (hY : Y ≤ 9999) :
    timeParseRFC3339 (String.mk (digitChar (Y / 1000) :: digitChar (Y / 100) ::
      digitChar (Y / 10) :: digitChar Y :: rest))
    = parseAfterYear (String.mk (digitChar (Y / 1000) :: digitChar (Y / 100) ::
      digitChar (Y / 10) :: digitChar Y :: rest)) Y rest := by
  have e : ((Y / 1000 % 10 * 10 + Y / 100 % 10) * 10 + Y / 10 % 10) * 10 + Y % 10 = Y := by
    omega
  unfold timeParseRFC3339
  simp only [List.length_cons, isDigitAt, List.get?, isDigitChar_digitChar, List.take,
    List.all_cons, List.all_nil, Bool.and_self, digitsVal_four, e, List.drop]
  simp

theorem zoneText_eq (off : Int) (h0 : off ≠ 0) (h60 : off % 60 = 0) (hlo : -90000 < off)
    (hhi : off < 90000) :
    zoneText off = (if off ≤ -60 then '-' else '+') ::
      digitChar (off.natAbs / 60 / 60 / 10) :: digitChar (off.natAbs / 60 / 60) :: ':' ::
      digitChar (off.natAbs / 60 % 60 / 10) :: [digitChar (off.natAbs / 60 % 60)] := by
  unfold zoneText
  rw [if_neg h0]
  simp only
  rw [appendInt_two _ (by omega), appendInt_two _ (by omega)]
  rfl

theorem parseZone_offset (str : String) (f : Fields) (neg : Bool) (hh mm : Nat)
    (hhh : hh ≤ 24) (hmm : mm ≤ 59) (hd1 : 1 ≤ f.day) (hd : f.day ≤ daysIn f.month f.year) :
    parseZone str f ((if neg then '-' else '+') :: digitChar (hh / 10) :: digitChar hh ::
      ':' :: digitChar (mm / 10) :: [digitChar mm])
      = .ok ⟨dateSeconds f.year f.month f.day f.hour f.min f.sec
            - (if neg then -(((hh * 60 + mm) * 60 : Nat) : Int) else (((hh * 60 + mm) * 60 : Nat) : Int)),
          f.nsec,
          .zone (if neg then -(((hh * 60 + mm) * 60 : Nat) : Int) else (((hh * 60 + mm) * 60 : Nat) : Int))⟩ := by
  have hday : ¬ (f.day < 1 ∨ daysIn f.month f.year < f.day) := by omega
  have e1 : hh / 10 % 10 * 10 + hh % 10 = hh := by omega
  have e2 : mm / 10 % 10 * 10 + mm % 10 = mm := by omega
  have c1 : ¬ (24 < hh) := by omega
  have c2 : ¬ (60 < mm) := by omega
  cases neg
  · simp only [parseZone, Bool.false_eq_true, if_false, List.length_cons, List.length_nil,
      List.get?, List.drop, List.take, getnum_two, e1, e2, c1, c2, hday, ne_eq,
      not_true_eq_false, if_true]
    simp
  · simp only [parseZone, if_true, List.length_cons, List.length_nil,
      List.get?, List.drop, List.take, getnum_two, e1, e2, c1, c2, hday, ne_eq,
      not_true_eq_false, if_false]
    simp

theorem parseZone_canonical (str : String) (f : Fields) (off : Int) (h60 : off % 60 = 0)
    (hlo : -90000 < off) (hhi : off < 90000) (hd1 : 1 ≤ f.day)
    (hd : f.day ≤ daysIn f.month f.year) :
    parseZone str f (zoneText off)
      = .ok ⟨dateSeconds f.year f.month f.day f.hour f.min f.sec - off, f.nsec,
          if off = 0 then .UTC else .zone off⟩ := by
  have hday : ¬ (f.day < 1 ∨ daysIn f.month f.year < f.day) := by omega
  by_cases h0 : off = 0
  · subst h0
    simp only [zoneText, if_true, parseZone, hday, if_false, ne_eq, not_true_eq_false]
  · rw [zoneText_eq off h0 h60 hlo hhi, if_neg h0]
    have key := parseZone_offset str f (decide (off ≤ -60)) (off.natAbs / 60 / 60)
      (off.natAbs / 60 % 60) (by omega) (by omega) hd1 hd
    have e3 : (if decide (off ≤ -60) = true
        then -(((off.natAbs / 60 / 60 * 60 + off.natAbs / 60 % 60) * 60 : Nat) : Int)
        else (((off.natAbs / 60 / 60 * 60 + off.natAbs / 60 % 60) * 60 : Nat) : Int)) = off := by
      by_cases hneg : off ≤ -60
      · simp only [hneg, decide_True, if_true]; omega
      · simp only [hneg, decide_False, if_false, Bool.false_eq_true]; omega
    rw [e3] at key
    rw [← key]
    by_cases hneg : off ≤ -60
    · simp only [hneg, decide_True, if_true]
    · simp only [hneg, decide_False, if_false, Bool.false_eq_true]

theorem utf8_plain (c : Char) (h : plainChar c = true) :
    (String.utf8EncodeChar c).map UInt8.toNat = [c.toNat] := by
  simp only [plainChar, decide_eq_true_eq, Bool.decide_and, Bool.and_eq_true] at h
  have h0 : c.toNat = c.val.toNat := rfl
  have h1 : c.val ≤ 0x7f := by
    show c.val.toNat ≤ 127
    omega
  unfold String.utf8EncodeChar
  simp only [h1, if_true, List.map]
  show [c.val.toNat % 256] = [c.toNat]
  rw [h0, Nat.mod_eq_of_lt (by omega)]

theorem bytes_plain (cs : List Char) (h : cs.all plainChar = true) :
    (bytesOf (String.mk cs)).map UInt8.toNat = cs.map Char.toNat := by
  unfold bytesOf
  show (cs.flatMap String.utf8EncodeChar).map UInt8.toNat = _
  induction cs with
  | nil => rfl
  | cons c rest ih =>
    simp only [List.all_cons, Bool.and_eq_true] at h
    rw [List.flatMap_cons, List.map_append, utf8_plain c h.1, ih h.2]
    rfl

theorem readAll_inString (cs : List Char) (h : cs.all plainChar = true) (tok : List Nat) :
    readAll .inString [] tok (cs.map Char.toNat ++ [34])
      = .ok (.string (unquote (tok.reverse ++ cs.map Char.toNat))) := by
  induction cs generalizing tok with
  | nil => simp [readAll, step, endOfValue, ScanState.endsNumber, trailing]
  | cons c rest ih =>
    simp only [List.all_cons, Bool.and_eq_true] at h
    have hc := h.1
    simp only [plainChar, decide_eq_true_eq, Bool.decide_and, Bool.and_eq_true] at hc
    have c1 : ¬ (c.toNat = 34) := hc.2.2.1
    have c2 : ¬ (c.toNat = 92) := hc.2.2.2
    have c3 : ¬ (c.toNat < 32) := by omega
    simp only [List.map_cons, List.cons_append, readAll, step, c1, c2, c3, if_false]
    have key := ih h.2 (c.toNat :: tok)
    simp only [List.reverse_cons, List.append_assoc, List.singleton_append] at key
    exact key

theorem unquoteAux_plain (cs : List Char) (h : cs.all plainChar = true) (fuel : Nat)
    (hf : cs.length ≤ fuel) : unquoteAux fuel (cs.map Char.toNat) = cs := by
  induction cs generalizing fuel with
  | nil => cases fuel <;> rfl
  | cons c rest ih =>
    cases fuel with
    | zero => simp at hf
    | succ fuel =>
      simp only [List.all_cons, Bool.and_eq_true] at h
      have hc := h.1
      simp only [plainChar, decide_eq_true_eq, Bool.decide_and, Bool.and_eq_true] at hc
      have c2 : ¬ (c.toNat = 92) := hc.2.2.2
      have c3 : c.toNat < 128 := hc.2.1
      have c4 : c.toNat < 0xD800 ∨ (0xDFFF < c.toNat ∧ c.toNat < 0x110000) := by omega
      simp only [List.map_cons, unquoteAux, c2, if_false, c3, if_true, runeOf, c4,
        Char.ofNat_toNat]
      rw [ih h.2 fuel (by simpa using hf)]

theorem unquote_plain (cs : List Char) (h : cs.all plainChar = true) :
    unquote (cs.map Char.toNat) = String.mk cs := by
  unfold unquote
  rw [unquoteAux_plain cs h _ (by simp)]

theorem jsonValue_quoted (cs : List Char) (h : cs.all plainChar = true) :
    jsonValue (bytesOf (String.mk ('"' :: (cs ++ ['"'])))) = .ok (.string (String.mk cs)) := by
  have e : (bytesOf (String.mk ('"' :: (cs ++ ['"'])))).map UInt8.toNat
      = 34 :: (cs.map Char.toNat ++ [34]) := by
    have e1 : bytesOf (String.mk ('"' :: (cs ++ ['"'])))
        = bytesOf (String.mk ['"']) ++ (bytesOf (String.mk cs) ++ bytesOf (String.mk ['"'])) := by
      unfold bytesOf
      show List.flatMap _ _ = List.flatMap _ _ ++ (List.flatMap _ _ ++ List.flatMap _ _)
      rw [← List.flatMap_append, ← List.flatMap_append]
      rfl
    rw [e1, List.map_append, List.map_append, bytes_plain cs h]
    rfl
  unfold jsonValue
  rw [e]
  have s1 : readAll .beginValue [] [] (34 :: (cs.map Char.toNat ++ [34]))
      = readAll .inString [] [] (cs.map Char.toNat ++ [34]) := by
    simp [readAll, step, stateBeginValue, isSpace]
  rw [s1, readAll_inString cs h, List.reverse_nil, List.nil_append, unquote_plain cs h]


theorem doy_bound (d : Int) :
    0 ≤ d - daysBeforeYearInt (yearOfDays d) ∧
      d - daysBeforeYearInt (yearOfDays d) < (if isLeapInt (yearOfDays d) then 366 else 365) := by
  have h := yearOfDays_spec d
  rw [dby_succ] at h
  constructor
  · omega
  · split <;> rename_i hl <;> simp only [hl, if_true, if_false, Bool.false_eq_true] at h <;> omega

/-- The clock of a second of a year from 0 on is a valid date and time of day, and
`dateSeconds` takes it back to the second. -/
theorem dateSeconds_clockOfSeconds (l : Int) (h0 : 0 ≤ (clockOfSeconds l).year) :
    1 ≤ (clockOfSeconds l).month ∧ (clockOfSeconds l).month ≤ 12 ∧
    1 ≤ (clockOfSeconds l).day ∧
    (clockOfSeconds l).day ≤ daysIn (clockOfSeconds l).month (clockOfSeconds l).year.toNat ∧
    (clockOfSeconds l).hour < 24 ∧ (clockOfSeconds l).min < 60 ∧ (clockOfSeconds l).sec < 60 ∧
    dateSeconds (clockOfSeconds l).year.toNat (clockOfSeconds l).month (clockOfSeconds l).day
      (clockOfSeconds l).hour (clockOfSeconds l).min (clockOfSeconds l).sec = l := by
  have hy : (clockOfSeconds l).year = yearOfDays (l / 86400) := rfl
  rw [hy] at h0
  obtain ⟨n, hn⟩ := Int.eq_ofNat_of_zero_le h0
  have hb := doy_bound (l / 86400)
  have hleap : isLeapInt (yearOfDays (l / 86400)) = isLeap n := by rw [hn, isLeap_cast]
  have hv := monthDay_valid n (l / 86400 - daysBeforeYearInt (yearOfDays (l / 86400))).toNat
    (by rw [hleap] at hb; split <;> rename_i hl <;>
          simp only [hl, if_true, if_false, Bool.false_eq_true] at hb <;> omega)
  have hdby := daysBeforeYear_cast n
  simp only [clockOfSeconds, hn, Int.toNat_ofNat, dateSeconds] at *
  rw [isLeap_cast] at *
  refine ⟨hv.1, hv.2.1, hv.2.2.1, hv.2.2.2.1, by omega, by omega, by omega, ?_⟩
  rw [hdby]
  push_cast
  have h5 := hv.2.2.2.2
  omega


/-- The clock of the second of a valid date and time of day is that date and time. -/
theorem clockOfSeconds_dateSeconds (Y M D h m s : Nat) (hM1 : 1 ≤ M) (hM : M ≤ 12)
    (hD1 : 1 ≤ D) (hD : D ≤ daysIn M Y) (hh : h < 24) (hm : m < 60) (hs : s < 60) :
    clockOfSeconds (dateSeconds Y M D h m s) = ⟨(Y : Int), M, D, h, m, s⟩ := by
  have hinv := monthDay_inverse Y M D hM1 hM hD1 hD
  have hdby := daysBeforeYear_cast Y
  have hsucc := dby_succ (Y : Int)
  rw [isLeap_cast] at hsucc
  have hdays : dateSeconds Y M D h m s / 86400
      = daysBeforeYearInt Y + ((daysBeforeMonth M Y + (D - 1) : Nat) : Int) := by
    unfold dateSeconds; rw [hdby]; omega
  have hrem : (dateSeconds Y M D h m s % 86400).toNat = h * 3600 + m * 60 + s := by
    unfold dateSeconds; rw [hdby]; omega
  have hyear : yearOfDays (dateSeconds Y M D h m s / 86400) = Y := by
    apply yearOfDays_unique
    · rw [hdays]; omega
    · rw [hdays, hsucc]
      have := hinv.2
      split <;> rename_i hl <;> simp only [hl, if_true, if_false, Bool.false_eq_true] at this <;>
        omega
  unfold clockOfSeconds
  rw [hyear, hrem, isLeap_cast, hdays]
  have e : (daysBeforeYearInt (Y : Int) + ((daysBeforeMonth M Y + (D - 1) : Nat) : Int)
      - daysBeforeYearInt (Y : Int)).toNat = daysBeforeMonth M Y + (D - 1) := by omega
  rw [e, hinv.1]
  congr 1 <;> omega

theorem plainChar_digitChar (n : Nat) : plainChar (digitChar n) = true := by
  have h : ∀ k, k < 10 → plainChar (Char.ofNat (48 + k)) = true := by decide
  exact h (n % 10) (Nat.mod_lt _ (by decide))

theorem zoneText_plain (off : Int) (hz : wholeMinutes off = true) :
    (zoneText off).all plainChar = true ∧
      ∀ a rest, zoneText off = a :: rest → a ≠ '.' ∧ a ≠ ',' := by
  simp only [wholeMinutes, decide_eq_true_eq, Bool.decide_and, Bool.and_eq_true] at hz
  by_cases h0 : off = 0
  · subst h0
    refine ⟨by decide, ?_⟩
    intro a rest h
    have : a = 'Z' := by
      simp only [zoneText, if_true] at h
      exact (List.cons.inj h).1.symm
    subst this; decide
  · rw [zoneText_eq off h0 hz.1 hz.2.1 hz.2.2]
    refine ⟨?_, ?_⟩
    · simp only [List.all_cons, List.all_nil, plainChar_digitChar, Bool.and_true,
        Bool.true_and, Bool.and_eq_true]
      refine ⟨?_, by decide⟩
      split <;> decide
    · intro a rest h
      have : a = (if off ≤ -60 then '-' else '+') := (List.cons.inj h).1.symm
      subst this
      split <;> decide

/-- Decoding the quoted RFC 3339 text of a valid date, clock and offset. -/
theorem unmarshal_quotedText (recv : Time) (c : Clock) (off : Int) (hc : c.valid = true)
    (hz : wholeMinutes off = true) :
    Time.UnmarshalJSONBytes recv (quotedText c off)
      = .ok ⟨dateSeconds c.year.toNat c.month c.day c.hour c.min c.sec - off, 0,
          if off = 0 then .UTC else .zone off⟩ := by
  have hz2 := hz
  simp only [wholeMinutes, decide_eq_true_eq, Bool.decide_and, Bool.and_eq_true] at hz2
  simp only [Clock.valid, decide_eq_true_eq, Bool.decide_and, Bool.and_eq_true] at hc
  obtain ⟨hy0, hy, hM1, hM, hD1, hD, hh, hm, hs⟩ := hc
  have hD31 := daysIn_le c.month c.year.toNat
  have hzp := zoneText_plain off hz
  have hfmt := formatFields_eq c off hy0 hy (by omega) (by omega) (by omega) (by omega)
    (by omega)
  have hplain : (formatFields c off).all plainChar = true := by
    rw [hfmt]
    simp only [List.all_cons, plainChar_digitChar, Bool.true_and, hzp.1, Bool.and_true]
    decide
  have hne : String.mk (formatFields c off) ≠ "" := by
    rw [hfmt]; intro h; exact absurd (congrArg String.data h) (by simp)
  unfold Time.UnmarshalJSONBytes quotedText
  rw [jsonValue_quoted _ hplain]
  simp only [Time.UnmarshalJSON, unmarshalString, hne, if_false]
  have hparse : timeParseRFC3339 (String.mk (formatFields c off))
      = .ok ⟨dateSeconds c.year.toNat c.month c.day c.hour c.min c.sec - off, 0,
          if off = 0 then .UTC else .zone off⟩ := by
    rw [hfmt, timeParse_canonical _ _ (by omega),
      parseAfterYear_canonical _ _ _ _ _ _ _ _ hM1 hM (by omega) hh hm hs hzp.2,
      parseZone_canonical _ _ off hz2.1 hz2.2.1 hz2.2.2 hD1 hD]
  rw [hparse]


theorem marshal_of_ne (t : Time) (h : t ≠ emptyTime) :
    Time.MarshalJSON t = (quotedText t.clock t.offset, none) := by
  unfold Time.MarshalJSON
  rw [if_neg h]
  rfl

theorem clock_valid_of_year (l : Int) (h0 : 0 ≤ (clockOfSeconds l).year)
    (h1 : (clockOfSeconds l).year ≤ 9999) : (clockOfSeconds l).valid = true := by
  have h := dateSeconds_clockOfSeconds l h0
  simp only [Clock.valid, decide_eq_true_eq, Bool.decide_and, Bool.and_eq_true]
  exact ⟨h0, h1, h.1, h.2.1, h.2.2.1, h.2.2.2.1, h.2.2.2.2.1, h.2.2.2.2.2.1, h.2.2.2.2.2.2.1⟩

/-! The round trip of `Time`. -/

/-- C16: `MarshalJSON` of the zero Time returns the bytes `""` and no error; whatever the
receiver holds, `UnmarshalJSON` of `""` returns no error and sets the receiver to the
zero Time; so decoding what the zero Time encodes to gives the zero Time again, and
encoding what `""` decodes to gives `""` again. -/
theorem zero_time_both_directions (recv : Time) :
    Time.MarshalJSON emptyTime = (bytesOf "\"\"", none) ∧
    Time.UnmarshalJSONBytes recv (bytesOf "\"\"") = .ok emptyTime ∧
    Time.UnmarshalJSONBytes recv (Time.MarshalJSON emptyTime).1 = .ok emptyTime ∧
    (Time.UnmarshalJSONBytes recv (bytesOf "\"\"")).map Time.MarshalJSON
      = .ok (bytesOf "\"\"", none) :=
  ⟨rfl, rfl, rfl, rfl⟩

/-- C14 as stated fails: the layout `time.RFC3339` has no fraction of a second, so the
time 2014-03-14T00:00:00.000000005Z is encoded as `"2014-03-14T00:00:00Z"` and decoded
as an instant five nanoseconds earlier. -/
theorem time_round_trip_counterexample :
    ¬ ∀ t recv : Time, ∃ v, Time.UnmarshalJSONBytes recv (Time.MarshalJSON t).1 = .ok v ∧
      v.Equal t = true := by
  intro h
  obtain ⟨v, hv, he⟩ := h ⟨63530352000, 5, .UTC⟩ emptyTime
  have e : Time.UnmarshalJSONBytes emptyTime (Time.MarshalJSON ⟨63530352000, 5, .UTC⟩).1
      = .ok ⟨63530352000, 0, .UTC⟩ := by decide
  rw [e] at hv
  cases hv
  exact absurd he (by decide)

/-- C14, amended: for every Time with no fraction of a second, whose zone offset is a
whole number of minutes and less than 25 hours, and whose year in its zone is between 0
and 9999, `MarshalJSON` returns no error, and `UnmarshalJSON` of its output succeeds,
whatever the receiver holds, and yields the same instant. -/
theorem time_round_trip (t recv : Time) (hn : t.nsec = 0) (hz : wholeMinutes t.offset = true)
    (hy0 : 0 ≤ t.clock.year) (hy : t.clock.year ≤ 9999) :
    (Time.MarshalJSON t).2 = none ∧
    ∃ v, Time.UnmarshalJSONBytes recv (Time.MarshalJSON t).1 = .ok v ∧ v.Equal t = true := by
  by_cases he : t = emptyTime
  · subst he
    exact ⟨rfl, emptyTime, rfl, rfl⟩
  · rw [marshal_of_ne t he]
    refine ⟨rfl, _, unmarshal_quotedText recv t.clock t.offset
      (clock_valid_of_year _ hy0 hy) hz, ?_⟩
    have h := (dateSeconds_clockOfSeconds (t.sec + t.offset) hy0).2.2.2.2.2.2.2
    simp only [Time.Equal, decide_eq_true_eq, Bool.decide_and, Bool.and_eq_true]
    refine ⟨?_, hn.symm⟩
    show dateSeconds _ _ _ _ _ _ - t.offset = t.sec
    unfold Time.clock
    rw [h]
    omega

theorem time_round_trip_witness :
    (Time.MarshalJSON ⟨63530352000, 0, .UTC⟩).2 = none ∧
    ∃ v, Time.UnmarshalJSONBytes emptyTime (Time.MarshalJSON ⟨63530352000, 0, .UTC⟩).1 = .ok v ∧
      v.Equal ⟨63530352000, 0, .UTC⟩ = true :=
  time_round_trip ⟨63530352000, 0, .UTC⟩ emptyTime rfl (by decide) (by decide) (by decide)

/-- C15 as stated fails: `UnmarshalJSON` accepts `"2014-03-14T00:00:00.5Z"`, since
`time.Parse` reads a fraction of a second that the layout does not have, and
`MarshalJSON` of the decoded time writes `"2014-03-14T00:00:00Z"`. -/
theorem accepted_input_round_trip_counterexample :
    ¬ ∀ (recv : Time) (s : Bytes) (v : Time), Time.UnmarshalJSONBytes recv s = .ok v →
      (Time.MarshalJSON v).1 = s := by
  intro h
  exact absurd (h emptyTime (bytesOf "\"2014-03-14T00:00:00.5Z\"") ⟨63530352000, 500000000, .UTC⟩
    (by decide)) (by decide)

/-- C15, amended: for the input `""`, and for every input that is the string literal of
an RFC 3339 text in the form of the layout (a date that exists in a year 0000 to 9999,
two digits for every other field, no fraction of a second, the zone `Z` or a sign with
hours and minutes of an offset that is not zero and is less than 25 hours) other than
`"0001-01-01T00:00:00Z"`, `UnmarshalJSON` accepts the input, whatever the receiver
holds, and `MarshalJSON` of the decoded value returns exactly the bytes of the input and
no error. -/
theorem canonical_input_round_trip (recv : Time) (c : Clock) (off : Int)
    (hc : c.valid = true) (hz : wholeMinutes off = true)
    (hne : ¬ (c = ⟨1, 1, 1, 0, 0, 0⟩ ∧ off = 0)) :
    (∃ v, Time.UnmarshalJSONBytes recv (bytesOf "\"\"") = .ok v ∧
      Time.MarshalJSON v = (bytesOf "\"\"", none)) ∧
    (∃ v, Time.UnmarshalJSONBytes recv (quotedText c off) = .ok v ∧
      Time.MarshalJSON v = (quotedText c off, none)) := by
  refine ⟨⟨emptyTime, rfl, rfl⟩, _, unmarshal_quotedText recv c off hc hz, ?_⟩
  have hc2 := hc
  simp only [Clock.valid, decide_eq_true_eq, Bool.decide_and, Bool.and_eq_true] at hc2
  obtain ⟨hy0, hy, hM1, hM, hD1, hD, hh, hm, hs⟩ := hc2
  have hclock := clockOfSeconds_dateSeconds c.year.toNat c.month c.day c.hour c.min c.sec
    hM1 hM hD1 hD hh hm hs
  have hyc : ((c.year.toNat : Nat) : Int) = c.year := Int.toNat_of_nonneg hy0
  rw [hyc] at hclock
  have hoff : Time.offset ⟨dateSeconds c.year.toNat c.month c.day c.hour c.min c.sec - off, 0,
      if off = 0 then .UTC else .zone off⟩ = off := by
    unfold Time.offset
    by_cases h0 : off = 0
    · simp only [h0, if_true]
    · simp only [h0, if_false]
  have hcl : Time.clock ⟨dateSeconds c.year.toNat c.month c.day c.hour c.min c.sec - off, 0,
      if off = 0 then .UTC else .zone off⟩ = c := by
    unfold Time.clock
    rw [hoff]
    show clockOfSeconds (dateSeconds _ _ _ _ _ _ - off + off) = c
    rw [Int.sub_add_cancel, hclock]
  have hnz : (⟨dateSeconds c.year.toNat c.month c.day c.hour c.min c.sec - off, 0,
      if off = 0 then .UTC else .zone off⟩ : Time) ≠ emptyTime := by
    intro h
    by_cases h0 : off = 0
    · apply hne
      refine ⟨?_, h0⟩
      have hsec : dateSeconds c.year.toNat c.month c.day c.hour c.min c.sec = 0 := by
        have := congrArg Time.sec h
        simp only [h0, emptyTime] at this
        omega
      rw [hsec] at hclock
      exact (hclock.symm : c = clockOfSeconds 0).trans (by decide)
    · have := congrArg Time.loc h
      simp only [h0, if_false, emptyTime] at this
      exact Location.noConfusion this
  rw [marshal_of_ne _ hnz, hoff, hcl]

theorem canonical_input_round_trip_witness :
    (∃ v, Time.UnmarshalJSONBytes emptyTime (bytesOf "\"\"") = .ok v ∧
      Time.MarshalJSON v = (bytesOf "\"\"", none)) ∧
    (∃ v, Time.UnmarshalJSONBytes emptyTime (bytesOf "\"2014-03-14T00:00:00Z\"") = .ok v ∧
      Time.MarshalJSON v = (bytesOf "\"2014-03-14T00:00:00Z\"", none)) :=
  canonical_input_round_trip emptyTime ⟨2014, 3, 14, 0, 0, 0⟩ 0 (by decide) (by decide)
    (by decide)


/-! The options of the raw operations. -/

theorem find_ite_Set (c : Prop) [Decidable c] (v : Values) (k x k2 : String) (h : k2 ≠ k) :
    (if c then v.Set k x else v).find k2 = v.find k2 := by
  split
  · exact find_Set_of_ne _ _ _ _ h
  · rfl

theorem query_no_format (service : ipNetblocksServiceOp) (ip mask asn org : String) :
    (service.query ip mask asn org []).find "outputFormat" = none := by
  simp only [ipNetblocksServiceOp.query, List.foldl_nil]
  rw [find_ite_Set _ _ _ _ _ (by decide), find_ite_Set _ _ _ _ _ (by decide),
    find_ite_Set _ _ _ _ _ (by decide), find_ite_Set _ _ _ _ _ (by decide),
    find_Set_of_ne _ _ _ _ (by decide)]
  rfl

theorem builtin_foldl_format (bs : List BuiltinOption) (v : Values) :
    ((bs.map BuiltinOption.toOption).foldl (fun q opt => opt q) v).find "outputFormat" =
      match lastOutputFormat bs with
      | some f => some [toUpper f]
      | none => v.find "outputFormat" := by
  induction bs generalizing v with
  | nil => rfl
  | cons b rest ih =>
    simp only [List.map_cons, List.foldl_cons]
    rw [ih]
    cases b with
    | outputFormat f =>
      simp only [lastOutputFormat]
      cases lastOutputFormat rest with
      | none => exact find_Set_same _ _ _
      | some g => rfl
    | limit n =>
      simp only [lastOutputFormat]
      cases lastOutputFormat rest with
      | none => exact find_Set_of_ne _ _ _ _ (by decide)
      | some g => rfl
    | from_ p =>
      simp only [lastOutputFormat]
      cases lastOutputFormat rest with
      | none =>
        cases p with
        | none => rfl
        | some s => exact find_Set_of_ne _ _ _ _ (by decide)
      | some g => rfl

theorem query_builtin_format (service : ipNetblocksServiceOp) (ip mask asn org : String)
    (bs : List BuiltinOption) :
    (service.query ip mask asn org (bs.map BuiltinOption.toOption)).find "outputFormat" =
      (lastOutputFormat bs).map (fun f => [toUpper f]) := by
  rw [query_eq_foldl, builtin_foldl_format, query_no_format]
  cases lastOutputFormat bs <;> rfl

/-- C21: for every query map `v`, `OptionFrom(nil)` applied to `v` gives `v` itself, and for
every string `s`, the empty one included, `OptionFrom(&s)` gives a map in which `from` has
the single value `s` in upper case and every other key has what it had in `v`. The upper
case is that of `strings.ToUpper`, for letters outside ASCII too: `é` is set as `É`.
`OptionFrom(nil)` on an empty map encodes to the empty string, and `OptionFrom` of
`8.2.17.0-8.2.17.255` encodes to `from=8.2.17.0-8.2.17.255`. -/
theorem option_from_sets_upper (s : String) (v : Values) :
    OptionFrom none v = v ∧
    (∀ k, (OptionFrom (some s) v).find k = if k = "from" then some [toUpper s] else v.find k) ∧
    (OptionFrom (some "") v).find "from" = some [""] ∧
    (OptionFrom none []).Encode = "" ∧
    (OptionFrom (some "8.2.17.0-8.2.17.255") []).Encode = "from=8.2.17.0-8.2.17.255" ∧
    (OptionFrom (some "next") [("from", ["a", "b"]), ("limit", ["5"])]).Encode
      = "from=NEXT&limit=5" ∧
    (OptionFrom (some "é") []).find "from" = some ["É"] ∧
    (OptionFrom (some "é") []).Encode = "from=%C3%89" := by
  refine ⟨rfl, ?_, find_Set_same _ _ _, by decide, by decide, by decide, by decide, by decide⟩
  intro k
  by_cases hk : k = "from"
  · rw [if_pos hk, hk]
    exact find_Set_same _ _ _
  · rw [if_neg hk]
    exact find_Set_of_ne _ _ _ _ hk

/-- C22: for every raw operation on a valid lookup key and every list of built-in caller
options, the one query sent has `outputFormat` equal to the single upper-cased value of
the last `OptionOutputFormat` of the list, and has no `outputFormat` when the list has
none: a raw operation neither adds nor replaces the output format. The upper case is that
of `strings.ToUpper`. -/
theorem raw_keeps_caller_format (service : ipNetblocksServiceOp) (ip : IP) (net : IPNet)
    (asn : Int) (org : String) (bs : List BuiltinOption)
    (hNew : service.client.NewRequest service.baseURL = none)
    (hip : ip ≠ []) (hnet : net.IP ≠ []) (hasn : 0 ≤ asn ∧ asn ≤ 4294967295)
    (horg : org ≠ "") :
    ∀ r ∈ [service.GetRawByIP ip (bs.map BuiltinOption.toOption),
        service.GetRawByCIDR net (bs.map BuiltinOption.toOption),
        service.GetRawByASN asn (bs.map BuiltinOption.toOption),
        service.GetRawByOrg org (bs.map BuiltinOption.toOption)],
      (sentQueries r.calls).map (fun q => q.find "outputFormat") =
        [(lastOutputFormat bs).map (fun f => [toUpper f])] := by
  have hipS : ¬ ip.String = "<nil>" := fun h => hip ((IP_String_eq_nil_iff ip).mp h)
  have hnetS : ¬ net.IP.String = "<nil>" := fun h => hnet ((IP_String_eq_nil_iff net.IP).mp h)
  have hv : validateASN asn = none := by
    rw [validateASN_eq, if_pos hasn]
  intro r hr
  simp only [List.mem_cons, List.mem_singleton, List.not_mem_nil, or_false] at hr
  rcases hr with rfl | rfl | rfl | rfl
  · rw [GetRawByIP_eq, if_neg hipS, rawReturn_calls, sent_of_built _ _ _ _ _ _ hNew]
    simp only [List.map_cons, List.map_nil, query_builtin_format]
  · rw [GetRawByCIDR_eq, if_neg hnetS, rawReturn_calls, sent_of_built _ _ _ _ _ _ hNew]
    simp only [List.map_cons, List.map_nil, query_builtin_format]
  · rw [GetRawByASN_eq, hv]
    simp only
    rw [rawReturn_calls, sent_of_built _ _ _ _ _ _ hNew]
    simp only [List.map_cons, List.map_nil, query_builtin_format]
  · rw [GetRawByOrg_eq, if_neg horg, rawReturn_calls, sent_of_built _ _ _ _ _ _ hNew]
    simp only [List.map_cons, List.map_nil, query_builtin_format]

/-- Witness of C22: the call of `example.go` sends `outputFormat=JSON`, a call without
options sends no `outputFormat`, of two formats the later one is sent, and the format
`é` is sent as `É`. -/
theorem raw_keeps_caller_format_witness :
    (sentQueries ((newAPI 200 respOK).GetRawByIP
        [0x20, 0x01, 0, 0, 0x41, 0x36, 0xe3, 0x78, 0, 0, 0, 0, 0, 0, 0, 0]
        [OptionOutputFormat "JSON"]).calls).map (fun q => q.find "outputFormat")
      = [some ["JSON"]] ∧
    (sentQueries ((newAPI 200 respOK).GetRawByIP [8, 8, 8, 8] []).calls).map
        (fun q => q.find "outputFormat") = [none] ∧
    (sentQueries ((newAPI 200 respOK).GetRawByOrg "Amazon"
        [OptionOutputFormat "json", OptionLimit 5, OptionOutputFormat "xml"]).calls).map
        (fun q => q.find "outputFormat") = [some ["XML"]] ∧
    (sentQueries ((newAPI 200 respOK).GetRawByASN 15169 [OptionOutputFormat "é"]).calls).map
        (fun q => q.find "outputFormat") = [some ["É"]] :=
  ⟨raw_keeps_caller_format (newAPI 200 respOK)
      [0x20, 0x01, 0, 0, 0x41, 0x36, 0xe3, 0x78, 0, 0, 0, 0, 0, 0, 0, 0]
      ⟨[8, 8, 8, 8], [255, 255, 255, 0]⟩ 0 "Amazon" [.outputFormat "JSON"] rfl
      (by decide) (by decide) (by decide) (by decide) _ (List.mem_cons_self _ _),
    raw_keeps_caller_format (newAPI 200 respOK) [8, 8, 8, 8]
      ⟨[8, 8, 8, 8], [255, 255, 255, 0]⟩ 0 "Amazon" [] rfl
      (by decide) (by decide) (by decide) (by decide) _ (List.mem_cons_self _ _),
    raw_keeps_caller_format (newAPI 200 respOK) [8, 8, 8, 8]
      ⟨[8, 8, 8, 8], [255, 255, 255, 0]⟩ 0 "Amazon"
      [.outputFormat "json", .limit 5, .outputFormat "xml"] rfl
      (by decide) (by decide) (by decide) (by decide) _
      (List.mem_cons_of_mem _ (List.mem_cons_of_mem _ (List.mem_cons_of_mem _
        (List.mem_cons_self _ _)))),
    raw_keeps_caller_format (newAPI 200 respOK) [8, 8, 8, 8]
      ⟨[8, 8, 8, 8], [255, 255, 255, 0]⟩ 15169 "Amazon" [.outputFormat "é"] rfl
      (by decide) (by decide) (by decide) (by decide) _
      (List.mem_cons_of_mem _ (List.mem_cons_of_mem _ (List.mem_cons_self _ _)))⟩

/-! The first JSON value of a body. -/

theorem trailing_ok (v j : JSON) (l : List Nat) (h : trailing v l = .ok j) : j = v := by
  induction l with
  | nil => simp only [trailing] at h; cases h; rfl
  | cons c rest ih =>
    simp only [trailing] at h
    split at h
    · exact ih h
    · cases h

/-- What the strict reader accepts, the decoder reads as its first value. -/
theorem readValue_of_readAll (l : List Nat) (st : ScanState) (stack : List Frame)
    (tok : List Nat) (j : JSON) (h : readAll st stack tok l = .ok j) :
    readValue st stack tok l = .ok j := by
  induction l generalizing st stack tok with
  | nil =>
    unfold readAll at h
    unfold readValue
    split at h <;> first | exact h | cases h
  | cons c rest ih =>
    unfold readAll at h
    unfold readValue
    cases hs : step st stack tok c with
    | next st1 stack1 tok1 =>
      rw [hs] at h
      exact ih _ _ _ h
    | done v =>
      rw [hs] at h
      simp only at h ⊢
      split at h
      · rw [trailing_ok _ _ _ h]
      · rw [trailing_ok _ _ _ h]
    | fail e =>
      rw [hs] at h
      cases h

/-- A first value that is not a number ends inside the body: what follows is not read. -/
theorem readValue_append (l extra : List Nat) (st : ScanState) (stack : List Frame)
    (tok : List Nat) (j : JSON) (h : readValue st stack tok l = .ok j)
    (hn : j.isNumber = false) :
    readValue st stack tok (l ++ extra) = .ok j := by
  induction l generalizing st stack tok with
  | nil =>
    unfold readValue at h
    split at h <;> first | (cases h; done) | (cases h; exact Bool.noConfusion hn)
  | cons c rest ih =>
    rw [List.cons_append]
    unfold readValue at h ⊢
    cases hs : step st stack tok c with
    | next st1 stack1 tok1 =>
      rw [hs] at h
      exact ih _ _ _ h
    | done v =>
      rw [hs] at h
      exact h
    | fail e =>
      rw [hs] at h
      cases h

theorem unmarshal_ok_not_number (j : JSON) (v : apiResponse) (h : unmarshal j = .ok v) :
    j.isNumber = false := by
  cases j with
  | number lit =>
    simp only [unmarshal, decodeStruct, save] at h
    cases h
  | _ => rfl

theorem jsonDecode_append (b extra : Bytes) (v : apiResponse) (h : jsonDecode b = .ok v) :
    jsonDecode (b ++ extra) = .ok v := by
  unfold jsonDecode at h ⊢
  cases hs : scanBody b with
  | error e => rw [hs] at h; cases h
  | ok j =>
    rw [hs] at h
    simp only at h
    have hn := unmarshal_ok_not_number j v h
    have : scanBody (b ++ extra) = .ok j := by
      unfold scanBody at hs ⊢
      rw [List.map_append]
      exact readValue_append _ _ _ _ _ _ hs hn
    rw [this]
    exact h

theorem jsonDecode_of_strict (b : Bytes) (j : JSON) (h : jsonValue b = .ok j) :
    jsonDecode b = unmarshal j := by
  unfold jsonDecode
  have : scanBody b = .ok j := readValue_of_readAll _ _ _ _ _ h
  rw [this]

/-- C23 as stated fails: `parse` accepts the body `{}x`, which is not one JSON value:
`Decoder.Decode` reads the first value `{}` and does not look at the `x` after it. -/
theorem parse_strict_counterexample :
    ¬ ∀ b : Bytes, (parse b).2 = none → ∃ j, jsonValue b = .ok j := by
  intro h
  obtain ⟨j, hj⟩ := h (bytesOf "{}x") (by decide)
  have e : jsonValue (bytesOf "{}x") = .error (.invalidCharacter 120 "after top-level value") := by
    rfl
  rw [e] at hj
  cases hj

/-- C23, amended: `parse` decodes the first JSON value of the body and does not look at
what follows it. A body that is exactly one well-formed JSON value, with white space
around it at most, is accepted or rejected as that value decodes into the response; a
body `parse` accepts has a well-formed first value and is accepted with the same result
whatever is appended to it; and every body `parse` does not accept is rejected with an
error that reads "cannot parse response: " followed by the text of the decoder's
error. -/
theorem parse_reads_first_value (b extra : Bytes) :
    (∀ j, jsonValue b = .ok j →
      parse b = match unmarshal j with
        | .ok v => (some v, none)
        | .error d => (none, some (.parse d))) ∧
    (∀ v, parse b = (some v, none) →
      (∃ j, scanBody b = .ok j ∧ unmarshal j = .ok v) ∧ parse (b ++ extra) = (some v, none)) ∧
    ((∃ v, parse b = (some v, none)) ∨
      ∃ d, parse b = (none, some (.parse d)) ∧
        (Error.parse d).text = "cannot parse response: " ++ d.text) := by
  refine ⟨?_, ?_, ?_⟩
  · intro j hj
    unfold parse
    rw [jsonDecode_of_strict b j hj]
    cases unmarshal j <;> rfl
  · intro v hv
    have hd : jsonDecode b = .ok v := by
      rcases parse_cases b with ⟨d, _, hp⟩ | ⟨w, hw, hp⟩
      · rw [hp] at hv; cases hv
      · rw [hp] at hv; cases hv; exact hw
    refine ⟨?_, ?_⟩
    · unfold jsonDecode at hd
      cases hs : scanBody b with
      | error e => rw [hs] at hd; cases hd
      | ok j => rw [hs] at hd; exact ⟨j, rfl, hd⟩
    · unfold parse
      rw [jsonDecode_append b extra v hd]
  · rcases parse_cases b with ⟨d, _, hp⟩ | ⟨w, _, hp⟩
    · exact Or.inr ⟨d, hp, rfl⟩
    · exact Or.inl ⟨w, hp⟩


/-! The mask of a CIDR. -/

theorem prefixBytes_lt (ones len : Nat) : ∀ x ∈ prefixBytes ones len, x < 256 := by
  induction len generalizing ones with
  | zero => intro x hx; cases hx
  | succ n ih =>
    intro x hx
    unfold prefixBytes at hx
    split at hx
    · rcases List.mem_cons.mp hx with rfl | h
      · decide
      · exact ih _ x h
    · rcases List.mem_cons.mp hx with rfl | h
      · have : 0 < 2 ^ (8 - ones) := Nat.two_pow_pos _
        omega
      · exact ih _ x h

theorem toNat_ofNat_list (l : List Nat) (h : ∀ x ∈ l, x < 256) :
    (l.map UInt8.ofNat).map UInt8.toNat = l := by
  induction l with
  | nil => rfl
  | cons a rest ih =>
    simp only [List.map_cons]
    rw [ih (fun x hx => h x (List.mem_cons_of_mem _ hx))]
    congr 1
    show a % 256 = a
    exact Nat.mod_eq_of_lt (h a (List.mem_cons_self _ _))

theorem prefixBytes_zero (len : Nat) : (prefixBytes 0 len).all (fun b => b = 0) = true := by
  induction len with
  | zero => rfl
  | succ n ih =>
    show ((256 - 2 ^ (8 - 0)) :: prefixBytes 0 n).all (fun b => b = 0) = true
    rw [List.all_cons, ih]
    rfl

theorem leadingOnes_prefix : ∀ ones, ones < 8 →
    leadingOnes 8 (256 - 2 ^ (8 - ones)) = (ones, 0) ∧ 256 - 2 ^ (8 - ones) ≠ 0xff := by
  decide

theorem simpleMaskLength_prefix (ones len : Nat) (h : ones ≤ 8 * len) :
    simpleMaskLength (prefixBytes ones len) = some ones := by
  induction len generalizing ones with
  | zero =>
    have : ones = 0 := by omega
    subst this; rfl
  | succ n ih =>
    unfold prefixBytes
    by_cases h8 : 8 ≤ ones
    · rw [if_pos h8]
      simp only [simpleMaskLength, if_true]
      rw [ih (ones - 8) (by omega)]
      simp only [Option.map_some']
      congr 1
      omega
    · rw [if_neg h8]
      have hl := leadingOnes_prefix ones (by omega)
      simp only [simpleMaskLength, hl.2, if_false, hl.1, ne_eq, not_true_eq_false,
        prefixBytes_zero, if_true]

theorem all_zero_prefix (l : List Nat) (h : l.all (fun b => b = 0) = true) :
    l = prefixBytes 0 l.length := by
  induction l with
  | nil => rfl
  | cons a rest ih =>
    simp only [List.all_cons, Bool.and_eq_true, decide_eq_true_eq] at h
    show a :: rest = (256 - 2 ^ (8 - 0)) :: prefixBytes 0 rest.length
    rw [← ih h.2, h.1]
    rfl

set_option maxRecDepth 100000 in
theorem leadingOnes_inv : ∀ v, v < 256 → v ≠ 0xff → (leadingOnes 8 v).2 = 0 →
    (leadingOnes 8 v).1 < 8 ∧ v = 256 - 2 ^ (8 - (leadingOnes 8 v).1) := by
  decide

theorem simpleMaskLength_inv (l : List Nat) (hl : ∀ x ∈ l, x < 256) (n : Nat)
    (h : simpleMaskLength l = some n) : l = prefixBytes n l.length := by
  induction l generalizing n with
  | nil => rfl
  | cons v rest ih =>
    unfold simpleMaskLength at h
    by_cases hv : v = 0xff
    · rw [if_pos hv] at h
      cases hr : simpleMaskLength rest with
      | none => rw [hr] at h; cases h
      | some k =>
        rw [hr] at h
        simp only [Option.map_some', Option.some.injEq] at h
        subst h
        have := ih (fun x hx => hl x (List.mem_cons_of_mem _ hx)) k hr
        unfold prefixBytes
        simp only [List.length_cons]
        rw [if_pos (by omega), Nat.add_sub_cancel, ← this, hv]
    · rw [if_neg hv] at h
      simp only at h
      by_cases h2 : (leadingOnes 8 v).2 ≠ 0
      · rw [if_pos h2] at h; cases h
      · rw [if_neg h2] at h
        by_cases h3 : rest.all (fun b => b = 0) = true
        · rw [if_pos h3] at h
          simp only [Option.some.injEq] at h
          have hi := leadingOnes_inv v (hl v (List.mem_cons_self _ _)) hv (by simpa using h2)
          rw [h] at hi
          unfold prefixBytes
          simp only [List.length_cons]
          rw [if_neg (by omega), ← all_zero_prefix rest h3, ← hi.2]
        · rw [if_neg h3] at h; cases h

theorem Size_prefixMask (ones len : Nat) (h : ones ≤ 8 * len) :
    (prefixMask ones len).Size = ones := by
  unfold IPMask.Size prefixMask
  rw [toNat_ofNat_list _ (prefixBytes_lt ones len), simpleMaskLength_prefix ones len h]

theorem toNat_lt (m : Bytes) : ∀ x ∈ m.map UInt8.toNat, x < 256 := by
  intro x hx
  obtain ⟨b, _, rfl⟩ := List.mem_map.mp hx
  exact b.toNat_lt

theorem ofNat_toNat_list (m : Bytes) : (m.map UInt8.toNat).map UInt8.ofNat = m := by
  induction m with
  | nil => rfl
  | cons a rest ih =>
    simp only [List.map_cons, ih]
    congr 1
    cases a with
    | mk v =>
      show UInt8.mk (BitVec.ofNat 8 v.toNat) = UInt8.mk v
      rw [BitVec.ofNat_toNat, BitVec.setWidth_eq]

theorem Size_of_not_prefix (m : IPMask) (h : ¬ ∃ ones, m = prefixMask ones m.length) :
    m.Size = 0 := by
  unfold IPMask.Size
  cases hs : simpleMaskLength (m.map UInt8.toNat) with
  | none => rfl
  | some n =>
    exfalso
    apply h
    refine ⟨n, ?_⟩
    have := simpleMaskLength_inv _ (toNat_lt m) n hs
    unfold prefixMask
    rw [List.length_map] at this
    rw [← this, ofNat_toNat_list]


theorem Size_empty : IPMask.Size [] = 0 := rfl

/-- C24: for every CIDR with a non-empty IP and every list of built-in options,
`GetByCIDR` and `GetRawByCIDR` send one query, with `ip` the text of the IP and `mask` the
decimal first result of `Mask.Size()`. For a canonical mask (ones, then zeros) that
result is the number of leading one bits. The mask is not validated: for an empty mask
and for a mask that is not canonical the result is 0, `mask=0` is sent, and both
operations return what they return for the mask 0.0.0.0, with any options. -/
theorem cidr_sends_prefix_length (service : ipNetblocksServiceOp) (net : IPNet)
    (bs : List BuiltinOption) (opts : List Option_)
    (hNew : service.client.NewRequest service.baseURL = none) (hnet : net.IP ≠ []) :
    (∀ calls ∈ [(service.GetByCIDR net (bs.map BuiltinOption.toOption)).calls,
        (service.GetRawByCIDR net (bs.map BuiltinOption.toOption)).calls],
      (sentQueries calls).map (fun q => (q.find "ip", q.find "mask")) =
        [(some [net.IP.String], some [formatInt net.Mask.Size])]) ∧
    (∀ ones, ones ≤ 8 * net.Mask.length → net.Mask = prefixMask ones net.Mask.length →
      net.Mask.Size = ones) ∧
    ((net.Mask = [] ∨ ¬ ∃ ones, net.Mask = prefixMask ones net.Mask.length) →
      net.Mask.Size = 0 ∧
      service.GetByCIDR net opts = service.GetByCIDR ⟨net.IP, [0, 0, 0, 0]⟩ opts ∧
      service.GetRawByCIDR net opts = service.GetRawByCIDR ⟨net.IP, [0, 0, 0, 0]⟩ opts) := by
  have hnetS : ¬ net.IP.String = "<nil>" := fun h => hnet ((IP_String_eq_nil_iff net.IP).mp h)
  have hnetE := IP_String_ne_empty net.IP hnet
  refine ⟨?_, ?_, ?_⟩
  · intro calls hc
    have key : ∀ os : List BuiltinOption,
        ((service.query net.IP.String (formatInt net.Mask.Size) "" ""
            (os.map BuiltinOption.toOption)).find "ip",
          (service.query net.IP.String (formatInt net.Mask.Size) "" ""
            (os.map BuiltinOption.toOption)).find "mask")
          = (some [net.IP.String], some [formatInt net.Mask.Size]) := by
      intro os
      have h1 := lookupParams_builtin service net.IP.String (formatInt net.Mask.Size) "" "" os
      rw [lookupParams_cidr _ _ _ hnetE (formatInt_ne_empty _)] at h1
      simp only [lookupParams, List.cons.injEq] at h1
      simp only [h1.2.1, h1.2.2.1]
    simp only [List.mem_cons, List.mem_singleton, List.not_mem_nil, or_false] at hc
    rcases hc with rfl | rfl
    · rw [GetByCIDR_eq, if_neg hnetS, parsedReturn_calls, sent_of_built _ _ _ _ _ _ hNew]
      have : bs.map BuiltinOption.toOption ++ [OptionOutputFormat "JSON"] =
          (bs ++ [BuiltinOption.outputFormat "JSON"]).map BuiltinOption.toOption := by
        simp [BuiltinOption.toOption]
      rw [this]
      simp only [List.map_cons, List.map_nil]
      rw [key]
    · rw [GetRawByCIDR_eq, if_neg hnetS, rawReturn_calls, sent_of_built _ _ _ _ _ _ hNew]
      simp only [List.map_cons, List.map_nil]
      rw [key]
  · intro ones hle hm
    have h := Size_prefixMask ones net.Mask.length hle
    rw [← hm] at h
    exact h
  · intro h
    have hs : net.Mask.Size = 0 := by
      rcases h with h | h
      · rw [h]; rfl
      · exact Size_of_not_prefix _ h
    have hz : IPMask.Size [0, 0, 0, 0] = 0 := by decide
    refine ⟨hs, ?_, ?_⟩
    · rw [GetByCIDR_eq, GetByCIDR_eq, hs, hz]
    · rw [GetRawByCIDR_eq, GetRawByCIDR_eq, hs, hz]

/-- Witness of C24: the mask 255.255.255.0 of the tests is sent as `mask=24`; the empty
mask and the mask 255.0.255.0 are sent as `mask=0` and the operation returns no error. -/
theorem cidr_sends_prefix_length_witness :
    (sentQueries ((newAPI 200 respOK).GetByCIDR ⟨[8, 8, 8, 8], [255, 255, 255, 0]⟩ []).calls).map
        (fun q => (q.find "ip", q.find "mask")) = [(some ["8.8.8.8"], some ["24"])] ∧
    (sentQueries ((newAPI 200 respOK).GetRawByCIDR ⟨[8, 8, 8, 8], []⟩ []).calls).map
        (fun q => (q.find "ip", q.find "mask")) = [(some ["8.8.8.8"], some ["0"])] ∧
    ((newAPI 200 respOK).GetRawByCIDR ⟨[8, 8, 8, 8], []⟩ []).err = none ∧
    (sentQueries ((newAPI 200 respOK).GetRawByCIDR ⟨[8, 8, 8, 8], [255, 0, 255, 0]⟩ []).calls).map
        (fun q => (q.find "ip", q.find "mask")) = [(some ["8.8.8.8"], some ["0"])] ∧
    ((newAPI 200 respOK).GetRawByCIDR ⟨[8, 8, 8, 8], [255, 0, 255, 0]⟩ []).err = none := by
  have h1 := (cidr_sends_prefix_length (newAPI 200 respOK) ⟨[8, 8, 8, 8], [255, 255, 255, 0]⟩
    [] [] rfl (by decide)).1 _ (List.mem_cons_self _ _)
  have h2 := (cidr_sends_prefix_length (newAPI 200 respOK) ⟨[8, 8, 8, 8], []⟩
    [] [] rfl (by decide)).1 _ (List.mem_cons_of_mem _ (List.mem_cons_self _ _))
  exact ⟨h1.trans (by decide), h2.trans (by decide), by decide, by decide, by decide⟩


/-! The options slice of the parsed operations. -/

theorem modify_last (h : Heap) (a : List (Option Option_))
    (f : List (Option Option_) → List (Option Option_)) :
    (h ++ [a]).modify f h.length = h ++ [f a] := by
  induction h with
  | nil => rfl
  | cons x rest ih =>
    show x :: (rest ++ [a]).modify f rest.length = x :: (rest ++ [f a])
    rw [ih]

theorem read_append_old (h : Heap) (arr : List (Option Option_)) (s : Slice)
    (hs : s.array < h.length) : Heap.read (h ++ [arr]) s = h.read s := by
  unfold Heap.read
  rw [List.getD_append _ _ _ _ hs]

theorem read_length_le (h : Heap) (s : Slice) : (h.read s).length ≤ s.len := by
  unfold Heap.read
  rw [List.length_take]
  exact Nat.min_le_left _ _

theorem read_last (h : Heap) (arr : List (Option Option_)) (n cap : Nat) :
    Heap.read (h ++ [arr]) ⟨h.length, 0, n, cap⟩ = arr.take n := by
  unfold Heap.read
  simp

/-- The heap after `optsJSON` is built: the arrays that were there are followed by one
new array; the caller's slice reads as before, and `optsJSON` reads as the caller's
options followed by `OptionOutputFormat("JSON")`. -/
theorem buildOptsJSON_spec (h : Heap) (opts : Slice) (hs : opts.array < h.length) :
    (∃ arr, (buildOptsJSON h opts).1 = h ++ [arr]) ∧
    (buildOptsJSON h opts).1.read opts = h.read opts ∧
    (buildOptsJSON h opts).1.read (buildOptsJSON h opts).2 =
      h.read opts ++ [some (OptionOutputFormat "JSON")] := by
  have hlen := read_length_le h opts
  have e1 : (h.make (opts.len + 1)).1.read opts = h.read opts :=
    read_append_old h _ opts hs
  have step1 : (h.make (opts.len + 1)).1.append (h.make (opts.len + 1)).2 (h.read opts)
      = (h ++ [h.read opts ++ List.replicate (opts.len + 1 - (h.read opts).length) none],
          ⟨h.length, 0, (h.read opts).length, opts.len + 1⟩) := by
    unfold Heap.append Heap.make
    simp only
    rw [if_pos (by omega), modify_last]
    simp
  have step2 : buildOptsJSON h opts
      = (h ++ [h.read opts ++ [some (OptionOutputFormat "JSON")]
            ++ List.replicate (opts.len - (h.read opts).length) none],
          ⟨h.length, 0, (h.read opts).length + 1, opts.len + 1⟩) := by
    unfold buildOptsJSON
    simp only
    rw [e1, step1]
    unfold Heap.append
    simp only [List.length_singleton]
    rw [if_pos (by omega), modify_last]
    have e2 : opts.len + 1 - (h.read opts).length = (opts.len - (h.read opts).length) + 1 := by
      omega
    rw [Nat.zero_add, List.take_left' rfl, List.drop_append, e2, List.replicate_succ]
    rfl
  rw [step2]
  refine ⟨⟨_, rfl⟩, read_append_old h _ opts hs, ?_⟩
  rw [read_last]
  have e : h.read opts ++ [some (OptionOutputFormat "JSON")]
        ++ List.replicate (opts.len - (h.read opts).length) none
      = (h.read opts ++ [some (OptionOutputFormat "JSON")])
        ++ List.replicate (opts.len - (h.read opts).length) none := rfl
  rw [e, List.take_left' (by simp)]

/-- C25: for every lookup key, valid or not, and every list of caller options `opts`,
the calls a parsed operation makes to its client, the request it sends included, are
those of the corresponding raw operation called with `opts` followed by
`OptionOutputFormat("JSON")`. The caller's slice is not modified: `optsJSON` is built in
a new array, every array that was in memory stays as it was, the caller's slice reads as
before, and `optsJSON` reads as `opts` followed by `OptionOutputFormat("JSON")`. -/
theorem parsed_sends_as_raw_with_json (service : ipNetblocksServiceOp) (ip : IP) (net : IPNet)
    (asn : Int) (org : String) (opts : List Option_) (h : Heap) (s : Slice)
    (hs : s.array < h.length) (hr : h.read s = opts.map some) :
    (service.GetByIP ip opts).calls
      = (service.GetRawByIP ip (opts ++ [OptionOutputFormat "JSON"])).calls ∧
    (service.GetByCIDR net opts).calls
      = (service.GetRawByCIDR net (opts ++ [OptionOutputFormat "JSON"])).calls ∧
    (service.GetByASN asn opts).calls
      = (service.GetRawByASN asn (opts ++ [OptionOutputFormat "JSON"])).calls ∧
    (service.GetByOrg org opts).calls
      = (service.GetRawByOrg org (opts ++ [OptionOutputFormat "JSON"])).calls ∧
    (∃ arr, (buildOptsJSON h s).1 = h ++ [arr]) ∧
    (buildOptsJSON h s).1.read s = opts.map some ∧
    (buildOptsJSON h s).1.read (buildOptsJSON h s).2 =
      (opts ++ [OptionOutputFormat "JSON"]).map some := by
  have hb := buildOptsJSON_spec h s hs
  refine ⟨?_, ?_, ?_, ?_, hb.1, hb.2.1.trans hr, ?_⟩
  · rw [GetByIP_eq, GetRawByIP_eq]
    split
    · rfl
    · rw [parsedReturn_calls, rawReturn_calls]
  · rw [GetByCIDR_eq, GetRawByCIDR_eq]
    split
    · rfl
    · rw [parsedReturn_calls, rawReturn_calls]
  · rw [GetByASN_eq, GetRawByASN_eq]
    split
    · rfl
    · rw [parsedReturn_calls, rawReturn_calls]
  · rw [GetByOrg_eq, GetRawByOrg_eq]
    split
    · rfl
    · rw [parsedReturn_calls, rawReturn_calls]
  · rw [hb.2.2, hr, List.map_append]
    rfl

/-- Witness of C25: the caller's slice holds `OptionLimit(5)` in an array with one spare
slot; `optsJSON` is written to a second array and the first is left as it was. -/
theorem parsed_sends_as_raw_with_json_witness :
    ((newAPI 200 respOK).GetByIP [8, 8, 8, 8] [OptionLimit 5]).calls
      = ((newAPI 200 respOK).GetRawByIP [8, 8, 8, 8]
          ([OptionLimit 5] ++ [OptionOutputFormat "JSON"])).calls ∧
    (∃ arr, (buildOptsJSON [[some (OptionLimit 5), none]] ⟨0, 0, 1, 2⟩).1
      = [[some (OptionLimit 5), none]] ++ [arr]) ∧
    (buildOptsJSON [[some (OptionLimit 5), none]] ⟨0, 0, 1, 2⟩).1.read
        (buildOptsJSON [[some (OptionLimit 5), none]] ⟨0, 0, 1, 2⟩).2
      = ([OptionLimit 5] ++ [OptionOutputFormat "JSON"]).map some :=
  have h := parsed_sends_as_raw_with_json (newAPI 200 respOK) [8, 8, 8, 8]
    ⟨[8, 8, 8, 8], [255, 255, 255, 0]⟩ 0 "Amazon" [OptionLimit 5]
    [[some (OptionLimit 5), none]] ⟨0, 0, 1, 2⟩ (by decide) rfl
  ⟨h.1, h.2.2.2.2.1, h.2.2.2.2.2.2⟩


/-! The failure paths and the empty bodies. -/

/-- What holds of the return of the shared tail for every request holds of the four
parsed operations on valid keys. -/
theorem parsed_ops_of_tail (service : ipNetblocksServiceOp) (ip : IP) (net : IPNet) (asn : Int)
    (org : String) (opts : List Option_) (hip : ip ≠ []) (hnet : net.IP ≠ [])
    (hasn : 0 ≤ asn ∧ asn ≤ 4294967295) (horg : org ≠ "") (P : ParsedReturn → Prop)
    (h : ∀ ip mask asn org os, P (parsedReturn (service.request ip mask asn org os))) :
    ∀ r ∈ [service.GetByIP ip opts, service.GetByCIDR net opts, service.GetByASN asn opts,
      service.GetByOrg org opts], P r := by
  have hipS : ¬ ip.String = "<nil>" := fun h => hip ((IP_String_eq_nil_iff ip).mp h)
  have hnetS : ¬ net.IP.String = "<nil>" := fun h => hnet ((IP_String_eq_nil_iff net.IP).mp h)
  have hv : validateASN asn = none := by
    rw [validateASN_eq, if_pos hasn]
  intro r hr
  simp only [List.mem_cons, List.mem_singleton, List.not_mem_nil, or_false] at hr
  rcases hr with rfl | rfl | rfl | rfl
  · rw [GetByIP_eq, if_neg hipS]; exact h _ _ _ _ _
  · rw [GetByCIDR_eq, if_neg hnetS]; exact h _ _ _ _ _
  · rw [GetByASN_eq, hv]; exact h _ _ _ _ _
  · rw [GetByOrg_eq, if_neg horg]; exact h _ _ _ _ _

theorem raw_ops_of_tail (service : ipNetblocksServiceOp) (ip : IP) (net : IPNet) (asn : Int)
    (org : String) (opts : List Option_) (hip : ip ≠ []) (hnet : net.IP ≠ [])
    (hasn : 0 ≤ asn ∧ asn ≤ 4294967295) (horg : org ≠ "") (P : RawReturn → Prop)
    (h : ∀ ip mask asn org os, P (rawReturn (service.request ip mask asn org os))) :
    ∀ r ∈ [service.GetRawByIP ip opts, service.GetRawByCIDR net opts,
      service.GetRawByASN asn opts, service.GetRawByOrg org opts], P r := by
  have hipS : ¬ ip.String = "<nil>" := fun h => hip ((IP_String_eq_nil_iff ip).mp h)
  have hnetS : ¬ net.IP.String = "<nil>" := fun h => hnet ((IP_String_eq_nil_iff net.IP).mp h)
  have hv : validateASN asn = none := by
    rw [validateASN_eq, if_pos hasn]
  intro r hr
  simp only [List.mem_cons, List.mem_singleton, List.not_mem_nil, or_false] at hr
  rcases hr with rfl | rfl | rfl | rfl
  · rw [GetRawByIP_eq, if_neg hipS]; exact h _ _ _ _ _
  · rw [GetRawByCIDR_eq, if_neg hnetS]; exact h _ _ _ _ _
  · rw [GetRawByASN_eq, hv]; exact h _ _ _ _ _
  · rw [GetRawByOrg_eq, if_neg horg]; exact h _ _ _ _ _

theorem request_of_do_failure (service : ipNetblocksServiceOp) (resp : Option HttpResponse)
    (b : Bytes) (e : Error) (hNew : service.client.NewRequest service.baseURL = none)
    (hDo : ∀ req, service.client.Do req = .fail resp b e) (ip mask asn org : String)
    (opts : List Option_) :
    service.request ip mask asn org opts =
      ⟨some ⟨resp, b⟩, some e, [.NewRequest service.baseURL,
        .Do ⟨service.baseURL, service.query ip mask asn org opts⟩]⟩ := by
  rw [request_eq, hNew]
  simp only [hDo]

/-- When `NewRequest` fails, before anything is sent, `request` returns its error with a
nil Response. -/
theorem request_of_newRequest_failure (service : ipNetblocksServiceOp) (e : Error)
    (hNew : service.client.NewRequest service.baseURL = some e) (ip mask asn org : String)
    (opts : List Option_) :
    service.request ip mask asn org opts = ⟨none, some e, [.NewRequest service.baseURL]⟩ := by
  rw [request_eq, hNew]

/-- C26: when the request is built and `Do` fails with the error `e` after having
received the response `resp` (nil or not) and buffered the bytes `b`, `request` returns,
for every key and options, `e` with a Response that is not nil, whose Body is `b` and
whose embedded response is `resp`; each of the eight operations on a valid key returns
that Response with `e`, and the parsed ones no result. -/
theorem transport_failure_keeps_response (service : ipNetblocksServiceOp)
    (resp : Option HttpResponse) (b : Bytes) (e : Error) (ip : IP) (net : IPNet) (asn : Int)
    (org : String) (opts : List Option_)
    (hNew : service.client.NewRequest service.baseURL = none)
    (hDo : ∀ req, service.client.Do req = .fail resp b e)
    (hip : ip ≠ []) (hnet : net.IP ≠ []) (hasn : 0 ≤ asn ∧ asn ≤ 4294967295)
    (horg : org ≠ "") :
    (∀ i m a o os, (service.request i m a o os).resp = some ⟨resp, b⟩ ∧
      (service.request i m a o os).err = some e) ∧
    (∀ r ∈ [service.GetByIP ip opts, service.GetByCIDR net opts, service.GetByASN asn opts,
        service.GetByOrg org opts],
      r.resp = some ⟨resp, b⟩ ∧ r.err = some e ∧ r.ipNetblocksResponse = none) ∧
    (∀ r ∈ [service.GetRawByIP ip opts, service.GetRawByCIDR net opts,
        service.GetRawByASN asn opts, service.GetRawByOrg org opts],
      r.resp = some ⟨resp, b⟩ ∧ r.err = some e) := by
  refine ⟨?_, ?_, ?_⟩
  · intro ip mask asn org os
    rw [request_of_do_failure service resp b e hNew hDo]
    exact ⟨rfl, rfl⟩
  · apply parsed_ops_of_tail service ip net asn org opts hip hnet hasn horg
    intro ip mask asn org os
    rw [request_of_do_failure service resp b e hNew hDo]
    exact ⟨rfl, rfl, rfl⟩
  · apply raw_ops_of_tail service ip net asn org opts hip hnet hasn horg
    intro ip mask asn org os
    rw [request_of_do_failure service resp b e hNew hDo]
    exact ⟨rfl, rfl⟩


/-- Witness of C26: `Do` fails with "cannot read response: unexpected EOF" after the
status 200 and a part of the body, or before any response. -/
theorem transport_failure_keeps_response_witness :
    ((failingAPI (some ⟨200, []⟩) respPartial
        (.transport "cannot read response: unexpected EOF")).GetRawByIP [8, 8, 8, 8] []).resp
      = some ⟨some ⟨200, []⟩, respPartial⟩ ∧
    ((failingAPI none [] (.transport "connection refused")).GetByOrg "Amazon" []).resp
      = some ⟨none, []⟩ :=
  ⟨((transport_failure_keeps_response (failingAPI (some ⟨200, []⟩) respPartial
      (.transport "cannot read response: unexpected EOF")) (some ⟨200, []⟩) respPartial
      (.transport "cannot read response: unexpected EOF") [8, 8, 8, 8]
      ⟨[8, 8, 8, 8], [255, 255, 255, 0]⟩ 15169 "Amazon" [] rfl (fun _ => rfl)
      (by decide) (by decide) (by decide) (by decide)).2.2 _ (List.mem_cons_self _ _)).1,
    ((transport_failure_keeps_response (failingAPI none [] (.transport "connection refused"))
      none [] (.transport "connection refused") [8, 8, 8, 8]
      ⟨[8, 8, 8, 8], [255, 255, 255, 0]⟩ 15169 "Amazon" [] rfl (fun _ => rfl)
      (by decide) (by decide) (by decide) (by decide)).2.1 _
      (List.mem_cons_of_mem _ (List.mem_cons_of_mem _ (List.mem_cons_of_mem _
        (List.mem_cons_self _ _))))).1⟩

/-- C28: when the transport succeeds and the body decodes to a value whose messages is
not empty or whose code is not zero, each parsed operation on a valid key returns a nil
result, a nil Response and the `ErrorMessage` with that code and messages: the response
and the body that were read are not returned. On the two other failure paths the
Response comes with the error: with the body when the body does not decode, and with the
bytes buffered when `Do` fails. -/
theorem api_error_drops_response (service : ipNetblocksServiceOp) (resp : HttpResponse)
    (b : Bytes) (v : apiResponse) (ip : IP) (net : IPNet) (asn : Int) (org : String)
    (opts : List Option_) (hT : Delivers service resp b) (hdec : jsonDecode b = .ok v)
    (hapi : v.ErrorMessage.Message ≠ "" ∨ v.ErrorMessage.Code ≠ 0)
    (hip : ip ≠ []) (hnet : net.IP ≠ []) (hasn : 0 ≤ asn ∧ asn ≤ 4294967295)
    (horg : org ≠ "") :
    (∀ r ∈ [service.GetByIP ip opts, service.GetByCIDR net opts, service.GetByASN asn opts,
        service.GetByOrg org opts],
      r.ipNetblocksResponse = none ∧ r.resp = none ∧
        r.err = some (.api ⟨v.ErrorMessage.Code, v.ErrorMessage.Message⟩)) ∧
    (∀ (other : ipNetblocksServiceOp) (b2 : Bytes) (d : DecodeError),
      Delivers other resp b2 → jsonDecode b2 = .error d →
      ∀ r ∈ [other.GetByIP ip opts, other.GetByCIDR net opts, other.GetByASN asn opts,
          other.GetByOrg org opts],
        r.resp = some ⟨some resp, b2⟩ ∧ r.err = some (.parse d)) ∧
    (∀ (other : ipNetblocksServiceOp) (resp2 : Option HttpResponse) (b2 : Bytes) (e : Error),
      other.client.NewRequest other.baseURL = none →
      (∀ req, other.client.Do req = .fail resp2 b2 e) →
      ∀ r ∈ [other.GetByIP ip opts, other.GetByCIDR net opts, other.GetByASN asn opts,
          other.GetByOrg org opts],
        r.resp = some ⟨resp2, b2⟩ ∧ r.err = some e) := by
  refine ⟨?_, ?_, ?_⟩
  · apply parsed_ops_of_tail service ip net asn org opts hip hnet hasn horg
    intro i m a o os
    rw [request_of_delivers service resp b hT,
      parsedReturn_of_decoded ⟨some resp, b⟩ _ v hdec, if_pos hapi]
    exact ⟨rfl, rfl, rfl⟩
  · intro other b2 d hT2 hd
    apply parsed_ops_of_tail other ip net asn org opts hip hnet hasn horg
    intro i m a o os
    rw [request_of_delivers other resp b2 hT2,
      parsedReturn_of_undecoded ⟨some resp, b2⟩ _ d hd]
    exact ⟨rfl, rfl⟩
  · intro other resp2 b2 e hNew hDo
    apply parsed_ops_of_tail other ip net asn org opts hip hnet hasn horg
    intro i m a o os
    rw [request_of_do_failure other resp2 b2 e hNew hDo]
    exact ⟨rfl, rfl⟩

/-- Witness of C28: the error body of the tests, with code 499. -/
theorem api_error_drops_response_witness :
    ((newAPI 499 errResp).GetByIP [8, 8, 8, 8] []).ipNetblocksResponse = none ∧
    ((newAPI 499 errResp).GetByIP [8, 8, 8, 8] []).resp = none ∧
    ((newAPI 499 errResp).GetByIP [8, 8, 8, 8] []).err
      = some (.api ⟨499, "Test error message."⟩) :=
  (api_error_drops_response (newAPI 499 errResp) ⟨499, []⟩ errResp
    ⟨IPNetblocksResponse.zero, ⟨499, "Test error message."⟩⟩ [8, 8, 8, 8]
    ⟨[8, 8, 8, 8], [255, 255, 255, 0]⟩ 15169 "Amazon" [] (newAPI_delivers _ _) (by decide)
    (by decide) (by decide) (by decide) (by decide) (by decide)).1 _ (List.mem_cons_self _ _)

theorem apiResponse_frame_errorText (ctx : Ctx) :
    ∀ n ∈ apiResponse.names, n ∉ ["error"] → ∀ j cur s v s2,
      apiResponse.setField ctx n j cur s = .ok (v, s2) →
        v.IPNetblocksResponse.Error = cur.IPNetblocksResponse.Error := by
  intro n hn hnt j cur s v s2 h
  simp only [apiResponse.names, List.mem_cons, List.mem_singleton, List.not_mem_nil,
    or_false, not_or] at hn hnt
  rcases hn with rfl | rfl | rfl | rfl | rfl
  · unfold apiResponse.setField at h
    simp only [String.reduceEq, ↓reduceIte] at h
    obtain ⟨w, _, hv⟩ := withField_ok _ _ _ _ h
    rw [hv]
  · unfold apiResponse.setField at h
    simp only [String.reduceEq, ↓reduceIte] at h
    obtain ⟨w, _, hv⟩ := withField_ok _ _ _ _ h
    rw [hv]
  · exact absurd rfl hnt
  · unfold apiResponse.setField at h
    simp only [String.reduceEq, ↓reduceIte] at h
    obtain ⟨w, _, hv⟩ := withField_ok _ _ _ _ h
    rw [hv]
  · unfold apiResponse.setField at h
    simp only [String.reduceEq, ↓reduceIte] at h
    obtain ⟨w, _, hv⟩ := withField_ok _ _ _ _ h
    rw [hv]

theorem errorText_of_member (ms : List (String × JSON)) (v : apiResponse) (x : String)
    (h : members apiResponse.names (apiResponse.setField Ctx.top) ms apiResponse.zero none
      = .ok (v, none))
    (hx : OnlyMember apiResponse.names ms "error" (.string x)) :
    v.IPNetblocksResponse.Error = x := by
  obtain ⟨cur1, cur2, _, hset, hv⟩ := members_only apiResponse.names
    (apiResponse.setField Ctx.top) (fun a => a.IPNetblocksResponse.Error) "error"
    (apiResponse_setField_mono Ctx.top) (apiResponse_frame_errorText Ctx.top) ms _ hx _ v h
  rw [hv]
  unfold apiResponse.setField at hset
  simp only [String.reduceEq, ↓reduceIte] at hset
  obtain ⟨w, hw, hc⟩ := withField_ok _ _ _ _ hset
  simp only [decodeString, Except.ok.injEq, Prod.mk.injEq] at hw
  rw [hc, ← hw.1]

/-- C29: when the transport succeeds and the body decodes to a value whose code is 0 and
whose messages is empty, each parsed operation on a valid key returns a nil error, the
raw Response and the decoded result; when the body is an object with one `error` member,
a string, the field `Error` of that result is that string. A top-level `error` alone so
does not make a failure. -/
theorem error_text_alone_is_success (service : ipNetblocksServiceOp) (resp : HttpResponse)
    (b : Bytes) (v : apiResponse) (ip : IP) (net : IPNet) (asn : Int) (org : String)
    (opts : List Option_) (hT : Delivers service resp b) (hdec : jsonDecode b = .ok v)
    (hcode : v.ErrorMessage.Code = 0) (hmsg : v.ErrorMessage.Message = "")
    (hip : ip ≠ []) (hnet : net.IP ≠ []) (hasn : 0 ≤ asn ∧ asn ≤ 4294967295)
    (horg : org ≠ "") :
    (∀ r ∈ [service.GetByIP ip opts, service.GetByCIDR net opts, service.GetByASN asn opts,
        service.GetByOrg org opts],
      r.err = none ∧ r.resp = some ⟨some resp, b⟩ ∧
        r.ipNetblocksResponse = some v.IPNetblocksResponse) ∧
    (∀ ms x, scanBody b = .ok (.object ms) →
      OnlyMember apiResponse.names ms "error" (.string x) → v.IPNetblocksResponse.Error = x) := by
  have hno : ¬ (v.ErrorMessage.Message ≠ "" ∨ v.ErrorMessage.Code ≠ 0) := by
    rw [hcode, hmsg]; simp
  refine ⟨?_, ?_⟩
  · apply parsed_ops_of_tail service ip net asn org opts hip hnet hasn horg
    intro i m a o os
    rw [request_of_delivers service resp b hT,
      parsedReturn_of_decoded ⟨some resp, b⟩ _ v hdec, if_neg hno]
    exact ⟨rfl, rfl, rfl⟩
  · intro ms x hscan hx
    exact errorText_of_member ms v x (jsonDecode_object b ms v hscan hdec) hx

/-- Witness of C29: a body with an `error` text alone, and one with code 0 and empty
messages beside it. -/
theorem error_text_alone_is_success_witness :
    (((newAPI 200 (bytesOf "\x7b\"error\":\"Invalid request\"\x7d")).GetByIP
        [8, 8, 8, 8] []).err = none ∧
      ((newAPI 200 (bytesOf "\x7b\"error\":\"Invalid request\"\x7d")).GetByIP
        [8, 8, 8, 8] []).ipNetblocksResponse
        = some ⟨"", Result.zero, "Invalid request"⟩) ∧
    (((newAPI 200 (bytesOf
          "\x7b\"code\":0,\"messages\":\"\",\"error\":\"Invalid request\"\x7d")).GetByASN
        15169 []).err = none ∧
      ((newAPI 200 (bytesOf
          "\x7b\"code\":0,\"messages\":\"\",\"error\":\"Invalid request\"\x7d")).GetByASN
        15169 []).ipNetblocksResponse
        = some ⟨"", Result.zero, "Invalid request"⟩) := by
  have h1 := (error_text_alone_is_success
    (newAPI 200 (bytesOf "\x7b\"error\":\"Invalid request\"\x7d")) ⟨200, []⟩
    (bytesOf "\x7b\"error\":\"Invalid request\"\x7d")
    ⟨⟨"", Result.zero, "Invalid request"⟩, ⟨0, ""⟩⟩ [8, 8, 8, 8]
    ⟨[8, 8, 8, 8], [255, 255, 255, 0]⟩ 15169 "Amazon" [] (newAPI_delivers _ _) (by decide)
    rfl rfl (by decide) (by decide) (by decide) (by decide)).1 _ (List.mem_cons_self _ _)
  have h2 := (error_text_alone_is_success
    (newAPI 200 (bytesOf
      "\x7b\"code\":0,\"messages\":\"\",\"error\":\"Invalid request\"\x7d")) ⟨200, []⟩
    (bytesOf "\x7b\"code\":0,\"messages\":\"\",\"error\":\"Invalid request\"\x7d")
    ⟨⟨"", Result.zero, "Invalid request"⟩, ⟨0, ""⟩⟩ [8, 8, 8, 8]
    ⟨[8, 8, 8, 8], [255, 255, 255, 0]⟩ 15169 "Amazon" [] (newAPI_delivers _ _) (by decide)
    rfl rfl (by decide) (by decide) (by decide) (by decide)).1 _
    (List.mem_cons_of_mem _ (List.mem_cons_of_mem _ (List.mem_cons_self _ _)))
  exact ⟨⟨h1.1, h1.2.2⟩, ⟨h2.1, h2.2.2⟩⟩

/-- C30: for the bodies `{}` and `null`, `parse` returns the zero `apiResponse` and no
error, and when the transport succeeds with such a body each parsed operation on a valid
key returns a nil error and a result whose fields are all zero: `search` and `error`
empty, `count` and `limit` 0, `from` and `next` nil, no inetnums. -/
theorem empty_bodies_give_zero_result (service : ipNetblocksServiceOp) (resp : HttpResponse)
    (b : Bytes) (ip : IP) (net : IPNet) (asn : Int) (org : String) (opts : List Option_)
    (hT : Delivers service resp b) (hb : b = bytesOf "\x7b\x7d" ∨ b = bytesOf "null")
    (hip : ip ≠ []) (hnet : net.IP ≠ []) (hasn : 0 ≤ asn ∧ asn ≤ 4294967295)
    (horg : org ≠ "") :
    parse b = (some apiResponse.zero, none) ∧
    (∀ r ∈ [service.GetByIP ip opts, service.GetByCIDR net opts, service.GetByASN asn opts,
        service.GetByOrg org opts],
      r.err = none ∧
        r.ipNetblocksResponse = some ⟨"", ⟨0, 0, none, none, []⟩, ""⟩) := by
  have hdec : jsonDecode b = .ok apiResponse.zero := by
    rcases hb with rfl | rfl <;> decide
  refine ⟨?_, ?_⟩
  · simp only [parse, hdec]
  · apply parsed_ops_of_tail service ip net asn org opts hip hnet hasn horg
    intro i m a o os
    rw [request_of_delivers service resp b hT,
      parsedReturn_of_decoded ⟨some resp, b⟩ _ apiResponse.zero hdec]
    exact ⟨rfl, rfl⟩

/-- Witness of C30: GetByIP on the body `{}` and GetByOrg on the body `null`. -/
theorem empty_bodies_give_zero_result_witness :
    (((newAPI 200 (bytesOf "\x7b\x7d")).GetByIP [8, 8, 8, 8] []).err = none ∧
      ((newAPI 200 (bytesOf "\x7b\x7d")).GetByIP [8, 8, 8, 8] []).ipNetblocksResponse
        = some ⟨"", ⟨0, 0, none, none, []⟩, ""⟩) ∧
    (((newAPI 200 (bytesOf "null")).GetByOrg "Amazon" []).err = none ∧
      ((newAPI 200 (bytesOf "null")).GetByOrg "Amazon" []).ipNetblocksResponse
        = some ⟨"", ⟨0, 0, none, none, []⟩, ""⟩) :=
  ⟨(empty_bodies_give_zero_result (newAPI 200 (bytesOf "\x7b\x7d")) ⟨200, []⟩
      (bytesOf "\x7b\x7d") [8, 8, 8, 8] ⟨[8, 8, 8, 8], [255, 255, 255, 0]⟩ 15169 "Amazon" []
      (newAPI_delivers _ _) (Or.inl rfl) (by decide) (by decide) (by decide) (by decide)).2 _
      (List.mem_cons_self _ _),
    (empty_bodies_give_zero_result (newAPI 200 (bytesOf "null")) ⟨200, []⟩
      (bytesOf "null") [8, 8, 8, 8] ⟨[8, 8, 8, 8], [255, 255, 255, 0]⟩ 15169 "Amazon" []
      (newAPI_delivers _ _) (Or.inr rfl) (by decide) (by decide) (by decide) (by decide)).2 _
      (List.mem_cons_of_mem _ (List.mem_cons_of_mem _ (List.mem_cons_of_mem _
        (List.mem_cons_self _ _))))⟩


/-! The texts `Time.UnmarshalJSON` rejects. -/

/-- The grammar on examples: the time of the tests and a time with a fraction and an
offset are valid; a one-digit hour, a day that does not exist, a text without `T`, a text
without an offset and a fraction without digits are not. The lax reading takes the
one-digit hour, the comma and the offset `+24:60`, and nothing else of these. -/
theorem isRFC3339_examples :
    isRFC3339 "2014-03-14T00:00:00Z" = true ∧
    isRFC3339 "2014-03-14T00:00:00.123+01:30" = true ∧
    isRFC3339 "2014-03-14T1:00:00Z" = false ∧
    isRFC3339 "2014-02-29T01:00:00Z" = false ∧
    isRFC3339 "2006-01-02 15:04:05 EST" = false ∧
    isRFC3339 "2014-03-14T01:00:00" = false ∧
    isRFC3339 "2014-03-14T01:00:00.Z" = false ∧
    isRFC3339 "2014-03-14T01:00:00,5Z" = false ∧
    isRFC3339 "2014-03-14T01:00:00+24:60" = false ∧
    isRFC3339Lax "2014-03-14T1:00:00Z" = true ∧
    isRFC3339Lax "2014-03-14T01:00:00,5Z" = true ∧
    isRFC3339Lax "2014-03-14T01:00:00+24:60" = true ∧
    isRFC3339Lax "2014-02-29T01:00:00Z" = false ∧
    isRFC3339Lax "2006-01-02 15:04:05 EST" = false ∧
    isRFC3339Lax "2014-03-14T01:00:00+25:00" = false := by
  decide

theorem skipChar_some (v : List Char) (c : Char) (r : List Char) (h : skipChar v c = some r) :
    v = c :: r := by
  cases v with
  | nil => cases h
  | cons a rest =>
    simp only [skipChar] at h
    split at h
    · rename_i hac; cases h; rw [hac]
    · cases h

theorem getnum_fixed (v : List Char) (n : Nat) (r : List Char)
    (h : getnum v true = some (n, r)) : rfcTwoDigits v = some (n, r) := by
  unfold getnum at h
  unfold rfcTwoDigits
  split at h
  · rename_i a rest
    split at h
    · rename_i ha
      split at h
      · rename_i b rest1
        split at h
        · rename_i hb
          simp only [ha, hb, and_self, if_true]
          exact h
        · simp at h
      · simp at h
    · cases h
  · cases h

theorem getnum_free (v : List Char) (n : Nat) (r : List Char)
    (h : getnum v false = some (n, r)) : rfcHour true v = some (n, r) := by
  unfold getnum at h
  unfold rfcHour
  split at h
  · rename_i a rest
    split at h
    · rename_i ha
      split at h
      · rename_i b rest1
        split at h
        · rename_i hb
          simp only [ha, hb, and_self, if_true]
          exact h
        · rename_i hb
          simp only [ha, hb, and_false, if_false, and_self, if_true]
          simpa using h
      · simp only [ha, and_self, if_true]
        simpa using h
    · cases h
  · cases h


theorem rfcTwoDigits_cons (a b : Char) (r r2 : List Char) (n : Nat)
    (h : rfcTwoDigits (a :: b :: r) = some (n, r2)) :
    isDigitChar a = true ∧ isDigitChar b = true ∧ n = digitVal a * 10 + digitVal b ∧ r2 = r := by
  simp only [rfcTwoDigits] at h
  split at h
  · rename_i hd
    simp only [Option.some.injEq, Prod.mk.injEq] at h
    exact ⟨hd.1, hd.2, h.1.symm, h.2.symm⟩
  · cases h

theorem parseZone_ok (str : String) (f : Fields) (value : List Char) (t : Time)
    (h : parseZone str f value = .ok t) :
    rfcOffset true value = true ∧ 1 ≤ f.day ∧ f.day ≤ daysIn f.month f.year := by
  unfold parseZone at h
  simp only at h
  split at h
  · -- Z
    rename_i rest
    split at h
    · cases h
    · rename_i hrest
      split at h
      · cases h
      · rename_i hday
        have : rest = [] := by simpa using hrest
        subst this
        refine ⟨by simp [rfcOffset], by omega, by omega⟩
  · rename_i hZ
    split at h
    · cases h
    · rename_i hlen
      split at h
      · cases h
      · rename_i hcolon
        split at h
        · cases h
        · rename_i hr r1 hhr
          split at h
          · split at h <;> cases h
          · rename_i mm r2 hmm
            split at h
            · cases h
            · rename_i hmm60
              split at h
              · cases h
              · rename_i hhr24
                have key : (value.get? 0 = some '+' ∨ value.get? 0 = some '-') ∧
                    value.drop 6 = [] ∧ ¬ (f.day < 1 ∨ daysIn f.month f.year < f.day) := by
                  split at h
                  · rename_i hs
                    split at h
                    · cases h
                    · rename_i hd
                      split at h
                      · cases h
                      · rename_i hday
                        exact ⟨Or.inl hs, by simpa using hd, hday⟩
                  · split at h
                    · rename_i hs
                      split at h
                      · cases h
                      · rename_i hd
                        split at h
                        · cases h
                        · rename_i hday
                          exact ⟨Or.inr hs, by simpa using hd, hday⟩
                    · cases h
                obtain ⟨hsign, hdrop, hday⟩ := key
                have hl6 : value.length = 6 := by
                  have := congrArg List.length hdrop
                  simp only [List.length_drop, List.length_nil] at this
                  omega
                obtain ⟨a, b, c, d, e, g, rfl⟩ : ∃ a b c d e g, value = [a, b, c, d, e, g] := by
                  match value, hl6 with
                  | [a, b, c, d, e, g], _ => exact ⟨a, b, c, d, e, g, rfl⟩
                have hd : d = ':' := by simpa using hcolon
                subst hd
                have h1 := getnum_fixed _ _ _ hhr
                have h2 := getnum_fixed _ _ _ hmm
                simp only [List.drop, List.take] at h1 h2
                have ha : a = '+' ∨ a = '-' := by simpa using hsign
                obtain ⟨hb, hc, hhv, _⟩ := rfcTwoDigits_cons _ _ _ _ _ h1
                obtain ⟨he, hg, hmv, _⟩ := rfcTwoDigits_cons _ _ _ _ _ h2
                refine ⟨?_, by omega, by omega⟩
                have b1 : digitVal b * 10 + digitVal c ≤ 24 := by omega
                have b2 : digitVal e * 10 + digitVal g ≤ 60 := by omega
                simp only [rfcOffset, rfcTwoDigits, hb, hc, he, hg, and_self, if_true, ha, b1, b2,
                  decide_True]


theorem parseAfterYear_ok (str : String) (year : Nat) (value : List Char) (t : Time)
    (h : parseAfterYear str year value = .ok t) :
    ∃ r1 month r2 day r3, value = '-' :: r1 ∧ rfcTwoDigits r1 = some (month, '-' :: r2) ∧
      rfcTwoDigits r2 = some (day, 'T' :: r3) ∧ 1 ≤ month ∧ month ≤ 12 ∧ 1 ≤ day ∧
      day ≤ daysIn month year ∧ rfcTime true r3 = true := by
  unfold parseAfterYear at h
  simp only at h
  split at h
  · cases h
  rename_i v1 hv1
  split at h
  · cases h
  rename_i month v2 hmonth
  split at h
  · cases h
  rename_i hmr
  split at h
  · cases h
  rename_i v3 hv3
  split at h
  · cases h
  rename_i day v4 hday
  split at h
  · cases h
  rename_i v5 hv5
  split at h
  · cases h
  rename_i hour v6 hhour
  split at h
  · cases h
  rename_i hhr
  split at h
  · cases h
  rename_i v7 hv7
  split at h
  · cases h
  rename_i min v8 hmin
  split at h
  · cases h
  rename_i hminr
  split at h
  · cases h
  rename_i v9 hv9
  split at h
  · cases h
  rename_i sec v10 hsec
  split at h
  · cases h
  rename_i hsecr
  have e1 := skipChar_some _ _ _ hv1
  have e3 := skipChar_some _ _ _ hv3
  have e5 := skipChar_some _ _ _ hv5
  have e7 := skipChar_some _ _ _ hv7
  have e9 := skipChar_some _ _ _ hv9
  have g1 := getnum_fixed _ _ _ hmonth
  have g2 := getnum_fixed _ _ _ hday
  have g3 := getnum_free _ _ _ hhour
  have g4 := getnum_fixed _ _ _ hmin
  have g5 := getnum_fixed _ _ _ hsec
  have hz : rfcOffset true (rfcAfterFraction true v10) = true ∧ 1 ≤ day ∧
      day ≤ daysIn month year := by
    split at h
    · rename_i sep d more
      split at h
      · rename_i hc
        have hz := parseZone_ok _ _ _ _ h
        have hf : rfcAfterFraction true (sep :: d :: more) = more.dropWhile isDigitChar := by
          rcases hc.1 with hs | hs <;> simp [rfcAfterFraction, hs, hc.2]
        rw [hf]
        exact hz
      · rename_i hc
        have hz := parseZone_ok _ _ _ _ h
        have hf : rfcAfterFraction true (sep :: d :: more) = sep :: d :: more := by
          simp only [rfcAfterFraction, true_and]
          rw [if_neg]
          simpa using hc
        rw [hf]
        exact hz
    · rename_i hne
      have hz := parseZone_ok _ _ _ _ h
      have hf : rfcAfterFraction true v10 = v10 := by
        unfold rfcAfterFraction
        split
        · rename_i sep d rest
          exact absurd rfl (hne sep d rest)
        · rfl
      rw [hf]
      exact hz
  refine ⟨v1, month, v3, day, v5, e1, ?_, ?_, by omega, by omega, hz.2.1, hz.2.2, ?_⟩
  · rw [g1, e3]
  · rw [g2, e5]
  · unfold rfcTime
    rw [g3, e7]
    simp only
    rw [g4, e9]
    simp only
    rw [g5]
    simp only [hz.1, Bool.decide_and, Bool.and_eq_true, decide_eq_true_eq, and_true]
    omega


theorem timeParse_ok_lax (s : String) (t : Time) (h : timeParseRFC3339 s = .ok t) :
    rfc3339 true s = true := by
  unfold timeParseRFC3339 at h
  simp only at h
  split at h
  · cases h
  rename_i h4
  split at h
  · cases h
  rename_i hall
  obtain ⟨r1, month, r2, day, r3, e, g1, g2, hm1, hm, hd1, hd, ht⟩ := parseAfterYear_ok _ _ _ _ h
  unfold rfc3339
  rw [e]
  simp only
  rw [g1]
  simp only
  rw [g2]
  simp only [ht, Bool.decide_and, Bool.and_eq_true, decide_eq_true_eq, and_true, true_or]
  have hl : (s.data.take 4).length = 4 := by
    rw [List.length_take]
    omega
  refine ⟨hl, by simpa using hall, hm1, hm, hd1, hd⟩


theorem rfcHour_lax (l : List Char) (r : Nat × List Char) (h : rfcHour false l = some r) :
    rfcHour true l = some r := by
  unfold rfcHour at h ⊢
  split at h
  · split at h
    · rename_i hd
      rw [if_pos hd]
      exact h
    · simp at h
  · simp at h
  · cases h

theorem rfcOffset_sign (lax : Bool) (sign a : Char) (rest : List Char)
    (h : rfcOffset lax (sign :: a :: rest) = true) : sign = '+' ∨ sign = '-' := by
  simp only [rfcOffset] at h
  split at h
  · split at h
    · simp only [Bool.decide_and, Bool.and_eq_true, decide_eq_true_eq] at h
      simpa using h.1
    · cases h
  · cases h

theorem rfcOffset_lax (l : List Char) (h : rfcOffset false l = true) :
    rfcOffset true l = true := by
  unfold rfcOffset at h ⊢
  split at h
  · exact h
  · split at h
    · split at h
      · simp only [Bool.false_eq_true, if_false, Bool.decide_and, Bool.and_eq_true,
          decide_eq_true_eq] at h
        simp only [if_true, Bool.decide_and, Bool.and_eq_true, decide_eq_true_eq]
        exact ⟨h.1, by omega, by omega⟩
      · cases h
    · cases h
  · cases h

theorem rfcAfterFraction_lax (l : List Char)
    (h : rfcOffset false (rfcAfterFraction false l) = true) :
    rfcOffset true (rfcAfterFraction true l) = true := by
  unfold rfcAfterFraction at h ⊢
  split at h
  · rename_i sep d rest
    split at h
    · rename_i hc
      have hs : sep = '.' := by simpa using hc.1
      rw [if_pos ⟨Or.inl hs, hc.2⟩]
      exact rfcOffset_lax _ h
    · rename_i hc
      have hsign := rfcOffset_sign false sep d rest h
      have hne : ¬ ((sep = '.' ∨ (true = true ∧ sep = ',')) ∧ isDigitChar d = true) := by
        rintro ⟨hs | ⟨_, hs⟩, _⟩
        · subst hs; rcases hsign with hx | hx <;> exact absurd hx (by decide)
        · subst hs; rcases hsign with hx | hx <;> exact absurd hx (by decide)
      rw [if_neg hne]
      exact rfcOffset_lax _ h
  · exact rfcOffset_lax _ h

theorem rfcTime_lax (l : List Char) (h : rfcTime false l = true) : rfcTime true l = true := by
  unfold rfcTime at h ⊢
  split at h
  · rename_i hour r1 hh
    rw [rfcHour_lax _ _ hh]
    simp only
    split at h
    · split at h
      · simp only [Bool.decide_and, Bool.and_eq_true, decide_eq_true_eq] at h ⊢
        exact ⟨h.1, h.2.1, h.2.2.1, rfcAfterFraction_lax _ h.2.2.2⟩
      · cases h
    · cases h
  · cases h

/-- The lax reading takes every timestamp the grammar of the RFC takes. -/
theorem rfc3339_lax (s : String) (h : rfc3339 false s = true) : rfc3339 true s = true := by
  unfold rfc3339 at h ⊢
  split at h
  · split at h
    · split at h
      · simp only [Bool.decide_and, Bool.and_eq_true, decide_eq_true_eq] at h ⊢
        exact ⟨h.1, h.2.1, h.2.2.1, h.2.2.2.1, h.2.2.2.2.1, h.2.2.2.2.2.1, h.2.2.2.2.2.2.1,
          rfcTime_lax _ h.2.2.2.2.2.2.2⟩
      · cases h
    · cases h
  · cases h

theorem parseZone_error (str : String) (f : Fields) (value : List Char) (e : DecodeError)
    (h : parseZone str f value = .error e) : ∃ ve le m, e = .timeParse str ve le m := by
  unfold parseZone at h
  simp only at h
  repeat' split at h
  all_goals first
    | (cases h; exact ⟨_, _, _, rfl⟩)
    | cases h

theorem parseAfterYear_error (str : String) (year : Nat) (value : List Char) (e : DecodeError)
    (h : parseAfterYear str year value = .error e) : ∃ ve le m, e = .timeParse str ve le m := by
  unfold parseAfterYear at h
  simp only at h
  repeat' split at h
  all_goals first
    | exact parseZone_error _ _ _ _ h
    | (cases h; exact ⟨_, _, _, rfl⟩)

/-- Every error of `time.Parse` is a `*time.ParseError` for the text that was parsed. -/
theorem timeParse_error (s : String) (e : DecodeError) (h : timeParseRFC3339 s = .error e) :
    ∃ ve le m, e = .timeParse s ve le m := by
  unfold timeParseRFC3339 at h
  simp only at h
  repeat' split at h
  all_goals first
    | exact parseAfterYear_error _ _ _ _ h
    | (cases h; exact ⟨_, _, _, rfl⟩)

/-- The method with its receiver and the method as a function of the input agree. -/
theorem afterUnmarshalJSON_eq (t : Time) (b : Bytes) :
    t.afterUnmarshalJSON b =
      match t.UnmarshalJSONBytes b with
      | .ok v => (v, none)
      | .error err => (t, some err) := by
  unfold Time.afterUnmarshalJSON Time.UnmarshalJSONBytes unmarshalStringBytes
  cases jsonValue b with
  | error e => rfl
  | ok j =>
    simp only [Time.UnmarshalJSON]
    cases unmarshalString j with
    | error e => rfl
    | ok str =>
      simp only
      split
      · rfl
      · cases timeParseRFC3339 str <;> rfl

/-- C27 as stated fails: the content `2014-03-14T1:00:00Z` is not empty and is not a
valid RFC 3339 timestamp, whose hour has two digits, yet `time.Parse` reads a one-digit
hour for the layout element `15`, so `UnmarshalJSON` returns no error and sets the
receiver to 2014-03-14T01:00:00Z. -/
theorem invalid_time_rejected_counterexample :
    ¬ ∀ (recv : Time) (b : Bytes) (s : String), jsonValue b = .ok (.string s) → s ≠ "" →
      isRFC3339 s = false → ∃ e, recv.afterUnmarshalJSON b = (recv, some e) := by
  intro h
  obtain ⟨e, he⟩ := h emptyTime (bytesOf "\"2014-03-14T1:00:00Z\"") "2014-03-14T1:00:00Z"
    rfl (by decide) (by decide)
  have hv : emptyTime.afterUnmarshalJSON (bytesOf "\"2014-03-14T1:00:00Z\"")
      = (⟨63530355600, 0, .UTC⟩, none) := by decide
  rw [hv] at he
  exact absurd (congrArg Prod.snd he) (by simp)

/-- C27, amended: for every JSON string whose content is not empty and is not a valid
RFC 3339 timestamp, also not when an hour of one digit, a comma before the fraction of a
second, the offset hour 24 and the offset minute 60 are let pass, `UnmarshalJSON` returns
the error of `time.Parse`, a `*time.ParseError` for that content, and leaves the receiver
as it was. -/
theorem lax_invalid_time_rejected (recv : Time) (b : Bytes) (s : String)
    (hb : jsonValue b = .ok (.string s)) (hs : s ≠ "") (hlax : isRFC3339Lax s = false) :
    isRFC3339 s = false ∧
    ∃ ve le m, timeParseRFC3339 s = .error (.timeParse s ve le m) ∧
      recv.afterUnmarshalJSON b = (recv, some (.timeParse s ve le m)) := by
  constructor
  · cases hv : isRFC3339 s with
    | false => rfl
    | true =>
      have := rfc3339_lax s hv
      unfold isRFC3339Lax at hlax
      rw [this] at hlax
      cases hlax
  · cases hp : timeParseRFC3339 s with
    | ok t =>
      have := timeParse_ok_lax s t hp
      unfold isRFC3339Lax at hlax
      rw [this] at hlax
      cases hlax
    | error e =>
      obtain ⟨ve, le, m, rfl⟩ := timeParse_error s e hp
      refine ⟨ve, le, m, rfl, ?_⟩
      simp only [Time.afterUnmarshalJSON, unmarshalStringBytes, hb, unmarshalString, hs,
        if_false, hp]

/-- Witness of C27: the first input of `TestTime` is rejected with the text the test
expects, which names the layout, and the receiver keeps its time. -/
theorem lax_invalid_time_rejected_witness :
    (isRFC3339 "2006-01-02 15:04:05 EST" = false ∧
      ∃ ve le m, timeParseRFC3339 "2006-01-02 15:04:05 EST"
          = .error (.timeParse "2006-01-02 15:04:05 EST" ve le m) ∧
        (⟨63530352000, 0, .UTC⟩ : Time).afterUnmarshalJSON
            (bytesOf "\"2006-01-02 15:04:05 EST\"")
          = (⟨63530352000, 0, .UTC⟩, some (.timeParse "2006-01-02 15:04:05 EST" ve le m))) ∧
    ((⟨63530352000, 0, .UTC⟩ : Time).afterUnmarshalJSON
        (bytesOf "\"2006-01-02 15:04:05 EST\"")).2.map DecodeError.text =
      some "parsing time \"2006-01-02 15:04:05 EST\" as \"2006-01-02T15:04:05Z07:00\": cannot parse \" 15:04:05 EST\" as \"T\"" :=
  ⟨lax_invalid_time_rejected ⟨63530352000, 0, .UTC⟩ (bytesOf "\"2006-01-02 15:04:05 EST\"")
    "2006-01-02 15:04:05 EST" rfl (by decide) (by decide), by decide⟩

end IPNetblocks
